import Mathlib

/-!
# Command queue of APangband (`src/cmd-core.c`)

A shallow embedding of the command queue, the argument store and the dispatch
loop of `cmd-core.c`, followed by theorems about them.

Conventions of the embedding

* C `int` values are `Int`; the cursors `cmd_head` and `cmd_tail`, which the
  code only ever resets to `0` or increments, are `Nat`.
* A C array is a `List`; a loop `for (i = 0; i < CMD_MAX_ARGS; ++i)` over
  `cmd->arg[i]` is a recursion over the list of argument slots.
* `char *` buffers made by `string_make` live in a `Heap`; a pointer is an
  address (`0` is `NULL`).  The file-level variables of `cmd-core.c`, the heap
  and the parts of the player the code touches form a `World`.
* Functions of other modules (handlers, prompts, the random number generator)
  are fields of an `Env`.
* An `assert` that fails makes the function return `none`.
-/

namespace CmdCore

/-! ## Strings and the heap -/

/-- An address handed out by `string_make`; `0` is the null pointer. -/
abbrev Ptr := Nat

/-- The buffers allocated by `string_make`: address `p + 1` is cell `p`, and a
cell that was freed holds `none`. -/
abbrev Heap := List (Option String)

/-- The text stored at address `p`, or `none` for `NULL`, a freed buffer or an
address never handed out. -/
def Heap.read (h : Heap) (p : Ptr) : Option String :=
  if p = 0 then none else (h.getD (p - 1) none)

/-- Modelled from the spec: `string_make` of `z-virt.c`, which is not among the
sources ("allocates and copies a new owned buffer (never aliases source)").
`NULL` is copied to `NULL`; otherwise a fresh address is returned, holding a
copy of the text. -/
def string_make (h : Heap) (str : Option String) : Ptr × Heap :=
  match str with
  | none => (0, h)
  | some s => (h.length + 1, h ++ [some s])

/-- Modelled from the spec: `string_free` of `z-virt.c`, which is not among the
sources ("frees every owned String buffer").  Freeing `NULL` does nothing. -/
def string_free (h : Heap) (p : Ptr) : Heap :=
  if p = 0 then h else h.set (p - 1) none

/-- Modelled from the spec: `my_strcpy` of `z-util.c`, which is not among the
sources (the name is a "bounded string"): at most `bufsize - 1` characters of
`src` are stored. -/
def my_strcpy (src : String) (bufsize : Nat) : String :=
  ⟨src.data.take (bufsize - 1)⟩

/-! ## Command records -/

/-- Modelled from the spec: `CMD_MAX_ARGS` of `cmd-core.h`, which is not among
the sources ("small constant capacity, e.g. 4"). -/
def CMD_MAX_ARGS : Nat := 4

/-- Modelled from the spec: the return code `CMD_OK` of `cmd-core.h`, which is
not among the sources (the outcome "Ok" of the accessors). -/
def CMD_OK : Int := 0

/-- Modelled from the spec: the return code `CMD_ARG_NOT_PRESENT` of
`cmd-core.h` (the outcome "NotPresent"); `process_command` compares the value
that `cmd_idx` returns under this name with `-1`. -/
def CMD_ARG_NOT_PRESENT : Int := -1

/-- Modelled from the spec: the return code `CMD_ARG_WRONG_TYPE` of
`cmd-core.h` (the outcome "WrongType"). -/
def CMD_ARG_WRONG_TYPE : Int := -2

/-- Modelled from the spec: the return code `CMD_ARG_ABORTED` of `cmd-core.h`
(the outcome "Aborted"). -/
def CMD_ARG_ABORTED : Int := -3

/-- The context of a command; only `CTX_INIT` is named in `cmd-core.c`. -/
inductive cmd_context where
  | CTX_INIT
  | CTX_OTHER (n : Nat)
  deriving DecidableEq, Repr

/-- The command codes (`cmd_code`): `CMD_NULL` and the codes of `game_cmds`. -/
inductive cmd_code where
  | CMD_NULL
  | CMD_LOADFILE
  | CMD_NEWGAME
  | CMD_BIRTH_INIT
  | CMD_BIRTH_RESET
  | CMD_CHOOSE_RACE
  | CMD_CHOOSE_CLASS
  | CMD_BUY_STAT
  | CMD_SELL_STAT
  | CMD_RESET_STATS
  | CMD_REFRESH_STATS
  | CMD_ROLL_STATS
  | CMD_PREV_STATS
  | CMD_NAME_CHOICE
  | CMD_SERVER_CHOICE
  | CMD_SLOTNAME_CHOICE
  | CMD_HISTORY_CHOICE
  | CMD_ACCEPT_CHARACTER
  | CMD_GO_UP
  | CMD_GO_DOWN
  | CMD_WALK
  | CMD_RUN
  | CMD_EXPLORE
  | CMD_NAVIGATE_UP
  | CMD_NAVIGATE_DOWN
  | CMD_JUMP
  | CMD_OPEN
  | CMD_CLOSE
  | CMD_TUNNEL
  | CMD_HOLD
  | CMD_DISARM
  | CMD_ALTER
  | CMD_STEAL
  | CMD_REST
  | CMD_SLEEP
  | CMD_PATHFIND
  | CMD_PICKUP
  | CMD_AUTOPICKUP
  | CMD_WIELD
  | CMD_TAKEOFF
  | CMD_DROP
  | CMD_UNINSCRIBE
  | CMD_AUTOINSCRIBE
  | CMD_EAT
  | CMD_QUAFF
  | CMD_USE_ROD
  | CMD_USE_STAFF
  | CMD_USE_WAND
  | CMD_READ_SCROLL
  | CMD_ACTIVATE
  | CMD_REFILL
  | CMD_FIRE
  | CMD_THROW
  | CMD_INSCRIBE
  | CMD_STUDY
  | CMD_CAST
  | CMD_SELL
  | CMD_STASH
  | CMD_BUY
  | CMD_RETRIEVE
  | CMD_USE
  | CMD_RETIRE
  | CMD_HELP
  | CMD_REPEAT
  | CMD_COMMAND_MONSTER
  | CMD_SPOIL_ARTIFACT
  | CMD_SPOIL_MON
  | CMD_SPOIL_MON_BRIEF
  | CMD_SPOIL_OBJ
  | CMD_WIZ_ACQUIRE
  | CMD_WIZ_ADVANCE
  | CMD_WIZ_BANISH
  | CMD_WIZ_CHANGE_ITEM_QUANTITY
  | CMD_WIZ_COLLECT_DISCONNECT_STATS
  | CMD_WIZ_COLLECT_OBJ_MON_STATS
  | CMD_WIZ_COLLECT_PIT_STATS
  | CMD_WIZ_CREATE_ALL_ARTIFACT
  | CMD_WIZ_CREATE_ALL_ARTIFACT_FROM_TVAL
  | CMD_WIZ_CREATE_ALL_OBJ
  | CMD_WIZ_CREATE_ALL_OBJ_FROM_TVAL
  | CMD_WIZ_CREATE_ARTIFACT
  | CMD_WIZ_CREATE_OBJ
  | CMD_WIZ_CREATE_TRAP
  | CMD_WIZ_CURE_ALL
  | CMD_WIZ_CURSE_ITEM
  | CMD_WIZ_DETECT_ALL_LOCAL
  | CMD_WIZ_DETECT_ALL_MONSTERS
  | CMD_WIZ_DISPLAY_KEYLOG
  | CMD_WIZ_DUMP_LEVEL_MAP
  | CMD_WIZ_EDIT_PLAYER_EXP
  | CMD_WIZ_EDIT_PLAYER_GOLD
  | CMD_WIZ_EDIT_PLAYER_START
  | CMD_WIZ_EDIT_PLAYER_STAT
  | CMD_WIZ_HIT_ALL_LOS
  | CMD_WIZ_INCREASE_EXP
  | CMD_WIZ_JUMP_LEVEL
  | CMD_WIZ_LEARN_OBJECT_KINDS
  | CMD_WIZ_MAGIC_MAP
  | CMD_WIZ_PEEK_NOISE_SCENT
  | CMD_WIZ_PERFORM_EFFECT
  | CMD_WIZ_PLAY_ITEM
  | CMD_WIZ_PUSH_OBJECT
  | CMD_WIZ_QUERY_FEATURE
  | CMD_WIZ_QUERY_SQUARE_FLAG
  | CMD_WIZ_QUIT_NO_SAVE
  | CMD_WIZ_RECALL_MONSTER
  | CMD_WIZ_RERATE
  | CMD_WIZ_REROLL_ITEM
  | CMD_WIZ_STAT_ITEM
  | CMD_WIZ_SUMMON_NAMED
  | CMD_WIZ_SUMMON_RANDOM
  | CMD_WIZ_TELEPORT_RANDOM
  | CMD_WIZ_TELEPORT_TO
  | CMD_WIZ_TWEAK_ITEM
  | CMD_WIZ_WIPE_RECALL
  | CMD_WIZ_WIZARD_LIGHT
  deriving DecidableEq, Repr

/-- The tag of an argument slot (`enum cmd_arg_type`). -/
inductive cmd_arg_type where
  | arg_NONE
  | arg_STRING
  | arg_CHOICE
  | arg_ITEM
  | arg_NUMBER
  | arg_DIRECTION
  | arg_TARGET
  | arg_POINT
  deriving DecidableEq, Repr

/-- A grid location (`struct loc`). -/
structure loc where
  x : Int
  y : Int
  deriving DecidableEq, Repr

/-- The part of `struct object` that `cmd-core.c` reads. -/
structure object where
  grid : loc
  deriving DecidableEq, Repr

/-- The value of an argument (`union cmd_arg_data`), as the member last
written.  `obj` holds the address of an object (`0` is `NULL`). -/
inductive cmd_arg_data where
  | string (p : Ptr)
  | choice (n : Int)
  | obj (o : Ptr)
  | number (n : Int)
  | direction (n : Int)
  | point (g : loc)
  deriving DecidableEq, Repr

/-- Member `string` of the union; the zero value when another member was
written last (the typed accessors never read a member they did not write). -/
def cmd_arg_data.get_string : cmd_arg_data → Ptr
  | .string p => p
  | _ => 0

/-- Member `choice` of the union. -/
def cmd_arg_data.get_choice : cmd_arg_data → Int
  | .choice n => n
  | _ => 0

/-- Member `obj` of the union. -/
def cmd_arg_data.get_obj : cmd_arg_data → Ptr
  | .obj o => o
  | _ => 0

/-- Member `number` of the union. -/
def cmd_arg_data.get_number : cmd_arg_data → Int
  | .number n => n
  | _ => 0

/-- Member `direction` of the union. -/
def cmd_arg_data.get_direction : cmd_arg_data → Int
  | .direction n => n
  | _ => 0

/-- Member `point` of the union. -/
def cmd_arg_data.get_point : cmd_arg_data → loc
  | .point g => g
  | _ => ⟨0, 0⟩

/-- One argument slot (`struct cmd_arg`). -/
structure cmd_arg where
  type : cmd_arg_type
  data : cmd_arg_data
  name : String
  deriving DecidableEq, Repr

/-- The all-zero argument slot of a zero-initialised record. -/
def cmd_arg.zero : cmd_arg := ⟨.arg_NONE, .string 0, ""⟩

/-- A command record (`struct command`). -/
structure command where
  context : cmd_context
  code : cmd_code
  nrepeats : Int
  background_command : Int
  arg : List cmd_arg
  deriving DecidableEq, Repr

/-- The record `{ CTX_INIT, CMD_NULL, 0, 0, { { 0 } } }`: the initial value of
`last_command`, of every queue slot and of the local of `cmdq_push_repeat`. -/
def command.zero : command :=
  ⟨.CTX_INIT, .CMD_NULL, 0, 0, List.replicate CMD_MAX_ARGS cmd_arg.zero⟩

instance : Inhabited command := ⟨command.zero⟩

/-- The loop of `cmd_copy`: every string argument gets a buffer of its own,
made by `string_make` from the text at the source's address; an address that
holds no text (`NULL`, or a buffer already freed, which C leaves undefined) is
copied as `NULL`. -/
def cmd_copy_args (h : Heap) : List cmd_arg → Heap × List cmd_arg
  | [] => (h, [])
  | a :: rest =>
    if a.type = .arg_STRING then
      let r := string_make h (h.read a.data.get_string)
      let t := cmd_copy_args r.2 rest
      (t.1, { a with data := .string r.1 } :: t.2)
    else
      let t := cmd_copy_args h rest
      (t.1, a :: t.2)

/-- `cmd_copy(dest, src)`: the new value of `*dest`, and the heap. -/
def cmd_copy (h : Heap) (src : command) : Heap × command :=
  let t := cmd_copy_args h src.arg
  (t.1, { src with arg := t.2 })

/-- The loop of `cmd_release`. -/
def cmd_release_args (h : Heap) : List cmd_arg → Heap × List cmd_arg
  | [] => (h, [])
  | a :: rest =>
    if a.type = .arg_STRING then
      let t := cmd_release_args (string_free h a.data.get_string) rest
      (t.1, { a with name := "", type := .arg_NONE } :: t.2)
    else
      let t := cmd_release_args h rest
      (t.1, a :: t.2)

/-- `cmd_release(cmd)`: the new value of `*cmd`, and the heap. -/
def cmd_release (h : Heap) (cmd : command) : Heap × command :=
  let t := cmd_release_args h cmd.arg
  (t.1, { cmd with arg := t.2 })

/-! ## The table of commands -/

/-- An entry of `game_cmds` (`struct command_info`); `fn` tells whether the
handler pointer is non-null. -/
structure command_info where
  cmd : cmd_code
  verb : String
  fn : Bool
  repeat_allowed : Bool
  can_use_energy : Bool
  auto_repeat_n : Int
  deriving DecidableEq, Repr

instance : Inhabited command_info := ⟨⟨.CMD_NULL, "", false, false, false, 0⟩⟩

/-- The table `game_cmds`. -/
def game_cmds : List command_info := [
  command_info.mk cmd_code.CMD_LOADFILE "load a savefile" false false false 0,
  command_info.mk cmd_code.CMD_NEWGAME "start a new game" false false false 0,
  command_info.mk cmd_code.CMD_BIRTH_INIT "start the character birth process" true false false 0,
  command_info.mk cmd_code.CMD_BIRTH_RESET "go back to the beginning" true false false 0,
  command_info.mk cmd_code.CMD_CHOOSE_RACE "select race" true false false 0,
  command_info.mk cmd_code.CMD_CHOOSE_CLASS "select class" true false false 0,
  command_info.mk cmd_code.CMD_BUY_STAT "buy points in a stat" true false false 0,
  command_info.mk cmd_code.CMD_SELL_STAT "sell points in a stat" true false false 0,
  command_info.mk cmd_code.CMD_RESET_STATS "reset stats" true false false 0,
  command_info.mk cmd_code.CMD_REFRESH_STATS "refresh stats" true false false 0,
  command_info.mk cmd_code.CMD_ROLL_STATS "roll new stats" true false false 0,
  command_info.mk cmd_code.CMD_PREV_STATS "use previously rolled stats" true false false 0,
  command_info.mk cmd_code.CMD_NAME_CHOICE "choose name" true false false 0,
  command_info.mk cmd_code.CMD_SERVER_CHOICE "choose server" true false false 0,
  command_info.mk cmd_code.CMD_SLOTNAME_CHOICE "choose slotname" true false false 0,
  command_info.mk cmd_code.CMD_HISTORY_CHOICE "write history" true false false 0,
  command_info.mk cmd_code.CMD_ACCEPT_CHARACTER "accept character" true false false 0,
  command_info.mk cmd_code.CMD_GO_UP "go up stairs" true false true 0,
  command_info.mk cmd_code.CMD_GO_DOWN "go down stairs" true false true 0,
  command_info.mk cmd_code.CMD_WALK "walk" true true true 0,
  command_info.mk cmd_code.CMD_RUN "run" true true true 0,
  command_info.mk cmd_code.CMD_EXPLORE "explore" true false true 0,
  command_info.mk cmd_code.CMD_NAVIGATE_UP "navigate up" true false true 0,
  command_info.mk cmd_code.CMD_NAVIGATE_DOWN "navigate down" true false true 0,
  command_info.mk cmd_code.CMD_JUMP "jump" true false true 0,
  command_info.mk cmd_code.CMD_OPEN "open" true true true 99,
  command_info.mk cmd_code.CMD_CLOSE "close" true true true 99,
  command_info.mk cmd_code.CMD_TUNNEL "tunnel" true true true 99,
  command_info.mk cmd_code.CMD_HOLD "stay still" true true true 0,
  command_info.mk cmd_code.CMD_DISARM "disarm" true true true 99,
  command_info.mk cmd_code.CMD_ALTER "alter" true true true 99,
  command_info.mk cmd_code.CMD_STEAL "steal" true false true 0,
  command_info.mk cmd_code.CMD_REST "rest" true false true 0,
  command_info.mk cmd_code.CMD_SLEEP "sleep" true false true 0,
  command_info.mk cmd_code.CMD_PATHFIND "walk" true false true 0,
  command_info.mk cmd_code.CMD_PICKUP "pickup" true false true 0,
  command_info.mk cmd_code.CMD_AUTOPICKUP "autopickup" true false true 0,
  command_info.mk cmd_code.CMD_WIELD "wear or wield" true false true 0,
  command_info.mk cmd_code.CMD_TAKEOFF "take off" true false true 0,
  command_info.mk cmd_code.CMD_DROP "drop" true false true 0,
  command_info.mk cmd_code.CMD_UNINSCRIBE "un-inscribe" true false false 0,
  command_info.mk cmd_code.CMD_AUTOINSCRIBE "autoinscribe" true false false 0,
  command_info.mk cmd_code.CMD_EAT "eat" true false true 0,
  command_info.mk cmd_code.CMD_QUAFF "quaff" true false true 0,
  command_info.mk cmd_code.CMD_USE_ROD "zap" true true true 99,
  command_info.mk cmd_code.CMD_USE_STAFF "use" true true true 99,
  command_info.mk cmd_code.CMD_USE_WAND "aim" true true true 99,
  command_info.mk cmd_code.CMD_READ_SCROLL "read" true false true 0,
  command_info.mk cmd_code.CMD_ACTIVATE "activate" true true true 99,
  command_info.mk cmd_code.CMD_REFILL "refuel with" true false true 0,
  command_info.mk cmd_code.CMD_FIRE "fire" true false true 0,
  command_info.mk cmd_code.CMD_THROW "throw" true false true 0,
  command_info.mk cmd_code.CMD_INSCRIBE "inscribe" true false false 0,
  command_info.mk cmd_code.CMD_STUDY "study" true false true 0,
  command_info.mk cmd_code.CMD_CAST "cast" true false true 0,
  command_info.mk cmd_code.CMD_SELL "sell" true false false 0,
  command_info.mk cmd_code.CMD_STASH "stash" true false false 0,
  command_info.mk cmd_code.CMD_BUY "buy" true false false 0,
  command_info.mk cmd_code.CMD_RETRIEVE "retrieve" true false false 0,
  command_info.mk cmd_code.CMD_USE "use" true true true 99,
  command_info.mk cmd_code.CMD_RETIRE "retire character" true false false 0,
  command_info.mk cmd_code.CMD_HELP "help" false false false 0,
  command_info.mk cmd_code.CMD_REPEAT "repeat" false false false 0,
  command_info.mk cmd_code.CMD_COMMAND_MONSTER "make a monster act" true false true 0,
  command_info.mk cmd_code.CMD_SPOIL_ARTIFACT "generate spoiler file for artifacts" true false false 0,
  command_info.mk cmd_code.CMD_SPOIL_MON "generate spoiler file for monsters" true false false 0,
  command_info.mk cmd_code.CMD_SPOIL_MON_BRIEF "generate brief spoiler file for monsters" true false false 0,
  command_info.mk cmd_code.CMD_SPOIL_OBJ "generate spoiler file for objects" true false false 0,
  command_info.mk cmd_code.CMD_WIZ_ACQUIRE "acquire objects" true false false 0,
  command_info.mk cmd_code.CMD_WIZ_ADVANCE "make character powerful" true false false 0,
  command_info.mk cmd_code.CMD_WIZ_BANISH "banish nearby monsters" true false false 0,
  command_info.mk cmd_code.CMD_WIZ_CHANGE_ITEM_QUANTITY "change number of an item" true false false 0,
  command_info.mk cmd_code.CMD_WIZ_COLLECT_DISCONNECT_STATS "collect statistics about disconnected levels" true false false 0,
  command_info.mk cmd_code.CMD_WIZ_COLLECT_OBJ_MON_STATS "collect object/monster statistics" true false false 0,
  command_info.mk cmd_code.CMD_WIZ_COLLECT_PIT_STATS "collect pit statistics" true false false 0,
  command_info.mk cmd_code.CMD_WIZ_CREATE_ALL_ARTIFACT "create all artifacts" true false false 0,
  command_info.mk cmd_code.CMD_WIZ_CREATE_ALL_ARTIFACT_FROM_TVAL "create all artifacts of a tval" true false false 0,
  command_info.mk cmd_code.CMD_WIZ_CREATE_ALL_OBJ "create all objects" true false false 0,
  command_info.mk cmd_code.CMD_WIZ_CREATE_ALL_OBJ_FROM_TVAL "create all objects of a tval" true false false 0,
  command_info.mk cmd_code.CMD_WIZ_CREATE_ARTIFACT "create artifact" true false false 0,
  command_info.mk cmd_code.CMD_WIZ_CREATE_OBJ "create object" true false false 0,
  command_info.mk cmd_code.CMD_WIZ_CREATE_TRAP "create trap" true false false 0,
  command_info.mk cmd_code.CMD_WIZ_CURE_ALL "cure everything" true false false 0,
  command_info.mk cmd_code.CMD_WIZ_CURSE_ITEM "change a curse on an item" true false false 0,
  command_info.mk cmd_code.CMD_WIZ_DETECT_ALL_LOCAL "detect everything nearby" true false false 0,
  command_info.mk cmd_code.CMD_WIZ_DETECT_ALL_MONSTERS "detect all monsters" true false false 0,
  command_info.mk cmd_code.CMD_WIZ_DISPLAY_KEYLOG "display keystroke log" true false false 0,
  command_info.mk cmd_code.CMD_WIZ_DUMP_LEVEL_MAP "write map of level" true false false 0,
  command_info.mk cmd_code.CMD_WIZ_EDIT_PLAYER_EXP "change the player's experience" true false false 0,
  command_info.mk cmd_code.CMD_WIZ_EDIT_PLAYER_GOLD "change the player's gold" true false false 0,
  command_info.mk cmd_code.CMD_WIZ_EDIT_PLAYER_START "start editing the player" true false false 0,
  command_info.mk cmd_code.CMD_WIZ_EDIT_PLAYER_STAT "edit one of the player's stats" true false false 0,
  command_info.mk cmd_code.CMD_WIZ_HIT_ALL_LOS "hit all monsters in LOS" true false false 0,
  command_info.mk cmd_code.CMD_WIZ_INCREASE_EXP "increase experience" true false false 0,
  command_info.mk cmd_code.CMD_WIZ_JUMP_LEVEL "jump to a level" true false true 0,
  command_info.mk cmd_code.CMD_WIZ_LEARN_OBJECT_KINDS "learn about kinds of objects" true false false 0,
  command_info.mk cmd_code.CMD_WIZ_MAGIC_MAP "map local area" true false false 0,
  command_info.mk cmd_code.CMD_WIZ_PEEK_NOISE_SCENT "peek at noise and scent" true false false 0,
  command_info.mk cmd_code.CMD_WIZ_PERFORM_EFFECT "perform an effect" true false false 0,
  command_info.mk cmd_code.CMD_WIZ_PLAY_ITEM "play with item" true false false 0,
  command_info.mk cmd_code.CMD_WIZ_PUSH_OBJECT "push objects from square" true false false 0,
  command_info.mk cmd_code.CMD_WIZ_QUERY_FEATURE "highlight specific feature" true false false 0,
  command_info.mk cmd_code.CMD_WIZ_QUERY_SQUARE_FLAG "query square flag" true false false 0,
  command_info.mk cmd_code.CMD_WIZ_QUIT_NO_SAVE "quit without saving" true false false 0,
  command_info.mk cmd_code.CMD_WIZ_RECALL_MONSTER "recall monster" true false false 0,
  command_info.mk cmd_code.CMD_WIZ_RERATE "rerate hitpoints" true false false 0,
  command_info.mk cmd_code.CMD_WIZ_REROLL_ITEM "reroll an item" true false false 0,
  command_info.mk cmd_code.CMD_WIZ_STAT_ITEM "get statistics for an item" true false false 0,
  command_info.mk cmd_code.CMD_WIZ_SUMMON_NAMED "summon specific monster" true false false 0,
  command_info.mk cmd_code.CMD_WIZ_SUMMON_RANDOM "summon random monsters" true false false 0,
  command_info.mk cmd_code.CMD_WIZ_TELEPORT_RANDOM "teleport" true false false 0,
  command_info.mk cmd_code.CMD_WIZ_TELEPORT_TO "teleport to location" true false false 0,
  command_info.mk cmd_code.CMD_WIZ_TWEAK_ITEM "modify item attributes" true false false 0,
  command_info.mk cmd_code.CMD_WIZ_WIPE_RECALL "erase monster recall" true false false 0,
  command_info.mk cmd_code.CMD_WIZ_WIZARD_LIGHT "wizard light the level" true false false 0
]

/-- The loop of `cmd_idx`, started at index `i`. -/
def cmd_idx_from (code : cmd_code) : List command_info → Nat → Int
  | [], _ => CMD_ARG_NOT_PRESENT
  | e :: rest, i => if e.cmd = code then (i : Int) else cmd_idx_from code rest (i + 1)

/-- `cmd_idx(code)`: the index of the command in `game_cmds`. -/
def cmd_idx (code : cmd_code) : Int := cmd_idx_from code game_cmds 0

/-! ## Typed arguments -/

/-- The search loop of `cmd_set_arg` from slot `i` on: the final values of
`first_empty` and `idx`. -/
def cmd_set_arg_scan (name : String) : List cmd_arg → Nat → Int → Int × Int
  | [], _, first_empty => (first_empty, -1)
  | a :: rest, i, first_empty =>
    let fe : Int := if a.name = "" ∧ first_empty = -1 then (i : Int) else first_empty
    if a.name = name then (fe, (i : Int)) else cmd_set_arg_scan name rest (i + 1) fe

/-- `cmd_set_arg(cmd, name, type, data)`; `nsz` is `sizeof cmd->arg[0].name`,
which `cmd-core.h` fixes.  The result is `none` when an assertion fails. -/
def cmd_set_arg (nsz : Nat) (h : Heap) (cmd : command) (name : Option String)
    (type : cmd_arg_type) (data : cmd_arg_data) : Option (Heap × command) :=
  match name with
  | none => none
  | some name =>
    if name = "" then none
    else
      let r := cmd_set_arg_scan name cmd.arg 0 (-1)
      if r.1 = -1 ∧ r.2 = -1 then none
      else
        let idx : Int := if r.2 = -1 then r.1 else r.2
        let old := cmd.arg.getD idx.toNat cmd_arg.zero
        let h1 : Heap :=
          if r.2 = -1 then h
          else if old.type = .arg_STRING then string_free h old.data.get_string
          else h
        some (h1, { cmd with arg := cmd.arg.set idx.toNat ⟨type, data, my_strcpy name nsz⟩ })

/-- The loop of `cmd_get_arg`: the return code and the value stored through
`data`, if any. -/
def cmd_get_arg_loop (arg : String) (type : cmd_arg_type) :
    List cmd_arg → Int × Option cmd_arg_data
  | [] => (CMD_ARG_NOT_PRESENT, none)
  | a :: rest =>
    if a.name = arg then
      if a.type ≠ type then (CMD_ARG_WRONG_TYPE, none) else (CMD_OK, some a.data)
    else cmd_get_arg_loop arg type rest

/-- `cmd_get_arg(cmd, arg, type, data)`. -/
def cmd_get_arg (cmd : command) (arg : String) (type : cmd_arg_type) :
    Int × Option cmd_arg_data :=
  cmd_get_arg_loop arg type cmd.arg

/-- `cmd_set_arg_choice`. -/
def cmd_set_arg_choice (nsz : Nat) (h : Heap) (cmd : command) (arg : Option String)
    (choice : Int) : Option (Heap × command) :=
  cmd_set_arg nsz h cmd arg .arg_CHOICE (.choice choice)

/-- `cmd_get_arg_choice(cmd, arg, choice)`: the return code and the final
value of `*choice`, which is `choice` when nothing is written. -/
def cmd_get_arg_choice (cmd : command) (arg : String) (choice : Int) : Int × Int :=
  match cmd_get_arg cmd arg .arg_CHOICE with
  | (err, some data) => (err, if err = CMD_OK then data.get_choice else choice)
  | (err, none) => (err, choice)

/-- `cmd_set_arg_string`: the text is copied with `string_make` first; `str` is
`none` for a null pointer. -/
def cmd_set_arg_string (nsz : Nat) (h : Heap) (cmd : command) (arg : Option String)
    (str : Option String) : Option (Heap × command) :=
  let r := string_make h str
  cmd_set_arg nsz r.2 cmd arg .arg_STRING (.string r.1)

/-- `cmd_get_arg_string(cmd, arg, str)`: the return code and the final value
of the pointer `*str`. -/
def cmd_get_arg_string (cmd : command) (arg : String) (str : Ptr) : Int × Ptr :=
  match cmd_get_arg cmd arg .arg_STRING with
  | (err, some data) => (err, if err = CMD_OK then data.get_string else str)
  | (err, none) => (err, str)

/-- `cmd_set_arg_direction`. -/
def cmd_set_arg_direction (nsz : Nat) (h : Heap) (cmd : command) (arg : Option String)
    (dir : Int) : Option (Heap × command) :=
  cmd_set_arg nsz h cmd arg .arg_DIRECTION (.direction dir)

/-- `cmd_get_arg_direction(cmd, arg, dir)`. -/
def cmd_get_arg_direction (cmd : command) (arg : String) (dir : Int) : Int × Int :=
  match cmd_get_arg cmd arg .arg_DIRECTION with
  | (err, some data) => (err, if err = CMD_OK then data.get_direction else dir)
  | (err, none) => (err, dir)

/-- `cmd_set_arg_target`: the target is stored in member `direction`. -/
def cmd_set_arg_target (nsz : Nat) (h : Heap) (cmd : command) (arg : Option String)
    (target : Int) : Option (Heap × command) :=
  cmd_set_arg nsz h cmd arg .arg_TARGET (.direction target)

/-- `cmd_get_arg_target(cmd, arg, target)`. -/
def cmd_get_arg_target (cmd : command) (arg : String) (target : Int) : Int × Int :=
  match cmd_get_arg cmd arg .arg_TARGET with
  | (err, some data) => (err, if err = CMD_OK then data.get_direction else target)
  | (err, none) => (err, target)

/-- `cmd_set_arg_point`. -/
def cmd_set_arg_point (nsz : Nat) (h : Heap) (cmd : command) (arg : Option String)
    (grid : loc) : Option (Heap × command) :=
  cmd_set_arg nsz h cmd arg .arg_POINT (.point grid)

/-- `cmd_get_arg_point(cmd, arg, grid)`. -/
def cmd_get_arg_point (cmd : command) (arg : String) (grid : loc) : Int × loc :=
  match cmd_get_arg cmd arg .arg_POINT with
  | (err, some data) => (err, if err = CMD_OK then data.get_point else grid)
  | (err, none) => (err, grid)

/-- `cmd_set_arg_item`; `obj` is the address of the object. -/
def cmd_set_arg_item (nsz : Nat) (h : Heap) (cmd : command) (arg : Option String)
    (obj : Ptr) : Option (Heap × command) :=
  cmd_set_arg nsz h cmd arg .arg_ITEM (.obj obj)

/-- `cmd_get_arg_item(cmd, arg, obj)`. -/
def cmd_get_arg_item (cmd : command) (arg : String) (obj : Ptr) : Int × Ptr :=
  match cmd_get_arg cmd arg .arg_ITEM with
  | (err, some data) => (err, if err = CMD_OK then data.get_obj else obj)
  | (err, none) => (err, obj)

/-- `cmd_set_arg_number`. -/
def cmd_set_arg_number (nsz : Nat) (h : Heap) (cmd : command) (arg : Option String)
    (amt : Int) : Option (Heap × command) :=
  cmd_set_arg nsz h cmd arg .arg_NUMBER (.number amt)

/-- `cmd_get_arg_number(cmd, arg, amt)`. -/
def cmd_get_arg_number (cmd : command) (arg : String) (amt : Int) : Int × Int :=
  match cmd_get_arg cmd arg .arg_NUMBER with
  | (err, some data) => (err, if err = CMD_OK then data.get_number else amt)
  | (err, none) => (err, amt)

/-! ## The queue -/

/-- The size of the queue, `CMD_QUEUE_SIZE`. -/
def CMD_QUEUE_SIZE : Nat := 20

/-- The slot before `idx`, `prev_cmd_idx(idx)`. -/
def prev_cmd_idx (idx : Nat) : Nat := (idx + CMD_QUEUE_SIZE - 1) % CMD_QUEUE_SIZE

/-- The fields of `player` and `player->upkeep` that `cmd-core.c` uses:
`timed[TMD_COMMAND]`, `timed[TMD_BLOODLUST]`, `skip_cmd_coercion`,
`upkeep->command_wrk` and the bit `PR_STATE` of `upkeep->redraw`. -/
structure Player where
  timed_COMMAND : Int
  timed_BLOODLUST : Int
  skip_cmd_coercion : Int
  command_wrk : Int
  redraw_STATE : Bool
  deriving DecidableEq, Repr

/-- The state: the heap of strings, the objects (the object at address
`p + 1` is `objects[p]`), the file-level variables of `cmd-core.c`, the player
and the state of the random number generator. -/
structure World where
  heap : Heap
  objects : List object
  cmd_head : Nat
  cmd_tail : Nat
  cmd_queue : List command
  last_command_idx : Int
  last_command : command
  repeat_prev_allowed : Bool
  repeating : Bool
  player : Player
  rng : Nat
  deriving DecidableEq, Repr

/-- The state before the first call into `cmd-core.c`: the initialisers of its
variables, and whatever strings, player and objects the game has set up. -/
def World.init (h : Heap) (p : Player) (objs : List object) (seed : Nat) : World :=
  { heap := h, objects := objs, cmd_head := 0, cmd_tail := 0,
    cmd_queue := List.replicate CMD_QUEUE_SIZE command.zero,
    last_command_idx := -1, last_command := command.zero,
    repeat_prev_allowed := false, repeating := false, player := p, rng := seed }

/-- The record `cmd_queue[k]`. -/
def World.slot (w : World) (k : Nat) : command := w.cmd_queue.getD k command.zero

/-- The assignment `cmd_queue[k] = c`. -/
def World.set_slot (w : World) (k : Nat) (c : command) : World :=
  { w with cmd_queue := w.cmd_queue.set k c }

/-- What `cmd-core.c` takes from other modules.  `handler c k` is the function
`fn` of the entry of `game_cmds` for code `c`, applied to the address of
`cmd_queue[k]`; `randint0 s m` is `randint0(m)` in generator state `s`;
`get_rep_dir d allow_5` is `get_rep_dir(dir, allow_5)` called with `*dir = d`
and gives the return value and the final `*dir`; `DIR_NONE` is the constant of
that name. -/
structure Env where
  handler : cmd_code → Nat → World → World
  randint0 : Nat → Int → Int × Nat
  player_attack_random_monster : World → Bool × World
  get_rep_dir : Int → Bool → World → Bool × Int × World
  DIR_NONE : Int

/-- `cmdq_peek()`: the index of the slot whose address is returned. -/
def cmdq_peek (w : World) : Nat := prev_cmd_idx w.cmd_head

/-- The end of `cmdq_push_copy`: advance `cmd_head`, wrapping around. -/
def cmdq_push_advance (w : World) : World :=
  let h := w.cmd_head + 1
  { w with cmd_head := if h = CMD_QUEUE_SIZE then 0 else h }

/-- In `cmdq_push_copy`, the block guarded by `last_command_idx == cmd_head`:
the last command is about to be overwritten and is copied out of the queue. -/
def cmdq_push_save_last (w : World) : World :=
  if w.last_command_idx = (w.cmd_head : Int) then
    let r := cmd_release w.heap w.last_command
    let c := cmd_copy r.1 (w.slot w.cmd_head)
    { w with heap := c.1, last_command := c.2, last_command_idx := -1 }
  else w

/-- In `cmdq_push_copy`, the statements
`cmd_release(&cmd_queue[cmd_head]); cmd_queue[cmd_head] = *cmd;`. -/
def cmdq_push_store (cmd : command) (w : World) : World :=
  let r := cmd_release w.heap (w.slot w.cmd_head)
  { w with heap := r.1 }.set_slot w.cmd_head cmd

/-- In `cmdq_push_copy`, the statements
`cmd_release(&cmd_queue[cmd_head]); cmd_copy(&cmd_queue[cmd_head], src);`
for a record `src` that is not the slot at the head. -/
def cmdq_push_duplicate (src : command) (w : World) : World :=
  let r := cmd_release w.heap (w.slot w.cmd_head)
  let c := cmd_copy r.1 src
  { w with heap := c.1 }.set_slot w.cmd_head c.2

/-- `cmdq_push_copy(cmd)`, where `cmd` is the record pointed to (a record of
the caller, outside the queue): the return value and the new state, or `none`
when the assertion fails. -/
def cmdq_push_copy (cmd : command) (w : World) : Option (Int × World) :=
  if w.cmd_head + 1 = w.cmd_tail then some (1, w)
  else if w.cmd_head + 1 = CMD_QUEUE_SIZE ∧ w.cmd_tail = 0 then some (1, w)
  else if cmd.code ≠ .CMD_REPEAT then
    some (0, cmdq_push_advance (cmdq_push_store cmd (cmdq_push_save_last w)))
  else if !w.repeat_prev_allowed then some (1, w)
  else if w.last_command_idx ≥ 0 then
    if ¬ (w.last_command_idx < (CMD_QUEUE_SIZE : Int)) then none
    else if w.last_command_idx ≠ (w.cmd_head : Int) then
      some (0, cmdq_push_advance (cmdq_push_duplicate (w.slot w.last_command_idx.toNat) w))
    else some (0, cmdq_push_advance w)
  else if w.last_command.code ≠ .CMD_NULL then
    some (0, cmdq_push_advance (cmdq_push_duplicate w.last_command w))
  else some (1, w)

/-- `cmd_set_repeat(nrepeats)`. -/
def cmd_set_repeat (nrepeats : Int) (w : World) : World :=
  let k := prev_cmd_idx w.cmd_tail
  let w1 := w.set_slot k { w.slot k with nrepeats := nrepeats }
  { w1 with repeating := if nrepeats ≠ 0 then true else false,
            player := { w1.player with redraw_STATE := true } }

/-- `cmd_get_nrepeats()`. -/
def cmd_get_nrepeats (w : World) : Int := (w.slot (prev_cmd_idx w.cmd_tail)).nrepeats

/-- `cmd_cancel_repeat()`. -/
def cmd_cancel_repeat (w : World) : World :=
  let k := prev_cmd_idx w.cmd_tail
  if (w.slot k).nrepeats ≠ 0 ∨ w.repeating = true then
    let w1 := w.set_slot k { w.slot k with nrepeats := 0 }
    { w1 with repeating := false, player := { w1.player with redraw_STATE := true } }
  else w

/-- `cmd_disable_repeat()`. -/
def cmd_disable_repeat (w : World) : World := { w with repeat_prev_allowed := false }

/-- In `process_command`, the block "Command repetition" and the two
assignments after it (up to `cmd->context = ctx`), for the entry `e` of
`game_cmds` and `cmd = &cmd_queue[k]`. -/
def process_command_prepare (ctx : cmd_context) (e : command_info) (k : Nat)
    (w : World) : World :=
  let w1 : World :=
    if e.repeat_allowed then
      if e.auto_repeat_n > 0 ∧ (w.slot k).nrepeats = 0 then cmd_set_repeat e.auto_repeat_n w
      else w
    else { w.set_slot k { w.slot k with nrepeats := 0 } with repeating := false }
  let w2 : World := { w1 with repeat_prev_allowed := true }
  w2.set_slot k { w2.slot k with context := ctx }

/-- In `process_command`, the bloodlust block that precedes the call of the
handler; the flag is `true` when `process_command` returns from inside it. -/
def process_command_coerce (env : Env) (e : command_info) (k : Nat) (w : World) :
    Bool × World :=
  if (w.slot k).background_command > 1 then
    if w.player.skip_cmd_coercion ≠ 0 ∧ e.can_use_energy then
      (false, { w with player := { w.player with skip_cmd_coercion := 2 } })
    else (false, w)
  else if e.can_use_energy ∧ ¬ (w.player.skip_cmd_coercion ≠ 0) then
    let r := env.randint0 w.rng 200
    let w1 : World := { w with rng := r.2 }
    if r.1 < w1.player.timed_BLOODLUST then
      let a := env.player_attack_random_monster w1
      (a.1, a.2)
    else if w1.player.timed_BLOODLUST ≠ 0 then
      (false, { w1 with player := { w1.player with skip_cmd_coercion := 1 } })
    else (false, w1)
  else (false, w)

/-- In `process_command`, the final statement: count this execution if the
command has not changed `nrepeats`. -/
def process_command_count (oldrepeats : Int) (k : Nat) (w : World) : World :=
  if (w.slot k).nrepeats > 0 ∧ oldrepeats = cmd_get_nrepeats w then
    cmd_set_repeat (oldrepeats - 1) w
  else w

/-- In `process_command`, the entry `game_cmds[idx]` for
`idx = cmd_idx(player->timed[TMD_COMMAND] ? CMD_COMMAND_MONSTER : cmd->code)`,
or `none` when `idx == -1`. -/
def process_command_entry (k : Nat) (w : World) : Option command_info :=
  let idx := cmd_idx (if w.player.timed_COMMAND ≠ 0 then .CMD_COMMAND_MONSTER
                      else (w.slot k).code)
  if idx = -1 then none else some (game_cmds.getD idx.toNat default)

/-- `process_command(ctx, cmd)` with `cmd = &cmd_queue[k]`. -/
def process_command (env : Env) (ctx : cmd_context) (k : Nat) (w : World) : World :=
  let oldrepeats := (w.slot k).nrepeats
  let w0 : World := { w with player := { w.player with command_wrk := 0 } }
  match process_command_entry k w with
  | none => w0
  | some e =>
    let w1 := process_command_prepare ctx e k w0
    if e.fn then
      let c := process_command_coerce env e k w1
      if c.1 then c.2
      else process_command_count oldrepeats k (env.handler e.cmd k c.2)
    else process_command_count oldrepeats k w1

/-- The part of `cmdq_pop` before the call of `process_command`: the slot of
the record chosen and the state at that call, or `none` when there is no
command to get. -/
def cmdq_pop_fetch (w : World) : Option (Nat × World) :=
  if w.repeating then
    let k := prev_cmd_idx w.cmd_tail
    if (w.slot k).background_command = 0 then
      some (k, { w with last_command_idx := (prev_cmd_idx w.cmd_tail : Nat) })
    else some (k, w)
  else if w.cmd_head ≠ w.cmd_tail then
    let k := w.cmd_tail
    let t := w.cmd_tail + 1
    let w0 : World := { w with cmd_tail := if t = CMD_QUEUE_SIZE then 0 else t }
    if (w0.slot k).background_command = 0 then
      some (k, { w0 with last_command_idx := (prev_cmd_idx w0.cmd_tail : Nat) })
    else some (k, w0)
  else none

/-- `cmdq_pop(c)`: the return value and the new state. -/
def cmdq_pop (env : Env) (c : cmd_context) (w : World) : Bool × World :=
  match cmdq_pop_fetch w with
  | some (k, w1) => (true, process_command env c k w1)
  | none => (false, w)

/-- `cmdq_flush()`. -/
def cmdq_flush (w : World) : World := { w with cmd_tail := w.cmd_head }

/-- The loop of `cmdq_release` over the slots of the queue. -/
def cmdq_release_slots (h : Heap) : List command → Heap × List command
  | [] => (h, [])
  | c :: rest =>
    let r := cmd_release h c
    let t := cmdq_release_slots r.1 rest
    (t.1, r.2 :: t.2)

/-- `cmdq_release()`. -/
def cmdq_release (w : World) : World :=
  let w0 := cmdq_flush w
  let q := cmdq_release_slots w0.heap w0.cmd_queue
  let l := cmd_release q.1 w0.last_command
  { w0 with heap := l.1, cmd_queue := q.2,
            last_command := { l.2 with code := .CMD_NULL }, last_command_idx := -1 }

/-- The result of a helper that may prompt: the return code, the final value
of the output parameter, whether the prompt was invoked, and the new state. -/
structure Resolved (α : Type) where
  ret : Int
  out : α
  prompted : Bool
  world : World

/-- `cmd_get_direction(cmd, arg, dir, allow_5)` with `cmd = &cmd_queue[k]`;
`dir` is the value of `*dir` at the call.  The result is `none` when an
assertion of `cmd_set_arg` fails. -/
def cmd_get_direction (env : Env) (nsz : Nat) (k : Nat) (arg : String) (dir : Int)
    (allow_5 : Bool) (w : World) : Option (Resolved Int) :=
  let g := cmd_get_arg_direction (w.slot k) arg dir
  if g.1 = CMD_OK ∧ g.2 ≠ env.DIR_NONE then some ⟨CMD_OK, g.2, false, w⟩
  else
    let p := env.get_rep_dir g.2 allow_5 w
    if p.1 then
      match cmd_set_arg_direction nsz p.2.2.heap (p.2.2.slot k) (some arg) p.2.1 with
      | none => none
      | some s => some ⟨CMD_OK, p.2.1, true, { p.2.2 with heap := s.1 }.set_slot k s.2⟩
    else some ⟨CMD_ARG_ABORTED, p.2.1, true, cmd_cancel_repeat p.2.2⟩

/-! ## Observations used in the statements -/

/-- The call `game_cmds[idx].fn(cmd)` that `process_command(ctx, &cmd_queue[k])`
makes, if it makes one: the code of the entry whose handler is called, and the
state at the call. -/
def process_command_call (env : Env) (ctx : cmd_context) (k : Nat) (w : World) :
    Option (cmd_code × World) :=
  let w0 : World := { w with player := { w.player with command_wrk := 0 } }
  match process_command_entry k w with
  | none => none
  | some e =>
    let w1 := process_command_prepare ctx e k w0
    if e.fn then
      let c := process_command_coerce env e k w1
      if c.1 then none else some (e.cmd, c.2)
    else none

/-- The call of a handler that `cmdq_pop(c)` makes through `process_command`,
if it makes one: the slot of the record passed, the code of the entry whose
handler is called, and the state at the call. -/
def cmdq_pop_call (env : Env) (c : cmd_context) (w : World) :
    Option (Nat × cmd_code × World) :=
  match cmdq_pop_fetch w with
  | some (k, w1) => (process_command_call env c k w1).map (fun r => (k, r))
  | none => none

/-- The addresses held by the string arguments of a list of slots. -/
def strings_of : List cmd_arg → List Ptr
  | [] => []
  | a :: rest =>
    if a.type = .arg_STRING then a.data.get_string :: strings_of rest else strings_of rest

/-- The addresses held by the string arguments of a record. -/
def command.strings (c : command) : List Ptr := strings_of c.arg

/-- What an argument slot holds, with the text of a string argument in place
of its address. -/
structure arg_view where
  name : String
  type : cmd_arg_type
  data : cmd_arg_data
  text : Option String
  deriving DecidableEq, Repr

/-- The view of a slot in heap `h`. -/
def cmd_arg.view (h : Heap) (a : cmd_arg) : arg_view :=
  if a.type = .arg_STRING then ⟨a.name, a.type, .string 0, h.read a.data.get_string⟩
  else ⟨a.name, a.type, a.data, none⟩

/-- A record with the text of each string argument in place of its address. -/
structure command_view where
  context : cmd_context
  code : cmd_code
  nrepeats : Int
  background_command : Int
  arg : List arg_view
  deriving DecidableEq, Repr

/-- The view of a record in heap `h`. -/
def command.view (h : Heap) (c : command) : command_view :=
  ⟨c.context, c.code, c.nrepeats, c.background_command, c.arg.map (cmd_arg.view h)⟩

/-- The record that `CMD_REPEAT` materialises: `cmd_queue[last_command_idx]`
when the index is valid, `last_command` otherwise. -/
def World.repeat_source (w : World) : command :=
  if w.last_command_idx ≥ 0 then w.slot w.last_command_idx.toNat else w.last_command

/-- State `w'` has the cursors and `last_command_idx` of `w`, a queue of the
same length, and in every slot the code, background flag and arguments that
the slot has in `w`. -/
def queue_frame (w w' : World) : Prop :=
  w'.cmd_head = w.cmd_head ∧ w'.cmd_tail = w.cmd_tail ∧
  w'.last_command_idx = w.last_command_idx ∧
  w'.cmd_queue.length = w.cmd_queue.length ∧
  ∀ j : Nat, (w'.slot j).code = (w.slot j).code ∧
    (w'.slot j).background_command = (w.slot j).background_command ∧
    (w'.slot j).arg = (w.slot j).arg

/-- The function `f` of another module leaves `repeat_prev_allowed`, the
cursors and `last_command_idx` alone, and in every slot of the queue the code,
the background flag and the arguments. -/
def keeps_queue (f : World → World) : Prop :=
  ∀ w : World, queue_frame w (f w) ∧ (f w).repeat_prev_allowed = w.repeat_prev_allowed

/-! ## Concrete states and records -/

/-- A player under no timed effect. -/
def ex_player : Player := ⟨0, 0, 0, 0, false⟩

/-- Collaborators that do nothing: handlers that return at once, a generator
that yields `0`, no monster to attack, a direction prompt that is cancelled. -/
def ex_env : Env :=
  { handler := fun _ _ w => w
    randint0 := fun s _ => (0, s)
    player_attack_random_monster := fun w => (false, w)
    get_rep_dir := fun d _ w => (false, d, w)
    DIR_NONE := 5 }

/-- The queue before the first call, with the string "hello" at address 1. -/
def ex_fresh : World := World.init [some "hello"] ex_player [] 0

/-- A full queue: `cmd_head = 18`, `cmd_tail = 19`. -/
def ex_full : World := { ex_fresh with cmd_head := 18, cmd_tail := 19 }

/-- A walk command with `"dir"` set to 8 (north). -/
def ex_walk : command :=
  ⟨.CTX_INIT, .CMD_WALK, 0, 0,
    [⟨.arg_DIRECTION, .direction 8, "dir"⟩, cmd_arg.zero, cmd_arg.zero, cmd_arg.zero]⟩

/-- An inscribe command whose `"note"` is the string at address 1. -/
def ex_note : command :=
  ⟨.CTX_INIT, .CMD_INSCRIBE, 0, 0,
    [⟨.arg_STRING, .string 1, "note"⟩, cmd_arg.zero, cmd_arg.zero, cmd_arg.zero]⟩

/-- The record pushed to repeat the previous command. -/
def ex_repeat : command := { command.zero with code := .CMD_REPEAT }

/-- An open command without arguments and with repeat count 0. -/
def ex_open : command := { command.zero with code := .CMD_OPEN }

/-- Collaborators whose handlers call `cmd_disable_repeat` and return. -/
def ex_env_disable : Env := { ex_env with handler := fun _ _ w => cmd_disable_repeat w }

/-- The state after `ex_walk` was pushed into `ex_fresh`. -/
def ex_queued : World := ((cmdq_push_copy ex_walk ex_fresh).map Prod.snd).getD ex_fresh

/-- The state in which `cmdq_pop` on `ex_queued` calls the handler. -/
def ex_at_call : World :=
  ((cmdq_pop_call ex_env_disable .CTX_INIT ex_queued).map (fun r => r.2.2)).getD ex_queued

/-- The state after `ex_note` was pushed into `ex_fresh` and dispatched. -/
def ex_note_done : World :=
  (cmdq_pop ex_env .CTX_INIT
    (((cmdq_push_copy ex_note ex_fresh).map Prod.snd).getD ex_fresh)).2

/-- The state after `CMD_REPEAT` was then pushed. -/
def ex_note_repeated : World :=
  ((cmdq_push_copy ex_repeat ex_note_done).map Prod.snd).getD ex_note_done

/-- The state after `ex_note` was pushed into `ex_fresh`. -/
def ex_note_queued : World := ((cmdq_push_copy ex_note ex_fresh).map Prod.snd).getD ex_fresh

/-- The walk command after `"dir"` was set again, to 2 (south), in a name field
of 20 bytes. -/
def ex_walk_south : command :=
  ((cmd_set_arg 20 [] ex_walk (some "dir") .arg_DIRECTION (.direction 2)).map Prod.snd).getD
    ex_walk

/-- Whether `game_cmds` has an entry for the code, with `repeat_allowed` set. -/
def registered_repeatable (c : cmd_code) : Bool :=
  decide (cmd_idx c ≠ -1) && (game_cmds.getD (cmd_idx c).toNat default).repeat_allowed

/-- The state after `ex_walk` was pushed into `ex_fresh` and dispatched. -/
def ex_walk_done : World := (cmdq_pop ex_env .CTX_INIT ex_queued).2

/-- The state after `CMD_REPEAT` was then pushed. -/
def ex_walk_repeated : World :=
  ((cmdq_push_copy ex_repeat ex_walk_done).map Prod.snd).getD ex_walk_done

/-- The state after `ex_open` was pushed into `ex_fresh`. -/
def ex_open_queued : World := ((cmdq_push_copy ex_open ex_fresh).map Prod.snd).getD ex_fresh

/-- The state after `n` calls of `cmdq_pop` with the collaborators `ex_env`. -/
def ex_pops : Nat → World → World
  | 0, w => w
  | n + 1, w => ex_pops n (cmdq_pop ex_env .CTX_INIT w).2

/-! ## The floor-item guard -/

/-- The object at address `p`, for `p` other than `NULL`. -/
def World.object_at (w : World) (p : Ptr) : object := w.objects.getD (p - 1) ⟨⟨0, 0⟩⟩

/-- The loop of `cmd_disable_repeat_floor_item` over the slots of the record:
whether it ends by clearing `repeat_prev_allowed`. -/
def floor_item_loop (w : World) : List cmd_arg → Bool
  | [] => false
  | a :: rest =>
    if a.type = .arg_ITEM ∧ a.data.get_obj ≠ 0 ∧
        ((w.object_at a.data.get_obj).grid.x ≠ 0 ∨ (w.object_at a.data.get_obj).grid.y ≠ 0)
    then true
    else floor_item_loop w rest

/-- `cmd_disable_repeat_floor_item()`. -/
def cmd_disable_repeat_floor_item (w : World) : World :=
  if !w.repeat_prev_allowed then w
  else
    let cmd_prev0 : Int := (w.cmd_head : Int) - 1
    let cmd_prev : Int := if cmd_prev0 < 0 then (CMD_QUEUE_SIZE : Int) - 1 else cmd_prev0
    if (w.slot cmd_prev.toNat).code ≠ .CMD_NULL then
      if floor_item_loop w (w.slot cmd_prev.toNat).arg then
        { w with repeat_prev_allowed := false }
      else w
    else w

/-- An argument slot holds an item that lies on the floor: its kind is Item,
its object is not `NULL` and the grid of the object is not `(0, 0)`. -/
def floor_item (w : World) (a : cmd_arg) : Prop :=
  a.type = .arg_ITEM ∧ a.data.get_obj ≠ 0 ∧ (w.object_at a.data.get_obj).grid ≠ ⟨0, 0⟩

instance (w : World) (a : cmd_arg) : Decidable (floor_item w a) := by
  unfold floor_item; infer_instance

/-- The queue as first initialised, but with `repeat_prev_allowed` set, and with
one object on the floor at `(3, 4)` (address 1) and one in the pack
(address 2). -/
def ex_items : World :=
  { World.init [] ex_player [⟨⟨3, 4⟩⟩, ⟨⟨0, 0⟩⟩] 0 with repeat_prev_allowed := true }

/-- A drop command whose `"item"` is the object on the floor. -/
def ex_drop_floor : command :=
  ⟨.CTX_INIT, .CMD_DROP, 0, 0,
    [⟨.arg_ITEM, .obj 1, "item"⟩, cmd_arg.zero, cmd_arg.zero, cmd_arg.zero]⟩

/-- A drop command whose `"item"` is the object in the pack. -/
def ex_drop_pack : command :=
  ⟨.CTX_INIT, .CMD_DROP, 0, 0,
    [⟨.arg_ITEM, .obj 2, "item"⟩, cmd_arg.zero, cmd_arg.zero, cmd_arg.zero]⟩
/-! ## Calls in sequence -/

/-- The calls `cmd_set_arg(cmd, name, type, data)` made one after the other on
the same record, for the names, kinds and values of the list; `none` as soon as
an assertion fails. -/
def cmd_set_arg_seq (nsz : Nat) :
    Heap → command → List (String × cmd_arg_type × cmd_arg_data) → Option (Heap × command)
  | h, cmd, [] => some (h, cmd)
  | h, cmd, x :: rest =>
    match cmd_set_arg nsz h cmd (some x.1) x.2.1 x.2.2 with
    | none => none
    | some r => cmd_set_arg_seq nsz r.1 r.2 rest

/-- Four arguments, the first under a name of 22 characters. -/
def ex_four_args : List (String × cmd_arg_type × cmd_arg_data) :=
  [("direction_of_next_step", .arg_DIRECTION, .direction 8),
   ("item", .arg_ITEM, .obj 1),
   ("quantity", .arg_NUMBER, .number 3),
   ("choice", .arg_CHOICE, .choice 0)]

/-- A state in which the last command dispatched, the inscribe command with the
note "hello", is in slot 0, the head has come round to slot 0 and the tail is at
slot 5. -/
def ex_recycle : World := { ex_note_done with cmd_head := 0, cmd_tail := 5 }
/-- What an argument slot holds apart from the address of a string: its name,
its kind, and its value when the kind is not String. -/
def cmd_arg.shape (a : cmd_arg) : String × cmd_arg_type × Option cmd_arg_data :=
  (a.name, a.type, if a.type = .arg_STRING then none else some a.data)

/-- A background command: an autopickup with `background_command = 1`. -/
def ex_background : command :=
  { command.zero with code := .CMD_AUTOPICKUP, background_command := 1 }

/-! ## Helpers that prompt -/

/-- A filter on items, `bool (*)(const struct object *)`: applied to the address
of an object in a state. -/
abbrev item_tester := World → Ptr → Bool

/-- One link of a chain of effects; a list stands for the chain that
`effect_next` walks. -/
structure effect where
  index : Int
  deriving DecidableEq, Repr

/-- What the helpers that prompt take from other modules.  `msg title` is
`msg("%s", title)`; `event_signal_MESSAGE_FLUSH` is
`event_signal(EVENT_MESSAGE_FLUSH)`; `get_string prompt buf len` gives the return
value and the final contents of `buf`; `get_quantity prompt max` gives the
amount; `get_aim_dir d` is called with `*dir = d` and gives the return value and
the final `*dir`; `get_item obj prompt reject code filter mode` is called with
`*choice = obj` and gives the return value and the final `*choice`;
`get_effect_from_list prompt effect count allow_random` gives the selection;
the constants bear the names they have in the game. -/
structure Prompts where
  msg : String → World → World
  event_signal_MESSAGE_FLUSH : World → World
  get_string : Option String → String → Nat → World → Bool × String × World
  get_quantity : Option String → Int → World → Int × World
  get_aim_dir : Int → World → Bool × Int × World
  target_okay : World → Bool
  get_item : Ptr → Option String → Option String → cmd_code → Option item_tester → Int →
    World → Bool × Ptr × World
  player_is_shapechanged : World → Bool
  get_effect_from_list : Option String → List effect → Int → Bool → World → Int × World
  DIR_UNKNOWN : Int
  DIR_TARGET : Int
  USE_EQUIP : Int
  USE_INVEN : Int
  USE_QUIVER : Int

/-- `cmd_get_effect_from_list(cmd, arg, choice, prompt, effect, count,
allow_random)` with `cmd = &cmd_queue[k]`; `choice` is the value of `*choice` at
the call.  The local `selection` is read only after `cmd_get_arg_choice` or the
prompt has written it. -/
def cmd_get_effect_from_list (P : Prompts) (nsz : Nat) (k : Nat) (arg : String)
    (choice : Int) (prompt : Option String) (effect : List effect) (count : Int)
    (allow_random : Bool) (w : World) : Option (Resolved Int) :=
  let count1 : Int := if count = -1 then (effect.length : Int) else count
  let g := cmd_get_arg_choice (w.slot k) arg 0
  let p : Int × World × Bool :=
    if g.1 ≠ CMD_OK ∨ ((g.2 ≠ -2 ∨ allow_random = false) ∧ (g.2 < 0 ∨ g.2 ≥ count1)) then
      let r := P.get_effect_from_list prompt effect count1 allow_random w
      (r.1, r.2, true)
    else (g.2, w, false)
  if (p.1 = -2 ∧ allow_random = true) ∨ (p.1 ≥ 0 ∧ p.1 < count1) then
    match cmd_set_arg_choice nsz p.2.1.heap (p.2.1.slot k) (some arg) p.1 with
    | none => none
    | some s => some ⟨CMD_OK, p.1, p.2.2, { p.2.1 with heap := s.1 }.set_slot k s.2⟩
  else some ⟨CMD_ARG_ABORTED, choice, p.2.2, p.2.1⟩

/-- The contents of the local buffer `tmp` of `cmd_get_string` when the prompt
is called: empty, or the text `initial` cut to the 80 bytes of the buffer. -/
def cmd_get_string_tmp (initial : Option String) : String :=
  match initial with
  | some s => my_strcpy s 80
  | none => ""

/-- `cmd_get_string(cmd, arg, str, initial, title, prompt)` with
`cmd = &cmd_queue[k]`; `str` is the value of `*str` at the call, and the local
buffer `tmp` has 80 bytes. -/
def cmd_get_string (P : Prompts) (nsz : Nat) (k : Nat) (arg : String) (str : Ptr)
    (initial : Option String) (title : String) (prompt : Option String) (w : World) :
    Option (Resolved Ptr) :=
  let g := cmd_get_arg_string (w.slot k) arg str
  if g.1 = CMD_OK then some ⟨CMD_OK, g.2, false, w⟩
  else
    let w1 := P.event_signal_MESSAGE_FLUSH (P.msg title w)
    let p := P.get_string prompt (cmd_get_string_tmp initial) 80 w1
    if p.1 then
      match cmd_set_arg_string nsz p.2.2.heap (p.2.2.slot k) (some arg) (some p.2.1) with
      | none => none
      | some s =>
        let w2 := { p.2.2 with heap := s.1 }.set_slot k s.2
        let g2 := cmd_get_arg_string (w2.slot k) arg g.2
        if g2.1 = CMD_OK then some ⟨CMD_OK, g2.2, true, w2⟩
        else some ⟨CMD_ARG_ABORTED, g2.2, true, w2⟩
    else some ⟨CMD_ARG_ABORTED, g.2, true, p.2.2⟩

/-- `cmd_get_target(cmd, arg, target)` with `cmd = &cmd_queue[k]`; `target` is
the value of `*target` at the call. -/
def cmd_get_target (P : Prompts) (nsz : Nat) (k : Nat) (arg : String) (target : Int)
    (w : World) : Option (Resolved Int) :=
  let g := cmd_get_arg_target (w.slot k) arg target
  if g.1 = CMD_OK ∧ g.2 ≠ P.DIR_UNKNOWN ∧ (g.2 ≠ P.DIR_TARGET ∨ P.target_okay w = true) then
    some ⟨CMD_OK, g.2, false, w⟩
  else
    let p := P.get_aim_dir g.2 w
    if p.1 then
      match cmd_set_arg_target nsz p.2.2.heap (p.2.2.slot k) (some arg) p.2.1 with
      | none => none
      | some s => some ⟨CMD_OK, p.2.1, true, { p.2.2 with heap := s.1 }.set_slot k s.2⟩
    else some ⟨CMD_ARG_ABORTED, p.2.1, true, p.2.2⟩

/-- The test `!filter || filter(*obj)` in state `w`. -/
def item_tester_passes (filter : Option item_tester) (w : World) (obj : Ptr) : Bool :=
  match filter with
  | none => true
  | some f => f w obj

/-- `cmd_get_item(cmd, arg, obj, prompt, reject, filter, mode)` with
`cmd = &cmd_queue[k]`; `obj` is the value of `*obj` at the call. -/
def cmd_get_item (P : Prompts) (nsz : Nat) (k : Nat) (arg : String) (obj : Ptr)
    (prompt reject : Option String) (filter : Option item_tester) (mode : Int) (w : World) :
    Option (Resolved Ptr) :=
  let g := cmd_get_arg_item (w.slot k) arg obj
  if g.1 = CMD_OK ∧ item_tester_passes filter w g.2 = true then some ⟨CMD_OK, g.2, false, w⟩
  else
    let mode1 : Int :=
      if P.player_is_shapechanged w then
        Int.land mode (Int.not (Int.lor (Int.lor P.USE_EQUIP P.USE_INVEN) P.USE_QUIVER))
      else mode
    let p := P.get_item g.2 prompt reject (w.slot k).code filter mode1 w
    if p.1 then
      match cmd_set_arg_item nsz p.2.2.heap (p.2.2.slot k) (some arg) p.2.1 with
      | none => none
      | some s => some ⟨CMD_OK, p.2.1, true, { p.2.2 with heap := s.1 }.set_slot k s.2⟩
    else some ⟨CMD_ARG_ABORTED, p.2.1, true, p.2.2⟩

/-- `cmd_get_quantity(cmd, arg, amt, max)` with `cmd = &cmd_queue[k]`; `amt` is
the value of `*amt` at the call, which the prompt's result replaces. -/
def cmd_get_quantity (P : Prompts) (nsz : Nat) (k : Nat) (arg : String) (amt : Int)
    (max : Int) (w : World) : Option (Resolved Int) :=
  let g := cmd_get_arg_number (w.slot k) arg amt
  if g.1 = CMD_OK then some ⟨CMD_OK, g.2, false, w⟩
  else
    let p := P.get_quantity none max w
    if p.1 > 0 then
      match cmd_set_arg_number nsz p.2.heap (p.2.slot k) (some arg) p.1 with
      | none => none
      | some s => some ⟨CMD_OK, p.1, true, { p.2 with heap := s.1 }.set_slot k s.2⟩
    else some ⟨CMD_ARG_ABORTED, p.1, true, p.2⟩

/-- Prompts that always answer: the string "again", the quantity `3`, the
aiming direction `2`, the item at address `1`, the effect `0`; no message
changes the state. -/
def ex_prompts : Prompts :=
  { msg := fun _ w => w
    event_signal_MESSAGE_FLUSH := fun w => w
    get_string := fun _ _ _ w => (true, "again", w)
    get_quantity := fun _ _ w => (3, w)
    get_aim_dir := fun _ w => (true, 2, w)
    target_okay := fun _ => false
    get_item := fun _ _ _ _ _ _ w => (true, 1, w)
    player_is_shapechanged := fun _ => false
    get_effect_from_list := fun _ _ _ _ w => (0, w)
    DIR_UNKNOWN := 0
    DIR_TARGET := 5
    USE_EQUIP := 1
    USE_INVEN := 2
    USE_QUIVER := 8 }

/-- Collaborators of `ex_env` with a direction prompt that answers `2`. -/
def ex_env_dir : Env := { ex_env with get_rep_dir := fun _ _ w => (true, 2, w) }

/-- A chain of three effects. -/
def ex_effects : List effect := [⟨0⟩, ⟨1⟩, ⟨2⟩]

/-! ## Pushing by code, and draining the queue -/

/-- `cmdq_push_repeat(c, nrepeats)`; the local `cmd` starts as the record
`{ CTX_INIT, CMD_NULL, 0, 0, { { 0 } } }`. -/
def cmdq_push_repeat (c : cmd_code) (nrepeats : Int) (w : World) : Option (Int × World) :=
  let cmd : command := command.zero
  if cmd_idx c = -1 then some (1, w)
  else cmdq_push_copy { cmd with code := c, nrepeats := nrepeats } w

/-- `cmdq_push(c)`. -/
def cmdq_push (c : cmd_code) (w : World) : Option (Int × World) := cmdq_push_repeat c 0 w

/-- `cmdq_execute(ctx)`, the loop `while (cmdq_pop(ctx)) ;`, with at most `fuel`
calls of `cmdq_pop`: the state in which `cmdq_pop` returns false, or `none` when
it has not returned false within `fuel` calls. -/
def cmdq_execute (env : Env) (ctx : cmd_context) : Nat → World → Option World
  | 0, _ => none
  | fuel + 1, w =>
    let r := cmdq_pop env ctx w
    if r.1 then cmdq_execute env ctx fuel r.2 else some r.2

/-- The state after `n` calls of `cmdq_pop(ctx)`. -/
def cmdq_pops (env : Env) (ctx : cmd_context) : Nat → World → World
  | 0, w => w
  | n + 1, w => cmdq_pops env ctx n (cmdq_pop env ctx w).2

/-- The slots of the records that the first `n` calls of `cmdq_pop(ctx)` hand to
`process_command`, in order. -/
def cmdq_pops_fetched (env : Env) (ctx : cmd_context) : Nat → World → List Nat
  | 0, _ => []
  | n + 1, w =>
    match cmdq_pop_fetch w with
    | some kw => kw.1 :: cmdq_pops_fetched env ctx n (cmdq_pop env ctx w).2
    | none => cmdq_pops_fetched env ctx n (cmdq_pop env ctx w).2

/-- The slots of the records that are queued and not yet consumed: from the
tail up to the slot before the head, wrapping around. -/
def queued_slots (w : World) : List Nat :=
  (List.range ((w.cmd_head + CMD_QUEUE_SIZE - w.cmd_tail) % CMD_QUEUE_SIZE)).map
    (fun i => (w.cmd_tail + i) % CMD_QUEUE_SIZE)

/-- The state after `cmdq_push(CMD_OPEN)`, one `cmdq_pop`, which starts the
repeat of the open command, and `cmdq_push_copy` of the walk command. -/
def ex_open_then_walk : World :=
  ((cmdq_push_copy ex_walk (cmdq_pop ex_env .CTX_INIT ex_open_queued).2).map Prod.snd).getD
    ex_fresh

/-- An attempt of `player_attack_random_monster` that returns false leaves the
queue, its cursors and `repeating` as they were. -/
def attack_keeps (env : Env) : Prop :=
  ∀ x : World, (env.player_attack_random_monster x).1 = false →
    (env.player_attack_random_monster x).2.cmd_queue = x.cmd_queue ∧
    (env.player_attack_random_monster x).2.repeating = x.repeating ∧
    (env.player_attack_random_monster x).2.cmd_head = x.cmd_head ∧
    (env.player_attack_random_monster x).2.cmd_tail = x.cmd_tail

/-- The state after `cmdq_push_repeat(CMD_GO_UP, 5)` on the queue as first
initialised. -/
def ex_go_up_queued : World :=
  ((cmdq_push_repeat .CMD_GO_UP 5 ex_fresh).map Prod.snd).getD ex_fresh

/-- The state `ex_queued` with the walk command given a repeat count of 3. -/
def ex_walk3_queued : World :=
  ((cmdq_push_copy { ex_walk with nrepeats := 3 } ex_fresh).map Prod.snd).getD ex_fresh

/-- A queue that holds a record of code `CMD_NULL` with repeat count 5, for a
player whose timer `TMD_COMMAND` is running, in the middle of a repeat. -/
def ex_commanded : World :=
  { (((cmdq_push_copy { command.zero with nrepeats := 5 } ex_fresh).map Prod.snd).getD
      ex_fresh) with
    player := { ex_player with timed_COMMAND := 1 }, repeating := true }

/-! ## The life of a record -/

/-- One step in the life of a record: a call of a typed setter with a name and
a value, a call of `cmd_release`, or a call of `cmd_copy` after which the copy
is the record in use. -/
inductive cmd_op where
  | set_choice (arg : String) (choice : Int)
  | set_string (arg : String) (str : Option String)
  | set_direction (arg : String) (dir : Int)
  | set_target (arg : String) (target : Int)
  | set_point (arg : String) (grid : loc)
  | set_item (arg : String) (obj : Ptr)
  | set_number (arg : String) (amt : Int)
  | release
  | copy
  deriving DecidableEq, Repr

/-- The name that a step passes to its setter, if it is a call of a setter. -/
def cmd_op.name : cmd_op → Option String
  | .set_choice a _ => some a
  | .set_string a _ => some a
  | .set_direction a _ => some a
  | .set_target a _ => some a
  | .set_point a _ => some a
  | .set_item a _ => some a
  | .set_number a _ => some a
  | .release => none
  | .copy => none

/-- One step on a record: the heap and the record afterwards, or `none` when an
assertion fails. -/
def cmd_op.run (nsz : Nat) (h : Heap) (cmd : command) : cmd_op → Option (Heap × command)
  | .set_choice a v => cmd_set_arg_choice nsz h cmd (some a) v
  | .set_string a s => cmd_set_arg_string nsz h cmd (some a) s
  | .set_direction a v => cmd_set_arg_direction nsz h cmd (some a) v
  | .set_target a v => cmd_set_arg_target nsz h cmd (some a) v
  | .set_point a g => cmd_set_arg_point nsz h cmd (some a) g
  | .set_item a o => cmd_set_arg_item nsz h cmd (some a) o
  | .set_number a v => cmd_set_arg_number nsz h cmd (some a) v
  | .release => some (cmd_release h cmd)
  | .copy => some (cmd_copy h cmd)

/-- The steps of a list, one after the other. -/
def cmd_ops_run (nsz : Nat) : Heap → command → List cmd_op → Option (Heap × command)
  | h, cmd, [] => some (h, cmd)
  | h, cmd, op :: rest =>
    match op.run nsz h cmd with
    | none => none
    | some r => cmd_ops_run nsz r.1 r.2 rest

/-- No two slots in use (slots whose name is not empty) bear the same name. -/
def names_unique (l : List cmd_arg) : Prop :=
  ∀ i : Nat, i < l.length → ∀ j : Nat, j < l.length → i ≠ j →
    (l.getD i cmd_arg.zero).name ≠ "" →
    (l.getD i cmd_arg.zero).name ≠ (l.getD j cmd_arg.zero).name

instance (l : List cmd_arg) : Decidable (names_unique l) := by
  unfold names_unique
  infer_instance

/-- A string is set under `"a"` and a number under `"b"`, the record is
released, which leaves slot 0 unused, and `"b"` is set again. -/
def ex_ops_release : List cmd_op :=
  [.set_string "a" (some "x"), .set_number "b" 1, .release, .set_number "b" 2, .copy]

/-- A number is set twice under a name of 22 characters. -/
def ex_ops_long : List cmd_op :=
  [.set_number "direction_of_next_step" 1, .set_number "direction_of_next_step" 2]

/-! ## The helper for spells -/

/-- A filter on spells, `bool (*)(const struct player *p, int spell)`: applied
to the index of a spell in a state, which holds the player. -/
abbrev spell_tester := World → Int → Bool

/-- The test `!spell_filter || spell_filter(p, *spell) == true` in state `w`. -/
def spell_tester_passes (spell_filter : Option spell_tester) (w : World) (spell : Int) :
    Bool :=
  match spell_filter with
  | none => true
  | some f => f w spell

/-- What `cmd_get_spell` takes from other modules.
`get_spell_from_book verb book spell_error spell_filter` gives the spell chosen;
`get_spell verb book_filter code book_error spell_filter spell_error` gives the
spell chosen and the value it leaves in `*book`.  The player passed is the
player of the state. -/
structure SpellPrompts where
  get_spell_from_book : String → Ptr → Option String → Option spell_tester → World →
    Int × World
  get_spell : String → Option item_tester → cmd_code → Option String →
    Option spell_tester → Option String → World → Int × Ptr × World

/-- In `cmd_get_spell`, the prompt: from the book stored under `"book"` when
there is one, from any book otherwise.  The result is the spell, the book and
the state. -/
def cmd_get_spell_prompt (S : SpellPrompts) (k : Nat) (verb : String)
    (book_filter : Option item_tester) (book_error : Option String)
    (spell_filter : Option spell_tester) (spell_error : Option String) (w : World) :
    Int × Ptr × World :=
  let b := cmd_get_arg_item (w.slot k) "book" 0
  if b.1 = CMD_OK then
    let r := S.get_spell_from_book verb b.2 spell_error spell_filter w
    (r.1, b.2, r.2)
  else S.get_spell verb book_filter (w.slot k).code book_error spell_filter spell_error w

/-- `cmd_get_spell(cmd, arg, p, spell, verb, book_filter, book_error,
spell_filter, spell_error)` with `cmd = &cmd_queue[k]` and `p` the player of
the state; `spell` is the value of `*spell` at the call. -/
def cmd_get_spell (S : SpellPrompts) (nsz : Nat) (k : Nat) (arg : String) (spell : Int)
    (verb : String) (book_filter : Option item_tester) (book_error : Option String)
    (spell_filter : Option spell_tester) (spell_error : Option String) (w : World) :
    Option (Resolved Int) :=
  let g := cmd_get_arg_choice (w.slot k) arg spell
  if g.1 = CMD_OK ∧ spell_tester_passes spell_filter w g.2 = true then
    some ⟨CMD_OK, g.2, false, w⟩
  else
    let p := cmd_get_spell_prompt S k verb book_filter book_error spell_filter spell_error w
    if p.1 ≥ 0 then
      match cmd_set_arg_item nsz p.2.2.heap (p.2.2.slot k) (some "book") p.2.1 with
      | none => none
      | some s1 =>
        let w1 := { p.2.2 with heap := s1.1 }.set_slot k s1.2
        match cmd_set_arg_choice nsz w1.heap (w1.slot k) (some arg) p.1 with
        | none => none
        | some s2 => some ⟨CMD_OK, p.1, true, { w1 with heap := s2.1 }.set_slot k s2.2⟩
    else some ⟨CMD_ARG_ABORTED, p.1, true, p.2.2⟩

/-- Prompts that are all cancelled: no string, quantity 0, no direction, no
item, no effect. -/
def ex_prompts_cancel : Prompts :=
  { ex_prompts with
    get_string := fun _ b _ w => (false, b, w)
    get_quantity := fun _ _ w => (0, w)
    get_aim_dir := fun d w => (false, d, w)
    get_item := fun o _ _ _ _ _ w => (false, o, w)
    get_effect_from_list := fun _ _ _ _ w => (-1, w) }

/-- Spell prompts that are cancelled. -/
def ex_spell_cancel : SpellPrompts :=
  { get_spell_from_book := fun _ _ _ _ w => (-1, w)
    get_spell := fun _ _ _ _ _ _ w => (-1, 0, w) }

/-! ## Draining the queue -/

/-- State `w'` has the cursors, the flag `repeating` and the number of slots of
`w`, and in every slot the code and the repeat count that the slot has in
`w`. -/
def counts_frame (w w' : World) : Prop :=
  w'.cmd_head = w.cmd_head ∧ w'.cmd_tail = w.cmd_tail ∧ w'.repeating = w.repeating ∧
  w'.cmd_queue.length = w.cmd_queue.length ∧
  ∀ j : Nat, (w'.slot j).code = (w.slot j).code ∧ (w'.slot j).nrepeats = (w.slot j).nrepeats

/-- The function `f` of another module pushes no command and changes no repeat
count: it leaves the cursors, `repeating`, and the code and repeat count of
every slot alone. -/
def keeps_counts (f : World → World) : Prop := ∀ w : World, counts_frame w (f w)

/-- The queue has its 20 slots and its cursors inside it, and when a repeat is
in progress the record in the slot before the tail has a positive repeat count
and a code with an entry in `game_cmds`. -/
def repeat_sound (w : World) : Prop :=
  w.cmd_queue.length = CMD_QUEUE_SIZE ∧ w.cmd_head < CMD_QUEUE_SIZE ∧
  w.cmd_tail < CMD_QUEUE_SIZE ∧
  (w.repeating = true → 0 < (w.slot (prev_cmd_idx w.cmd_tail)).nrepeats ∧
    cmd_idx (w.slot (prev_cmd_idx w.cmd_tail)).code ≠ -1)

instance (w : World) : Decidable (repeat_sound w) := by
  unfold repeat_sound
  infer_instance


/-! ## Further records and states -/

/-- A drop command whose `"quantity"` is the number `-4`, set in a name field
of 20 bytes. -/
def ex_drop_minus : command :=
  ((cmd_set_arg_number 20 [] { command.zero with code := .CMD_DROP } (some "quantity")
    (-4)).map Prod.snd).getD command.zero

/-- The state after `ex_drop_minus` was pushed into `ex_fresh`. -/
def ex_drop_minus_queued : World :=
  ((cmdq_push_copy ex_drop_minus ex_fresh).map Prod.snd).getD ex_fresh

/-- Every slot has kind `arg_NONE` exactly when its name is empty. -/
def kinds_match (l : List cmd_arg) : Prop :=
  ∀ a ∈ l, (a.type = .arg_NONE ↔ a.name = "")

instance (l : List cmd_arg) : Decidable (kinds_match l) := by
  unfold kinds_match
  infer_instance

/-! ## Sequences of calls on the queue -/

/-- One call on the queue: `cmdq_push_copy(&cmd)`, `cmdq_push_repeat(c, n)`,
`cmdq_pop(ctx)`, `cmdq_flush()` or `cmdq_release()`. -/
inductive queue_op where
  | push_copy (cmd : command)
  | push_repeat (c : cmd_code) (nrepeats : Int)
  | pop (ctx : cmd_context)
  | flush
  | release

/-- The state after one call, whatever it returns, or `none` when an assertion
fails. -/
def queue_op.run (env : Env) : queue_op → World → Option World
  | .push_copy cmd, w => (cmdq_push_copy cmd w).map Prod.snd
  | .push_repeat c n, w => (cmdq_push_repeat c n w).map Prod.snd
  | .pop ctx, w => some (cmdq_pop env ctx w).2
  | .flush, w => some (cmdq_flush w)
  | .release, w => some (cmdq_release w)

/-- The calls of a list, one after the other. -/
def queue_ops_run (env : Env) : List queue_op → World → Option World
  | [], w => some w
  | op :: rest, w =>
    match op.run env w with
    | none => none
    | some w1 => queue_ops_run env rest w1

/-- The number of queued records, `(cmd_head - cmd_tail) mod CMD_QUEUE_SIZE`. -/
def queued_count (w : World) : Nat :=
  (w.cmd_head + CMD_QUEUE_SIZE - w.cmd_tail) % CMD_QUEUE_SIZE

/-- The function `f` of another module leaves `cmd_head` and `cmd_tail`
alone. -/
def keeps_cursors (f : World → World) : Prop :=
  ∀ w : World, (f w).cmd_head = w.cmd_head ∧ (f w).cmd_tail = w.cmd_tail

/-- Calls that wrap around: nineteen walk commands pushed and popped, then two
more pushed, one popped, flush, one pushed, release. -/
def ex_queue_ops : List queue_op :=
  List.replicate 19 (.push_copy ex_walk) ++ List.replicate 19 (.pop .CTX_INIT) ++
    [.push_copy ex_walk, .push_repeat .CMD_OPEN 0, .pop .CTX_INIT, .flush,
      .push_copy ex_note, .release]

/-! ## Repeat counts that are not negative -/

/-- Every record of the queue, and the saved record `last_command`, from which
a `CMD_REPEAT` may be copied into the queue, has `nrepeats >= 0`. -/
def counts_nonneg (w : World) : Prop :=
  (∀ c ∈ w.cmd_queue, 0 ≤ c.nrepeats) ∧ 0 ≤ w.last_command.nrepeats

instance (w : World) : Decidable (counts_nonneg w) := by
  unfold counts_nonneg
  infer_instance

/-- The function `f` of another module keeps the repeat counts from going
negative and leaves `cmd_tail` alone. -/
def keeps_nonneg (f : World → World) : Prop :=
  ∀ w : World, counts_nonneg w → counts_nonneg (f w) ∧ (f w).cmd_tail = w.cmd_tail

/-! ## The source of a repeat after a background command -/

/-- The function `f` of another module does not call `cmd_disable_repeat` and
leaves `last_command_idx` alone. -/
def keeps_repeat_source (f : World → World) : Prop :=
  ∀ x : World, (f x).repeat_prev_allowed = x.repeat_prev_allowed ∧
    (f x).last_command_idx = x.last_command_idx

/-- Handlers of which only that of `CMD_WALK` calls `cmd_disable_repeat`. -/
def ex_env_walk_disable : Env :=
  { ex_env with
    handler := fun c _ w =>
      match c with
      | .CMD_WALK => cmd_disable_repeat w
      | _ => w }

/-- The state after the walk command was pushed and dispatched, its handler
calling `cmd_disable_repeat`, and the background autopickup was pushed. -/
def ex_background_queued : World :=
  ((cmdq_push_copy ex_background
    (cmdq_pop ex_env_walk_disable .CTX_INIT ex_queued).2).map Prod.snd).getD ex_fresh

/-! ## The selection of an effect -/

/-- In `cmd_get_effect_from_list`, the value of `count` after the first block:
the length of the chain when the caller passed `-1`. -/
def effect_count (effect : List effect) (count : Int) : Int :=
  if count = -1 then (effect.length : Int) else count

/-- In `cmd_get_effect_from_list`, the test that guards the write-back: the
selection is `-2` with `allow_random`, or an index below `count`. -/
def selection_usable (selection count : Int) (allow_random : Bool) : Prop :=
  (selection = -2 ∧ allow_random = true) ∨ (selection ≥ 0 ∧ selection < count)

instance (selection count : Int) (allow_random : Bool) :
    Decidable (selection_usable selection count allow_random) := by
  unfold selection_usable
  infer_instance

/-- The state `ex_queued` with the choice `-2` stored under `"choice"` in the
walk command, in a name field of 20 bytes. -/
def ex_choice_random : World :=
  ex_queued.set_slot 0
    (((cmd_set_arg_choice 20 ex_queued.heap (ex_queued.slot 0) (some "choice")
      (-2)).map Prod.snd).getD command.zero)

/-! ## Spells and books -/

/-- Spell prompts that answer spell 2, and book 1 when they choose the book. -/
def ex_spell_prompts : SpellPrompts :=
  { get_spell_from_book := fun _ _ _ _ w => (2, w)
    get_spell := fun _ _ _ _ _ _ w => (2, 1, w) }

/-- A cast command without arguments. -/
def ex_cast : command := { command.zero with code := .CMD_CAST }

/-- The state after `ex_cast` was pushed into `ex_fresh`. -/
def ex_cast_queued : World := ((cmdq_push_copy ex_cast ex_fresh).map Prod.snd).getD ex_fresh

/-! ## First in, first out -/

/-- `cmdq_push_copy` of each record of a list in turn: the values returned and
the final state, or `none` when an assertion fails. -/
def cmdq_push_list : List command → World → Option (List Int × World)
  | [], w => some ([], w)
  | c :: rest, w =>
    match cmdq_push_copy c w with
    | none => none
    | some r => (cmdq_push_list rest r.2).map (fun t => (r.1 :: t.1, t.2))

/-- The records that the first `n` calls of `cmdq_pop(ctx)` hand to
`process_command`, as they are in their slots at that time, in order. -/
def cmdq_pops_records (env : Env) (ctx : cmd_context) : Nat → World → List command
  | 0, _ => []
  | n + 1, w =>
    match cmdq_pop_fetch w with
    | some kw => kw.2.slot kw.1 :: cmdq_pops_records env ctx n (cmdq_pop env ctx w).2
    | none => cmdq_pops_records env ctx n (cmdq_pop env ctx w).2

/-- The code, the repeat count, the background flag and the arguments of a
record: all of it but the context, which `process_command` sets. -/
def command.body (c : command) : cmd_code × Int × Int × List cmd_arg :=
  (c.code, c.nrepeats, c.background_command, c.arg)

/-- Whether the entry of `game_cmds` for the code has `repeat_allowed` set and
`auto_repeat_n > 0`. -/
def auto_repeats (c : cmd_code) : Bool :=
  decide (cmd_idx c ≠ -1) && ((game_cmds.getD (cmd_idx c).toNat default).repeat_allowed &&
    decide ((game_cmds.getD (cmd_idx c).toNat default).auto_repeat_n > 0))

/-- The function `f` of another module pushes no command and leaves the
records of the queue alone: the cursors, `last_command_idx`, `repeating`, and
in every slot the code, the repeat count, the background flag and the
arguments. -/
def keeps_records (f : World → World) : Prop :=
  ∀ w : World, queue_frame w (f w) ∧ counts_frame w (f w)

/-- A queue whose cursors are both at slot 18. -/
def ex_at_18 : World := { ex_fresh with cmd_head := 18, cmd_tail := 18 }

/-- Three commands: walk north, walk south and the inscription. -/
def ex_three : List command := [ex_walk, ex_walk_south, ex_note]

/-! ## Counting a repeat down -/

/-- The repeat counts that the handlers called by the first `n` calls of
`cmdq_pop(ctx)` find in the record they are passed, in order. -/
def cmdq_pops_counts (env : Env) (ctx : cmd_context) : Nat → World → List Int
  | 0, _ => []
  | n + 1, w =>
    match cmdq_pop_call env ctx w with
    | some r => (r.2.2.slot r.1).nrepeats :: cmdq_pops_counts env ctx n (cmdq_pop env ctx w).2
    | none => cmdq_pops_counts env ctx n (cmdq_pop env ctx w).2

/-- The function `f` of another module leaves the timer `TMD_COMMAND` of the
player alone. -/
def keeps_timer (f : World → World) : Prop :=
  ∀ x : World, (f x).player.timed_COMMAND = x.player.timed_COMMAND

/-- The state after `cmdq_push_repeat(CMD_WALK, 3)` on the queue as first
initialised, followed by `cmdq_push_copy` of the inscription. -/
def ex_walk3_then_note : World :=
  ((cmdq_push_copy ex_note
    (((cmdq_push_repeat .CMD_WALK 3 ex_fresh).map Prod.snd).getD ex_fresh)).map
      Prod.snd).getD ex_fresh

/-! ## The forced attack during a repeat -/

/-- Collaborators of `ex_env` whose forced attack takes place and leaves the
state as it is. -/
def ex_env_attack : Env :=
  { ex_env with player_attack_random_monster := fun w => (true, w) }

/-- The state `ex_walk3_queued`, the walk command queued with a repeat count of
3, for a player whose timer `TMD_BLOODLUST` is at 50. -/
def ex_walk3_bloodlust : World :=
  { ex_walk3_queued with player := { ex_player with timed_BLOODLUST := 50 } }

/-! ## Theorems -/

/-- The link between `process_command` and `process_command_call`: when a
handler is called, the result of `process_command` is the state the handler
leaves, after the count of the execution. -/
theorem process_command_of_call (env : Env) (ctx : cmd_context) (k : Nat) (w : World)
    (c : cmd_code) (wh : World) (h : process_command_call env ctx k w = some (c, wh)) :
    process_command env ctx k w
      = process_command_count (w.slot k).nrepeats k (env.handler c k wh) := by
  unfold process_command_call at h
  unfold process_command
  cases he : process_command_entry k w with
  | none => rw [he] at h; exact absurd h (by simp)
  | some e =>
    rw [he] at h
    simp only at h ⊢
    split_ifs at h ⊢ with h1 h2
    simp only [Option.some.injEq, Prod.mk.injEq] at h
    rw [h.1, h.2]

/-- C1: with both cursors inside the queue, `cmdq_push_copy` of a command
other than `CMD_REPEAT` returns non-zero exactly when `(head + 1) mod 20 = tail`,
that is when 19 records are queued, and then the whole state (cursors, slots,
`last_command`, `last_command_idx`, both flags) is unchanged. -/
theorem cmdq_push_copy_full_iff (cmd : command) (w : World)
    (hh : w.cmd_head < CMD_QUEUE_SIZE) (ht : w.cmd_tail < CMD_QUEUE_SIZE)
    (hc : cmd.code ≠ .CMD_REPEAT) :
    ∃ r : Int × World, cmdq_push_copy cmd w = some r ∧
      (r.1 ≠ 0 ↔ (w.cmd_head + 1) % CMD_QUEUE_SIZE = w.cmd_tail) ∧
      ((w.cmd_head + 1) % CMD_QUEUE_SIZE = w.cmd_tail ↔
        (w.cmd_head + CMD_QUEUE_SIZE - w.cmd_tail) % CMD_QUEUE_SIZE = CMD_QUEUE_SIZE - 1) ∧
      (r.1 ≠ 0 → r.2 = w) := by
  unfold CMD_QUEUE_SIZE at *
  unfold cmdq_push_copy CMD_QUEUE_SIZE
  by_cases h1 : w.cmd_head + 1 = w.cmd_tail
  · refine ⟨(1, w), by simp [h1], ?_, ?_, by simp⟩
    · simp; omega
    · omega
  · by_cases h2 : w.cmd_head + 1 = 20 ∧ w.cmd_tail = 0
    · refine ⟨(1, w), by simp [h1, h2], ?_, ?_, by simp⟩
      · simp; omega
      · omega
    · simp only [h1, h2, if_false, hc, ne_eq, not_false_eq_true, if_true]
      refine ⟨_, rfl, ?_, ?_, ?_⟩
      · simp; omega
      · omega
      · simp

/-- Witness of C1 on a queue with `cmd_head = 18` and `cmd_tail = 19`. -/
theorem cmdq_push_copy_full_iff_witness :
    ∃ r : Int × World, cmdq_push_copy ex_walk ex_full = some r ∧
      (r.1 ≠ 0 ↔ (ex_full.cmd_head + 1) % CMD_QUEUE_SIZE = ex_full.cmd_tail) ∧
      ((ex_full.cmd_head + 1) % CMD_QUEUE_SIZE = ex_full.cmd_tail ↔
        (ex_full.cmd_head + CMD_QUEUE_SIZE - ex_full.cmd_tail) % CMD_QUEUE_SIZE
          = CMD_QUEUE_SIZE - 1) ∧
      (r.1 ≠ 0 → r.2 = ex_full) :=
  cmdq_push_copy_full_iff ex_walk ex_full (by decide) (by decide) (by decide)

/-! ### Frame lemmas for the repeat operations -/

theorem cmd_set_repeat_repeat_prev_allowed (n : Int) (w : World) :
    (cmd_set_repeat n w).repeat_prev_allowed = w.repeat_prev_allowed := rfl

theorem process_command_count_repeat_prev_allowed (n : Int) (k : Nat) (w : World) :
    (process_command_count n k w).repeat_prev_allowed = w.repeat_prev_allowed := by
  unfold process_command_count
  split_ifs <;> rfl

/-- When `cmdq_pop` calls a handler, it returns `true` and its final state is
the one the handler leaves, after the count of the execution. -/
theorem cmdq_pop_of_call (env : Env) (ctx : cmd_context) (w : World) (k : Nat)
    (c : cmd_code) (wh : World) (h : cmdq_pop_call env ctx w = some (k, c, wh)) :
    ∃ n : Int, cmdq_pop env ctx w
      = (true, process_command_count n k (env.handler c k wh)) := by
  unfold cmdq_pop_call at h
  unfold cmdq_pop
  cases hf : cmdq_pop_fetch w with
  | none => rw [hf] at h; exact absurd h (by simp)
  | some kw =>
    obtain ⟨k', w1⟩ := kw
    rw [hf] at h
    simp only [Option.map_eq_some'] at h
    obtain ⟨⟨c', wh'⟩, hc, he⟩ := h
    simp only [Prod.mk.injEq] at he
    obtain ⟨hk, hc', hw'⟩ := he
    subst hk hc' hw'
    exact ⟨_, congrArg (Prod.mk true) (process_command_of_call env ctx _ _ _ _ hc)⟩

/-- A push of `CMD_REPEAT` while `repeat_prev_allowed` is false is rejected and
changes nothing. -/
theorem cmdq_push_copy_repeat_not_allowed (q : command) (w : World)
    (hq : q.code = .CMD_REPEAT) (ha : w.repeat_prev_allowed = false) :
    cmdq_push_copy q w = some (1, w) := by
  unfold cmdq_push_copy
  split_ifs <;> simp_all

/-- C6: if `cmdq_pop` calls the handler of a command and that handler calls
`cmd_disable_repeat` (nothing it does afterwards touches
`repeat_prev_allowed`), then `cmdq_pop` returns `true` and a following
`cmdq_push_copy` of `CMD_REPEAT` returns 1 and leaves the state, so the queue,
as it was. -/
theorem repeat_rejected_after_disable (env : Env) (ctx : cmd_context) (w : World)
    (k : Nat) (c : cmd_code) (wh : World) (before after : World → World) (q : command)
    (hcall : cmdq_pop_call env ctx w = some (k, c, wh))
    (hh : env.handler c k = fun x => after (cmd_disable_repeat (before x)))
    (hafter : ∀ x : World, (after x).repeat_prev_allowed = x.repeat_prev_allowed)
    (hq : q.code = .CMD_REPEAT) :
    (cmdq_pop env ctx w).1 = true ∧
      cmdq_push_copy q (cmdq_pop env ctx w).2 = some (1, (cmdq_pop env ctx w).2) := by
  obtain ⟨n, hn⟩ := cmdq_pop_of_call env ctx w k c wh hcall
  rw [hn]
  refine ⟨rfl, cmdq_push_copy_repeat_not_allowed q _ hq ?_⟩
  simp only [process_command_count_repeat_prev_allowed, hh, hafter]
  rfl

/-- Witness of C6: a walk command whose handler disables the repeat. -/
theorem repeat_rejected_after_disable_witness :
    (cmdq_pop ex_env_disable .CTX_INIT ex_queued).1 = true ∧
      cmdq_push_copy ex_repeat (cmdq_pop ex_env_disable .CTX_INIT ex_queued).2
        = some (1, (cmdq_pop ex_env_disable .CTX_INIT ex_queued).2) :=
  repeat_rejected_after_disable ex_env_disable .CTX_INIT ex_queued 0 .CMD_WALK ex_at_call
    id id ex_repeat (by decide) rfl (fun _ => rfl) rfl

/-- A push that returns non-zero changes nothing. -/
theorem cmdq_push_copy_rejected_unchanged (q : command) (w : World) (r : Int × World)
    (h : cmdq_push_copy q w = some r) (hr : r.1 ≠ 0) : r.2 = w := by
  unfold cmdq_push_copy at h
  split_ifs at h <;> simp at h <;> subst h <;> first | rfl | exact absurd rfl hr

/-- C7: a push of `CMD_REPEAT` that returns non-zero leaves the whole state
unchanged; on a queue that is not full it returns non-zero exactly when
`repeat_prev_allowed` is false or there is no prior command
(`last_command_idx < 0` and `last_command.code = CMD_NULL`); it is rejected on
the queue as first initialised and on the queue left by `cmdq_release`. -/
theorem cmdq_push_copy_repeat_rejected_iff (q : command) (w : World)
    (hq : q.code = .CMD_REPEAT) :
    (∀ r : Int × World, cmdq_push_copy q w = some r → r.1 ≠ 0 → r.2 = w) ∧
    (w.cmd_head < CMD_QUEUE_SIZE → w.cmd_tail < CMD_QUEUE_SIZE →
      (w.cmd_head + 1) % CMD_QUEUE_SIZE ≠ w.cmd_tail →
      w.last_command_idx < (CMD_QUEUE_SIZE : Int) →
      ∃ r : Int × World, cmdq_push_copy q w = some r ∧
        (r.1 ≠ 0 ↔ (w.repeat_prev_allowed = false ∨
          (w.last_command_idx < 0 ∧ w.last_command.code = .CMD_NULL)))) ∧
    (∀ (h : Heap) (p : Player) (o : List object) (s : Nat),
      cmdq_push_copy q (World.init h p o s) = some (1, World.init h p o s)) ∧
    cmdq_push_copy q (cmdq_release w) = some (1, cmdq_release w) := by
  refine ⟨fun r h hr => cmdq_push_copy_rejected_unchanged q w r h hr, ?_, ?_, ?_⟩
  · intro hh ht hnf hidx
    have h1 : ¬ (w.cmd_head + 1 = w.cmd_tail) := by
      unfold CMD_QUEUE_SIZE at *; omega
    have h2 : ¬ (w.cmd_head + 1 = CMD_QUEUE_SIZE ∧ w.cmd_tail = 0) := by
      unfold CMD_QUEUE_SIZE at *; omega
    unfold cmdq_push_copy
    rw [if_neg h1, if_neg h2, if_neg (by simp [hq])]
    cases ha : w.repeat_prev_allowed
    · exact ⟨(1, w), by simp, by simp⟩
    · by_cases hi : w.last_command_idx ≥ 0
      · by_cases hne : w.last_command_idx ≠ (w.cmd_head : Int)
        · exact ⟨_, by simp only [Bool.not_true, Bool.false_eq_true, if_false, hi, if_true,
            hidx, not_true_eq_false, hne, ne_eq, not_false_eq_true]; rfl, by simp; omega⟩
        · exact ⟨_, by simp only [Bool.not_true, Bool.false_eq_true, if_false, hi, if_true,
            hidx, not_true_eq_false, hne]; rfl, by simp; omega⟩
      · by_cases hl : w.last_command.code ≠ .CMD_NULL
        · exact ⟨_, by simp only [Bool.not_true, Bool.false_eq_true, if_false, hi, hl, ne_eq,
            not_false_eq_true, if_true]; rfl, by simp; intro _; exact hl⟩
        · exact ⟨(1, w), by simp only [Bool.not_true, Bool.false_eq_true, if_false, hi, hl,
            if_true], by simp; exact ⟨by omega, by simpa using hl⟩⟩
  · intro h p o s
    unfold cmdq_push_copy World.init CMD_QUEUE_SIZE
    simp [hq, command.zero]
  · unfold cmdq_push_copy cmdq_release cmdq_flush CMD_QUEUE_SIZE
    simp [hq]

/-- Witness of C7: `CMD_REPEAT` pushed into the queue as first initialised, and
into a queue that is not full after a walk command was dispatched. -/
theorem cmdq_push_copy_repeat_rejected_iff_witness :
    cmdq_push_copy ex_repeat ex_fresh = some (1, ex_fresh) ∧
    ∃ r : Int × World, cmdq_push_copy ex_repeat ex_walk_done = some r ∧
      (r.1 ≠ 0 ↔ (ex_walk_done.repeat_prev_allowed = false ∨
        (ex_walk_done.last_command_idx < 0 ∧
          ex_walk_done.last_command.code = cmd_code.CMD_NULL))) :=
  ⟨(cmdq_push_copy_repeat_rejected_iff ex_repeat ex_fresh rfl).2.2.1 _ _ _ _,
   (cmdq_push_copy_repeat_rejected_iff ex_repeat ex_walk_done rfl).2.1
     (by decide) (by decide) (by decide) (by decide)⟩

/-! ### Slots of the queue -/

theorem World.slot_set_slot (w : World) (i j : Nat) (c : command) :
    (w.set_slot i c).slot j = if i = j ∧ i < w.cmd_queue.length then c else w.slot j := by
  unfold World.slot World.set_slot
  simp only [List.getD_eq_getElem?_getD, List.getElem?_set]
  by_cases h : i = j
  · subst h
    by_cases hl : i < w.cmd_queue.length
    · simp [hl]
    · simp [hl, List.getElem?_eq_none (Nat.le_of_not_lt hl)]
  · simp [h]

theorem World.slot_set_slot_self (w : World) (i : Nat) (c : command)
    (h : i < w.cmd_queue.length) : (w.set_slot i c).slot i = c := by
  rw [World.slot_set_slot]; simp [h]

theorem World.slot_set_slot_ne (w : World) (i j : Nat) (c : command) (h : i ≠ j) :
    (w.set_slot i c).slot j = w.slot j := by
  rw [World.slot_set_slot]; simp [h]

theorem World.length_set_slot (w : World) (i : Nat) (c : command) :
    (w.set_slot i c).cmd_queue.length = w.cmd_queue.length := by
  simp [World.set_slot]

/-- C3, as the code has it: `cmdq_push_copy` of a command other than
`CMD_REPEAT` into a queue that is not full returns 0 and stores the caller's
record itself in the slot at the old head (a shallow copy), so that each string
argument of the queued record holds the same address as the caller's record:
the queue takes over the caller's buffers. -/
theorem cmdq_push_copy_stores_caller_record (cmd : command) (w : World)
    (hc : cmd.code ≠ .CMD_REPEAT) (hlen : w.cmd_queue.length = CMD_QUEUE_SIZE)
    (hh : w.cmd_head < CMD_QUEUE_SIZE) (ht : w.cmd_tail < CMD_QUEUE_SIZE)
    (hnf : (w.cmd_head + 1) % CMD_QUEUE_SIZE ≠ w.cmd_tail) :
    ∃ w' : World, cmdq_push_copy cmd w = some (0, w') ∧
      w'.slot w.cmd_head = cmd ∧ (w'.slot w.cmd_head).strings = cmd.strings := by
  have h1 : ¬ (w.cmd_head + 1 = w.cmd_tail) := by
    unfold CMD_QUEUE_SIZE at *; omega
  have h2 : ¬ (w.cmd_head + 1 = CMD_QUEUE_SIZE ∧ w.cmd_tail = 0) := by
    unfold CMD_QUEUE_SIZE at *; omega
  unfold cmdq_push_copy
  rw [if_neg h1, if_neg h2, if_pos hc]
  refine ⟨_, rfl, ?_⟩
  have key : (cmdq_push_advance (cmdq_push_store cmd (cmdq_push_save_last w))).slot
      w.cmd_head = cmd := by
    have e1 : (cmdq_push_save_last w).cmd_head = w.cmd_head := by
      unfold cmdq_push_save_last; split_ifs <;> rfl
    have e2 : (cmdq_push_save_last w).cmd_queue = w.cmd_queue := by
      unfold cmdq_push_save_last; split_ifs <;> rfl
    show (cmdq_push_store cmd (cmdq_push_save_last w)).slot w.cmd_head = cmd
    unfold cmdq_push_store
    rw [e1]
    exact World.slot_set_slot_self _ _ _
      (by show w.cmd_head < (cmdq_push_save_last w).cmd_queue.length; rw [e2]; omega)
  exact ⟨key, by rw [key]⟩

/-- Witness of the amended C3 on the inscribe command with a string. -/
theorem cmdq_push_copy_stores_caller_record_witness :
    ∃ w' : World, cmdq_push_copy ex_note ex_fresh = some (0, w') ∧
      w'.slot ex_fresh.cmd_head = ex_note ∧
      (w'.slot ex_fresh.cmd_head).strings = ex_note.strings :=
  cmdq_push_copy_stores_caller_record ex_note ex_fresh (by decide) (by decide) (by decide)
    (by decide) (by decide)

/-- Counterexample to C3: after the inscribe command whose `"note"` is the
buffer at address 1 is pushed, the string argument of the queued record is that
same address 1, not a copy; releasing the queued record frees the buffer that
the caller's record still points to. -/
theorem cmdq_push_copy_aliases_caller_buffer :
    (cmdq_push_copy ex_note ex_fresh).map
        (fun r => (r.1, (r.2.slot 0).strings, r.2.heap.read 1,
          (cmd_release r.2.heap (r.2.slot 0)).1.read 1))
      = some (0, [1], some "hello", none) ∧
    ex_note.strings = [1] ∧
    ¬ (∀ w' : World, cmdq_push_copy ex_note ex_fresh = some (0, w') →
        ∀ p ∈ (w'.slot 0).strings, p ∉ ex_note.strings) := by
  refine ⟨by decide, by decide, ?_⟩
  intro h
  exact h _ rfl 1 (by decide) (by decide)

/-! ### The heap -/

theorem Heap.read_zero (h : Heap) : Heap.read h 0 = none := by
  simp [Heap.read]

theorem Heap.read_append_of_le (h : Heap) (x : Option String) (p : Nat)
    (hp : p ≤ h.length) : Heap.read (h ++ [x]) p = Heap.read h p := by
  unfold Heap.read
  by_cases h0 : p = 0
  · simp [h0]
  · have hlt : p - 1 < h.length := by omega
    rw [if_neg h0, if_neg h0, List.getD_append _ _ _ _ hlt]

theorem Heap.read_append_new (h : Heap) (x : Option String) :
    Heap.read (h ++ [x]) (h.length + 1) = x := by
  unfold Heap.read
  simp [List.getElem?_concat_length]

theorem string_make_length_le (h : Heap) (s : Option String) :
    h.length ≤ (string_make h s).2.length := by
  cases s <;> simp [string_make]

theorem string_make_read_old (h : Heap) (s : Option String) (p : Nat) (hp : p ≤ h.length) :
    (string_make h s).2.read p = h.read p := by
  cases s with
  | none => rfl
  | some t => exact Heap.read_append_of_le h _ p hp

theorem string_make_read_new (h : Heap) (s : Option String) :
    (string_make h s).2.read (string_make h s).1 = s := by
  cases s with
  | none => exact Heap.read_zero h
  | some t => exact Heap.read_append_new h _

theorem string_make_le (h : Heap) (s : Option String) :
    (string_make h s).1 ≤ (string_make h s).2.length := by
  cases s <;> simp [string_make]

theorem string_free_length (h : Heap) (q : Nat) : (string_free h q).length = h.length := by
  unfold string_free; split_ifs <;> simp

theorem string_free_read_ne (h : Heap) (p q : Nat) (hne : p ≠ q) :
    (string_free h q).read p = h.read p := by
  unfold string_free Heap.read
  by_cases hq : q = 0
  · simp [hq]
  · by_cases hp : p = 0
    · simp [hp]
    · have hne1 : q - 1 ≠ p - 1 := by omega
      simp only [hq, hp, if_false, List.getD_eq_getElem?_getD]
      rw [List.getElem?_set_ne hne1]

theorem string_free_read_self (h : Heap) (p : Nat) : (string_free h p).read p = none := by
  unfold string_free Heap.read
  by_cases hp : p = 0
  · simp [hp]
  · simp only [hp, if_false, List.getD_eq_getElem?_getD, List.getElem?_set]
    by_cases hl : p - 1 < h.length <;> simp [hl]

/-! ### `cmd_copy` and `cmd_release` on the heap -/

theorem cmd_copy_args_length_le (l : List cmd_arg) :
    ∀ h : Heap, h.length ≤ (cmd_copy_args h l).1.length := by
  induction l with
  | nil => intro h; exact Nat.le_refl _
  | cons a rest ih =>
    intro h
    unfold cmd_copy_args
    split_ifs
    · exact Nat.le_trans (string_make_length_le h _) (ih _)
    · exact ih h

theorem cmd_copy_args_read_old (l : List cmd_arg) :
    ∀ (h : Heap) (p : Nat), p ≤ h.length → (cmd_copy_args h l).1.read p = h.read p := by
  induction l with
  | nil => intro h p _; rfl
  | cons a rest ih =>
    intro h p hp
    unfold cmd_copy_args
    split_ifs
    · show (cmd_copy_args _ rest).1.read p = h.read p
      rw [ih _ p (Nat.le_trans hp (string_make_length_le h _)), string_make_read_old h _ p hp]
    · exact ih h p hp

theorem view_congr (a : cmd_arg) (h1 h2 : Heap)
    (hr : a.type = .arg_STRING → h1.read a.data.get_string = h2.read a.data.get_string) :
    a.view h1 = a.view h2 := by
  unfold cmd_arg.view
  split_ifs with ht
  · rw [hr ht]
  · rfl

theorem map_view_congr (l : List cmd_arg) (h1 h2 : Heap)
    (hr : ∀ p ∈ strings_of l, h1.read p = h2.read p) :
    l.map (cmd_arg.view h1) = l.map (cmd_arg.view h2) := by
  induction l with
  | nil => rfl
  | cons a rest ih =>
    simp only [List.map_cons]
    by_cases ht : a.type = .arg_STRING
    · have hs : strings_of (a :: rest) = a.data.get_string :: strings_of rest := by
        simp [strings_of, ht]
      rw [hs] at hr
      rw [view_congr a h1 h2 (fun _ => hr _ (List.mem_cons_self _ _)),
        ih (fun p hp => hr p (List.mem_cons_of_mem _ hp))]
    · have hs : strings_of (a :: rest) = strings_of rest := by
        simp [strings_of, ht]
      rw [hs] at hr
      rw [view_congr a h1 h2 (fun h => absurd h ht), ih hr]

/-- A copy made by `cmd_copy` shows, in the heap after the copy, what the source
showed before it, provided the addresses in the source were handed out by
`string_make`. -/
theorem cmd_copy_args_view (l : List cmd_arg) :
    ∀ h : Heap, (∀ p ∈ strings_of l, p ≤ h.length) →
      (cmd_copy_args h l).2.map (cmd_arg.view (cmd_copy_args h l).1)
        = l.map (cmd_arg.view h) := by
  induction l with
  | nil => intro h _; rfl
  | cons a rest ih =>
    intro h hall
    by_cases ht : a.type = .arg_STRING
    · have hs : strings_of (a :: rest) = a.data.get_string :: strings_of rest := by
        simp [strings_of, ht]
      rw [hs] at hall
      have hrest : ∀ p ∈ strings_of rest, p ≤ h.length :=
        fun p hp => hall p (List.mem_cons_of_mem _ hp)
      have hle := string_make_length_le h (h.read a.data.get_string)
      have e : cmd_copy_args h (a :: rest)
          = ((cmd_copy_args (string_make h (h.read a.data.get_string)).2 rest).1,
             { a with data := .string (string_make h (h.read a.data.get_string)).1 }
               :: (cmd_copy_args (string_make h (h.read a.data.get_string)).2 rest).2) := by
        simp [cmd_copy_args, ht]
      rw [e]
      simp only [List.map_cons]
      rw [ih _ (fun p hp => Nat.le_trans (hrest p hp) hle)]
      rw [map_view_congr rest _ h (fun p hp => string_make_read_old h _ p (hrest p hp))]
      congr 1
      unfold cmd_arg.view
      simp only [ht, if_true, cmd_arg_data.get_string]
      rw [cmd_copy_args_read_old rest _ _ (string_make_le h _), string_make_read_new]
    · have hs : strings_of (a :: rest) = strings_of rest := by
        simp [strings_of, ht]
      rw [hs] at hall
      have e : cmd_copy_args h (a :: rest)
          = ((cmd_copy_args h rest).1, a :: (cmd_copy_args h rest).2) := by
        simp [cmd_copy_args, ht]
      rw [e]
      simp only [List.map_cons]
      rw [ih h hall]
      congr 1
      exact view_congr a _ _ (fun h' => absurd h' ht)

theorem cmd_copy_view (h : Heap) (src : command) (hall : ∀ p ∈ src.strings, p ≤ h.length) :
    (cmd_copy h src).2.view (cmd_copy h src).1 = src.view h := by
  unfold cmd_copy command.view
  simp only
  rw [cmd_copy_args_view src.arg h hall]

theorem cmd_release_args_length (l : List cmd_arg) :
    ∀ h : Heap, (cmd_release_args h l).1.length = h.length := by
  induction l with
  | nil => intro h; rfl
  | cons a rest ih =>
    intro h
    unfold cmd_release_args
    split_ifs
    · show (cmd_release_args _ rest).1.length = h.length
      rw [ih, string_free_length]
    · exact ih h

theorem cmd_release_args_read (l : List cmd_arg) :
    ∀ (h : Heap) (p : Nat), p ∉ strings_of l → (cmd_release_args h l).1.read p = h.read p := by
  induction l with
  | nil => intro h p _; rfl
  | cons a rest ih =>
    intro h p hp
    by_cases ht : a.type = .arg_STRING
    · have hs : strings_of (a :: rest) = a.data.get_string :: strings_of rest := by
        simp [strings_of, ht]
      rw [hs] at hp
      simp only [List.mem_cons, not_or] at hp
      unfold cmd_release_args
      rw [if_pos ht]
      show (cmd_release_args _ rest).1.read p = h.read p
      rw [ih _ p hp.2, string_free_read_ne h p _ hp.1]
    · have hs : strings_of (a :: rest) = strings_of rest := by
        simp [strings_of, ht]
      rw [hs] at hp
      unfold cmd_release_args
      rw [if_neg ht]
      exact ih h p hp

theorem cmd_release_length (h : Heap) (c : command) :
    (cmd_release h c).1.length = h.length := cmd_release_args_length c.arg h

theorem cmd_release_read (h : Heap) (c : command) (p : Nat) (hp : p ∉ c.strings) :
    (cmd_release h c).1.read p = h.read p := cmd_release_args_read c.arg h p hp

/-! ### Materialising a repeat -/

theorem cmdq_push_duplicate_view (src : command) (w : World)
    (hlen : w.cmd_head < w.cmd_queue.length)
    (halloc : ∀ p ∈ src.strings, p ≤ w.heap.length)
    (hown : ∀ p ∈ src.strings, p ∉ (w.slot w.cmd_head).strings) :
    ((cmdq_push_duplicate src w).slot w.cmd_head).view (cmdq_push_duplicate src w).heap
      = src.view w.heap := by
  unfold cmdq_push_duplicate
  simp only
  rw [World.slot_set_slot, if_pos ⟨rfl, hlen⟩]
  show (cmd_copy (cmd_release w.heap (w.slot w.cmd_head)).1 src).2.view
      (cmd_copy (cmd_release w.heap (w.slot w.cmd_head)).1 src).1 = src.view w.heap
  rw [cmd_copy_view _ src (fun p hp => by rw [cmd_release_length]; exact halloc p hp)]
  unfold command.view
  rw [map_view_congr src.arg _ w.heap (fun p hp => cmd_release_read _ _ p (hown p hp))]

theorem cmdq_push_advance_head (w : World) (hh : w.cmd_head < CMD_QUEUE_SIZE) :
    (cmdq_push_advance w).cmd_head = (w.cmd_head + 1) % CMD_QUEUE_SIZE := by
  unfold cmdq_push_advance CMD_QUEUE_SIZE at *
  simp only
  split_ifs <;> omega

/-- C5: when `cmdq_push_copy` of `CMD_REPEAT` returns 0, the record in the slot
at the old head shows the same context, code, repeat count, background flag
and arguments (the text of string arguments included) as the record that was
the source of the repeat: `cmd_queue[last_command_idx]` if that index is not
negative, `last_command` otherwise; `cmd_head` advances by one modulo 20 and
`cmd_tail` stays.  When `last_command_idx = cmd_head` nothing is copied: the
slots and the heap are untouched.  The addresses in the source must have been
handed out by `string_make` and must not be held by the record that the push
releases. -/
theorem cmdq_push_copy_repeat_materializes (q : command) (w w' : World)
    (hq : q.code = .CMD_REPEAT)
    (hlen : w.cmd_queue.length = CMD_QUEUE_SIZE) (hh : w.cmd_head < CMD_QUEUE_SIZE)
    (halloc : ∀ p ∈ w.repeat_source.strings, p ≤ w.heap.length)
    (hown : w.last_command_idx ≠ (w.cmd_head : Int) →
      ∀ p ∈ w.repeat_source.strings, p ∉ (w.slot w.cmd_head).strings)
    (hpush : cmdq_push_copy q w = some (0, w')) :
    (w'.slot w.cmd_head).view w'.heap = w.repeat_source.view w.heap ∧
      w'.cmd_head = (w.cmd_head + 1) % CMD_QUEUE_SIZE ∧ w'.cmd_tail = w.cmd_tail ∧
      (w.last_command_idx = (w.cmd_head : Int) →
        w'.cmd_queue = w.cmd_queue ∧ w'.heap = w.heap) := by
  have hl : w.cmd_head < w.cmd_queue.length := by omega
  unfold cmdq_push_copy at hpush
  split_ifs at hpush with h1 h2 h3 h4 h5 h6 h7 h8
  all_goals first
    | exact absurd hq ‹q.code ≠ cmd_code.CMD_REPEAT›
    | (simp at hpush; done)
    | skip
  · -- copy of `cmd_queue[last_command_idx]`
    simp only [Option.some.injEq, Prod.mk.injEq, true_and] at hpush
    subst hpush
    have hs : w.repeat_source = w.slot w.last_command_idx.toNat := by
      unfold World.repeat_source; rw [if_pos h5]
    rw [hs] at halloc hown ⊢
    refine ⟨cmdq_push_duplicate_view _ w hl halloc (hown h7), cmdq_push_advance_head _ hh,
      rfl, fun h => absurd h h7⟩
  · -- `last_command_idx = cmd_head`: nothing is copied
    simp only [Option.some.injEq, Prod.mk.injEq, true_and] at hpush
    subst hpush
    have h7' : w.last_command_idx = (w.cmd_head : Int) := by
      by_contra hne; exact h7 hne
    have hs : w.repeat_source = w.slot w.cmd_head := by
      unfold World.repeat_source; rw [if_pos h5, h7']; simp
    rw [hs]
    exact ⟨rfl, cmdq_push_advance_head _ hh, rfl, fun _ => ⟨rfl, rfl⟩⟩
  · -- copy of `last_command`
    simp only [Option.some.injEq, Prod.mk.injEq, true_and] at hpush
    subst hpush
    have hs : w.repeat_source = w.last_command := by
      unfold World.repeat_source; rw [if_neg h5]
    have hne : w.last_command_idx ≠ (w.cmd_head : Int) := by omega
    rw [hs] at halloc hown ⊢
    exact ⟨cmdq_push_duplicate_view _ w hl halloc (hown hne), cmdq_push_advance_head _ hh,
      rfl, fun h => absurd h hne⟩

/-- Witness of C5: the inscribe command with the note "hello" was dispatched
from slot 0 and is repeated into slot 1. -/
theorem cmdq_push_copy_repeat_materializes_witness :
    (ex_note_repeated.slot ex_note_done.cmd_head).view ex_note_repeated.heap
        = ex_note_done.repeat_source.view ex_note_done.heap ∧
      ex_note_repeated.cmd_head = (ex_note_done.cmd_head + 1) % CMD_QUEUE_SIZE ∧
      ex_note_repeated.cmd_tail = ex_note_done.cmd_tail ∧
      (ex_note_done.last_command_idx = (ex_note_done.cmd_head : Int) →
        ex_note_repeated.cmd_queue = ex_note_done.cmd_queue ∧
          ex_note_repeated.heap = ex_note_done.heap) :=
  cmdq_push_copy_repeat_materializes ex_repeat ex_note_done ex_note_repeated rfl
    (by decide) (by decide) (by decide) (by decide) (by decide)

/-! ### What the dispatch leaves in place -/

theorem queue_frame_refl (w : World) : queue_frame w w :=
  ⟨rfl, rfl, rfl, rfl, fun _ => ⟨rfl, rfl, rfl⟩⟩

theorem queue_frame_trans (a b c : World) (h1 : queue_frame a b) (h2 : queue_frame b c) :
    queue_frame a c := by
  obtain ⟨p1, p2, p3, p4, p5⟩ := h1
  obtain ⟨q1, q2, q3, q4, q5⟩ := h2
  refine ⟨q1.trans p1, q2.trans p2, q3.trans p3, q4.trans p4, fun j => ?_⟩
  obtain ⟨x1, x2, x3⟩ := p5 j
  obtain ⟨y1, y2, y3⟩ := q5 j
  exact ⟨y1.trans x1, y2.trans x2, y3.trans x3⟩

theorem queue_frame_of_eq (w w' : World) (hq : w'.cmd_queue = w.cmd_queue)
    (hh : w'.cmd_head = w.cmd_head) (ht : w'.cmd_tail = w.cmd_tail)
    (hi : w'.last_command_idx = w.last_command_idx) : queue_frame w w' := by
  refine ⟨hh, ht, hi, by rw [hq], fun j => ?_⟩
  have : w'.slot j = w.slot j := by unfold World.slot; rw [hq]
  rw [this]; exact ⟨rfl, rfl, rfl⟩

theorem queue_frame_set_slot (w : World) (k : Nat) (c : command)
    (h1 : c.code = (w.slot k).code)
    (h2 : c.background_command = (w.slot k).background_command)
    (h3 : c.arg = (w.slot k).arg) : queue_frame w (w.set_slot k c) := by
  refine ⟨rfl, rfl, rfl, World.length_set_slot w k c, fun j => ?_⟩
  rw [World.slot_set_slot]
  split_ifs with h
  · obtain ⟨hk, _⟩ := h
    subst hk
    exact ⟨h1, h2, h3⟩
  · exact ⟨rfl, rfl, rfl⟩

theorem cmd_set_repeat_frame (n : Int) (w : World) : queue_frame w (cmd_set_repeat n w) := by
  have h := queue_frame_set_slot w (prev_cmd_idx w.cmd_tail)
    { w.slot (prev_cmd_idx w.cmd_tail) with nrepeats := n } rfl rfl rfl
  exact queue_frame_trans _ _ _ h (queue_frame_of_eq _ _ rfl rfl rfl rfl)

theorem process_command_prepare_frame (ctx : cmd_context) (e : command_info) (k : Nat)
    (w : World) : queue_frame w (process_command_prepare ctx e k w) := by
  unfold process_command_prepare
  have step : ∀ w1 : World, queue_frame w w1 →
      queue_frame w (({ w1 with repeat_prev_allowed := true } : World).set_slot k
        { ({ w1 with repeat_prev_allowed := true } : World).slot k with context := ctx }) := by
    intro w1 h1
    refine queue_frame_trans _ _ _ h1 (queue_frame_trans _ _ _
      (queue_frame_of_eq w1 { w1 with repeat_prev_allowed := true } rfl rfl rfl rfl)
      (queue_frame_set_slot _ k _ rfl rfl rfl))
  apply step
  split_ifs
  · exact cmd_set_repeat_frame _ w
  · exact queue_frame_refl w
  · exact queue_frame_trans _ _ _ (queue_frame_set_slot w k { w.slot k with nrepeats := 0 }
      rfl rfl rfl) (queue_frame_of_eq _ _ rfl rfl rfl rfl)

theorem process_command_prepare_heap (ctx : cmd_context) (e : command_info) (k : Nat)
    (w : World) : (process_command_prepare ctx e k w).heap = w.heap := by
  unfold process_command_prepare
  split_ifs <;> rfl

theorem process_command_prepare_allowed (ctx : cmd_context) (e : command_info) (k : Nat)
    (w : World) : (process_command_prepare ctx e k w).repeat_prev_allowed = true := rfl

theorem process_command_count_frame (n : Int) (k : Nat) (w : World) :
    queue_frame w (process_command_count n k w) := by
  unfold process_command_count
  split_ifs
  · exact cmd_set_repeat_frame _ w
  · exact queue_frame_refl w

/-- The bloodlust block either changes only the player and the generator and
goes on to the handler, or hands over to `player_attack_random_monster`. -/
theorem process_command_coerce_cases (env : Env) (e : command_info) (k : Nat) (w : World) :
    (∃ (pl : Player) (r : Nat),
      process_command_coerce env e k w = (false, { w with player := pl, rng := r })) ∨
    (∃ r : Nat, process_command_coerce env e k w
      = env.player_attack_random_monster { w with rng := r }) := by
  unfold process_command_coerce
  simp only
  split_ifs
  all_goals first
    | exact Or.inr ⟨_, rfl⟩
    | exact Or.inl ⟨w.player, w.rng, rfl⟩
    | exact Or.inl ⟨w.player, _, rfl⟩
    | exact Or.inl ⟨_, _, rfl⟩

/-- The state in which a handler is called has the queue of the state in which
`process_command` was entered, when an attack that does not take place leaves
the queue alone. -/
theorem process_command_call_queue (env : Env) (ctx : cmd_context) (k : Nat) (w : World)
    (c : cmd_code) (wh : World)
    (hatk : ∀ x : World, (env.player_attack_random_monster x).1 = false →
      queue_frame x (env.player_attack_random_monster x).2)
    (h : process_command_call env ctx k w = some (c, wh)) :
    queue_frame w wh := by
  unfold process_command_call at h
  cases he : process_command_entry k w with
  | none => rw [he] at h; exact absurd h (by simp)
  | some e =>
    rw [he] at h
    simp only at h
    split_ifs at h with h2 h3
    simp only [Option.some.injEq, Prod.mk.injEq] at h
    obtain ⟨_, hw⟩ := h
    have hp := process_command_prepare_frame ctx e k
      { w with player := { w.player with command_wrk := 0 } }
    have h0 : queue_frame w { w with player := { w.player with command_wrk := 0 } } :=
      queue_frame_of_eq _ _ rfl rfl rfl rfl
    rcases process_command_coerce_cases env e k (process_command_prepare ctx e k
      { w with player := { w.player with command_wrk := 0 } }) with ⟨pl, r, hc⟩ | ⟨r, hc⟩
    · rw [hc] at hw
      subst hw
      exact queue_frame_trans _ _ _ (queue_frame_trans _ _ _ h0 hp)
        (queue_frame_of_eq _ _ rfl rfl rfl rfl)
    · rw [hc] at hw h3
      subst hw
      have ha := hatk _ (by simpa using h3)
      exact queue_frame_trans _ _ _ (queue_frame_trans _ _ _ (queue_frame_trans _ _ _ h0 hp)
        (queue_frame_of_eq _ _ rfl rfl rfl rfl)) ha

/-- The state in which a handler is called has the strings of the state in
which `process_command` was entered, when an attack that does not take place
leaves them alone. -/
theorem process_command_call_heap (env : Env) (ctx : cmd_context) (k : Nat) (w : World)
    (c : cmd_code) (wh : World)
    (hatk : ∀ x : World, (env.player_attack_random_monster x).1 = false →
      (env.player_attack_random_monster x).2.heap = x.heap)
    (h : process_command_call env ctx k w = some (c, wh)) :
    wh.heap = w.heap := by
  unfold process_command_call at h
  cases he : process_command_entry k w with
  | none => rw [he] at h; exact absurd h (by simp)
  | some e =>
    rw [he] at h
    simp only at h
    split_ifs at h with h2 h3
    simp only [Option.some.injEq, Prod.mk.injEq] at h
    obtain ⟨_, hw⟩ := h
    have hph := process_command_prepare_heap ctx e k
      { w with player := { w.player with command_wrk := 0 } }
    rcases process_command_coerce_cases env e k (process_command_prepare ctx e k
      { w with player := { w.player with command_wrk := 0 } }) with ⟨pl, r, hc⟩ | ⟨r, hc⟩
    · rw [hc] at hw
      subst hw
      exact hph
    · rw [hc] at hw h3
      subst hw
      exact (hatk _ (by simpa using h3)).trans hph

/-! ### A string pushed and popped -/

theorem Heap.le_of_read_some (h : Heap) (p : Nat) (s : String) (hs : Heap.read h p = some s) :
    p ≤ h.length := by
  unfold Heap.read at hs
  by_cases h0 : p = 0
  · omega
  · rw [if_neg h0] at hs
    by_contra hlt
    have hge : h.length ≤ p - 1 := by omega
    rw [List.getD_eq_default _ _ hge] at hs
    exact absurd hs (by simp)

theorem cmdq_push_save_last_queue (w : World) :
    (cmdq_push_save_last w).cmd_queue = w.cmd_queue ∧
      (cmdq_push_save_last w).cmd_head = w.cmd_head ∧
      (cmdq_push_save_last w).cmd_tail = w.cmd_tail ∧
      (cmdq_push_save_last w).repeating = w.repeating := by
  unfold cmdq_push_save_last
  split_ifs <;> exact ⟨rfl, rfl, rfl, rfl⟩

theorem cmdq_push_save_last_read (w : World) (p : Nat) (s : String)
    (hs : w.heap.read p = some s) (hown : p ∉ w.last_command.strings) :
    (cmdq_push_save_last w).heap.read p = some s := by
  unfold cmdq_push_save_last
  split_ifs
  · show (cmd_copy_args (cmd_release w.heap w.last_command).1 (w.slot w.cmd_head).arg).1.read p
      = some s
    rw [cmd_copy_args_read_old _ _ p
      (by rw [cmd_release_length]; exact Heap.le_of_read_some _ _ _ hs),
      cmd_release_read _ _ p hown, hs]
  · exact hs

theorem cmdq_push_store_read (cmd : command) (w : World) (p : Nat)
    (hown : p ∉ (w.slot w.cmd_head).strings) :
    (cmdq_push_store cmd w).heap.read p = w.heap.read p :=
  cmd_release_read _ _ p hown

theorem cmdq_push_store_queue (cmd : command) (w : World) :
    (cmdq_push_store cmd w).cmd_queue = w.cmd_queue.set w.cmd_head cmd ∧
      (cmdq_push_store cmd w).cmd_head = w.cmd_head ∧
      (cmdq_push_store cmd w).cmd_tail = w.cmd_tail ∧
      (cmdq_push_store cmd w).repeating = w.repeating :=
  ⟨rfl, rfl, rfl, rfl⟩

/-- What `cmdq_pop` fetches when it is not repeating and the queue is not
empty: the record at the tail. -/
theorem cmdq_pop_fetch_next (w : World) (hr : w.repeating = false)
    (hne : w.cmd_head ≠ w.cmd_tail) :
    ∃ w' : World, cmdq_pop_fetch w = some (w.cmd_tail, w') ∧
      w'.cmd_queue = w.cmd_queue ∧ w'.heap = w.heap ∧ w'.cmd_head = w.cmd_head ∧
      w'.cmd_tail = (if w.cmd_tail + 1 = CMD_QUEUE_SIZE then 0 else w.cmd_tail + 1) ∧
      w'.repeat_prev_allowed = w.repeat_prev_allowed ∧ w'.repeating = w.repeating ∧
      w'.player = w.player ∧
      w'.last_command_idx = (if (w.slot w.cmd_tail).background_command = 0
        then ((prev_cmd_idx (if w.cmd_tail + 1 = CMD_QUEUE_SIZE then 0 else w.cmd_tail + 1)
          : Nat) : Int) else w.last_command_idx) := by
  unfold cmdq_pop_fetch
  rw [if_neg (by simp [hr]), if_pos hne]
  simp only
  by_cases hb : (World.slot { w with cmd_tail :=
      if w.cmd_tail + 1 = CMD_QUEUE_SIZE then 0 else w.cmd_tail + 1 } w.cmd_tail).background_command = 0
  · rw [if_pos hb]
    have hb' : (w.slot w.cmd_tail).background_command = 0 := hb
    exact ⟨_, rfl, rfl, rfl, rfl, rfl, rfl, rfl, rfl, by rw [if_pos hb']⟩
  · rw [if_neg hb]
    have hb' : ¬ (w.slot w.cmd_tail).background_command = 0 := hb
    exact ⟨_, rfl, rfl, rfl, rfl, rfl, rfl, rfl, rfl, by rw [if_neg hb']⟩

theorem cmd_get_arg_string_congr (c c' : command) (name : String) (p0 : Ptr)
    (h : c'.arg = c.arg) : cmd_get_arg_string c' name p0 = cmd_get_arg_string c name p0 := by
  unfold cmd_get_arg_string cmd_get_arg
  rw [h]

/-- C2: a record other than `CMD_REPEAT` whose argument `name` is a string with
text `s` is pushed into an empty queue that is not repeating; the push returns
0, the next `cmdq_pop` returns `true`, and the record it hands to a handler is
the one in the slot just filled, with the same code and with `name` still a
string argument whose text is `s`.  The caller's buffer must not be one that the
queue already holds, and an attack that does not take place must leave the
queue and the strings alone. -/
theorem string_round_trip (env : Env) (ctx : cmd_context) (w : World) (r : command)
    (name : String) (p0 p : Ptr) (s : String)
    (hlen : w.cmd_queue.length = CMD_QUEUE_SIZE) (hh : w.cmd_head < CMD_QUEUE_SIZE)
    (hempty : w.cmd_tail = w.cmd_head) (hrep : w.repeating = false)
    (hr : r.code ≠ .CMD_REPEAT)
    (hget : cmd_get_arg_string r name p0 = (CMD_OK, p)) (hs : w.heap.read p = some s)
    (hown1 : p ∉ (w.slot w.cmd_head).strings) (hown2 : p ∉ w.last_command.strings)
    (hatk : ∀ x : World, (env.player_attack_random_monster x).1 = false →
      queue_frame x (env.player_attack_random_monster x).2 ∧
        (env.player_attack_random_monster x).2.heap = x.heap) :
    ∃ w1 : World, cmdq_push_copy r w = some (0, w1) ∧ (cmdq_pop env ctx w1).1 = true ∧
      ∀ (k : Nat) (c : cmd_code) (wh : World),
        cmdq_pop_call env ctx w1 = some (k, c, wh) →
          k = w.cmd_head ∧ (wh.slot k).code = r.code ∧
          cmd_get_arg_string (wh.slot k) name p0 = (CMD_OK, p) ∧ wh.heap.read p = some s := by
  have h1 : ¬ (w.cmd_head + 1 = w.cmd_tail) := by omega
  have h2 : ¬ (w.cmd_head + 1 = CMD_QUEUE_SIZE ∧ w.cmd_tail = 0) := by
    unfold CMD_QUEUE_SIZE at *; omega
  obtain ⟨s1, s2, s3, s4⟩ := cmdq_push_save_last_queue w
  obtain ⟨t1, t2, t3, t4⟩ := cmdq_push_store_queue r (cmdq_push_save_last w)
  have hslot : (cmdq_push_save_last w).slot (cmdq_push_save_last w).cmd_head
      = w.slot w.cmd_head := by unfold World.slot; rw [s1, s2]
  have hheap : (cmdq_push_store r (cmdq_push_save_last w)).heap.read p = some s := by
    rw [cmdq_push_store_read r _ p (by rw [hslot]; exact hown1)]
    exact cmdq_push_save_last_read w p s hs hown2
  refine ⟨cmdq_push_advance (cmdq_push_store r (cmdq_push_save_last w)), ?_, ?_⟩
  · unfold cmdq_push_copy
    rw [if_neg h1, if_neg h2, if_pos hr]
  have a1 : (cmdq_push_advance (cmdq_push_store r (cmdq_push_save_last w))).repeating
      = false := by
    show (cmdq_push_store r (cmdq_push_save_last w)).repeating = false
    rw [t4, s4, hrep]
  have a2 : (cmdq_push_advance (cmdq_push_store r (cmdq_push_save_last w))).cmd_tail
      = w.cmd_head := by
    show (cmdq_push_store r (cmdq_push_save_last w)).cmd_tail = w.cmd_head
    rw [t3, s3, hempty]
  have a3 : (cmdq_push_advance (cmdq_push_store r (cmdq_push_save_last w))).cmd_head
      ≠ w.cmd_head := by
    rw [cmdq_push_advance_head _ (by rw [t2, s2]; exact hh), t2, s2]
    unfold CMD_QUEUE_SIZE at *; omega
  have a4 : (cmdq_push_advance (cmdq_push_store r (cmdq_push_save_last w))).cmd_queue
      = w.cmd_queue.set w.cmd_head r := by
    show (cmdq_push_store r (cmdq_push_save_last w)).cmd_queue = _
    rw [t1, s1, s2]
  obtain ⟨w', f1, f2, f3, _, _, _, _, _, _⟩ := cmdq_pop_fetch_next
    (cmdq_push_advance (cmdq_push_store r (cmdq_push_save_last w))) a1 (by rw [a2]; exact a3)
  rw [a2] at f1
  have hrec : w'.slot w.cmd_head = r := by
    unfold World.slot
    rw [f2, a4, List.getD_eq_getElem?_getD, List.getElem?_set_self (by omega)]
    rfl
  constructor
  · unfold cmdq_pop; rw [f1]
  · intro k c wh hcall
    unfold cmdq_pop_call at hcall
    rw [f1] at hcall
    simp only [Option.map_eq_some'] at hcall
    obtain ⟨⟨c', wh'⟩, hc, he⟩ := hcall
    simp only [Prod.mk.injEq] at he
    obtain ⟨hk, _, hw'⟩ := he
    subst hk hw'
    obtain ⟨_, _, _, _, hrecs⟩ :=
      process_command_call_queue env ctx _ _ _ _ (fun x hx => (hatk x hx).1) hc
    have hhp := process_command_call_heap env ctx _ _ _ _ (fun x hx => (hatk x hx).2) hc
    obtain ⟨r1, _, r3⟩ := hrecs w.cmd_head
    rw [hrec] at r1 r3
    refine ⟨rfl, r1, ?_, ?_⟩
    · rw [cmd_get_arg_string_congr r _ name p0 r3]; exact hget
    · rw [hhp, f3]; exact hheap

/-- Witness of C2: the inscribe command with the note "hello"; its handler is
called on slot 0. -/
theorem string_round_trip_witness :
    (∃ w1 : World, cmdq_push_copy ex_note ex_fresh = some (0, w1) ∧
      (cmdq_pop ex_env .CTX_INIT w1).1 = true ∧
      ∀ (k : Nat) (c : cmd_code) (wh : World),
        cmdq_pop_call ex_env .CTX_INIT w1 = some (k, c, wh) →
          k = ex_fresh.cmd_head ∧ (wh.slot k).code = ex_note.code ∧
          cmd_get_arg_string (wh.slot k) "note" 0 = (CMD_OK, 1) ∧
          wh.heap.read 1 = some "hello") ∧
    (cmdq_pop_call ex_env .CTX_INIT ex_note_queued).map (fun r => (r.1, r.2.1))
      = some (0, cmd_code.CMD_INSCRIBE) :=
  ⟨string_round_trip ex_env .CTX_INIT ex_fresh ex_note "note" 0 1 "hello" (by decide)
    (by decide) (by decide) (by decide) (by decide) (by decide) (by decide) (by decide)
    (by decide) (fun x _ => ⟨queue_frame_refl x, rfl⟩), by decide⟩

/-! ### The argument store -/

/-- The outcome of the search loop of `cmd_set_arg`: either the name is found,
at the first slot that bears it, or it is not found and `first_empty` is the
value passed in, or the first slot with an empty name, or `-1`. -/
theorem cmd_set_arg_scan_spec (name : String) :
    ∀ (l : List cmd_arg) (i : Nat) (fe : Int),
      (∃ j : Nat, j < l.length ∧ (cmd_set_arg_scan name l i fe).2 = ((i + j : Nat) : Int) ∧
        (l.getD j cmd_arg.zero).name = name ∧
        ∀ m : Nat, m < j → (l.getD m cmd_arg.zero).name ≠ name) ∨
      ((cmd_set_arg_scan name l i fe).2 = -1 ∧ (∀ a ∈ l, a.name ≠ name) ∧
        ((fe ≠ -1 ∧ (cmd_set_arg_scan name l i fe).1 = fe) ∨
         (fe = -1 ∧ (cmd_set_arg_scan name l i fe).1 = -1 ∧ ∀ a ∈ l, a.name ≠ "") ∨
         (fe = -1 ∧ ∃ j : Nat, j < l.length ∧
            (cmd_set_arg_scan name l i fe).1 = ((i + j : Nat) : Int) ∧
            (l.getD j cmd_arg.zero).name = ""))) := by
  intro l
  induction l with
  | nil =>
    intro i fe
    right
    refine ⟨rfl, by simp, ?_⟩
    by_cases hfe : fe = -1
    · exact Or.inr (Or.inl ⟨hfe, hfe, by simp⟩)
    · exact Or.inl ⟨hfe, rfl⟩
  | cons a rest ih =>
    intro i fe
    by_cases hn : a.name = name
    · left
      refine ⟨0, by simp, ?_, by simpa using hn, fun m hm => absurd hm (Nat.not_lt_zero m)⟩
      unfold cmd_set_arg_scan
      simp [hn]
    · have e : cmd_set_arg_scan name (a :: rest) i fe
          = cmd_set_arg_scan name rest (i + 1)
              (if a.name = "" ∧ fe = -1 then (i : Int) else fe) := by
        simp [cmd_set_arg_scan, hn]
      rw [e]
      rcases ih (i + 1) (if a.name = "" ∧ fe = -1 then (i : Int) else fe) with
        ⟨j, hj, h2, h3, h4⟩ | ⟨h2, hall, hcases⟩
      · left
        refine ⟨j + 1, by simpa using hj, ?_, by simpa using h3, ?_⟩
        · rw [h2]; push_cast; omega
        · intro m hm
          cases m with
          | zero => simpa using hn
          | succ m' => simpa using h4 m' (by omega)
      · right
        refine ⟨h2, ?_, ?_⟩
        · intro b hb
          rcases List.mem_cons.mp hb with hb | hb
          · rw [hb]; exact hn
          · exact hall b hb
        · by_cases hc : a.name = "" ∧ fe = -1
          · rw [if_pos hc] at hcases ⊢
            rcases hcases with ⟨_, h1⟩ | ⟨hi, _⟩ | ⟨hi, _⟩
            · exact Or.inr (Or.inr ⟨hc.2, 0, by simp, by rw [h1]; simp, by simpa using hc.1⟩)
            · omega
            · omega
          · rw [if_neg hc] at hcases ⊢
            rcases hcases with ⟨hfe, h1⟩ | ⟨hfe, h1, hnone⟩ | ⟨hfe, j, hj, h1, h3⟩
            · exact Or.inl ⟨hfe, h1⟩
            · refine Or.inr (Or.inl ⟨hfe, h1, ?_⟩)
              intro b hb
              rcases List.mem_cons.mp hb with hb | hb
              · rw [hb]; intro ha; exact hc ⟨ha, hfe⟩
              · exact hnone b hb
            · refine Or.inr (Or.inr ⟨hfe, j + 1, by simpa using hj, ?_, by simpa using h3⟩)
              rw [h1]; push_cast; omega

theorem my_strcpy_of_lt (name : String) (nsz : Nat) (h : name.length < nsz) :
    my_strcpy name nsz = name := by
  unfold my_strcpy
  have hl : name.data.length ≤ nsz - 1 := by
    have : name.length = name.data.length := rfl
    omega
  rw [List.take_of_length_le hl]

/-- A successful `cmd_set_arg` writes one slot `j`: no earlier slot bears the
name, the other slots and the other fields of the record are untouched, and the
heap changes only by the release of a string that slot `j` held. -/
theorem cmd_set_arg_eq (nsz : Nat) (h : Heap) (cmd : command) (name : String)
    (t : cmd_arg_type) (d : cmd_arg_data) (h1 : Heap) (cmd1 : command)
    (hset : cmd_set_arg nsz h cmd (some name) t d = some (h1, cmd1)) :
    name ≠ "" ∧ ∃ j : Nat, j < cmd.arg.length ∧
      (∀ m : Nat, m < j → (cmd.arg.getD m cmd_arg.zero).name ≠ name) ∧
      cmd1 = { cmd with arg := cmd.arg.set j ⟨t, d, my_strcpy name nsz⟩ } ∧
      (h1 = h ∨ ((cmd.arg.getD j cmd_arg.zero).type = .arg_STRING ∧
        h1 = string_free h (cmd.arg.getD j cmd_arg.zero).data.get_string)) := by
  unfold cmd_set_arg at hset
  simp only at hset
  by_cases hn : name = ""
  · rw [if_pos hn] at hset; exact absurd hset (by simp)
  rw [if_neg hn] at hset
  by_cases hboth : (cmd_set_arg_scan name cmd.arg 0 (-1)).1 = -1 ∧
      (cmd_set_arg_scan name cmd.arg 0 (-1)).2 = -1
  · rw [if_pos hboth] at hset; exact absurd hset (by simp)
  rw [if_neg hboth] at hset
  refine ⟨hn, ?_⟩
  simp only [Option.some.injEq, Prod.mk.injEq] at hset
  obtain ⟨hh, hc⟩ := hset
  rcases cmd_set_arg_scan_spec name cmd.arg 0 (-1) with
    ⟨j, hj, h2, _, h4⟩ | ⟨h2, hall, hcases⟩
  · have hne1 : ¬ (((0 + j : Nat) : Int) = -1) := by omega
    have hne2 : ¬ ((j : Int) = -1) := by omega
    rw [h2] at hh hc
    simp only [hne1, hne2, if_false, Nat.zero_add, Int.toNat_ofNat] at hh hc
    refine ⟨j, hj, h4, hc.symm, ?_⟩
    by_cases hty : (cmd.arg.getD j cmd_arg.zero).type = .arg_STRING
    · rw [if_pos hty] at hh
      exact Or.inr ⟨hty, hh.symm⟩
    · rw [if_neg hty] at hh
      exact Or.inl hh.symm
  · rw [if_pos h2] at hh hc
    rcases hcases with ⟨hfe, _⟩ | ⟨_, h1', _⟩ | ⟨_, j, hj, h1', _⟩
    · exact absurd rfl hfe
    · exact absurd ⟨h1', h2⟩ hboth
    · rw [h1'] at hc
      simp only [Nat.zero_add, Int.toNat_ofNat] at hc
      refine ⟨j, hj, fun m hm => hall _ ?_, hc.symm, Or.inl hh.symm⟩
      rw [List.getD_eq_getElem _ _ (by omega : m < cmd.arg.length)]
      exact List.getElem_mem _

/-- With a non-empty name and a slot that bears the name or is unused,
`cmd_set_arg` succeeds. -/
theorem cmd_set_arg_some (nsz : Nat) (h : Heap) (cmd : command) (name : String)
    (t : cmd_arg_type) (d : cmd_arg_data) (hname : name ≠ "")
    (hroom : (∃ a ∈ cmd.arg, a.name = name) ∨ (∃ a ∈ cmd.arg, a.name = "")) :
    ∃ r : Heap × command, cmd_set_arg nsz h cmd (some name) t d = some r := by
  unfold cmd_set_arg
  simp only
  rw [if_neg hname]
  have hboth : ¬ ((cmd_set_arg_scan name cmd.arg 0 (-1)).1 = -1 ∧
      (cmd_set_arg_scan name cmd.arg 0 (-1)).2 = -1) := by
    rintro ⟨e1, e2⟩
    rcases cmd_set_arg_scan_spec name cmd.arg 0 (-1) with
      ⟨j, _, h2, _, _⟩ | ⟨_, hall, hcases⟩
    · rw [h2] at e2; omega
    · rcases hcases with ⟨hfe, _⟩ | ⟨_, _, hnone⟩ | ⟨_, j, _, h1', _⟩
      · exact absurd rfl hfe
      · rcases hroom with ⟨a, ha, hna⟩ | ⟨a, ha, hna⟩
        · exact hall a ha hna
        · exact hnone a ha hna
      · rw [h1'] at e1; omega
  rw [if_neg hboth]
  exact ⟨_, rfl⟩

theorem cmd_get_arg_loop_set (name : String) (t t' : cmd_arg_type) (d : cmd_arg_data) :
    ∀ (l : List cmd_arg) (j : Nat), j < l.length →
      (∀ m : Nat, m < j → (l.getD m cmd_arg.zero).name ≠ name) →
      cmd_get_arg_loop name t' (l.set j ⟨t, d, name⟩)
        = if t ≠ t' then (CMD_ARG_WRONG_TYPE, none) else (CMD_OK, some d) := by
  intro l
  induction l with
  | nil => intro j hj; exact absurd hj (Nat.not_lt_zero j)
  | cons a rest ih =>
    intro j hj hm
    cases j with
    | zero => simp [cmd_get_arg_loop]
    | succ j' =>
      have h0 : a.name ≠ name := by simpa using hm 0 (by omega)
      have e : cmd_get_arg_loop name t' ((a :: rest).set (j' + 1) ⟨t, d, name⟩)
          = cmd_get_arg_loop name t' (rest.set j' ⟨t, d, name⟩) := by
        simp [cmd_get_arg_loop, h0]
      rw [e]
      exact ih j' (by simpa using hj) (fun m hlt => by simpa using hm (m + 1) (by omega))

/-- After a successful `cmd_set_arg` under a name that fits the name field,
`cmd_get_arg` under that name finds the slot just written: it returns the value
when the kinds agree and `CMD_ARG_WRONG_TYPE` when they differ. -/
theorem cmd_get_arg_after_set (nsz : Nat) (h : Heap) (cmd : command) (name : String)
    (t t' : cmd_arg_type) (d : cmd_arg_data) (h1 : Heap) (cmd1 : command)
    (hfit : name.length < nsz)
    (hset : cmd_set_arg nsz h cmd (some name) t d = some (h1, cmd1)) :
    cmd_get_arg cmd1 name t'
      = if t ≠ t' then (CMD_ARG_WRONG_TYPE, none) else (CMD_OK, some d) := by
  obtain ⟨_, j, hj, hm, hc, _⟩ := cmd_set_arg_eq nsz h cmd name t d h1 cmd1 hset
  rw [hc, my_strcpy_of_lt name nsz hfit]
  exact cmd_get_arg_loop_set name t t' d cmd.arg j hj hm

theorem cmd_get_arg_loop_absent (name : String) (t : cmd_arg_type) :
    ∀ l : List cmd_arg, (∀ a ∈ l, a.name ≠ name) →
      cmd_get_arg_loop name t l = (CMD_ARG_NOT_PRESENT, none) := by
  intro l
  induction l with
  | nil => intro _; rfl
  | cons a rest ih =>
    intro hall
    have h0 : a.name ≠ name := hall a (List.mem_cons_self _ _)
    unfold cmd_get_arg_loop
    rw [if_neg h0]
    exact ih (fun b hb => hall b (List.mem_cons_of_mem _ hb))

theorem strings_of_mem :
    ∀ (l : List cmd_arg) (j : Nat), j < l.length →
      (l.getD j cmd_arg.zero).type = .arg_STRING →
      (l.getD j cmd_arg.zero).data.get_string ∈ strings_of l := by
  intro l
  induction l with
  | nil => intro j hj; exact absurd hj (Nat.not_lt_zero j)
  | cons a rest ih =>
    intro j hj ht
    cases j with
    | zero =>
      have ht' : a.type = .arg_STRING := by simpa using ht
      simp [strings_of, ht']
    | succ j' =>
      have hmem := ih j' (by simpa using hj) (by simpa using ht)
      have hmem' : ((a :: rest).getD (j' + 1) cmd_arg.zero).data.get_string
          ∈ strings_of rest := by simpa using hmem
      unfold strings_of
      split_ifs
      · exact List.mem_cons_of_mem _ hmem'
      · exact hmem'

/-- C9, as the code has it: after `cmd_set_arg` stored a value of kind `t1`
under a name that fits the name field (`name.length < nsz`), each typed getter
of another kind, called with that name, returns `CMD_ARG_WRONG_TYPE` and leaves
its output parameter as it was. -/
theorem cmd_get_arg_wrong_type (nsz : Nat) (h : Heap) (cmd : command) (name : String)
    (t1 : cmd_arg_type) (d : cmd_arg_data) (h1 : Heap) (cmd1 : command)
    (hfit : name.length < nsz)
    (hset : cmd_set_arg nsz h cmd (some name) t1 d = some (h1, cmd1)) :
    (∀ t2 : cmd_arg_type, t1 ≠ t2 → cmd_get_arg cmd1 name t2 = (CMD_ARG_WRONG_TYPE, none)) ∧
    (t1 ≠ .arg_CHOICE → ∀ out : Int,
      cmd_get_arg_choice cmd1 name out = (CMD_ARG_WRONG_TYPE, out)) ∧
    (t1 ≠ .arg_STRING → ∀ out : Ptr,
      cmd_get_arg_string cmd1 name out = (CMD_ARG_WRONG_TYPE, out)) ∧
    (t1 ≠ .arg_DIRECTION → ∀ out : Int,
      cmd_get_arg_direction cmd1 name out = (CMD_ARG_WRONG_TYPE, out)) ∧
    (t1 ≠ .arg_TARGET → ∀ out : Int,
      cmd_get_arg_target cmd1 name out = (CMD_ARG_WRONG_TYPE, out)) ∧
    (t1 ≠ .arg_POINT → ∀ out : loc,
      cmd_get_arg_point cmd1 name out = (CMD_ARG_WRONG_TYPE, out)) ∧
    (t1 ≠ .arg_ITEM → ∀ out : Ptr,
      cmd_get_arg_item cmd1 name out = (CMD_ARG_WRONG_TYPE, out)) ∧
    (t1 ≠ .arg_NUMBER → ∀ out : Int,
      cmd_get_arg_number cmd1 name out = (CMD_ARG_WRONG_TYPE, out)) := by
  have key : ∀ t2 : cmd_arg_type, t1 ≠ t2 →
      cmd_get_arg cmd1 name t2 = (CMD_ARG_WRONG_TYPE, none) := by
    intro t2 hne
    rw [cmd_get_arg_after_set nsz h cmd name t1 t2 d h1 cmd1 hfit hset, if_pos hne]
  refine ⟨key, ?_, ?_, ?_, ?_, ?_, ?_, ?_⟩
  · intro hne out; unfold cmd_get_arg_choice; rw [key _ hne]
  · intro hne out; unfold cmd_get_arg_string; rw [key _ hne]
  · intro hne out; unfold cmd_get_arg_direction; rw [key _ hne]
  · intro hne out; unfold cmd_get_arg_target; rw [key _ hne]
  · intro hne out; unfold cmd_get_arg_point; rw [key _ hne]
  · intro hne out; unfold cmd_get_arg_item; rw [key _ hne]
  · intro hne out; unfold cmd_get_arg_number; rw [key _ hne]

/-- Witness of the amended C9: `"dir"` set as a direction in a 20-byte name
field, then read as a number. -/
theorem cmd_get_arg_wrong_type_witness :
    cmd_get_arg_number ex_walk_south "dir" 7 = (CMD_ARG_WRONG_TYPE, 7) :=
  (cmd_get_arg_wrong_type 20 [] ex_walk "dir" .arg_DIRECTION (.direction 2) [] ex_walk_south
    (by decide) (by decide)).2.2.2.2.2.2.2 (by decide) 7

/-- A name at least as long as the name field is stored cut short by
`cmd_set_arg`, and a getter called with the name finds no slot. -/
theorem cmd_get_arg_number_name_too_long (nsz : Nat) (name : String) (hne : name ≠ "")
    (hlong : nsz ≤ name.length) :
    (cmd_set_arg_direction nsz [] command.zero (some name) 8).map
        (fun r => cmd_get_arg_number r.2 name 0) = some (CMD_ARG_NOT_PRESENT, 0) := by
  have hpos : 0 < name.length := by
    rcases Nat.eq_zero_or_pos name.length with h0 | h0
    · exact absurd (String.ext (List.length_eq_zero.mp h0)) hne
    · exact h0
  have hcut : my_strcpy name nsz ≠ name := by
    intro e
    have hl : (my_strcpy name nsz).length = name.length := by rw [e]
    have hl2 : (my_strcpy name nsz).length = min (nsz - 1) name.length := by
      unfold my_strcpy
      show (List.take (nsz - 1) name.data).length = _
      rw [List.length_take]; rfl
    omega
  have hne' : ¬ ("" = name) := fun e => hne e.symm
  simp [cmd_set_arg_direction, cmd_set_arg, cmd_set_arg_scan, command.zero, CMD_MAX_ARGS,
    cmd_arg.zero, List.replicate, hne, hne', hcut, cmd_get_arg_number, cmd_get_arg,
    cmd_get_arg_loop]

/-- Counterexample to C9: in a name field of 20 bytes, a direction set under a
name of 22 characters is stored under the first 19 of them, and
`cmd_get_arg_number` called with the name then returns `CMD_ARG_NOT_PRESENT`,
not `CMD_ARG_WRONG_TYPE`; whatever the size of the name field, some name does
the same. -/
theorem cmd_get_arg_number_long_name :
    (cmd_set_arg_direction 20 [] command.zero (some "direction_of_next_step") 8).map
        (fun r => (cmd_get_arg_number r.2 "direction_of_next_step" 0,
          (r.2.arg.getD 0 cmd_arg.zero).name))
      = some ((CMD_ARG_NOT_PRESENT, 0), "direction_of_next_s") ∧
    CMD_ARG_NOT_PRESENT ≠ CMD_ARG_WRONG_TYPE ∧
    (∀ nsz : Nat, ∃ name : String,
      (cmd_set_arg_direction nsz [] command.zero (some name) 8).map
        (fun r => cmd_get_arg_number r.2 name 0) = some (CMD_ARG_NOT_PRESENT, 0)) := by
  refine ⟨by decide, by decide, fun nsz => ⟨⟨List.replicate (nsz + 1) 'a'⟩, ?_⟩⟩
  apply cmd_get_arg_number_name_too_long
  · intro e
    have := congrArg String.length e
    simp [String.length] at this
  · simp [String.length]

/-! ### Repeating the last command -/

/-- The handler and the count of the execution, when handlers leave the queue
alone. -/
theorem process_command_finish_frame (env : Env) (n : Int) (c : cmd_code) (k : Nat)
    (x : World) (hH : ∀ (c : cmd_code) (j : Nat), keeps_queue (env.handler c j)) :
    queue_frame x (process_command_count n k (env.handler c k x)) ∧
      (process_command_count n k (env.handler c k x)).repeat_prev_allowed
        = x.repeat_prev_allowed := by
  obtain ⟨f, a⟩ := hH c k x
  exact ⟨queue_frame_trans _ _ _ f (process_command_count_frame n k _),
    by rw [process_command_count_repeat_prev_allowed, a]⟩

/-- When handlers and the forced attack leave the queue alone, `process_command`
leaves the cursors, `last_command_idx` and the code and arguments of every slot
as they were, and sets `repeat_prev_allowed` when the command has an entry. -/
theorem process_command_frame (env : Env) (ctx : cmd_context) (k : Nat) (w : World)
    (hH : ∀ (c : cmd_code) (j : Nat), keeps_queue (env.handler c j))
    (hA : keeps_queue (fun x => (env.player_attack_random_monster x).2)) :
    queue_frame w (process_command env ctx k w) ∧
      (process_command_entry k w ≠ none →
        (process_command env ctx k w).repeat_prev_allowed = true) := by
  unfold process_command
  have h0 : queue_frame w { w with player := { w.player with command_wrk := 0 } } :=
    queue_frame_of_eq _ _ rfl rfl rfl rfl
  cases he : process_command_entry k w with
  | none => exact ⟨h0, fun h => absurd rfl h⟩
  | some e =>
    simp only
    have f1 : queue_frame w (process_command_prepare ctx e k
        { w with player := { w.player with command_wrk := 0 } }) :=
      queue_frame_trans _ _ _ h0 (process_command_prepare_frame ctx e k _)
    by_cases hfn : e.fn = true
    · rw [if_pos hfn]
      rcases process_command_coerce_cases env e k (process_command_prepare ctx e k
        { w with player := { w.player with command_wrk := 0 } }) with ⟨pl, r, hc⟩ | ⟨r, hc⟩
      · rw [hc]
        simp only [Bool.false_eq_true, if_false]
        obtain ⟨f2, a2⟩ := process_command_finish_frame env (w.slot k).nrepeats e.cmd k
          { process_command_prepare ctx e k
              { w with player := { w.player with command_wrk := 0 } } with
            player := pl, rng := r } hH
        exact ⟨queue_frame_trans _ _ _ (queue_frame_trans _ _ _ f1
          (queue_frame_of_eq _ _ rfl rfl rfl rfl)) f2, fun _ => a2⟩
      · rw [hc]
        obtain ⟨f3, a3⟩ := hA { process_command_prepare ctx e k
              { w with player := { w.player with command_wrk := 0 } } with rng := r }
        have f13 := queue_frame_trans _ _ _ (queue_frame_trans _ _ _ f1
          (queue_frame_of_eq _ { process_command_prepare ctx e k
              { w with player := { w.player with command_wrk := 0 } } with rng := r }
            rfl rfl rfl rfl)) f3
        by_cases hat : (env.player_attack_random_monster { process_command_prepare ctx e k
              { w with player := { w.player with command_wrk := 0 } } with rng := r }).1 = true
        · rw [if_pos hat]
          exact ⟨f13, fun _ => a3⟩
        · rw [if_neg hat]
          obtain ⟨f2, a2⟩ := process_command_finish_frame env (w.slot k).nrepeats e.cmd k
            (env.player_attack_random_monster { process_command_prepare ctx e k
              { w with player := { w.player with command_wrk := 0 } } with rng := r }).2 hH
          exact ⟨queue_frame_trans _ _ _ f13 f2, fun _ => a2.trans a3⟩
    · rw [if_neg hfn]
      exact ⟨queue_frame_trans _ _ _ f1 (process_command_count_frame _ k _),
        fun _ => by rw [process_command_count_repeat_prev_allowed]; rfl⟩

theorem cmd_copy_args_get_loop (name : String) (t : cmd_arg_type)
    (ht : t ≠ .arg_STRING) :
    ∀ (l : List cmd_arg) (h : Heap),
      cmd_get_arg_loop name t (cmd_copy_args h l).2 = cmd_get_arg_loop name t l := by
  intro l
  induction l with
  | nil => intro h; rfl
  | cons a rest ih =>
    intro h
    by_cases hs : a.type = .arg_STRING
    · have e : (cmd_copy_args h (a :: rest)).2
          = { a with data := .string (string_make h (h.read a.data.get_string)).1 }
              :: (cmd_copy_args (string_make h (h.read a.data.get_string)).2 rest).2 := by
        simp [cmd_copy_args, hs]
      rw [e]
      unfold cmd_get_arg_loop
      by_cases hn : a.name = name
      · have hne : a.type ≠ t := by rw [hs]; exact fun x => ht x.symm
        simp [hn, hne]
      · simp only [hn, if_false]
        exact ih _
    · have e : (cmd_copy_args h (a :: rest)).2 = a :: (cmd_copy_args h rest).2 := by
        simp [cmd_copy_args, hs]
      rw [e]
      unfold cmd_get_arg_loop
      by_cases hn : a.name = name
      · simp [hn]
      · simp only [hn, if_false]
        exact ih _

theorem cmdq_push_duplicate_frame (src : command) (w : World) :
    (cmdq_push_duplicate src w).cmd_head = w.cmd_head ∧
      (cmdq_push_duplicate src w).cmd_tail = w.cmd_tail ∧
      (cmdq_push_duplicate src w).last_command_idx = w.last_command_idx ∧
      (cmdq_push_duplicate src w).repeating = w.repeating ∧
      (cmdq_push_duplicate src w).cmd_queue
        = w.cmd_queue.set w.cmd_head
            (cmd_copy (cmd_release w.heap (w.slot w.cmd_head)).1 src).2 :=
  ⟨rfl, rfl, rfl, rfl, rfl⟩

/-- A record holds a direction `d` under `name`: every call of
`cmd_get_direction` on it returns `CMD_OK` with `d` and does not prompt. -/
theorem cmd_get_direction_of_arg (env : Env) (nsz : Nat) (k : Nat) (name : String)
    (d0 d : Int) (allow_5 : Bool) (w : World)
    (hg : cmd_get_arg (w.slot k) name .arg_DIRECTION = (CMD_OK, some (.direction d)))
    (hd : d ≠ env.DIR_NONE) :
    cmd_get_direction env nsz k name d0 allow_5 w = some ⟨CMD_OK, d, false, w⟩ := by
  have hgd : cmd_get_arg_direction (w.slot k) name d0 = (CMD_OK, d) := by
    unfold cmd_get_arg_direction; rw [hg]; rfl
  unfold cmd_get_direction
  simp only [hgd]
  rw [if_pos ⟨trivial, hd⟩]

theorem cmdq_pop_fetch_repeating (w : World) (hr : w.repeating = true) :
    ∃ w' : World, cmdq_pop_fetch w = some (prev_cmd_idx w.cmd_tail, w') ∧
      w'.cmd_queue = w.cmd_queue := by
  unfold cmdq_pop_fetch
  rw [if_pos hr]
  simp only
  split_ifs
  · exact ⟨_, rfl, rfl⟩
  · exact ⟨_, rfl, rfl⟩

/-- What a handler called by `cmdq_pop` receives, when the record fetched holds
a direction under `name`. -/
theorem cmdq_pop_call_direction (env : Env) (nsz : Nat) (ctx : cmd_context) (w w' : World)
    (k : Nat) (code : cmd_code) (name : String) (d d0 : Int) (allow_5 : Bool)
    (hf : cmdq_pop_fetch w = some (k, w'))
    (hcode : (w'.slot k).code = code)
    (hdir : cmd_get_arg (w'.slot k) name .arg_DIRECTION = (CMD_OK, some (.direction d)))
    (hd : d ≠ env.DIR_NONE)
    (hA : keeps_queue (fun x => (env.player_attack_random_monster x).2)) :
    (cmdq_pop env ctx w).1 = true ∧
      ∀ (j : Nat) (c : cmd_code) (wh : World), cmdq_pop_call env ctx w = some (j, c, wh) →
        (wh.slot j).code = code ∧
        cmd_get_direction env nsz j name d0 allow_5 wh = some ⟨CMD_OK, d, false, wh⟩ := by
  constructor
  · unfold cmdq_pop; rw [hf]
  · intro j c wh hcall
    unfold cmdq_pop_call at hcall
    rw [hf] at hcall
    simp only [Option.map_eq_some'] at hcall
    obtain ⟨⟨c', wh'⟩, hc, he⟩ := hcall
    simp only [Prod.mk.injEq] at he
    obtain ⟨hk, _, hw'⟩ := he
    subst hk hw'
    obtain ⟨_, _, _, _, hrecs⟩ :=
      process_command_call_queue env ctx _ _ _ _ (fun x _ => (hA x).1) hc
    obtain ⟨r1, _, r3⟩ := hrecs k
    refine ⟨r1.trans hcode, cmd_get_direction_of_arg env nsz k name d0 d allow_5 wh' ?_ hd⟩
    unfold cmd_get_arg at hdir ⊢
    rw [r3]; exact hdir

/-- C4: on the queue as first initialised, a record with a registered,
repeatable code, not a background command, that holds a direction `d` other
than `DIR_NONE` under `name` is pushed and popped, then `CMD_REPEAT` is pushed
and popped.  Both pushes return 0 and both pops return `true`; the record that
the second pop hands to a handler has the code of the first record, and
`cmd_get_direction` on it returns `CMD_OK` with `d` without the prompt.  The
handlers and the forced attack leave the queue and `repeat_prev_allowed`
alone. -/
theorem repeat_materialization (env : Env) (nsz : Nat) (ctx1 ctx2 : cmd_context)
    (h : Heap) (pl : Player) (objs : List object) (seed : Nat) (r q : command)
    (name : String) (d d0 : Int) (allow_5 : Bool)
    (hrep : registered_repeatable r.code = true)
    (hbg : r.background_command = 0)
    (hdir : cmd_get_arg r name .arg_DIRECTION = (CMD_OK, some (.direction d)))
    (hd : d ≠ env.DIR_NONE)
    (hq : q.code = .CMD_REPEAT)
    (hH : ∀ (c : cmd_code) (j : Nat), keeps_queue (env.handler c j))
    (hA : keeps_queue (fun x => (env.player_attack_random_monster x).2)) :
    ∃ w1 w3 : World,
      cmdq_push_copy r (World.init h pl objs seed) = some (0, w1) ∧
      (cmdq_pop env ctx1 w1).1 = true ∧
      cmdq_push_copy q (cmdq_pop env ctx1 w1).2 = some (0, w3) ∧
      (cmdq_pop env ctx2 w3).1 = true ∧
      ∀ (k : Nat) (c : cmd_code) (wh : World),
        cmdq_pop_call env ctx2 w3 = some (k, c, wh) →
          (wh.slot k).code = r.code ∧
          cmd_get_direction env nsz k name d0 allow_5 wh = some ⟨CMD_OK, d, false, wh⟩ := by
  have hreg : cmd_idx r.code ≠ -1 := by
    unfold registered_repeatable at hrep
    simp only [Bool.and_eq_true, decide_eq_true_eq] at hrep
    exact hrep.1
  have hrne : r.code ≠ .CMD_REPEAT := by
    intro e; rw [e] at hrep; exact absurd hrep (by decide)
  -- the first push
  have p1 : cmdq_push_copy r (World.init h pl objs seed)
      = some (0, cmdq_push_advance (cmdq_push_store r
          (cmdq_push_save_last (World.init h pl objs seed)))) := by
    have c1 : ¬ ((World.init h pl objs seed).cmd_head + 1
        = (World.init h pl objs seed).cmd_tail) := by
      show ¬ ((0 : Nat) + 1 = 0); decide
    have c2 : ¬ ((World.init h pl objs seed).cmd_head + 1 = CMD_QUEUE_SIZE ∧
        (World.init h pl objs seed).cmd_tail = 0) := by
      show ¬ ((0 : Nat) + 1 = CMD_QUEUE_SIZE ∧ (0 : Nat) = 0); decide
    unfold cmdq_push_copy
    rw [if_neg c1, if_neg c2, if_pos hrne]
  obtain ⟨w1, hw1⟩ : ∃ w1 : World, w1 = cmdq_push_advance (cmdq_push_store r
      (cmdq_push_save_last (World.init h pl objs seed))) := ⟨_, rfl⟩
  have q1 : w1.cmd_queue = (List.replicate CMD_QUEUE_SIZE command.zero).set 0 r := by
    rw [hw1]; rfl
  have hd1 : w1.cmd_head = 1 := by rw [hw1]; rfl
  have tl1 : w1.cmd_tail = 0 := by rw [hw1]; rfl
  have rp1 : w1.repeating = false := by rw [hw1]; rfl
  have s1 : w1.slot 0 = r := by unfold World.slot; rw [q1]; rfl
  -- the first pop
  obtain ⟨w1', f1, fq, _, fh, ft, _, _, _, fi⟩ :=
    cmdq_pop_fetch_next w1 rp1 (by rw [hd1, tl1]; decide)
  rw [tl1] at f1 ft fi
  rw [s1, if_pos hbg] at fi
  have hpop1 : cmdq_pop env ctx1 w1 = (true, process_command env ctx1 0 w1') := by
    unfold cmdq_pop; rw [f1]
  have s1' : w1'.slot 0 = r := by unfold World.slot; rw [fq, q1]; rfl
  have hent : process_command_entry 0 w1' ≠ none := by
    unfold process_command_entry
    simp only [s1']
    by_cases hc : w1'.player.timed_COMMAND ≠ 0
    · rw [if_pos hc, if_neg (by decide)]; simp
    · rw [if_neg hc, if_neg hreg]; simp
  obtain ⟨⟨g1, g2, g3, g4, g5⟩, ga⟩ := process_command_frame env ctx1 0 w1' hH hA
  obtain ⟨w2, hw2⟩ : ∃ w2 : World, w2 = process_command env ctx1 0 w1' := ⟨_, rfl⟩
  rw [← hw2] at g1 g2 g3 g4 g5 ga
  have hd2 : w2.cmd_head = 1 := by rw [g1, fh, hd1]
  have tl2 : w2.cmd_tail = 1 := by rw [g2, ft]; rfl
  have ix2 : w2.last_command_idx = 0 := by rw [g3, fi]; rfl
  have ln2 : w2.cmd_queue.length = CMD_QUEUE_SIZE := by rw [g4, fq, q1]; simp
  have al2 : w2.repeat_prev_allowed = true := ga hent
  obtain ⟨c0, _, a0⟩ := g5 0
  rw [s1'] at c0 a0
  -- the push of `CMD_REPEAT`
  have p3 : cmdq_push_copy q w2
      = some (0, cmdq_push_advance (cmdq_push_duplicate (w2.slot 0) w2)) := by
    have c1 : ¬ (w2.cmd_head + 1 = w2.cmd_tail) := by omega
    have c2 : ¬ (w2.cmd_head + 1 = CMD_QUEUE_SIZE ∧ w2.cmd_tail = 0) := by omega
    have c3 : ¬ (q.code ≠ .CMD_REPEAT) := by simp [hq]
    have c4 : ¬ ((!w2.repeat_prev_allowed) = true) := by simp [al2]
    have c5 : w2.last_command_idx ≥ 0 := by omega
    have c6 : ¬ ¬ (w2.last_command_idx < (CMD_QUEUE_SIZE : Int)) := by
      unfold CMD_QUEUE_SIZE; omega
    have c7 : w2.last_command_idx ≠ (w2.cmd_head : Int) := by omega
    unfold cmdq_push_copy
    rw [if_neg c1, if_neg c2, if_neg c3, if_neg c4, if_pos c5, if_neg c6, if_pos c7, ix2]
    rfl
  obtain ⟨w3, hw3⟩ : ∃ w3 : World, w3 = cmdq_push_advance (cmdq_push_duplicate (w2.slot 0) w2) :=
    ⟨_, rfl⟩
  obtain ⟨e1, e2, _, e4, e5⟩ := cmdq_push_duplicate_frame (w2.slot 0) w2
  have q3 : w3.cmd_queue = w2.cmd_queue.set 1
      (cmd_copy (cmd_release w2.heap (w2.slot w2.cmd_head)).1 (w2.slot 0)).2 := by
    rw [hw3]
    show (cmdq_push_duplicate (w2.slot 0) w2).cmd_queue = _
    rw [e5, hd2]
  have hd3 : w3.cmd_head = 2 := by
    rw [hw3, cmdq_push_advance_head _ (by rw [e1, hd2]; decide), e1, hd2]; rfl
  have tl3 : w3.cmd_tail = 1 := by
    rw [hw3]
    show (cmdq_push_duplicate (w2.slot 0) w2).cmd_tail = 1
    rw [e2, tl2]
  have s30 : w3.slot 0 = w2.slot 0 := by
    unfold World.slot
    rw [q3, List.getD_eq_getElem?_getD, List.getD_eq_getElem?_getD,
      List.getElem?_set_ne (by decide)]
  have s31 : w3.slot 1 = (cmd_copy (cmd_release w2.heap (w2.slot w2.cmd_head)).1 (w2.slot 0)).2 := by
    unfold World.slot
    rw [q3, List.getD_eq_getElem?_getD,
      List.getElem?_set_self (by rw [ln2]; decide)]
    rfl
  have dir0 : cmd_get_arg (w2.slot 0) name .arg_DIRECTION
      = (CMD_OK, some (.direction d)) := by
    unfold cmd_get_arg at hdir ⊢
    rw [a0]; exact hdir
  have dir1 : cmd_get_arg (w3.slot 1) name .arg_DIRECTION
      = (CMD_OK, some (.direction d)) := by
    rw [s31]
    unfold cmd_get_arg cmd_copy
    simp only
    rw [cmd_copy_args_get_loop name .arg_DIRECTION (by decide)]
    exact dir0
  have code1 : (w3.slot 1).code = r.code := by rw [s31]; exact c0
  refine ⟨w1, w3, by rw [p1, hw1], by rw [hpop1], ?_, ?_⟩
  · rw [hpop1]
    show cmdq_push_copy q (process_command env ctx1 0 w1') = some (0, w3)
    rw [← hw2, p3, hw3]
  -- the second pop
  cases hr3 : w3.repeating with
  | true =>
    obtain ⟨w3', f3, fq3⟩ := cmdq_pop_fetch_repeating w3 hr3
    rw [tl3] at f3
    have s3' : w3'.slot 0 = w2.slot 0 := by
      rw [← s30]; unfold World.slot; rw [fq3]
    exact cmdq_pop_call_direction env nsz ctx2 w3 w3' (prev_cmd_idx 1) r.code name d d0
      allow_5 f3 (by show (w3'.slot 0).code = r.code; rw [s3']; exact c0)
      (by show cmd_get_arg (w3'.slot 0) name .arg_DIRECTION = _; rw [s3']; exact dir0) hd hA
  | false =>
    obtain ⟨w3', f3, fq3, _⟩ := cmdq_pop_fetch_next w3 hr3 (by rw [hd3, tl3]; decide)
    rw [tl3] at f3
    have s3' : w3'.slot 1 = w3.slot 1 := by unfold World.slot; rw [fq3]
    exact cmdq_pop_call_direction env nsz ctx2 w3 w3' 1 r.code name d d0
      allow_5 f3 (by rw [s3']; exact code1) (by rw [s3']; exact dir1) hd hA

/-- Witness of C4: walking north (8) on the fresh queue; the second pop calls
the handler of `CMD_WALK` on slot 1, the copy made for `CMD_REPEAT`. -/
theorem repeat_materialization_witness :
    (∃ w1 w3 : World,
      cmdq_push_copy ex_walk ex_fresh = some (0, w1) ∧
      (cmdq_pop ex_env .CTX_INIT w1).1 = true ∧
      cmdq_push_copy ex_repeat (cmdq_pop ex_env .CTX_INIT w1).2 = some (0, w3) ∧
      (cmdq_pop ex_env .CTX_INIT w3).1 = true ∧
      ∀ (k : Nat) (c : cmd_code) (wh : World),
        cmdq_pop_call ex_env .CTX_INIT w3 = some (k, c, wh) →
          (wh.slot k).code = ex_walk.code ∧
          cmd_get_direction ex_env 20 k "dir" 0 false wh = some ⟨CMD_OK, 8, false, wh⟩) ∧
    (cmdq_pop_call ex_env .CTX_INIT ex_walk_repeated).map (fun r => (r.1, r.2.1))
      = some (1, cmd_code.CMD_WALK) :=
  ⟨repeat_materialization ex_env 20 .CTX_INIT .CTX_INIT [some "hello"] ex_player [] 0
    ex_walk ex_repeat "dir" 8 0 false (by decide) (by decide) (by decide) (by decide)
    (by decide) (fun _ _ w => ⟨queue_frame_refl w, rfl⟩) (fun w => ⟨queue_frame_refl w, rfl⟩),
   by decide⟩

set_option maxRecDepth 100000 in
/-- C8 on the code: an open command (`auto_repeat_n = 99`) is pushed with
repeat count 0 and dispatched with a handler that returns at once.  The handler
is called with count 99, but after this first dispatch the count is still 99,
not 98: `oldrepeats` was read before the auto-repeat was set, so the first
execution is not counted.  The count is 98 only after the second dispatch, and
`repeating` is still true after 99 dispatches and false after 100. -/
theorem auto_repeat_first_dispatch_not_counted :
    (cmdq_pop_call ex_env .CTX_INIT ex_open_queued).map
        (fun r => (r.1, r.2.1, (r.2.2.slot r.1).nrepeats))
      = some (0, cmd_code.CMD_OPEN, 99) ∧
    ((ex_pops 1 ex_open_queued).slot 0).nrepeats = 99 ∧
    (ex_pops 1 ex_open_queued).repeating = true ∧
    ((ex_pops 2 ex_open_queued).slot 0).nrepeats = 98 ∧
    (ex_pops 99 ex_open_queued).repeating = true ∧
    ((ex_pops 99 ex_open_queued).slot 0).nrepeats = 1 ∧
    (ex_pops 100 ex_open_queued).repeating = false := by
  decide

/-! ### `cmd_release` on the record -/

theorem cmd_release_args_no_string (l : List cmd_arg) :
    ∀ h : Heap, ∀ a ∈ (cmd_release_args h l).2, a.type ≠ .arg_STRING := by
  induction l with
  | nil => intro h a ha; simp [cmd_release_args] at ha
  | cons b rest ih =>
    intro h a ha
    unfold cmd_release_args at ha
    split_ifs at ha with hb
    · rcases List.mem_cons.mp ha with e | e
      · rw [e]; simp
      · exact ih _ a e
    · rcases List.mem_cons.mp ha with e | e
      · rw [e]; exact hb
      · exact ih _ a e

theorem cmd_release_args_of_no_string (l : List cmd_arg) :
    ∀ h : Heap, (∀ a ∈ l, a.type ≠ .arg_STRING) → cmd_release_args h l = (h, l) := by
  induction l with
  | nil => intro h _; rfl
  | cons b rest ih =>
    intro h hall
    have hb : b.type ≠ .arg_STRING := hall b (List.mem_cons_self _ _)
    unfold cmd_release_args
    rw [if_neg hb, ih h (fun a ha => hall a (List.mem_cons_of_mem _ ha))]

/-- What `cmd_release` leaves in slot `i`: a slot that held a string has kind
`arg_NONE` and an empty name, any other slot is untouched. -/
theorem cmd_release_args_getD (l : List cmd_arg) :
    ∀ (h : Heap) (i : Nat),
      ((l.getD i cmd_arg.zero).type = .arg_STRING →
        (((cmd_release_args h l).2).getD i cmd_arg.zero).type = .arg_NONE ∧
        (((cmd_release_args h l).2).getD i cmd_arg.zero).name = "") ∧
      ((l.getD i cmd_arg.zero).type ≠ .arg_STRING →
        ((cmd_release_args h l).2).getD i cmd_arg.zero = l.getD i cmd_arg.zero) := by
  induction l with
  | nil => intro h i; simp [cmd_release_args, cmd_arg.zero]
  | cons b rest ih =>
    intro h i
    by_cases hb : b.type = .arg_STRING
    · have e : (cmd_release_args h (b :: rest)).2
          = { b with name := "", type := .arg_NONE }
              :: (cmd_release_args (string_free h b.data.get_string) rest).2 := by
        simp [cmd_release_args, hb]
      rw [e]
      cases i with
      | zero => simp [hb]
      | succ j => simpa using ih (string_free h b.data.get_string) j
    · have e : (cmd_release_args h (b :: rest)).2 = b :: (cmd_release_args h rest).2 := by
        simp [cmd_release_args, hb]
      rw [e]
      cases i with
      | zero => simp [hb]
      | succ j => simpa using ih h j

theorem cmd_release_twice (h : Heap) (r : command) :
    cmd_release (cmd_release h r).1 (cmd_release h r).2 = cmd_release h r := by
  unfold cmd_release
  simp only
  rw [cmd_release_args_of_no_string _ _ (cmd_release_args_no_string r.arg h)]

/-- C12, as the code has it: after `cmd_release`, called once or twice, no
argument slot of the record has kind String: every slot that held a string has
kind None and an empty name, and every other slot is as it was, with the kind it
had. -/
theorem cmd_release_kinds (h : Heap) (r : command) :
    (∀ a ∈ (cmd_release h r).2.arg, a.type ≠ .arg_STRING) ∧
    (∀ i : Nat,
      ((r.arg.getD i cmd_arg.zero).type = .arg_STRING →
        ((cmd_release h r).2.arg.getD i cmd_arg.zero).type = .arg_NONE ∧
        ((cmd_release h r).2.arg.getD i cmd_arg.zero).name = "") ∧
      ((r.arg.getD i cmd_arg.zero).type ≠ .arg_STRING →
        (cmd_release h r).2.arg.getD i cmd_arg.zero = r.arg.getD i cmd_arg.zero)) ∧
    (cmd_release (cmd_release h r).1 (cmd_release h r).2).2 = (cmd_release h r).2 :=
  ⟨cmd_release_args_no_string r.arg h, cmd_release_args_getD r.arg h,
    by rw [cmd_release_twice]⟩

/-- Counterexample to C12: the walk command holds a direction in slot 0, and
after `cmd_release`, once or twice, that slot still has kind Direction. -/
theorem cmd_release_keeps_direction :
    ((cmd_release [] ex_walk).2.arg.getD 0 cmd_arg.zero).type = cmd_arg_type.arg_DIRECTION ∧
    ((cmd_release (cmd_release [] ex_walk).1 (cmd_release [] ex_walk).2).2.arg.getD 0
      cmd_arg.zero).type = cmd_arg_type.arg_DIRECTION ∧
    cmd_arg_type.arg_DIRECTION ≠ cmd_arg_type.arg_NONE := by
  decide

/-- C13: `cmd_release` is idempotent: a second call returns the record and the
heap that the first call left; after one call no slot has kind String, each
slot that held a string having an empty name and kind None, so that the second
call frees no buffer. -/
theorem cmd_release_idempotent (h : Heap) (r : command) :
    cmd_release (cmd_release h r).1 (cmd_release h r).2 = cmd_release h r ∧
    (cmd_release (cmd_release h r).1 (cmd_release h r).2).1 = (cmd_release h r).1 ∧
    (cmd_release h r).2.strings = [] ∧
    (∀ a ∈ (cmd_release h r).2.arg, a.type ≠ .arg_STRING) ∧
    (∀ i : Nat, (r.arg.getD i cmd_arg.zero).type = .arg_STRING →
      ((cmd_release h r).2.arg.getD i cmd_arg.zero).type = .arg_NONE ∧
      ((cmd_release h r).2.arg.getD i cmd_arg.zero).name = "") := by
  have hno := cmd_release_args_no_string r.arg h
  refine ⟨cmd_release_twice h r, by rw [cmd_release_twice], ?_, hno,
    fun i => (cmd_release_args_getD r.arg h i).1⟩
  have : ∀ l : List cmd_arg, (∀ a ∈ l, a.type ≠ .arg_STRING) → strings_of l = [] := by
    intro l
    induction l with
    | nil => intro _; rfl
    | cons b rest ih =>
      intro hall
      unfold strings_of
      rw [if_neg (hall b (List.mem_cons_self _ _))]
      exact ih (fun a ha => hall a (List.mem_cons_of_mem _ ha))
  exact this _ hno

/-! ### `cmdq_pop` with nothing to do -/

/-- C14: `cmdq_pop` returns false exactly when `repeating` is false and
`cmd_head = cmd_tail`; it then calls no handler and leaves the whole state
(cursors, slots, `last_command_idx`, flags) as it was.  Otherwise it returns
true after one call of `process_command`, on the slot before the tail when
repeating and on the slot at the tail when not. -/
theorem cmdq_pop_false_iff (env : Env) (ctx : cmd_context) (w : World) :
    ((cmdq_pop env ctx w).1 = false ↔ (w.repeating = false ∧ w.cmd_head = w.cmd_tail)) ∧
    ((cmdq_pop env ctx w).1 = false →
      (cmdq_pop env ctx w).2 = w ∧ cmdq_pop_call env ctx w = none) ∧
    ((cmdq_pop env ctx w).1 = true →
      ∃ (k : Nat) (w1 : World), cmdq_pop_fetch w = some (k, w1) ∧
        cmdq_pop env ctx w = (true, process_command env ctx k w1) ∧
        k = (if w.repeating then prev_cmd_idx w.cmd_tail else w.cmd_tail)) := by
  cases hr : w.repeating with
  | true =>
    obtain ⟨w', f, _⟩ := cmdq_pop_fetch_repeating w hr
    have hp : cmdq_pop env ctx w = (true, process_command env ctx (prev_cmd_idx w.cmd_tail) w') := by
      unfold cmdq_pop; rw [f]
    rw [hp]
    refine ⟨by simp, fun h => absurd h (by simp), fun _ => ⟨_, _, f, rfl, by simp⟩⟩
  | false =>
    by_cases hne : w.cmd_head ≠ w.cmd_tail
    · obtain ⟨w', f, _⟩ := cmdq_pop_fetch_next w hr hne
      have hp : cmdq_pop env ctx w = (true, process_command env ctx w.cmd_tail w') := by
        unfold cmdq_pop; rw [f]
      rw [hp]
      refine ⟨by simp [hne], fun h => absurd h (by simp), fun _ => ⟨_, _, f, rfl, by simp⟩⟩
    · have heq : w.cmd_head = w.cmd_tail := by
        by_contra hc; exact hne hc
      have f : cmdq_pop_fetch w = none := by
        unfold cmdq_pop_fetch
        rw [if_neg (by simp [hr]), if_neg hne]
      have hp : cmdq_pop env ctx w = (false, w) := by
        unfold cmdq_pop; rw [f]
      have hc : cmdq_pop_call env ctx w = none := by
        unfold cmdq_pop_call; rw [f]
      rw [hp]
      exact ⟨by simp [heq], fun _ => ⟨rfl, hc⟩, fun h => absurd h (by simp)⟩

/-! ### The repeat count -/

/-- C17: `cmd_set_repeat(n)` sets the repeat count of the slot before the tail to
`n` and `repeating` to `n != 0`; the other fields of that slot, every other
slot, the cursors, `last_command_idx`, `last_command`, `repeat_prev_allowed` and
the strings are unchanged, and `cmd_get_nrepeats()` then returns `n`. -/
theorem cmd_set_repeat_spec (n : Int) (w : World)
    (hlen : w.cmd_queue.length = CMD_QUEUE_SIZE) :
    (cmd_set_repeat n w).slot (prev_cmd_idx w.cmd_tail)
      = { w.slot (prev_cmd_idx w.cmd_tail) with nrepeats := n } ∧
    ((cmd_set_repeat n w).repeating = true ↔ n ≠ 0) ∧
    (∀ j : Nat, j ≠ prev_cmd_idx w.cmd_tail → (cmd_set_repeat n w).slot j = w.slot j) ∧
    (cmd_set_repeat n w).cmd_head = w.cmd_head ∧
    (cmd_set_repeat n w).cmd_tail = w.cmd_tail ∧
    (cmd_set_repeat n w).repeat_prev_allowed = w.repeat_prev_allowed ∧
    (cmd_set_repeat n w).last_command_idx = w.last_command_idx ∧
    (cmd_set_repeat n w).last_command = w.last_command ∧
    (cmd_set_repeat n w).heap = w.heap ∧
    cmd_get_nrepeats (cmd_set_repeat n w) = n := by
  have hk : prev_cmd_idx w.cmd_tail < w.cmd_queue.length := by
    rw [hlen]; unfold prev_cmd_idx CMD_QUEUE_SIZE; omega
  have hs : (cmd_set_repeat n w).slot (prev_cmd_idx w.cmd_tail)
      = { w.slot (prev_cmd_idx w.cmd_tail) with nrepeats := n } :=
    World.slot_set_slot_self w _ _ hk
  refine ⟨hs, ?_, ?_, rfl, rfl, rfl, rfl, rfl, rfl, ?_⟩
  · show ((if n ≠ 0 then true else false) = true ↔ n ≠ 0)
    by_cases h0 : n ≠ 0
    · simp [h0]
    · simp [h0]
  · intro j hj
    exact World.slot_set_slot_ne w _ j _ (fun e => hj e.symm)
  · show ((cmd_set_repeat n w).slot (prev_cmd_idx w.cmd_tail)).nrepeats = n
    rw [hs]

/-- Witness of C17: the count of the walk command just dispatched is set to 3. -/
theorem cmd_set_repeat_spec_witness :
    (cmd_set_repeat 3 ex_walk_done).slot (prev_cmd_idx ex_walk_done.cmd_tail)
      = { ex_walk_done.slot (prev_cmd_idx ex_walk_done.cmd_tail) with nrepeats := 3 } ∧
    (cmd_set_repeat 3 ex_walk_done).repeating = true ∧
    cmd_get_nrepeats (cmd_set_repeat 3 ex_walk_done) = 3 :=
  have h := cmd_set_repeat_spec 3 ex_walk_done (by decide)
  ⟨h.1, h.2.1.mpr (by decide), h.2.2.2.2.2.2.2.2.2⟩

theorem command_nrepeats_eta (c : command) (h : c.nrepeats = 0) :
    { c with nrepeats := 0 } = c := by
  cases c
  simp only at h
  subst h
  rfl

theorem list_set_getD_self (l : List command) :
    ∀ k : Nat, l.set k (l.getD k command.zero) = l := by
  induction l with
  | nil => intro k; rfl
  | cons a rest ih =>
    intro k
    cases k with
    | zero => rfl
    | succ j =>
      show a :: rest.set j (rest.getD j command.zero) = a :: rest
      rw [ih j]

theorem cmd_cancel_repeat_of_not (x : World)
    (h : ¬ ((x.slot (prev_cmd_idx x.cmd_tail)).nrepeats ≠ 0 ∨ x.repeating = true)) :
    cmd_cancel_repeat x = x := by
  unfold cmd_cancel_repeat
  simp only
  rw [if_neg h]

/-- C18: `cmd_cancel_repeat()` always leaves the slot before the tail with
repeat count 0 and `repeating` false; it leaves the queue, the cursors,
`last_command_idx`, `last_command`, both flags and the strings exactly as
`cmd_set_repeat(0)` does; and a second call changes nothing. -/
theorem cmd_cancel_repeat_spec (w : World) :
    ((cmd_cancel_repeat w).slot (prev_cmd_idx w.cmd_tail)).nrepeats = 0 ∧
    (cmd_cancel_repeat w).repeating = false ∧
    ((cmd_cancel_repeat w).cmd_queue = (cmd_set_repeat 0 w).cmd_queue ∧
      (cmd_cancel_repeat w).cmd_head = (cmd_set_repeat 0 w).cmd_head ∧
      (cmd_cancel_repeat w).cmd_tail = (cmd_set_repeat 0 w).cmd_tail ∧
      (cmd_cancel_repeat w).last_command_idx = (cmd_set_repeat 0 w).last_command_idx ∧
      (cmd_cancel_repeat w).last_command = (cmd_set_repeat 0 w).last_command ∧
      (cmd_cancel_repeat w).repeat_prev_allowed = (cmd_set_repeat 0 w).repeat_prev_allowed ∧
      (cmd_cancel_repeat w).repeating = (cmd_set_repeat 0 w).repeating ∧
      (cmd_cancel_repeat w).heap = (cmd_set_repeat 0 w).heap) ∧
    cmd_cancel_repeat (cmd_cancel_repeat w) = cmd_cancel_repeat w := by
  by_cases hc : (w.slot (prev_cmd_idx w.cmd_tail)).nrepeats ≠ 0 ∨ w.repeating = true
  · have e : cmd_cancel_repeat w
        = { w.set_slot (prev_cmd_idx w.cmd_tail)
              { w.slot (prev_cmd_idx w.cmd_tail) with nrepeats := 0 } with
            repeating := false,
            player := { w.player with redraw_STATE := true } } := by
      unfold cmd_cancel_repeat
      simp only
      rw [if_pos hc]
      rfl
    have hz : ((cmd_cancel_repeat w).slot (prev_cmd_idx w.cmd_tail)).nrepeats = 0 := by
      rw [e]
      show ((w.set_slot (prev_cmd_idx w.cmd_tail)
        { w.slot (prev_cmd_idx w.cmd_tail) with nrepeats := 0 }).slot
          (prev_cmd_idx w.cmd_tail)).nrepeats = 0
      rw [World.slot_set_slot]
      split_ifs with hk
      · rfl
      · have hge : w.cmd_queue.length ≤ prev_cmd_idx w.cmd_tail := by
          by_contra hlt; exact hk ⟨rfl, by omega⟩
        unfold World.slot
        rw [List.getD_eq_default _ _ hge]
        rfl
    have hrp : (cmd_cancel_repeat w).repeating = false := by rw [e]
    refine ⟨hz, hrp, by rw [e]; exact ⟨rfl, rfl, rfl, rfl, rfl, rfl, rfl, rfl⟩, ?_⟩
    have ht : (cmd_cancel_repeat w).cmd_tail = w.cmd_tail := by rw [e]; rfl
    have hn : ¬ (((cmd_cancel_repeat w).slot (prev_cmd_idx (cmd_cancel_repeat w).cmd_tail)).nrepeats
        ≠ 0 ∨ (cmd_cancel_repeat w).repeating = true) := by
      rw [ht, hz, hrp]; simp
    exact cmd_cancel_repeat_of_not _ hn
  · have e : cmd_cancel_repeat w = w := cmd_cancel_repeat_of_not w hc
    have hz : (w.slot (prev_cmd_idx w.cmd_tail)).nrepeats = 0 := by
      by_contra h0; exact hc (Or.inl h0)
    have hrp : w.repeating = false := by
      cases hr : w.repeating with
      | true => exact absurd (Or.inr hr) hc
      | false => rfl
    rw [e]
    refine ⟨hz, hrp, ⟨?_, rfl, rfl, rfl, rfl, rfl, by rw [hrp]; rfl, rfl⟩, e⟩
    show w.cmd_queue = w.cmd_queue.set (prev_cmd_idx w.cmd_tail)
      { w.slot (prev_cmd_idx w.cmd_tail) with nrepeats := 0 }
    rw [command_nrepeats_eta _ hz]
    exact (list_set_getD_self w.cmd_queue _).symm

/-! ### The floor-item guard -/

theorem loc_ne_zero_iff (g : loc) : g ≠ ⟨0, 0⟩ ↔ (g.x ≠ 0 ∨ g.y ≠ 0) := by
  cases g with
  | mk x y =>
    simp only [ne_eq, loc.mk.injEq, not_and_or]

theorem floor_item_loop_iff (w : World) (l : List cmd_arg) :
    floor_item_loop w l = true ↔ ∃ a ∈ l, floor_item w a := by
  induction l with
  | nil => simp [floor_item_loop]
  | cons b rest ih =>
    unfold floor_item_loop
    by_cases hb : b.type = .arg_ITEM ∧ b.data.get_obj ≠ 0 ∧
        ((w.object_at b.data.get_obj).grid.x ≠ 0 ∨ (w.object_at b.data.get_obj).grid.y ≠ 0)
    · rw [if_pos hb]
      have hf : floor_item w b := ⟨hb.1, hb.2.1, (loc_ne_zero_iff _).mpr hb.2.2⟩
      simp only [true_iff]
      exact ⟨b, List.mem_cons_self _ _, hf⟩
    · rw [if_neg hb, ih]
      constructor
      · rintro ⟨a, ha, hfa⟩
        exact ⟨a, List.mem_cons_of_mem _ ha, hfa⟩
      · rintro ⟨a, ha, hfa⟩
        rcases List.mem_cons.mp ha with e | e
        · subst e
          exact absurd ⟨hfa.1, hfa.2.1, (loc_ne_zero_iff _).mp hfa.2.2⟩ hb
        · exact ⟨a, e, hfa⟩

theorem cmd_disable_repeat_floor_item_slot (w : World) (hh : w.cmd_head < CMD_QUEUE_SIZE) :
    (if (w.cmd_head : Int) - 1 < 0 then (CMD_QUEUE_SIZE : Int) - 1
      else (w.cmd_head : Int) - 1).toNat = cmdq_peek w := by
  unfold cmdq_peek prev_cmd_idx CMD_QUEUE_SIZE at *
  split_ifs <;> omega

/-- What the guard does, by the record in the slot before the head. -/
theorem cmd_disable_repeat_floor_item_eq (w : World) (hh : w.cmd_head < CMD_QUEUE_SIZE) :
    ((w.repeat_prev_allowed = true ∧ (w.slot (cmdq_peek w)).code ≠ .CMD_NULL ∧
        ∃ a ∈ (w.slot (cmdq_peek w)).arg, floor_item w a) →
      cmd_disable_repeat_floor_item w = { w with repeat_prev_allowed := false }) ∧
    (¬ (w.repeat_prev_allowed = true ∧ (w.slot (cmdq_peek w)).code ≠ .CMD_NULL ∧
        ∃ a ∈ (w.slot (cmdq_peek w)).arg, floor_item w a) →
      cmd_disable_repeat_floor_item w = w) := by
  have hk := cmd_disable_repeat_floor_item_slot w hh
  unfold cmd_disable_repeat_floor_item
  simp only
  rw [hk]
  constructor
  · rintro ⟨ha, hc, hf⟩
    rw [if_neg (by simp [ha]), if_pos hc, if_pos ((floor_item_loop_iff w _).mpr hf)]
  · intro hn
    cases ha : w.repeat_prev_allowed with
    | false => rfl
    | true =>
      simp only [Bool.not_true, Bool.false_eq_true, if_false]
      by_cases hc : (w.slot (cmdq_peek w)).code ≠ .CMD_NULL
      · rw [if_pos hc]
        by_cases hl : floor_item_loop w (w.slot (cmdq_peek w)).arg = true
        · exact absurd ⟨ha, hc, (floor_item_loop_iff w _).mp hl⟩ hn
        · rw [if_neg hl]
      · rw [if_neg hc]

/-- An accepted push of a command other than `CMD_REPEAT`: the record is in the
slot at the old head, which is then the slot before the head; the objects and
`repeat_prev_allowed` are untouched. -/
theorem cmdq_push_copy_pushed (cmd : command) (w w1 : World)
    (hc : cmd.code ≠ .CMD_REPEAT) (hlen : w.cmd_queue.length = CMD_QUEUE_SIZE)
    (hh : w.cmd_head < CMD_QUEUE_SIZE) (hp : cmdq_push_copy cmd w = some (0, w1)) :
    w1.slot (cmdq_peek w1) = cmd ∧ w1.cmd_head < CMD_QUEUE_SIZE ∧
      w1.objects = w.objects ∧ w1.repeat_prev_allowed = w.repeat_prev_allowed := by
  unfold cmdq_push_copy at hp
  split_ifs at hp with h1 h2
  all_goals first
    | (simp at hp; done)
    | skip
  simp only [Option.some.injEq, Prod.mk.injEq, true_and] at hp
  subst hp
  obtain ⟨s1, s2, _, _⟩ := cmdq_push_save_last_queue w
  obtain ⟨t1, t2, _, _⟩ := cmdq_push_store_queue cmd (cmdq_push_save_last w)
  have hhd := cmdq_push_advance_head (cmdq_push_store cmd (cmdq_push_save_last w))
    (by rw [t2, s2]; exact hh)
  rw [t2, s2] at hhd
  have hpk : cmdq_peek (cmdq_push_advance (cmdq_push_store cmd (cmdq_push_save_last w)))
      = w.cmd_head := by
    unfold cmdq_peek
    rw [hhd]
    unfold prev_cmd_idx CMD_QUEUE_SIZE at *
    omega
  have hq : (cmdq_push_advance (cmdq_push_store cmd (cmdq_push_save_last w))).cmd_queue
      = w.cmd_queue.set w.cmd_head cmd := by
    show (cmdq_push_store cmd (cmdq_push_save_last w)).cmd_queue = _
    rw [t1, s1, s2]
  refine ⟨?_, ?_, ?_, ?_⟩
  · rw [hpk]
    unfold World.slot
    rw [hq, List.getD_eq_getElem?_getD, List.getElem?_set_self (by omega)]
    rfl
  · rw [hhd]; unfold CMD_QUEUE_SIZE; omega
  · show (cmdq_push_save_last w).objects = w.objects
    unfold cmdq_push_save_last; split_ifs <;> rfl
  · show (cmdq_push_save_last w).repeat_prev_allowed = w.repeat_prev_allowed
    unfold cmdq_push_save_last; split_ifs <;> rfl

theorem cmd_set_arg_scan_no_match (name : String) :
    ∀ (l : List cmd_arg) (i : Nat) (fe : Int), fe ≠ -1 → (∀ a ∈ l, a.name ≠ name) →
      cmd_set_arg_scan name l i fe = (fe, -1) := by
  intro l
  induction l with
  | nil => intro i fe _ _; rfl
  | cons a rest ih =>
    intro i fe hfe hall
    have ha : a.name ≠ name := hall a (List.mem_cons_self _ _)
    unfold cmd_set_arg_scan
    simp only
    rw [if_neg ha, if_neg (fun h => hfe h.2)]
    exact ih (i + 1) fe hfe (fun b hb => hall b (List.mem_cons_of_mem _ hb))

theorem cmd_set_arg_scan_skip (name : String) (rest : List cmd_arg) :
    ∀ (pre : List cmd_arg) (i : Nat) (fe : Int),
      (∀ a ∈ pre, a.name ≠ name ∧ a.name ≠ "") →
      cmd_set_arg_scan name (pre ++ rest) i fe
        = cmd_set_arg_scan name rest (i + pre.length) fe := by
  intro pre
  induction pre with
  | nil => intro i fe _; rfl
  | cons a pre' ih =>
    intro i fe hall
    obtain ⟨h1, h2⟩ := hall a (List.mem_cons_self _ _)
    have step : cmd_set_arg_scan name (a :: pre' ++ rest) i fe
        = cmd_set_arg_scan name (pre' ++ rest) (i + 1) fe := by
      show cmd_set_arg_scan name (a :: (pre' ++ rest)) i fe = _
      simp [cmd_set_arg_scan, h1, h2]
    have e : i + 1 + pre'.length = i + (a :: pre').length := by
      simp only [List.length_cons]; omega
    rw [step, ih (i + 1) fe (fun b hb => hall b (List.mem_cons_of_mem _ hb)), e]

theorem cmd_set_arg_scan_unused (name : String) (e : cmd_arg) (post : List cmd_arg)
    (i : Nat) (he : e.name = "") (hn : name ≠ "") (hpost : ∀ a ∈ post, a.name ≠ name) :
    cmd_set_arg_scan name (e :: post) i (-1) = ((i : Int), -1) := by
  unfold cmd_set_arg_scan
  simp only
  rw [if_neg (by rw [he]; exact fun h => hn h.symm), if_pos ⟨he, trivial⟩]
  exact cmd_set_arg_scan_no_match name post (i + 1) i (by omega) hpost

/-- A name borne by no slot goes into the first unused slot. -/
theorem cmd_set_arg_first_unused (nsz : Nat) (h : Heap) (cmd : command) (n : String)
    (t : cmd_arg_type) (d : cmd_arg_data) (pre : List cmd_arg) (e : cmd_arg)
    (post : List cmd_arg) (hargs : cmd.arg = pre ++ e :: post)
    (hpre : ∀ a ∈ pre, a.name ≠ n ∧ a.name ≠ "") (he : e.name = "")
    (hpost : ∀ a ∈ post, a.name ≠ n) (hn : n ≠ "") :
    cmd_set_arg nsz h cmd (some n) t d
      = some (h, { cmd with arg := pre ++ ⟨t, d, my_strcpy n nsz⟩ :: post }) := by
  have hscan : cmd_set_arg_scan n cmd.arg 0 (-1) = ((pre.length : Int), -1) := by
    rw [hargs, cmd_set_arg_scan_skip n _ pre 0 (-1) hpre,
      cmd_set_arg_scan_unused n e post _ he hn hpost]
    simp
  unfold cmd_set_arg
  simp only
  rw [if_neg hn, hscan]
  have hne : ¬ ((pre.length : Int) = -1 ∧ (-1 : Int) = -1) := by omega
  simp only [hne, if_false, if_true, Int.toNat_ofNat]
  rw [hargs]
  simp

/-- When no slot bears the name and none is unused, `cmd_set_arg` fails. -/
theorem cmd_set_arg_none_of_full (nsz : Nat) (h : Heap) (cmd : command) (n : String)
    (t : cmd_arg_type) (d : cmd_arg_data) (h1 : ∀ a ∈ cmd.arg, a.name ≠ n)
    (h2 : ∀ a ∈ cmd.arg, a.name ≠ "") : cmd_set_arg nsz h cmd (some n) t d = none := by
  unfold cmd_set_arg
  simp only
  by_cases hn : n = ""
  · rw [if_pos hn]
  · rw [if_neg hn]
    have hboth : (cmd_set_arg_scan n cmd.arg 0 (-1)).1 = -1 ∧
        (cmd_set_arg_scan n cmd.arg 0 (-1)).2 = -1 := by
      rcases cmd_set_arg_scan_spec n cmd.arg 0 (-1) with
        ⟨j', hj', _, h3, _⟩ | ⟨e2, _, hcases⟩
      · exact absurd h3
          (h1 _ (by rw [List.getD_eq_getElem _ _ hj']; exact List.getElem_mem _))
      · rcases hcases with ⟨hfe, _⟩ | ⟨_, e1, _⟩ | ⟨_, j', hj', _, h3⟩
        · exact absurd rfl hfe
        · exact ⟨e1, e2⟩
        · exact absurd h3
            (h2 _ (by rw [List.getD_eq_getElem _ _ hj']; exact List.getElem_mem _))
    rw [if_pos hboth]

theorem cmd_set_arg_seq_fill (nsz : Nat) :
    ∀ (xs : List (String × cmd_arg_type × cmd_arg_data)) (h : Heap) (cmd : command)
      (pre unused : List cmd_arg),
      cmd.arg = pre ++ unused → unused.length = xs.length →
      (∀ e ∈ unused, e.name = "") →
      (∀ a ∈ pre, a.name ≠ "" ∧ ∀ x ∈ xs, a.name ≠ x.1) →
      (xs.map (fun x => x.1)).Nodup →
      (∀ x ∈ xs, x.1 ≠ "" ∧ x.1.length < nsz) →
      cmd_set_arg_seq nsz h cmd xs
        = some (h, { cmd with
            arg := pre ++ xs.map (fun x => (⟨x.2.1, x.2.2, x.1⟩ : cmd_arg)) }) := by
  intro xs
  induction xs with
  | nil =>
    intro h cmd pre unused hargs hlen _ _ _ _
    have hu : unused = [] := List.length_eq_zero.mp hlen
    rw [hu] at hargs
    unfold cmd_set_arg_seq
    simp only [List.map_nil]
    rw [← hargs]
  | cons x rest ih =>
    intro h cmd pre unused hargs hlen hun hpre hnd hfit
    cases unused with
    | nil => simp at hlen
    | cons e es =>
      obtain ⟨hx1, hx2⟩ := hfit x (List.mem_cons_self _ _)
      have hset := cmd_set_arg_first_unused nsz h cmd x.1 x.2.1 x.2.2 pre e es hargs
        (fun a ha => ⟨(hpre a ha).2 x (List.mem_cons_self _ _), (hpre a ha).1⟩)
        (hun e (List.mem_cons_self _ _))
        (fun a ha => by rw [hun a (List.mem_cons_of_mem _ ha)]; exact fun hc => hx1 hc.symm) hx1
      rw [my_strcpy_of_lt x.1 nsz hx2] at hset
      unfold cmd_set_arg_seq
      rw [hset]
      simp only
      have hnd' := List.nodup_cons.mp
        (show (x.1 :: rest.map (fun x => x.1)).Nodup from hnd)
      have hstep := ih h { cmd with arg := pre ++ ⟨x.2.1, x.2.2, x.1⟩ :: es }
        (pre ++ [⟨x.2.1, x.2.2, x.1⟩]) es (by simp) (by simpa using hlen)
        (fun a ha => hun a (List.mem_cons_of_mem _ ha))
        (by
          intro a ha
          rcases List.mem_append.mp ha with hp | hp
          · exact ⟨(hpre a hp).1, fun y hy => (hpre a hp).2 y (List.mem_cons_of_mem _ hy)⟩
          · have ea : a = ⟨x.2.1, x.2.2, x.1⟩ := by simpa using hp
            rw [ea]
            refine ⟨hx1, fun y hy hc => hnd'.1 ?_⟩
            simp only at hc
            rw [hc]
            exact List.mem_map_of_mem (fun x => x.1) hy)
        hnd'.2 (fun y hy => hfit y (List.mem_cons_of_mem _ hy))
      rw [hstep]
      simp

/-- C19, as the code has it: `cmd_set_arg` fails exactly when the name is null or
empty, or when no slot bears the name and no slot is unused.  Hence, starting
from a record of `CMD_MAX_ARGS` unused slots, `CMD_MAX_ARGS` distinct non-empty
names that fit the name field are set without failure, and setting any further
name then fails. -/
theorem cmd_set_arg_fails_iff (nsz : Nat) (h : Heap) (cmd : command) :
    (∀ (name : Option String) (t : cmd_arg_type) (d : cmd_arg_data),
      cmd_set_arg nsz h cmd name t d = none ↔
        (name = none ∨ name = some "" ∨
          ∃ n : String, name = some n ∧ (∀ a ∈ cmd.arg, a.name ≠ n) ∧
            (∀ a ∈ cmd.arg, a.name ≠ ""))) ∧
    (∀ xs : List (String × cmd_arg_type × cmd_arg_data),
      cmd.arg.length = CMD_MAX_ARGS → (∀ a ∈ cmd.arg, a.name = "") →
      xs.length = CMD_MAX_ARGS → (xs.map (fun x => x.1)).Nodup →
      (∀ x ∈ xs, x.1 ≠ "" ∧ x.1.length < nsz) →
      ∃ r : Heap × command, cmd_set_arg_seq nsz h cmd xs = some r ∧
        ∀ (n : String) (t : cmd_arg_type) (d : cmd_arg_data),
          n ∉ xs.map (fun x => x.1) → cmd_set_arg nsz r.1 r.2 (some n) t d = none) := by
  constructor
  · intro name t d
    constructor
    · intro hnone
      cases name with
      | none => exact Or.inl rfl
      | some n =>
        by_cases hn : n = ""
        · exact Or.inr (Or.inl (by rw [hn]))
        · refine Or.inr (Or.inr ⟨n, rfl, ?_⟩)
          have hno : ¬ ((∃ a ∈ cmd.arg, a.name = n) ∨ (∃ a ∈ cmd.arg, a.name = "")) := by
            intro hroom
            obtain ⟨r, hr⟩ := cmd_set_arg_some nsz h cmd n t d hn hroom
            rw [hnone] at hr
            exact absurd hr (by simp)
          exact ⟨fun a ha hc => hno (Or.inl ⟨a, ha, hc⟩),
            fun a ha hc => hno (Or.inr ⟨a, ha, hc⟩)⟩
    · rintro (hnull | hempty | ⟨n, hn, h1, h2⟩)
      · rw [hnull]; rfl
      · rw [hempty]; unfold cmd_set_arg; simp
      · rw [hn]; exact cmd_set_arg_none_of_full nsz h cmd n t d h1 h2
  · intro xs hlen hun hxl hnd hfit
    have hfill := cmd_set_arg_seq_fill nsz xs h cmd [] cmd.arg (by simp)
      (by rw [hlen, hxl]) hun (by simp) hnd hfit
    refine ⟨_, hfill, ?_⟩
    intro n t d hnot
    apply cmd_set_arg_none_of_full
    · intro a ha hc
      simp only [List.nil_append, List.mem_map] at ha
      obtain ⟨x, hx, hxa⟩ := ha
      apply hnot
      rw [← hc, ← hxa]
      exact List.mem_map_of_mem (fun x => x.1) hx
    · intro a ha hc
      simp only [List.nil_append, List.mem_map] at ha
      obtain ⟨x, hx, hxa⟩ := ha
      rw [← hxa] at hc
      exact (hfit x hx).1 hc

/-- Witness of C19: four names set in the record of `cmdq_push_repeat`, in a
name field of 32 bytes, and a fifth that fails. -/
theorem cmd_set_arg_fails_iff_witness :
    ∃ r : Heap × command, cmd_set_arg_seq 32 [] command.zero ex_four_args = some r ∧
      ∀ (n : String) (t : cmd_arg_type) (d : cmd_arg_data),
        n ∉ ex_four_args.map (fun x => x.1) → cmd_set_arg 32 r.1 r.2 (some n) t d = none :=
  (cmd_set_arg_fails_iff 32 [] command.zero).2 ex_four_args (by decide) (by decide)
    (by decide) (by decide) (by decide)

/-- Counterexample to C19: in a name field of 20 bytes, four distinct non-empty
names are set in an empty record, the first of 22 characters; a fifth name,
distinct from the four, is then set without failure, because it is the 19
characters under which the first was stored. -/
theorem cmd_set_arg_fifth_name_set :
    ((cmd_set_arg_seq 20 [] command.zero ex_four_args).bind
        (fun r => cmd_set_arg 20 r.1 r.2 (some "direction_of_next_s") .arg_NUMBER
          (.number 1))).map (fun r => r.2.arg.map (fun a => a.name))
      = some ["direction_of_next_s", "item", "quantity", "choice"] ∧
    "direction_of_next_s" ∉ ex_four_args.map (fun x => x.1) ∧
    (ex_four_args.map (fun x => x.1)).Nodup ∧
    ex_four_args.length = CMD_MAX_ARGS := by
  decide

/-! ### The source of a repeat across a push -/

theorem view_of_release (h : Heap) (r c : command)
    (hd : ∀ p ∈ c.strings, p = 0 ∨ p ∉ r.strings) :
    c.view (cmd_release h r).1 = c.view h := by
  unfold command.view
  rw [map_view_congr c.arg _ h (fun p hp => by
    rcases hd p hp with h0 | hn
    · rw [h0, Heap.read_zero, Heap.read_zero]
    · exact cmd_release_read h r p hn)]

theorem view_of_copy (h : Heap) (src c : command)
    (ha : ∀ p ∈ c.strings, p ≤ h.length) :
    c.view (cmd_copy h src).1 = c.view h := by
  unfold command.view
  rw [map_view_congr c.arg (cmd_copy h src).1 h
    (fun p hp => cmd_copy_args_read_old src.arg h p (ha p hp))]

theorem cmd_copy_args_strings (l : List cmd_arg) :
    ∀ (h : Heap) (p : Nat), p ∈ strings_of (cmd_copy_args h l).2 → p = 0 ∨ h.length < p := by
  induction l with
  | nil => intro h p hp; simp [cmd_copy_args, strings_of] at hp
  | cons a rest ih =>
    intro h p hp
    by_cases hs : a.type = .arg_STRING
    · have e : (cmd_copy_args h (a :: rest)).2
          = { a with data := .string (string_make h (h.read a.data.get_string)).1 }
              :: (cmd_copy_args (string_make h (h.read a.data.get_string)).2 rest).2 := by
        simp [cmd_copy_args, hs]
      rw [e] at hp
      unfold strings_of at hp
      rw [if_pos hs] at hp
      rcases List.mem_cons.mp hp with e1 | e1
      · rw [e1]
        show (string_make h (h.read a.data.get_string)).1 = 0 ∨ _
        cases h.read a.data.get_string with
        | none => exact Or.inl rfl
        | some s => exact Or.inr (Nat.lt_succ_self _)
      · rcases ih _ p e1 with h0 | hlt
        · exact Or.inl h0
        · exact Or.inr (Nat.lt_of_le_of_lt (string_make_length_le h _) hlt)
    · have e : (cmd_copy_args h (a :: rest)).2 = a :: (cmd_copy_args h rest).2 := by
        simp [cmd_copy_args, hs]
      rw [e] at hp
      unfold strings_of at hp
      rw [if_neg hs] at hp
      exact ih h p hp

theorem World.slot_of_queue (w w' : World) (j : Nat) (h : w'.cmd_queue = w.cmd_queue) :
    w'.slot j = w.slot j := by
  unfold World.slot; rw [h]

/-- The statements that store a pushed record keep what a record shows when its
strings are not among those of the slot at the head. -/
theorem cmdq_push_store_view (cmd c : command) (w : World)
    (hd : ∀ p ∈ c.strings, p = 0 ∨ p ∉ (w.slot w.cmd_head).strings) :
    c.view (cmdq_push_store cmd w).heap = c.view w.heap :=
  view_of_release w.heap (w.slot w.cmd_head) c hd

/-- The statements that materialise a repeat keep what a record shows when its
strings were handed out by `string_make` and are not among those of the slot at
the head. -/
theorem cmdq_push_duplicate_view_other (src c : command) (w : World)
    (ha : ∀ p ∈ c.strings, p ≤ w.heap.length)
    (hd : ∀ p ∈ c.strings, p = 0 ∨ p ∉ (w.slot w.cmd_head).strings) :
    c.view (cmdq_push_duplicate src w).heap = c.view w.heap := by
  show c.view (cmd_copy (cmd_release w.heap (w.slot w.cmd_head)).1 src).1 = _
  rw [view_of_copy _ src c (fun p hp => by rw [cmd_release_length]; exact ha p hp)]
  exact view_of_release w.heap _ c hd

/-- After the last command was copied out of the queue and the pushed record
stored over it, `last_command` shows what the slot showed. -/
theorem cmdq_push_saved_view (cmd : command) (w : World)
    (hi : w.last_command_idx = (w.cmd_head : Int))
    (ha : ∀ p ∈ (w.slot w.cmd_head).strings, p ≤ w.heap.length)
    (hd : ∀ p ∈ (w.slot w.cmd_head).strings, p ∉ w.last_command.strings) :
    (cmdq_push_store cmd (cmdq_push_save_last w)).last_command_idx = -1 ∧
    (cmdq_push_store cmd (cmdq_push_save_last w)).last_command.view
        (cmdq_push_store cmd (cmdq_push_save_last w)).heap
      = (w.slot w.cmd_head).view w.heap := by
  have e : cmdq_push_save_last w
      = { w with heap := (cmd_copy (cmd_release w.heap w.last_command).1 (w.slot w.cmd_head)).1,
                 last_command :=
                   (cmd_copy (cmd_release w.heap w.last_command).1 (w.slot w.cmd_head)).2,
                 last_command_idx := -1 } := by
    unfold cmdq_push_save_last
    rw [if_pos hi]
  constructor
  · rw [e]; rfl
  · have hs : (cmdq_push_save_last w).slot (cmdq_push_save_last w).cmd_head
        = w.slot w.cmd_head := by rw [e]; rfl
    have hl : (cmdq_push_store cmd (cmdq_push_save_last w)).last_command
        = (cmdq_push_save_last w).last_command := rfl
    rw [hl, cmdq_push_store_view cmd _ (cmdq_push_save_last w) (by
      rw [hs, e]
      intro p hp
      rcases cmd_copy_args_strings (w.slot w.cmd_head).arg _ p hp with h0 | hlt
      · exact Or.inl h0
      · right
        intro hmem
        have hle := ha p hmem
        rw [cmd_release_length] at hlt
        exact absurd hle (Nat.not_le_of_lt hlt)), e]
    show (cmd_copy (cmd_release w.heap w.last_command).1 (w.slot w.cmd_head)).2.view
        (cmd_copy (cmd_release w.heap w.last_command).1 (w.slot w.cmd_head)).1 = _
    rw [cmd_copy_view _ _ (fun p hp => by rw [cmd_release_length]; exact ha p hp)]
    exact view_of_release w.heap _ _ (fun p hp => Or.inr (hd p hp))

theorem repeat_source_of_idx (w : World) (hi : w.last_command_idx = (w.cmd_head : Int)) :
    w.repeat_source = w.slot w.cmd_head := by
  unfold World.repeat_source
  rw [if_pos (by omega), hi]
  simp

/-- The source of a repeat is not the slot at the head: a write to that slot
leaves it in place. -/
theorem repeat_source_set_head (w w' : World) (c : command)
    (hne : w.last_command_idx ≠ (w.cmd_head : Int))
    (hq : w'.cmd_queue = w.cmd_queue.set w.cmd_head c)
    (hi : w'.last_command_idx = w.last_command_idx)
    (hl : w'.last_command = w.last_command) :
    w'.repeat_source = w.repeat_source := by
  unfold World.repeat_source
  rw [hi, hl]
  by_cases h0 : w.last_command_idx ≥ 0
  · rw [if_pos h0, if_pos h0]
    unfold World.slot
    rw [hq, List.getD_eq_getElem?_getD, List.getD_eq_getElem?_getD,
      List.getElem?_set_ne (by omega)]
  · rw [if_neg h0, if_neg h0]

/-- C16: across every call of `cmdq_push_copy`, the record that `CMD_REPEAT`
would materialise (`cmd_queue[last_command_idx]` if the index is not negative,
`last_command` otherwise) shows the same context, code, repeat count, background
flag and arguments, string texts included.  When an accepted push of another
command writes into the slot that `last_command_idx` refers to,
`last_command_idx` becomes -1 and `last_command` shows what the slot showed.
The strings of the source were handed out by `string_make`, and no buffer is
held by both the slot at the head and the source or `last_command`. -/
theorem repeat_source_survives (cmd : command) (w : World) (r : Int × World)
    (halloc : ∀ p ∈ w.repeat_source.strings, p ≤ w.heap.length)
    (hown : w.last_command_idx ≠ (w.cmd_head : Int) →
      ∀ p ∈ w.repeat_source.strings, p ∉ (w.slot w.cmd_head).strings)
    (hown2 : w.last_command_idx = (w.cmd_head : Int) →
      ∀ p ∈ (w.slot w.cmd_head).strings, p ∉ w.last_command.strings)
    (hp : cmdq_push_copy cmd w = some r) :
    r.2.repeat_source.view r.2.heap = w.repeat_source.view w.heap ∧
    (cmd.code ≠ .CMD_REPEAT → r.1 = 0 → w.last_command_idx = (w.cmd_head : Int) →
      r.2.last_command_idx = -1 ∧
      r.2.last_command.view r.2.heap = (w.slot w.cmd_head).view w.heap) := by
  by_cases hrej : r.1 ≠ 0
  · rw [cmdq_push_copy_rejected_unchanged cmd w r hp hrej]
    exact ⟨rfl, fun _ h0 => absurd h0 hrej⟩
  have hr0 : r.1 = 0 := by
    by_contra hc; exact hrej hc
  unfold cmdq_push_copy at hp
  split_ifs at hp with h1 h2 h3 h4 h5 h6 h7 h8
  all_goals first
    | (simp at hp; done)
    | (simp only [Option.some.injEq] at hp; subst hp)
  all_goals first
    | (exfalso; simp at hr0; done)
    | skip
  · -- another command is stored
    by_cases hi : w.last_command_idx = (w.cmd_head : Int)
    · rw [repeat_source_of_idx w hi] at halloc ⊢
      obtain ⟨k1, k2⟩ := cmdq_push_saved_view cmd w hi halloc (hown2 hi)
      have hsrc : (cmdq_push_advance (cmdq_push_store cmd (cmdq_push_save_last w))).repeat_source
          = (cmdq_push_store cmd (cmdq_push_save_last w)).last_command := by
        unfold World.repeat_source
        have : (cmdq_push_advance (cmdq_push_store cmd (cmdq_push_save_last w))).last_command_idx
            = -1 := k1
        rw [this, if_neg (by decide)]
        rfl
      exact ⟨by rw [hsrc]; exact k2, fun _ _ _ => ⟨k1, k2⟩⟩
    · have e : cmdq_push_save_last w = w := by
        unfold cmdq_push_save_last; rw [if_neg hi]
      rw [e]
      have hsrc : (cmdq_push_advance (cmdq_push_store cmd w)).repeat_source
          = w.repeat_source := repeat_source_set_head w _ cmd hi rfl rfl rfl
      refine ⟨?_, fun _ _ hc => absurd hc hi⟩
      rw [hsrc]
      exact cmdq_push_store_view cmd _ w (fun p hp => Or.inr (hown hi p hp))
  · -- the repeat is a copy of `cmd_queue[last_command_idx]`
    have hsrc : (cmdq_push_advance (cmdq_push_duplicate (w.slot w.last_command_idx.toNat)
        w)).repeat_source = w.repeat_source := repeat_source_set_head w _ _ h7 rfl rfl rfl
    refine ⟨?_, fun hc => absurd hc h3⟩
    rw [hsrc]
    exact cmdq_push_duplicate_view_other _ _ w halloc (fun p hp => Or.inr (hown h7 p hp))
  · -- `last_command_idx = cmd_head`: nothing is written
    exact ⟨rfl, fun hc => absurd hc h3⟩
  · -- the repeat is a copy of `last_command`
    have hne : w.last_command_idx ≠ (w.cmd_head : Int) := by omega
    have hsrc : (cmdq_push_advance (cmdq_push_duplicate w.last_command w)).repeat_source
        = w.repeat_source := repeat_source_set_head w _ _ hne rfl rfl rfl
    refine ⟨?_, fun hc => absurd hc h3⟩
    rw [hsrc]
    exact cmdq_push_duplicate_view_other _ _ w halloc (fun p hp => Or.inr (hown hne p hp))

/-- Witness of C16: the inscribe command with the note "hello" was dispatched
from slot 0, and a walk command is pushed into that slot. -/
theorem repeat_source_survives_witness :
    ((cmdq_push_copy ex_walk ex_recycle).getD (1, ex_recycle)).2.repeat_source.view
        ((cmdq_push_copy ex_walk ex_recycle).getD (1, ex_recycle)).2.heap
      = ex_recycle.repeat_source.view ex_recycle.heap ∧
    (ex_walk.code ≠ cmd_code.CMD_REPEAT →
      ((cmdq_push_copy ex_walk ex_recycle).getD (1, ex_recycle)).1 = 0 →
      ex_recycle.last_command_idx = (ex_recycle.cmd_head : Int) →
      ((cmdq_push_copy ex_walk ex_recycle).getD (1, ex_recycle)).2.last_command_idx = -1 ∧
      ((cmdq_push_copy ex_walk ex_recycle).getD (1, ex_recycle)).2.last_command.view
          ((cmdq_push_copy ex_walk ex_recycle).getD (1, ex_recycle)).2.heap
        = (ex_recycle.slot ex_recycle.cmd_head).view ex_recycle.heap) :=
  repeat_source_survives ex_walk ex_recycle
    ((cmdq_push_copy ex_walk ex_recycle).getD (1, ex_recycle))
    (by decide) (by decide) (by decide) (by decide)

/-! ### Background commands and the source of a repeat -/

theorem cmd_copy_args_shape (l : List cmd_arg) :
    ∀ h : Heap, (cmd_copy_args h l).2.map cmd_arg.shape = l.map cmd_arg.shape := by
  induction l with
  | nil => intro h; rfl
  | cons a rest ih =>
    intro h
    by_cases hs : a.type = .arg_STRING
    · have e : (cmd_copy_args h (a :: rest)).2
          = { a with data := .string (string_make h (h.read a.data.get_string)).1 }
              :: (cmd_copy_args (string_make h (h.read a.data.get_string)).2 rest).2 := by
        simp [cmd_copy_args, hs]
      rw [e]
      simp only [List.map_cons]
      rw [ih]
      congr 1
      simp [cmd_arg.shape, hs]
    · have e : (cmd_copy_args h (a :: rest)).2 = a :: (cmd_copy_args h rest).2 := by
        simp [cmd_copy_args, hs]
      rw [e]
      simp only [List.map_cons]
      rw [ih]

/-- A pop that is not a replay, when handlers and the forced attack leave the
queue alone: the record at the tail is fetched, the tail advances, and
`last_command_idx` is set to its slot unless it is a background command. -/
theorem cmdq_pop_next_frame (env : Env) (ctx : cmd_context) (w : World)
    (hr : w.repeating = false) (hne : w.cmd_head ≠ w.cmd_tail)
    (hH : ∀ (c : cmd_code) (j : Nat), keeps_queue (env.handler c j))
    (hA : keeps_queue (fun x => (env.player_attack_random_monster x).2)) :
    (cmdq_pop env ctx w).1 = true ∧
    (∃ wf : World, cmdq_pop_fetch w = some (w.cmd_tail, wf) ∧ wf.cmd_queue = w.cmd_queue) ∧
    (cmdq_pop env ctx w).2.cmd_head = w.cmd_head ∧
    (cmdq_pop env ctx w).2.cmd_tail
      = (if w.cmd_tail + 1 = CMD_QUEUE_SIZE then 0 else w.cmd_tail + 1) ∧
    (cmdq_pop env ctx w).2.last_command_idx
      = (if (w.slot w.cmd_tail).background_command = 0
          then ((prev_cmd_idx (if w.cmd_tail + 1 = CMD_QUEUE_SIZE then 0 else w.cmd_tail + 1)
            : Nat) : Int) else w.last_command_idx) ∧
    (cmdq_pop env ctx w).2.cmd_queue.length = w.cmd_queue.length ∧
    ∀ j : Nat, ((cmdq_pop env ctx w).2.slot j).code = (w.slot j).code ∧
      ((cmdq_pop env ctx w).2.slot j).background_command = (w.slot j).background_command ∧
      ((cmdq_pop env ctx w).2.slot j).arg = (w.slot j).arg := by
  obtain ⟨wf, f1, fq, _, fh, ft, _, _, _, fi⟩ := cmdq_pop_fetch_next w hr hne
  have hp : cmdq_pop env ctx w = (true, process_command env ctx w.cmd_tail wf) := by
    unfold cmdq_pop; rw [f1]
  obtain ⟨⟨g1, g2, g3, g4, g5⟩, _⟩ := process_command_frame env ctx w.cmd_tail wf hH hA
  rw [hp]
  refine ⟨rfl, ⟨wf, f1, fq⟩, g1.trans fh, g2.trans ft, g3.trans fi, by rw [g4, fq], fun j => ?_⟩
  rw [← World.slot_of_queue w wf j fq]
  exact g5 j

/-- An accepted push of `CMD_REPEAT` when `last_command_idx` is a slot other than
the head: the slot at the head receives the copy that `cmd_copy` makes of that
slot. -/
theorem cmdq_push_copy_repeat_of_slot (q : command) (w w3 : World) (k : Nat)
    (hq : q.code = .CMD_REPEAT) (hi : w.last_command_idx = (k : Int))
    (hk : k ≠ w.cmd_head) (hl : w.cmd_head < w.cmd_queue.length)
    (hp : cmdq_push_copy q w = some (0, w3)) :
    w3.slot w.cmd_head
      = (cmd_copy (cmd_release w.heap (w.slot w.cmd_head)).1 (w.slot k)).2 := by
  unfold cmdq_push_copy at hp
  split_ifs at hp with h1 h2 h3 h4 h5 h6 h7 h8
  all_goals first
    | (simp at hp; done)
    | exact absurd hq ‹q.code ≠ cmd_code.CMD_REPEAT›
    | skip
  · simp only [Option.some.injEq, Prod.mk.injEq, true_and] at hp
    subst hp
    rw [hi]
    simp only [Int.toNat_ofNat]
    show (cmdq_push_duplicate (w.slot k) w).slot w.cmd_head = _
    unfold cmdq_push_duplicate
    simp only
    rw [World.slot_set_slot, if_pos ⟨rfl, hl⟩]
  · exfalso
    apply h7
    rw [hi]
    intro hc
    exact hk (by exact_mod_cast hc)
  · exfalso
    rw [hi] at h5
    exact h5 (by omega)

/-- C15: one non-background record A is queued and dispatched, and does not go
on repeating; a background record B is then pushed and dispatched.  After the
dispatch of A `last_command_idx` is A's slot, and it still is after the
dispatch of B; a push of `CMD_REPEAT` accepted after that puts at the head a
record with the code, the background flag and the arguments of A (a copy made
by `cmd_copy`), not those of B.  Handlers and the forced attack leave the queue
alone. -/
theorem background_not_replay_source (env : Env) (ctxA ctxB : cmd_context) (w0 : World)
    (b q : command)
    (hlen : w0.cmd_queue.length = CMD_QUEUE_SIZE) (ht : w0.cmd_tail < CMD_QUEUE_SIZE)
    (hone : w0.cmd_head = (w0.cmd_tail + 1) % CMD_QUEUE_SIZE)
    (hrep : w0.repeating = false)
    (hfg : (w0.slot w0.cmd_tail).background_command = 0)
    (hstop : (cmdq_pop env ctxA w0).2.repeating = false)
    (hb : b.code ≠ .CMD_REPEAT) (hbg : b.background_command ≠ 0)
    (hq : q.code = .CMD_REPEAT)
    (hH : ∀ (c : cmd_code) (j : Nat), keeps_queue (env.handler c j))
    (hA : keeps_queue (fun x => (env.player_attack_random_monster x).2)) :
    (cmdq_pop env ctxA w0).1 = true ∧
    (cmdq_pop env ctxA w0).2.last_command_idx = (w0.cmd_tail : Int) ∧
    ∃ w1 : World, cmdq_push_copy b (cmdq_pop env ctxA w0).2 = some (0, w1) ∧
      (∃ wf : World, cmdq_pop_fetch w1 = some (w0.cmd_head, wf) ∧ wf.slot w0.cmd_head = b) ∧
      (cmdq_pop env ctxB w1).1 = true ∧
      (cmdq_pop env ctxB w1).2.last_command_idx = (w0.cmd_tail : Int) ∧
      ∀ w3 : World, cmdq_push_copy q (cmdq_pop env ctxB w1).2 = some (0, w3) →
        (w3.slot (cmdq_pop env ctxB w1).2.cmd_head).code = (w0.slot w0.cmd_tail).code ∧
        (w3.slot (cmdq_pop env ctxB w1).2.cmd_head).background_command = 0 ∧
        (w3.slot (cmdq_pop env ctxB w1).2.cmd_head).arg.map cmd_arg.shape
          = (w0.slot w0.cmd_tail).arg.map cmd_arg.shape := by
  have hne0 : w0.cmd_head ≠ w0.cmd_tail := by
    rw [hone]; unfold CMD_QUEUE_SIZE at *; omega
  -- the dispatch of A
  obtain ⟨a1, _, a3, a4, a5, a6, a7⟩ := cmdq_pop_next_frame env ctxA w0 hrep hne0 hH hA
  obtain ⟨wA, hwA⟩ : ∃ wA : World, wA = (cmdq_pop env ctxA w0).2 := ⟨_, rfl⟩
  rw [← hwA] at a3 a4 a5 a6 a7 hstop ⊢
  rw [if_pos hfg] at a5
  have tA : wA.cmd_tail = w0.cmd_head := by
    rw [a4, hone]; unfold CMD_QUEUE_SIZE at *; split_ifs <;> omega
  have iA : wA.last_command_idx = (w0.cmd_tail : Int) := by
    rw [a5]; unfold prev_cmd_idx CMD_QUEUE_SIZE at *; split_ifs <;> omega
  refine ⟨a1, iA, ?_⟩
  -- the push of B
  have c1 : ¬ (wA.cmd_head + 1 = wA.cmd_tail) := by rw [a3, tA]; omega
  have c2 : ¬ (wA.cmd_head + 1 = CMD_QUEUE_SIZE ∧ wA.cmd_tail = 0) := by
    rw [a3, tA]; unfold CMD_QUEUE_SIZE at *; omega
  have hsl : cmdq_push_save_last wA = wA := by
    unfold cmdq_push_save_last
    rw [if_neg (by rw [iA, a3, hone]; unfold CMD_QUEUE_SIZE at *; omega)]
  have p1 : cmdq_push_copy b wA = some (0, cmdq_push_advance (cmdq_push_store b wA)) := by
    unfold cmdq_push_copy
    rw [if_neg c1, if_neg c2, if_pos hb, hsl]
  obtain ⟨w1, hw1⟩ : ∃ w1 : World, w1 = cmdq_push_advance (cmdq_push_store b wA) := ⟨_, rfl⟩
  have q1 : w1.cmd_queue = wA.cmd_queue.set w0.cmd_head b := by rw [hw1, ← a3]; rfl
  have hd1 : w1.cmd_head = (w0.cmd_head + 1) % CMD_QUEUE_SIZE := by
    rw [hw1, cmdq_push_advance_head _ (by
      show wA.cmd_head < CMD_QUEUE_SIZE
      rw [a3, hone]; unfold CMD_QUEUE_SIZE; omega)]
    show (wA.cmd_head + 1) % CMD_QUEUE_SIZE = _
    rw [a3]
  have tl1 : w1.cmd_tail = w0.cmd_head := by rw [hw1]; exact tA
  have rp1 : w1.repeating = false := by rw [hw1]; exact hstop
  have ix1 : w1.last_command_idx = (w0.cmd_tail : Int) := by rw [hw1]; exact iA
  have hhl : w0.cmd_head < wA.cmd_queue.length := by
    rw [a6, hlen, hone]; unfold CMD_QUEUE_SIZE; omega
  have s1b : w1.slot w0.cmd_head = b := by
    unfold World.slot
    rw [q1, List.getD_eq_getElem?_getD, List.getElem?_set_self hhl]
    rfl
  have s1a : w1.slot w0.cmd_tail = wA.slot w0.cmd_tail := by
    unfold World.slot
    rw [q1, List.getD_eq_getElem?_getD, List.getD_eq_getElem?_getD,
      List.getElem?_set_ne hne0]
  have hne1 : w1.cmd_head ≠ w1.cmd_tail := by
    rw [hd1, tl1]; unfold CMD_QUEUE_SIZE at *; omega
  -- the dispatch of B
  obtain ⟨b1, ⟨wf, bf, bq⟩, b3, b4, b5, b6, b7⟩ :=
    cmdq_pop_next_frame env ctxB w1 rp1 hne1 hH hA
  obtain ⟨w2, hw2⟩ : ∃ w2 : World, w2 = (cmdq_pop env ctxB w1).2 := ⟨_, rfl⟩
  rw [← hw2] at b3 b4 b5 b6 b7
  rw [tl1] at bf b4 b5
  rw [s1b, if_neg hbg, ix1] at b5
  refine ⟨w1, by rw [p1, hw1], ⟨wf, bf, by rw [World.slot_of_queue w1 wf _ bq]; exact s1b⟩,
    b1, by rw [← hw2]; exact b5, ?_⟩
  -- the push of `CMD_REPEAT`
  rw [← hw2]
  intro w3 hp3
  have hk : w0.cmd_tail ≠ w2.cmd_head := by
    rw [b3, hd1, hone]; unfold CMD_QUEUE_SIZE at *; omega
  have hl2 : w2.cmd_head < w2.cmd_queue.length := by
    rw [b6, q1, List.length_set, a6, hlen, b3, hd1]; unfold CMD_QUEUE_SIZE; omega
  have hs3 := cmdq_push_copy_repeat_of_slot q w2 w3 w0.cmd_tail hq b5 hk hl2 hp3
  obtain ⟨x1, x2, x3⟩ := b7 w0.cmd_tail
  obtain ⟨y1, y2, y3⟩ := a7 w0.cmd_tail
  rw [s1a] at x1 x2 x3
  rw [hs3]
  refine ⟨x1.trans y1, (x2.trans y2).trans hfg, ?_⟩
  show (cmd_copy_args _ (w2.slot w0.cmd_tail).arg).2.map cmd_arg.shape = _
  rw [cmd_copy_args_shape, x3, y3]

set_option maxRecDepth 100000 in
/-- Witness of C15: the inscribe command is queued and dispatched, the
background autopickup is pushed and dispatched, and `CMD_REPEAT` is pushed. -/
theorem background_not_replay_source_witness :
    ex_note_queued.cmd_queue.length = CMD_QUEUE_SIZE ∧ ex_note_queued.cmd_tail < CMD_QUEUE_SIZE ∧
    ex_note_queued.cmd_head = (ex_note_queued.cmd_tail + 1) % CMD_QUEUE_SIZE ∧
    ex_note_queued.repeating = false ∧
    (ex_note_queued.slot ex_note_queued.cmd_tail).background_command = 0 ∧
    (cmdq_pop ex_env .CTX_INIT ex_note_queued).2.repeating = false ∧
    ex_background.code ≠ .CMD_REPEAT ∧ ex_background.background_command ≠ 0 ∧
    ex_repeat.code = .CMD_REPEAT ∧
    ((cmdq_pop ex_env .CTX_INIT ex_note_queued).1 = true ∧
    (cmdq_pop ex_env .CTX_INIT ex_note_queued).2.last_command_idx
      = (ex_note_queued.cmd_tail : Int) ∧
    ∃ w1 : World,
      cmdq_push_copy ex_background (cmdq_pop ex_env .CTX_INIT ex_note_queued).2 = some (0, w1) ∧
      (∃ wf : World, cmdq_pop_fetch w1 = some (ex_note_queued.cmd_head, wf) ∧
        wf.slot ex_note_queued.cmd_head = ex_background) ∧
      (cmdq_pop ex_env .CTX_INIT w1).1 = true ∧
      (cmdq_pop ex_env .CTX_INIT w1).2.last_command_idx = (ex_note_queued.cmd_tail : Int) ∧
      ∀ w3 : World, cmdq_push_copy ex_repeat (cmdq_pop ex_env .CTX_INIT w1).2 = some (0, w3) →
        (w3.slot (cmdq_pop ex_env .CTX_INIT w1).2.cmd_head).code
          = (ex_note_queued.slot ex_note_queued.cmd_tail).code ∧
        (w3.slot (cmdq_pop ex_env .CTX_INIT w1).2.cmd_head).background_command = 0 ∧
        (w3.slot (cmdq_pop ex_env .CTX_INIT w1).2.cmd_head).arg.map cmd_arg.shape
          = (ex_note_queued.slot ex_note_queued.cmd_tail).arg.map cmd_arg.shape) :=
  ⟨by decide, by decide, by decide, by decide, by decide, by decide, by decide, by decide,
    by decide,
    background_not_replay_source ex_env .CTX_INIT .CTX_INIT ex_note_queued ex_background
      ex_repeat (by decide) (by decide) (by decide) (by decide) (by decide) (by decide)
      (by decide) (by decide) (by decide)
      (fun _ _ w => ⟨queue_frame_refl w, rfl⟩) (fun w => ⟨queue_frame_refl w, rfl⟩)⟩

/-! ### Helpers that prompt -/

/-- Writing a value back into `cmd_queue[k]` under a name that fits: the store
succeeds and the slot then yields the value under that name. -/
theorem cmd_set_arg_write_back (nsz k : Nat) (name : String) (t : cmd_arg_type)
    (d : cmd_arg_data) (hp : Heap) (x : World)
    (hname : name ≠ "") (hfit : name.length < nsz) (hk : k < x.cmd_queue.length)
    (hroom : (∃ a ∈ (x.slot k).arg, a.name = name) ∨ (∃ a ∈ (x.slot k).arg, a.name = "")) :
    ∃ s : Heap × command, cmd_set_arg nsz hp (x.slot k) (some name) t d = some s ∧
      cmd_get_arg (({ x with heap := s.1 }.set_slot k s.2).slot k) name t
        = (CMD_OK, some d) := by
  obtain ⟨s, hs⟩ := cmd_set_arg_some nsz hp (x.slot k) name t d hname hroom
  refine ⟨s, hs, ?_⟩
  rw [World.slot_set_slot, if_pos ⟨rfl, hk⟩,
    cmd_get_arg_after_set nsz hp (x.slot k) name t t d s.1 s.2 hfit hs]
  simp

theorem cmd_get_arg_ok_mem (c : command) (name : String) (t : cmd_arg_type)
    (d : cmd_arg_data) (hg : cmd_get_arg c name t = (CMD_OK, some d)) :
    ∃ a ∈ c.arg, a.name = name := by
  by_contra hno
  push_neg at hno
  have hnp := cmd_get_arg_loop_absent name t c.arg hno
  unfold cmd_get_arg at hg
  rw [hnp] at hg
  simp at hg

theorem cmd_get_quantity_of_arg (P : Prompts) (nsz k : Nat) (name : String)
    (amt max v : Int) (w : World)
    (hg : cmd_get_arg (w.slot k) name .arg_NUMBER = (CMD_OK, some (.number v))) :
    cmd_get_quantity P nsz k name amt max w = some ⟨CMD_OK, v, false, w⟩ := by
  have hgd : cmd_get_arg_number (w.slot k) name amt = (CMD_OK, v) := by
    unfold cmd_get_arg_number; rw [hg]; rfl
  unfold cmd_get_quantity
  simp only [hgd]
  rfl

theorem cmd_get_quantity_write_back (P : Prompts) (nsz k : Nat) (name : String)
    (amt max v : Int) (w x : World) (hname : name ≠ "") (hfit : name.length < nsz)
    (hmiss : (cmd_get_arg_number (w.slot k) name amt).1 ≠ CMD_OK)
    (hprompt : P.get_quantity none max w = (v, x)) (hv : 0 < v)
    (hk : k < x.cmd_queue.length)
    (hroom : (∃ a ∈ (x.slot k).arg, a.name = name) ∨ (∃ a ∈ (x.slot k).arg, a.name = "")) :
    ∃ w' : World, cmd_get_quantity P nsz k name amt max w = some ⟨CMD_OK, v, true, w'⟩ ∧
      cmd_get_arg (w'.slot k) name .arg_NUMBER = (CMD_OK, some (.number v)) ∧
      ∀ amt' max' : Int,
        cmd_get_quantity P nsz k name amt' max' w' = some ⟨CMD_OK, v, false, w'⟩ := by
  obtain ⟨s, hs, hg⟩ :=
    cmd_set_arg_write_back nsz k name .arg_NUMBER (.number v) x.heap x hname hfit hk hroom
  refine ⟨{ x with heap := s.1 }.set_slot k s.2, ?_, hg,
    fun amt' max' => cmd_get_quantity_of_arg P nsz k name amt' max' v _ hg⟩
  unfold cmd_get_quantity
  simp only [hprompt]
  rw [if_neg hmiss, if_pos hv]
  unfold cmd_set_arg_number
  rw [hs]

theorem cmd_get_direction_write_back (env : Env) (nsz k : Nat) (name : String)
    (dir v : Int) (allow_5 : Bool) (w x : World) (hname : name ≠ "")
    (hfit : name.length < nsz)
    (hmiss : ¬ ((cmd_get_arg_direction (w.slot k) name dir).1 = CMD_OK ∧
      (cmd_get_arg_direction (w.slot k) name dir).2 ≠ env.DIR_NONE))
    (hprompt : env.get_rep_dir (cmd_get_arg_direction (w.slot k) name dir).2 allow_5 w
      = (true, v, x))
    (hk : k < x.cmd_queue.length)
    (hroom : (∃ a ∈ (x.slot k).arg, a.name = name) ∨ (∃ a ∈ (x.slot k).arg, a.name = "")) :
    ∃ w' : World, cmd_get_direction env nsz k name dir allow_5 w = some ⟨CMD_OK, v, true, w'⟩ ∧
      cmd_get_arg (w'.slot k) name .arg_DIRECTION = (CMD_OK, some (.direction v)) ∧
      (v ≠ env.DIR_NONE → ∀ (dir' : Int) (allow_5' : Bool),
        cmd_get_direction env nsz k name dir' allow_5' w' = some ⟨CMD_OK, v, false, w'⟩) := by
  obtain ⟨s, hs, hg⟩ :=
    cmd_set_arg_write_back nsz k name .arg_DIRECTION (.direction v) x.heap x hname hfit hk hroom
  refine ⟨{ x with heap := s.1 }.set_slot k s.2, ?_, hg,
    fun hd dir' allow_5' => cmd_get_direction_of_arg env nsz k name dir' v allow_5' _ hg hd⟩
  unfold cmd_get_direction
  simp only [hprompt]
  rw [if_neg hmiss, if_pos trivial]
  unfold cmd_set_arg_direction
  rw [hs]

theorem cmd_get_target_of_arg (P : Prompts) (nsz k : Nat) (name : String)
    (target v : Int) (w : World)
    (hg : cmd_get_arg (w.slot k) name .arg_TARGET = (CMD_OK, some (.direction v)))
    (hd : v ≠ P.DIR_UNKNOWN ∧ (v ≠ P.DIR_TARGET ∨ P.target_okay w = true)) :
    cmd_get_target P nsz k name target w = some ⟨CMD_OK, v, false, w⟩ := by
  have hgd : cmd_get_arg_target (w.slot k) name target = (CMD_OK, v) := by
    unfold cmd_get_arg_target; rw [hg]; rfl
  unfold cmd_get_target
  simp only [hgd]
  rw [if_pos ⟨trivial, hd⟩]

theorem cmd_get_target_write_back (P : Prompts) (nsz k : Nat) (name : String)
    (target v : Int) (w x : World) (hname : name ≠ "") (hfit : name.length < nsz)
    (hmiss : ¬ ((cmd_get_arg_target (w.slot k) name target).1 = CMD_OK ∧
      (cmd_get_arg_target (w.slot k) name target).2 ≠ P.DIR_UNKNOWN ∧
      ((cmd_get_arg_target (w.slot k) name target).2 ≠ P.DIR_TARGET ∨
        P.target_okay w = true)))
    (hprompt : P.get_aim_dir (cmd_get_arg_target (w.slot k) name target).2 w = (true, v, x))
    (hk : k < x.cmd_queue.length)
    (hroom : (∃ a ∈ (x.slot k).arg, a.name = name) ∨ (∃ a ∈ (x.slot k).arg, a.name = "")) :
    ∃ w' : World, cmd_get_target P nsz k name target w = some ⟨CMD_OK, v, true, w'⟩ ∧
      cmd_get_arg (w'.slot k) name .arg_TARGET = (CMD_OK, some (.direction v)) ∧
      (v ≠ P.DIR_UNKNOWN ∧ (v ≠ P.DIR_TARGET ∨ P.target_okay w' = true) →
        ∀ target' : Int,
          cmd_get_target P nsz k name target' w' = some ⟨CMD_OK, v, false, w'⟩) := by
  obtain ⟨s, hs, hg⟩ :=
    cmd_set_arg_write_back nsz k name .arg_TARGET (.direction v) x.heap x hname hfit hk hroom
  refine ⟨{ x with heap := s.1 }.set_slot k s.2, ?_, hg,
    fun hd target' => cmd_get_target_of_arg P nsz k name target' v _ hg hd⟩
  unfold cmd_get_target
  simp only [hprompt]
  rw [if_neg hmiss, if_pos trivial]
  unfold cmd_set_arg_target
  rw [hs]

theorem cmd_get_item_of_arg (P : Prompts) (nsz k : Nat) (name : String) (obj v : Ptr)
    (prompt reject : Option String) (filter : Option item_tester) (mode : Int) (w : World)
    (hg : cmd_get_arg (w.slot k) name .arg_ITEM = (CMD_OK, some (.obj v)))
    (hd : item_tester_passes filter w v = true) :
    cmd_get_item P nsz k name obj prompt reject filter mode w
      = some ⟨CMD_OK, v, false, w⟩ := by
  have hgd : cmd_get_arg_item (w.slot k) name obj = (CMD_OK, v) := by
    unfold cmd_get_arg_item; rw [hg]; rfl
  unfold cmd_get_item
  simp only [hgd]
  rw [if_pos ⟨trivial, hd⟩]

theorem cmd_get_item_write_back (P : Prompts) (nsz k : Nat) (name : String) (obj v : Ptr)
    (prompt reject : Option String) (filter : Option item_tester) (mode : Int)
    (w x : World) (hname : name ≠ "") (hfit : name.length < nsz)
    (hmiss : ¬ ((cmd_get_arg_item (w.slot k) name obj).1 = CMD_OK ∧
      item_tester_passes filter w (cmd_get_arg_item (w.slot k) name obj).2 = true))
    (hprompt : P.get_item (cmd_get_arg_item (w.slot k) name obj).2 prompt reject
      (w.slot k).code filter
      (if P.player_is_shapechanged w then
        Int.land mode (Int.not (Int.lor (Int.lor P.USE_EQUIP P.USE_INVEN) P.USE_QUIVER))
      else mode) w = (true, v, x))
    (hk : k < x.cmd_queue.length)
    (hroom : (∃ a ∈ (x.slot k).arg, a.name = name) ∨ (∃ a ∈ (x.slot k).arg, a.name = "")) :
    ∃ w' : World, cmd_get_item P nsz k name obj prompt reject filter mode w
        = some ⟨CMD_OK, v, true, w'⟩ ∧
      cmd_get_arg (w'.slot k) name .arg_ITEM = (CMD_OK, some (.obj v)) ∧
      ∀ (obj' : Ptr) (prompt' reject' : Option String) (filter' : Option item_tester)
        (mode' : Int), item_tester_passes filter' w' v = true →
        cmd_get_item P nsz k name obj' prompt' reject' filter' mode' w'
          = some ⟨CMD_OK, v, false, w'⟩ := by
  obtain ⟨s, hs, hg⟩ :=
    cmd_set_arg_write_back nsz k name .arg_ITEM (.obj v) x.heap x hname hfit hk hroom
  refine ⟨{ x with heap := s.1 }.set_slot k s.2, ?_, hg,
    fun obj' prompt' reject' filter' mode' hd =>
      cmd_get_item_of_arg P nsz k name obj' v prompt' reject' filter' mode' _ hg hd⟩
  unfold cmd_get_item
  simp only [hprompt]
  rw [if_neg hmiss, if_pos trivial]
  unfold cmd_set_arg_item
  rw [hs]

theorem cmd_get_string_of_arg (P : Prompts) (nsz k : Nat) (name : String) (str p : Ptr)
    (initial : Option String) (title : String) (prompt : Option String) (w : World)
    (hg : cmd_get_arg (w.slot k) name .arg_STRING = (CMD_OK, some (.string p))) :
    cmd_get_string P nsz k name str initial title prompt w = some ⟨CMD_OK, p, false, w⟩ := by
  have hgd : cmd_get_arg_string (w.slot k) name str = (CMD_OK, p) := by
    unfold cmd_get_arg_string; rw [hg]; rfl
  unfold cmd_get_string
  simp only [hgd]
  rfl

/-- The text handed to `cmd_set_arg_string` can be read at the address stored,
when the addresses already in the record were handed out by `string_make`. -/
theorem cmd_set_arg_string_read (nsz : Nat) (h : Heap) (cmd : command) (name : String)
    (v : String) (s : Heap × command) (halloc : ∀ p ∈ cmd.strings, p ≤ h.length)
    (hs : cmd_set_arg nsz (string_make h (some v)).2 cmd (some name) .arg_STRING
      (.string (string_make h (some v)).1) = some s) :
    s.1.read (string_make h (some v)).1 = some v := by
  obtain ⟨_, j, hj, _, _, hheap⟩ := cmd_set_arg_eq nsz _ cmd name _ _ s.1 s.2 hs
  rcases hheap with hh | ⟨hty, hh⟩
  · rw [hh]; exact string_make_read_new h (some v)
  · rw [hh]
    have hq := halloc _ (strings_of_mem cmd.arg j hj hty)
    have hne : (string_make h (some v)).1
        ≠ (cmd.arg.getD j cmd_arg.zero).data.get_string := by
      intro e
      rw [← e] at hq
      exact Nat.not_succ_le_self _ hq
    rw [string_free_read_ne _ _ _ hne]
    exact string_make_read_new h (some v)

theorem cmd_get_string_write_back (P : Prompts) (nsz k : Nat) (name : String) (str : Ptr)
    (initial : Option String) (title : String) (prompt : Option String) (v : String)
    (w x : World) (hname : name ≠ "") (hfit : name.length < nsz)
    (hmiss : (cmd_get_arg_string (w.slot k) name str).1 ≠ CMD_OK)
    (hprompt : P.get_string prompt (cmd_get_string_tmp initial) 80
      (P.event_signal_MESSAGE_FLUSH (P.msg title w)) = (true, v, x))
    (hk : k < x.cmd_queue.length)
    (hroom : (∃ a ∈ (x.slot k).arg, a.name = name) ∨ (∃ a ∈ (x.slot k).arg, a.name = ""))
    (halloc : ∀ p ∈ (x.slot k).strings, p ≤ x.heap.length) :
    ∃ (w' : World) (p : Ptr),
      cmd_get_string P nsz k name str initial title prompt w = some ⟨CMD_OK, p, true, w'⟩ ∧
      w'.heap.read p = some v ∧
      cmd_get_arg (w'.slot k) name .arg_STRING = (CMD_OK, some (.string p)) ∧
      ∀ (str' : Ptr) (initial' : Option String) (title' : String) (prompt' : Option String),
        cmd_get_string P nsz k name str' initial' title' prompt' w'
          = some ⟨CMD_OK, p, false, w'⟩ := by
  obtain ⟨s, hs, hg⟩ :=
    cmd_set_arg_write_back nsz k name .arg_STRING (.string (string_make x.heap (some v)).1)
      (string_make x.heap (some v)).2 x hname hfit hk hroom
  have hgd : ∀ q : Ptr, cmd_get_arg_string (({ x with heap := s.1 }.set_slot k s.2).slot k)
      name q = (CMD_OK, (string_make x.heap (some v)).1) := by
    intro q; unfold cmd_get_arg_string; rw [hg]; rfl
  refine ⟨{ x with heap := s.1 }.set_slot k s.2, (string_make x.heap (some v)).1, ?_,
    cmd_set_arg_string_read nsz x.heap (x.slot k) name v s halloc hs, hg,
    fun str' initial' title' prompt' =>
      cmd_get_string_of_arg P nsz k name str' _ initial' title' prompt' _ hg⟩
  unfold cmd_get_string
  simp only [hprompt]
  rw [if_neg hmiss, if_pos trivial]
  unfold cmd_set_arg_string
  simp only [hs, hgd]
  rfl

/-- With a usable choice under `name`, `cmd_get_effect_from_list` does not
prompt: it stores the choice again and returns it. -/
theorem cmd_get_effect_from_list_of_arg (P : Prompts) (nsz k : Nat) (name : String)
    (choice v : Int) (prompt : Option String) (effect : List effect) (count : Int)
    (allow_random : Bool) (w : World) (hname : name ≠ "") (hfit : name.length < nsz)
    (hk : k < w.cmd_queue.length)
    (hg : cmd_get_arg (w.slot k) name .arg_CHOICE = (CMD_OK, some (.choice v)))
    (hv : (v = -2 ∧ allow_random = true) ∨
      (v ≥ 0 ∧ v < (if count = -1 then (effect.length : Int) else count))) :
    ∃ w' : World, cmd_get_effect_from_list P nsz k name choice prompt effect count
        allow_random w = some ⟨CMD_OK, v, false, w'⟩ ∧
      cmd_get_arg (w'.slot k) name .arg_CHOICE = (CMD_OK, some (.choice v)) := by
  have hgd : cmd_get_arg_choice (w.slot k) name 0 = (CMD_OK, v) := by
    unfold cmd_get_arg_choice; rw [hg]; rfl
  obtain ⟨s, hs, hg2⟩ :=
    cmd_set_arg_write_back nsz k name .arg_CHOICE (.choice v) w.heap w hname hfit hk
      (Or.inl (cmd_get_arg_ok_mem _ name _ _ hg))
  refine ⟨{ w with heap := s.1 }.set_slot k s.2, ?_, hg2⟩
  have hno : ¬ ((CMD_OK : Int) ≠ CMD_OK ∨ ((v ≠ -2 ∨ allow_random = false) ∧
      (v < 0 ∨ v ≥ (if count = -1 then (effect.length : Int) else count)))) := by
    rintro (h1 | ⟨h2, h3⟩)
    · exact h1 rfl
    · rcases hv with ⟨e1, e2⟩ | ⟨e1, e2⟩
      · rcases h2 with h2 | h2
        · exact h2 e1
        · rw [e2] at h2; exact absurd h2 (by decide)
      · rcases h3 with h3 | h3
        · exact absurd e1 (not_le.mpr h3)
        · exact absurd e2 (not_lt.mpr h3)
  unfold cmd_get_effect_from_list
  simp only [hgd]
  rw [if_neg hno]
  simp only
  rw [if_pos hv]
  unfold cmd_set_arg_choice
  rw [hs]

theorem cmd_get_effect_from_list_write_back (P : Prompts) (nsz k : Nat) (name : String)
    (choice v : Int) (prompt : Option String) (effect : List effect) (count : Int)
    (allow_random : Bool) (w x : World) (hname : name ≠ "") (hfit : name.length < nsz)
    (hmiss : (cmd_get_arg_choice (w.slot k) name 0).1 ≠ CMD_OK ∨
      (((cmd_get_arg_choice (w.slot k) name 0).2 ≠ -2 ∨ allow_random = false) ∧
        ((cmd_get_arg_choice (w.slot k) name 0).2 < 0 ∨
          (cmd_get_arg_choice (w.slot k) name 0).2
            ≥ (if count = -1 then (effect.length : Int) else count))))
    (hprompt : P.get_effect_from_list prompt effect
      (if count = -1 then (effect.length : Int) else count) allow_random w = (v, x))
    (hv : (v = -2 ∧ allow_random = true) ∨
      (v ≥ 0 ∧ v < (if count = -1 then (effect.length : Int) else count)))
    (hk : k < x.cmd_queue.length)
    (hroom : (∃ a ∈ (x.slot k).arg, a.name = name) ∨ (∃ a ∈ (x.slot k).arg, a.name = "")) :
    ∃ w' : World, cmd_get_effect_from_list P nsz k name choice prompt effect count
        allow_random w = some ⟨CMD_OK, v, true, w'⟩ ∧
      cmd_get_arg (w'.slot k) name .arg_CHOICE = (CMD_OK, some (.choice v)) ∧
      ∀ (choice' : Int) (prompt' : Option String), ∃ w2 : World,
        cmd_get_effect_from_list P nsz k name choice' prompt' effect count allow_random w'
          = some ⟨CMD_OK, v, false, w2⟩ ∧
        cmd_get_arg (w2.slot k) name .arg_CHOICE = (CMD_OK, some (.choice v)) := by
  obtain ⟨s, hs, hg⟩ :=
    cmd_set_arg_write_back nsz k name .arg_CHOICE (.choice v) x.heap x hname hfit hk hroom
  have hk2 : k < ({ x with heap := s.1 }.set_slot k s.2).cmd_queue.length := by
    rw [World.length_set_slot]; exact hk
  refine ⟨{ x with heap := s.1 }.set_slot k s.2, ?_, hg,
    fun choice' prompt' => cmd_get_effect_from_list_of_arg P nsz k name choice' v prompt'
      effect count allow_random _ hname hfit hk2 hg hv⟩
  unfold cmd_get_effect_from_list
  simp only
  rw [if_pos hmiss]
  simp only [hprompt]
  rw [if_pos hv]
  unfold cmd_set_arg_choice
  rw [hs]

/-- C20, with the conditions under which the code has it: the name is not empty
and fits the name field, and when the prompt returns, `cmd_queue[k]` is in the
queue and bears the name or has an unused slot.  For each of `cmd_get_string`,
`cmd_get_quantity`, `cmd_get_direction`, `cmd_get_target`, `cmd_get_item` and
`cmd_get_effect_from_list`: if the argument under the name is missing, of
another kind or fails the helper's validation, and the prompt yields a usable
value `v`, the helper returns `CMD_OK` with `v` (for a string, an address whose
text is `v`) after prompting, the record holds `v` under the name with the
helper's kind, and a second call on the record returns `CMD_OK` with `v`
without prompting, provided `v` passes the helper's validation. -/
theorem prompt_write_back (P : Prompts) (env : Env) (nsz k : Nat) (name : String)
    (hname : name ≠ "") (hfit : name.length < nsz) :
    (∀ (str : Ptr) (initial : Option String) (title : String) (prompt : Option String)
      (v : String) (w x : World),
      (cmd_get_arg_string (w.slot k) name str).1 ≠ CMD_OK →
      P.get_string prompt (cmd_get_string_tmp initial) 80
        (P.event_signal_MESSAGE_FLUSH (P.msg title w)) = (true, v, x) →
      k < x.cmd_queue.length →
      ((∃ a ∈ (x.slot k).arg, a.name = name) ∨ (∃ a ∈ (x.slot k).arg, a.name = "")) →
      (∀ p ∈ (x.slot k).strings, p ≤ x.heap.length) →
      ∃ (w' : World) (p : Ptr),
        cmd_get_string P nsz k name str initial title prompt w
          = some ⟨CMD_OK, p, true, w'⟩ ∧
        w'.heap.read p = some v ∧
        cmd_get_arg (w'.slot k) name .arg_STRING = (CMD_OK, some (.string p)) ∧
        ∀ (str' : Ptr) (initial' : Option String) (title' : String)
          (prompt' : Option String),
          cmd_get_string P nsz k name str' initial' title' prompt' w'
            = some ⟨CMD_OK, p, false, w'⟩) ∧
    (∀ (amt max v : Int) (w x : World),
      (cmd_get_arg_number (w.slot k) name amt).1 ≠ CMD_OK →
      P.get_quantity none max w = (v, x) → 0 < v →
      k < x.cmd_queue.length →
      ((∃ a ∈ (x.slot k).arg, a.name = name) ∨ (∃ a ∈ (x.slot k).arg, a.name = "")) →
      ∃ w' : World, cmd_get_quantity P nsz k name amt max w = some ⟨CMD_OK, v, true, w'⟩ ∧
        cmd_get_arg (w'.slot k) name .arg_NUMBER = (CMD_OK, some (.number v)) ∧
        ∀ amt' max' : Int,
          cmd_get_quantity P nsz k name amt' max' w' = some ⟨CMD_OK, v, false, w'⟩) ∧
    (∀ (dir v : Int) (allow_5 : Bool) (w x : World),
      ¬ ((cmd_get_arg_direction (w.slot k) name dir).1 = CMD_OK ∧
        (cmd_get_arg_direction (w.slot k) name dir).2 ≠ env.DIR_NONE) →
      env.get_rep_dir (cmd_get_arg_direction (w.slot k) name dir).2 allow_5 w
        = (true, v, x) →
      k < x.cmd_queue.length →
      ((∃ a ∈ (x.slot k).arg, a.name = name) ∨ (∃ a ∈ (x.slot k).arg, a.name = "")) →
      ∃ w' : World,
        cmd_get_direction env nsz k name dir allow_5 w = some ⟨CMD_OK, v, true, w'⟩ ∧
        cmd_get_arg (w'.slot k) name .arg_DIRECTION = (CMD_OK, some (.direction v)) ∧
        (v ≠ env.DIR_NONE → ∀ (dir' : Int) (allow_5' : Bool),
          cmd_get_direction env nsz k name dir' allow_5' w'
            = some ⟨CMD_OK, v, false, w'⟩)) ∧
    (∀ (target v : Int) (w x : World),
      ¬ ((cmd_get_arg_target (w.slot k) name target).1 = CMD_OK ∧
        (cmd_get_arg_target (w.slot k) name target).2 ≠ P.DIR_UNKNOWN ∧
        ((cmd_get_arg_target (w.slot k) name target).2 ≠ P.DIR_TARGET ∨
          P.target_okay w = true)) →
      P.get_aim_dir (cmd_get_arg_target (w.slot k) name target).2 w = (true, v, x) →
      k < x.cmd_queue.length →
      ((∃ a ∈ (x.slot k).arg, a.name = name) ∨ (∃ a ∈ (x.slot k).arg, a.name = "")) →
      ∃ w' : World, cmd_get_target P nsz k name target w = some ⟨CMD_OK, v, true, w'⟩ ∧
        cmd_get_arg (w'.slot k) name .arg_TARGET = (CMD_OK, some (.direction v)) ∧
        (v ≠ P.DIR_UNKNOWN ∧ (v ≠ P.DIR_TARGET ∨ P.target_okay w' = true) →
          ∀ target' : Int,
            cmd_get_target P nsz k name target' w' = some ⟨CMD_OK, v, false, w'⟩)) ∧
    (∀ (obj v : Ptr) (prompt reject : Option String) (filter : Option item_tester)
      (mode : Int) (w x : World),
      ¬ ((cmd_get_arg_item (w.slot k) name obj).1 = CMD_OK ∧
        item_tester_passes filter w (cmd_get_arg_item (w.slot k) name obj).2 = true) →
      P.get_item (cmd_get_arg_item (w.slot k) name obj).2 prompt reject (w.slot k).code
        filter
        (if P.player_is_shapechanged w then
          Int.land mode (Int.not (Int.lor (Int.lor P.USE_EQUIP P.USE_INVEN) P.USE_QUIVER))
        else mode) w = (true, v, x) →
      k < x.cmd_queue.length →
      ((∃ a ∈ (x.slot k).arg, a.name = name) ∨ (∃ a ∈ (x.slot k).arg, a.name = "")) →
      ∃ w' : World, cmd_get_item P nsz k name obj prompt reject filter mode w
          = some ⟨CMD_OK, v, true, w'⟩ ∧
        cmd_get_arg (w'.slot k) name .arg_ITEM = (CMD_OK, some (.obj v)) ∧
        ∀ (obj' : Ptr) (prompt' reject' : Option String) (filter' : Option item_tester)
          (mode' : Int), item_tester_passes filter' w' v = true →
          cmd_get_item P nsz k name obj' prompt' reject' filter' mode' w'
            = some ⟨CMD_OK, v, false, w'⟩) ∧
    (∀ (choice v : Int) (prompt : Option String) (effect : List effect) (count : Int)
      (allow_random : Bool) (w x : World),
      ((cmd_get_arg_choice (w.slot k) name 0).1 ≠ CMD_OK ∨
        (((cmd_get_arg_choice (w.slot k) name 0).2 ≠ -2 ∨ allow_random = false) ∧
          ((cmd_get_arg_choice (w.slot k) name 0).2 < 0 ∨
            (cmd_get_arg_choice (w.slot k) name 0).2
              ≥ (if count = -1 then (effect.length : Int) else count)))) →
      P.get_effect_from_list prompt effect
        (if count = -1 then (effect.length : Int) else count) allow_random w = (v, x) →
      ((v = -2 ∧ allow_random = true) ∨
        (v ≥ 0 ∧ v < (if count = -1 then (effect.length : Int) else count))) →
      k < x.cmd_queue.length →
      ((∃ a ∈ (x.slot k).arg, a.name = name) ∨ (∃ a ∈ (x.slot k).arg, a.name = "")) →
      ∃ w' : World, cmd_get_effect_from_list P nsz k name choice prompt effect count
          allow_random w = some ⟨CMD_OK, v, true, w'⟩ ∧
        cmd_get_arg (w'.slot k) name .arg_CHOICE = (CMD_OK, some (.choice v)) ∧
        ∀ (choice' : Int) (prompt' : Option String), ∃ w2 : World,
          cmd_get_effect_from_list P nsz k name choice' prompt' effect count allow_random w'
            = some ⟨CMD_OK, v, false, w2⟩ ∧
          cmd_get_arg (w2.slot k) name .arg_CHOICE = (CMD_OK, some (.choice v))) :=
  ⟨fun str initial title prompt v w x hmiss hprompt hk hroom halloc =>
      cmd_get_string_write_back P nsz k name str initial title prompt v w x hname hfit
        hmiss hprompt hk hroom halloc,
    fun amt max v w x hmiss hprompt hv hk hroom =>
      cmd_get_quantity_write_back P nsz k name amt max v w x hname hfit hmiss hprompt hv
        hk hroom,
    fun dir v allow_5 w x hmiss hprompt hk hroom =>
      cmd_get_direction_write_back env nsz k name dir v allow_5 w x hname hfit hmiss
        hprompt hk hroom,
    fun target v w x hmiss hprompt hk hroom =>
      cmd_get_target_write_back P nsz k name target v w x hname hfit hmiss hprompt hk hroom,
    fun obj v prompt reject filter mode w x hmiss hprompt hk hroom =>
      cmd_get_item_write_back P nsz k name obj v prompt reject filter mode w x hname hfit
        hmiss hprompt hk hroom,
    fun choice v prompt effect count allow_random w x hmiss hprompt hv hk hroom =>
      cmd_get_effect_from_list_write_back P nsz k name choice v prompt effect count
        allow_random w x hname hfit hmiss hprompt hv hk hroom⟩

/-- Witness of C20: the six helpers on the first slot of the initial queue,
under the name `"target"`, with prompts that answer "again", `3`, `2`, `2`,
the item at address `1` and the effect `0` of three. -/
theorem prompt_write_back_witness :
    (∃ (w' : World) (p : Ptr),
      cmd_get_string ex_prompts 20 0 "target" 0 none "Inscribe" none ex_fresh
        = some ⟨CMD_OK, p, true, w'⟩ ∧
      w'.heap.read p = some "again" ∧
      cmd_get_arg (w'.slot 0) "target" .arg_STRING = (CMD_OK, some (.string p)) ∧
      ∀ (str' : Ptr) (initial' : Option String) (title' : String)
        (prompt' : Option String),
        cmd_get_string ex_prompts 20 0 "target" str' initial' title' prompt' w'
          = some ⟨CMD_OK, p, false, w'⟩) ∧
    (∃ w' : World,
      cmd_get_quantity ex_prompts 20 0 "target" 0 9 ex_fresh = some ⟨CMD_OK, 3, true, w'⟩ ∧
      cmd_get_arg (w'.slot 0) "target" .arg_NUMBER = (CMD_OK, some (.number 3)) ∧
      ∀ amt' max' : Int,
        cmd_get_quantity ex_prompts 20 0 "target" amt' max' w'
          = some ⟨CMD_OK, 3, false, w'⟩) ∧
    (∃ w' : World,
      cmd_get_direction ex_env_dir 20 0 "target" 0 false ex_fresh
        = some ⟨CMD_OK, 2, true, w'⟩ ∧
      cmd_get_arg (w'.slot 0) "target" .arg_DIRECTION = (CMD_OK, some (.direction 2)) ∧
      ((2 : Int) ≠ ex_env_dir.DIR_NONE → ∀ (dir' : Int) (allow_5' : Bool),
        cmd_get_direction ex_env_dir 20 0 "target" dir' allow_5' w'
          = some ⟨CMD_OK, 2, false, w'⟩)) ∧
    (∃ w' : World,
      cmd_get_target ex_prompts 20 0 "target" 0 ex_fresh = some ⟨CMD_OK, 2, true, w'⟩ ∧
      cmd_get_arg (w'.slot 0) "target" .arg_TARGET = (CMD_OK, some (.direction 2)) ∧
      ((2 : Int) ≠ ex_prompts.DIR_UNKNOWN ∧
          ((2 : Int) ≠ ex_prompts.DIR_TARGET ∨ ex_prompts.target_okay w' = true) →
        ∀ target' : Int,
          cmd_get_target ex_prompts 20 0 "target" target' w'
            = some ⟨CMD_OK, 2, false, w'⟩)) ∧
    (∃ w' : World,
      cmd_get_item ex_prompts 20 0 "target" 0 none none none 0 ex_fresh
        = some ⟨CMD_OK, 1, true, w'⟩ ∧
      cmd_get_arg (w'.slot 0) "target" .arg_ITEM = (CMD_OK, some (.obj 1)) ∧
      ∀ (obj' : Ptr) (prompt' reject' : Option String) (filter' : Option item_tester)
        (mode' : Int), item_tester_passes filter' w' 1 = true →
        cmd_get_item ex_prompts 20 0 "target" obj' prompt' reject' filter' mode' w'
          = some ⟨CMD_OK, 1, false, w'⟩) ∧
    (∃ w' : World,
      cmd_get_effect_from_list ex_prompts 20 0 "target" 7 none ex_effects (-1) false
        ex_fresh = some ⟨CMD_OK, 0, true, w'⟩ ∧
      cmd_get_arg (w'.slot 0) "target" .arg_CHOICE = (CMD_OK, some (.choice 0)) ∧
      ∀ (choice' : Int) (prompt' : Option String), ∃ w2 : World,
        cmd_get_effect_from_list ex_prompts 20 0 "target" choice' prompt' ex_effects (-1)
          false w' = some ⟨CMD_OK, 0, false, w2⟩ ∧
        cmd_get_arg (w2.slot 0) "target" .arg_CHOICE = (CMD_OK, some (.choice 0))) :=
  ⟨(prompt_write_back ex_prompts ex_env_dir 20 0 "target" (by decide) (by decide)).1
      0 none "Inscribe" none "again" ex_fresh ex_fresh (by decide) rfl (by decide)
      (by decide) (by decide),
    (prompt_write_back ex_prompts ex_env_dir 20 0 "target" (by decide) (by decide)).2.1
      0 9 3 ex_fresh ex_fresh (by decide) rfl (by decide) (by decide) (by decide),
    (prompt_write_back ex_prompts ex_env_dir 20 0 "target" (by decide) (by decide)).2.2.1
      0 2 false ex_fresh ex_fresh (by decide) rfl (by decide) (by decide),
    (prompt_write_back ex_prompts ex_env_dir 20 0 "target" (by decide) (by decide)).2.2.2.1
      0 2 ex_fresh ex_fresh (by decide) rfl (by decide) (by decide),
    (prompt_write_back ex_prompts ex_env_dir 20 0 "target" (by decide) (by decide)).2.2.2.2.1
      0 1 none none none 0 ex_fresh ex_fresh (by decide) rfl (by decide) (by decide),
    (prompt_write_back ex_prompts ex_env_dir 20 0 "target" (by decide) (by decide)).2.2.2.2.2
      7 0 none ex_effects (-1) false ex_fresh ex_fresh (by decide) rfl (by decide)
      (by decide) (by decide)⟩

/-- C20 as stated fails for a name that does not fit the name field.  With a
field of 20 bytes and the 22-byte name `"direction_of_next_step"`, on a record
that holds nothing: the argument is missing and the prompts yield "again" and
`3`, yet `cmd_get_string` returns `CMD_ARG_ABORTED` after prompting, and
`cmd_get_quantity`, which returns `CMD_OK` with `3`, prompts again at the
second call on the same record. -/
theorem prompt_write_back_long_name :
    cmd_get_arg (ex_fresh.slot 0) "direction_of_next_step" .arg_STRING
      = (CMD_ARG_NOT_PRESENT, none) ∧
    cmd_get_arg (ex_fresh.slot 0) "direction_of_next_step" .arg_NUMBER
      = (CMD_ARG_NOT_PRESENT, none) ∧
    ex_prompts.get_string none (cmd_get_string_tmp none) 80 ex_fresh
      = (true, "again", ex_fresh) ∧
    ex_prompts.get_quantity none 9 ex_fresh = (3, ex_fresh) ∧
    (cmd_get_string ex_prompts 20 0 "direction_of_next_step" 0 none "Inscribe" none
      ex_fresh).map (fun r => (r.ret, r.prompted)) = some (CMD_ARG_ABORTED, true) ∧
    (cmd_get_quantity ex_prompts 20 0 "direction_of_next_step" 0 9 ex_fresh).map
      (fun r => (r.ret, r.out, r.prompted)) = some (CMD_OK, 3, true) ∧
    ((cmd_get_quantity ex_prompts 20 0 "direction_of_next_step" 0 9 ex_fresh).bind
      (fun r => cmd_get_quantity ex_prompts 20 0 "direction_of_next_step" 0 9 r.world)).map
      (fun r => (r.ret, r.out, r.prompted)) = some (CMD_OK, 3, true) := by
  decide

/-- Witness of C12: `cmd_release` on the inscribe command, whose slot 0 holds
the string at address 1, and on the walk command, whose slot 0 holds a
direction. -/
theorem cmd_release_kinds_witness :
    (((cmd_release [some "hello"] ex_note).2.arg.getD 0 cmd_arg.zero).type = .arg_NONE ∧
      ((cmd_release [some "hello"] ex_note).2.arg.getD 0 cmd_arg.zero).name = "") ∧
    (cmd_release [some "hello"] ex_walk).2.arg.getD 0 cmd_arg.zero
      = ex_walk.arg.getD 0 cmd_arg.zero :=
  ⟨((cmd_release_kinds [some "hello"] ex_note).2.1 0).1 (by decide),
    ((cmd_release_kinds [some "hello"] ex_walk).2.1 0).2 (by decide)⟩

/-- Witness of C13: `cmd_release` on the inscribe command, whose slot 0 holds
the string at address 1. -/
theorem cmd_release_idempotent_witness :
    (ex_note.arg.getD 0 cmd_arg.zero).type = .arg_STRING ∧
    ((cmd_release [some "hello"] ex_note).2.arg.getD 0 cmd_arg.zero).type = .arg_NONE ∧
    ((cmd_release [some "hello"] ex_note).2.arg.getD 0 cmd_arg.zero).name = "" :=
  ⟨by decide, (cmd_release_idempotent [some "hello"] ex_note).2.2.2.2 0 (by decide)⟩

/-- Witness of C14: `cmdq_pop` on the queue as first initialised, where there
is nothing to do, and on the queue that holds the walk command. -/
theorem cmdq_pop_false_iff_witness :
    ((cmdq_pop ex_env .CTX_INIT ex_fresh).1 = false ∧
      (cmdq_pop ex_env .CTX_INIT ex_fresh).2 = ex_fresh ∧
      cmdq_pop_call ex_env .CTX_INIT ex_fresh = none) ∧
    ((cmdq_pop ex_env .CTX_INIT ex_queued).1 = true ∧
      ∃ (k : Nat) (w1 : World), cmdq_pop_fetch ex_queued = some (k, w1) ∧
        cmdq_pop ex_env .CTX_INIT ex_queued = (true, process_command ex_env .CTX_INIT k w1) ∧
        k = (if ex_queued.repeating then prev_cmd_idx ex_queued.cmd_tail
          else ex_queued.cmd_tail)) :=
  ⟨⟨by decide, (cmdq_pop_false_iff ex_env .CTX_INIT ex_fresh).2.1 (by decide)⟩,
    ⟨by decide, (cmdq_pop_false_iff ex_env .CTX_INIT ex_queued).2.2 (by decide)⟩⟩

/-! ### Pushing by code -/

/-- C22: `cmdq_push_repeat(c, n)` returns 1 and changes nothing when `c` has no
entry in `game_cmds`; for a code with an entry it is `cmdq_push_copy` of the
record with context `CTX_INIT`, code `c`, repeat count `n`, background flag 0
and four zeroed argument slots; when `c` is also not `CMD_REPEAT`, the push is
accepted unless the queue is full, and after an accepted push the record that
`cmdq_peek()` points to is exactly that record; `cmdq_push(c)` is
`cmdq_push_repeat(c, 0)`. -/
theorem cmdq_push_repeat_spec (c : cmd_code) (n : Int) (w : World) :
    (cmd_idx c = -1 → cmdq_push_repeat c n w = some (1, w)) ∧
    (cmd_idx c ≠ -1 →
      cmdq_push_repeat c n w
        = cmdq_push_copy ⟨.CTX_INIT, c, n, 0, List.replicate CMD_MAX_ARGS cmd_arg.zero⟩ w) ∧
    (cmd_idx c ≠ -1 → c ≠ .CMD_REPEAT →
      w.cmd_queue.length = CMD_QUEUE_SIZE → w.cmd_head < CMD_QUEUE_SIZE →
      (¬ (w.cmd_head + 1 = w.cmd_tail ∨ (w.cmd_head + 1 = CMD_QUEUE_SIZE ∧ w.cmd_tail = 0)) →
        ∃ w1 : World, cmdq_push_repeat c n w = some (0, w1)) ∧
      ∀ w1 : World, cmdq_push_repeat c n w = some (0, w1) →
        w1.slot (cmdq_peek w1)
          = ⟨.CTX_INIT, c, n, 0, List.replicate CMD_MAX_ARGS cmd_arg.zero⟩) ∧
    cmdq_push c w = cmdq_push_repeat c 0 w := by
  have hreg : cmd_idx c ≠ -1 →
      cmdq_push_repeat c n w
        = cmdq_push_copy ⟨.CTX_INIT, c, n, 0, List.replicate CMD_MAX_ARGS cmd_arg.zero⟩ w := by
    intro h
    unfold cmdq_push_repeat
    simp only
    rw [if_neg h]
    rfl
  refine ⟨?_, hreg, ?_, rfl⟩
  · intro h
    unfold cmdq_push_repeat
    simp only
    rw [if_pos h]
  · intro h hc hlen hh
    rw [hreg h]
    refine ⟨?_, ?_⟩
    · intro hfull
      unfold cmdq_push_copy
      rw [if_neg (fun e => hfull (Or.inl e)), if_neg (fun e => hfull (Or.inr e)),
        if_pos (show (⟨.CTX_INIT, c, n, 0, List.replicate CMD_MAX_ARGS cmd_arg.zero⟩
          : command).code ≠ .CMD_REPEAT from hc)]
      exact ⟨_, rfl⟩
    · intro w1 hp
      exact (cmdq_push_copy_pushed _ w w1 hc hlen hh hp).1

/-- Witness of C22: `cmdq_push_repeat(CMD_GO_UP, 5)` on the queue as first
initialised, and `cmdq_push_repeat(CMD_NULL, 5)`, a code without entry. -/
theorem cmdq_push_repeat_spec_witness :
    cmdq_push_repeat .CMD_NULL 5 ex_fresh = some (1, ex_fresh) ∧
    (∃ w1 : World, cmdq_push_repeat .CMD_GO_UP 5 ex_fresh = some (0, w1)) ∧
    ∀ w1 : World, cmdq_push_repeat .CMD_GO_UP 5 ex_fresh = some (0, w1) →
      w1.slot (cmdq_peek w1)
        = ⟨.CTX_INIT, .CMD_GO_UP, 5, 0, List.replicate CMD_MAX_ARGS cmd_arg.zero⟩ :=
  ⟨(cmdq_push_repeat_spec .CMD_NULL 5 ex_fresh).1 (by decide),
    ((cmdq_push_repeat_spec .CMD_GO_UP 5 ex_fresh).2.2.1 (by decide) (by decide) (by decide)
      (by decide)).1 (by decide),
    ((cmdq_push_repeat_spec .CMD_GO_UP 5 ex_fresh).2.2.1 (by decide) (by decide) (by decide)
      (by decide)).2⟩

/-! ### Flushing the queue -/

theorem cmdq_pop_fetch_none (w : World) (hr : w.repeating = false)
    (he : w.cmd_head = w.cmd_tail) : cmdq_pop_fetch w = none := by
  unfold cmdq_pop_fetch
  rw [if_neg (by simp [hr]), if_neg (by simp [he])]

/-- What `cmdq_flush()` does: it sets `cmd_tail` to `cmd_head` and leaves
`cmd_head`, every slot and everything else as it was.  When no repeat is in
progress, a `cmdq_pop` right after it hands no record to `process_command`,
calls no handler, returns false and changes nothing; and after an accepted push
of a command other than `CMD_REPEAT`, the record that the next `cmdq_pop`
fetches is the one just pushed. -/
theorem cmdq_flush_spec (env : Env) (ctx : cmd_context) (w : World) :
    (cmdq_flush w).cmd_tail = w.cmd_head ∧ (cmdq_flush w).cmd_head = w.cmd_head ∧
    (cmdq_flush w).cmd_queue = w.cmd_queue ∧ (cmdq_flush w).heap = w.heap ∧
    (cmdq_flush w).last_command_idx = w.last_command_idx ∧
    (cmdq_flush w).last_command = w.last_command ∧
    (cmdq_flush w).repeating = w.repeating ∧
    (cmdq_flush w).repeat_prev_allowed = w.repeat_prev_allowed ∧
    queued_slots (cmdq_flush w) = [] ∧
    (w.repeating = false →
      cmdq_pop_fetch (cmdq_flush w) = none ∧
      cmdq_pop_call env ctx (cmdq_flush w) = none ∧
      cmdq_pop env ctx (cmdq_flush w) = (false, cmdq_flush w) ∧
      ∀ (cmd : command) (w1 : World), cmd.code ≠ .CMD_REPEAT →
        w.cmd_queue.length = CMD_QUEUE_SIZE → w.cmd_head < CMD_QUEUE_SIZE →
        cmdq_push_copy cmd (cmdq_flush w) = some (0, w1) →
        ∃ wf : World, cmdq_pop_fetch w1 = some (w.cmd_head, wf) ∧
          wf.slot w.cmd_head = cmd) := by
  refine ⟨rfl, rfl, rfl, rfl, rfl, rfl, rfl, rfl, ?_, ?_⟩
  · unfold queued_slots cmdq_flush
    simp [CMD_QUEUE_SIZE]
  · intro hr
    have hf : cmdq_pop_fetch (cmdq_flush w) = none := cmdq_pop_fetch_none _ hr rfl
    refine ⟨hf, ?_, ?_, ?_⟩
    · unfold cmdq_pop_call; rw [hf]
    · unfold cmdq_pop; rw [hf]
    · intro cmd w1 hc hlen hh hp
      unfold cmdq_push_copy at hp
      split_ifs at hp with h1 h2
      · exact absurd hp (by simp)
      · exact absurd hp (by simp)
      · simp only [Option.some.injEq, Prod.mk.injEq, true_and] at hp
        have hq : w1.cmd_queue = w.cmd_queue.set w.cmd_head cmd := by
          rw [← hp]
          show (cmdq_push_store cmd (cmdq_push_save_last (cmdq_flush w))).cmd_queue = _
          rw [(cmdq_push_store_queue _ _).1, (cmdq_push_save_last_queue _).1,
            (cmdq_push_save_last_queue _).2.1]
          rfl
        have hhd : w1.cmd_head = (w.cmd_head + 1) % CMD_QUEUE_SIZE := by
          rw [← hp, cmdq_push_advance_head _ (by
            rw [(cmdq_push_store_queue _ _).2.1, (cmdq_push_save_last_queue _).2.1]
            exact hh)]
          rw [(cmdq_push_store_queue _ _).2.1, (cmdq_push_save_last_queue _).2.1]
          rfl
        have htl : w1.cmd_tail = w.cmd_head := by
          rw [← hp]
          show (cmdq_push_store cmd (cmdq_push_save_last (cmdq_flush w))).cmd_tail = _
          rw [(cmdq_push_store_queue _ _).2.2.1, (cmdq_push_save_last_queue _).2.2.1]
          rfl
        have hrp : w1.repeating = false := by
          rw [← hp]
          show (cmdq_push_store cmd (cmdq_push_save_last (cmdq_flush w))).repeating = _
          rw [(cmdq_push_store_queue _ _).2.2.2, (cmdq_push_save_last_queue _).2.2.2]
          exact hr
        have hne : w1.cmd_head ≠ w1.cmd_tail := by
          rw [hhd, htl]; unfold CMD_QUEUE_SIZE at *; omega
        obtain ⟨wf, f1, fq, _⟩ := cmdq_pop_fetch_next w1 hrp hne
        rw [htl] at f1
        refine ⟨wf, f1, ?_⟩
        unfold World.slot
        rw [fq, hq, List.getD_eq_getElem?_getD,
          List.getElem?_set_self (by rw [hlen]; exact hh)]
        rfl

/-- The theorem `cmdq_flush_spec` at a flush of the queue that holds the walk
command. -/
theorem cmdq_flush_spec_witness :
    ex_queued.cmd_head ≠ ex_queued.cmd_tail ∧
    cmdq_pop_fetch (cmdq_flush ex_queued) = none ∧
    cmdq_pop_call ex_env .CTX_INIT (cmdq_flush ex_queued) = none ∧
    cmdq_pop ex_env .CTX_INIT (cmdq_flush ex_queued) = (false, cmdq_flush ex_queued) ∧
    ∀ (cmd : command) (w1 : World), cmd.code ≠ .CMD_REPEAT →
      ex_queued.cmd_queue.length = CMD_QUEUE_SIZE → ex_queued.cmd_head < CMD_QUEUE_SIZE →
      cmdq_push_copy cmd (cmdq_flush ex_queued) = some (0, w1) →
      ∃ wf : World, cmdq_pop_fetch w1 = some (ex_queued.cmd_head, wf) ∧
        wf.slot ex_queued.cmd_head = cmd :=
  ⟨by decide, (cmdq_flush_spec ex_env .CTX_INIT ex_queued).2.2.2.2.2.2.2.2.2 (by decide)⟩

/-- C23 on the code: the open command is dispatched and goes on repeating, the
walk command is pushed, and the queue is flushed.  The walk command, in slot 1,
was queued and not dispatched before the flush, and no slot is queued after it;
yet the `cmdq_pop` right after the flush returns true and hands that record to
`process_command` and to the handler of the walk command, not the open command
that was repeating: `cmdq_flush` leaves `repeating` true, and `cmdq_pop` then
takes the slot before the tail, which the flush has moved. -/
theorem cmdq_flush_while_repeating :
    ex_open_then_walk.repeating = true ∧
    queued_slots ex_open_then_walk = [1] ∧
    (ex_open_then_walk.slot 1).code = cmd_code.CMD_WALK ∧
    queued_slots (cmdq_flush ex_open_then_walk) = [] ∧
    (cmdq_pop ex_env .CTX_INIT (cmdq_flush ex_open_then_walk)).1 = true ∧
    (cmdq_pop_fetch (cmdq_flush ex_open_then_walk)).map
      (fun r => (r.1, (r.2.slot r.1).code)) = some (1, cmd_code.CMD_WALK) ∧
    (cmdq_pop_call ex_env .CTX_INIT (cmdq_flush ex_open_then_walk)).map
      (fun r => (r.1, r.2.1)) = some (1, cmd_code.CMD_WALK) := by
  decide

/-! ### The record and the flags at the call of a handler -/

/-- What `cmdq_pop` fetches, with the tail inside the queue: the slot before the
tail as it is at the call of `process_command`. -/
theorem cmdq_pop_fetch_slot (w : World) (k : Nat) (wf : World)
    (ht : w.cmd_tail < CMD_QUEUE_SIZE) (h : cmdq_pop_fetch w = some (k, wf)) :
    wf.cmd_queue = w.cmd_queue ∧ wf.player = w.player ∧ wf.repeating = w.repeating ∧
    wf.cmd_head = w.cmd_head ∧ k < CMD_QUEUE_SIZE ∧ prev_cmd_idx wf.cmd_tail = k ∧
    (w.repeating = true → wf.cmd_tail = w.cmd_tail ∧ k = prev_cmd_idx w.cmd_tail) ∧
    (w.repeating = false → k = w.cmd_tail ∧ w.cmd_head ≠ w.cmd_tail) := by
  unfold cmdq_pop_fetch at h
  simp only at h
  have hlt : prev_cmd_idx w.cmd_tail < CMD_QUEUE_SIZE := by
    unfold prev_cmd_idx CMD_QUEUE_SIZE; omega
  have hpv : prev_cmd_idx (if w.cmd_tail + 1 = CMD_QUEUE_SIZE then 0 else w.cmd_tail + 1)
      = w.cmd_tail := by
    unfold prev_cmd_idx CMD_QUEUE_SIZE at *; split_ifs <;> omega
  by_cases hr : w.repeating = true
  · rw [if_pos hr] at h
    split_ifs at h
    all_goals
      simp only [Option.some.injEq, Prod.mk.injEq] at h
      obtain ⟨hk, hw⟩ := h
      subst hk hw
      exact ⟨rfl, rfl, rfl, rfl, hlt, rfl, fun _ => ⟨rfl, rfl⟩,
        fun hf => absurd hr (by simp [hf])⟩
  · rw [if_neg hr] at h
    by_cases hne : w.cmd_head ≠ w.cmd_tail
    · rw [if_pos hne] at h
      split_ifs at h
      all_goals
        simp only [Option.some.injEq, Prod.mk.injEq] at h
        obtain ⟨hk, hw⟩ := h
        subst hk hw
        refine ⟨rfl, rfl, rfl, rfl, ht, ?_, fun hf => absurd hf hr, fun _ => ⟨rfl, hne⟩⟩
        first
          | exact hpv
          | (rename_i hw1 _
             have e1 := hpv
             first
               | (rw [if_pos hw1] at e1; exact e1)
               | (rw [if_neg hw1] at e1; exact e1))
    · rw [if_neg hne] at h
      exact absurd h (by simp)

/-- The state in which `process_command` calls a handler: the entry used has a
handler, and the queue and `repeating` are as the block "Command repetition"
left them, when an attack that does not take place leaves them alone. -/
theorem process_command_call_state (env : Env) (ctx : cmd_context) (k : Nat) (w : World)
    (c : cmd_code) (wh : World) (hatk : attack_keeps env)
    (h : process_command_call env ctx k w = some (c, wh)) :
    ∃ e : command_info, process_command_entry k w = some e ∧ e.fn = true ∧ c = e.cmd ∧
      wh.cmd_queue = (process_command_prepare ctx e k
        { w with player := { w.player with command_wrk := 0 } }).cmd_queue ∧
      wh.repeating = (process_command_prepare ctx e k
        { w with player := { w.player with command_wrk := 0 } }).repeating := by
  unfold process_command_call at h
  cases he : process_command_entry k w with
  | none => rw [he] at h; exact absurd h (by simp)
  | some e =>
    rw [he] at h
    simp only at h
    by_cases hfn : e.fn = true
    · rw [if_pos hfn] at h
      refine ⟨e, rfl, hfn, ?_⟩
      rcases process_command_coerce_cases env e k (process_command_prepare ctx e k
        { w with player := { w.player with command_wrk := 0 } }) with ⟨pl, r, hc⟩ | ⟨r, hc⟩
      · rw [hc] at h
        simp only [Bool.false_eq_true, if_false, Option.some.injEq, Prod.mk.injEq] at h
        obtain ⟨h1, h2⟩ := h
        subst h2
        exact ⟨h1.symm, rfl, rfl⟩
      · rw [hc] at h
        by_cases ha : (env.player_attack_random_monster
            { process_command_prepare ctx e k
              { w with player := { w.player with command_wrk := 0 } } with rng := r }).1 = true
        · rw [if_pos ha] at h; exact absurd h (by simp)
        · rw [if_neg ha] at h
          simp only [Option.some.injEq, Prod.mk.injEq] at h
          obtain ⟨h1, h2⟩ := h
          subst h2
          obtain ⟨a1, a2, _, _⟩ := hatk _ (by simpa using ha)
          exact ⟨h1.symm, a1, a2⟩
    · rw [if_neg hfn] at h
      exact absurd h (by simp)

/-- The entry that `process_command` uses depends on the player and on the
code in the slot only. -/
theorem process_command_entry_congr (k : Nat) (w w' : World)
    (hq : w'.cmd_queue = w.cmd_queue) (hp : w'.player = w.player) :
    process_command_entry k w' = process_command_entry k w := by
  unfold process_command_entry World.slot
  rw [hq, hp]

/-- The block "Command repetition" on the slot before the tail, for an entry
with `repeat_allowed`. -/
theorem process_command_prepare_repeat_allowed (ctx : cmd_context) (e : command_info)
    (k : Nat) (w : World) (hra : e.repeat_allowed = true)
    (hk : k < w.cmd_queue.length) (hpv : prev_cmd_idx w.cmd_tail = k) :
    (e.auto_repeat_n > 0 ∧ (w.slot k).nrepeats = 0 →
      ((process_command_prepare ctx e k w).slot k).nrepeats = e.auto_repeat_n ∧
      (process_command_prepare ctx e k w).repeating = true) ∧
    (¬ (e.auto_repeat_n > 0 ∧ (w.slot k).nrepeats = 0) →
      ((process_command_prepare ctx e k w).slot k).nrepeats = (w.slot k).nrepeats ∧
      (process_command_prepare ctx e k w).repeating = w.repeating) := by
  unfold process_command_prepare
  simp only
  rw [if_pos hra]
  refine ⟨fun hc => ?_, fun hc => ?_⟩
  · rw [if_pos hc]
    have hl : k < (cmd_set_repeat e.auto_repeat_n w).cmd_queue.length := by
      unfold cmd_set_repeat; simp only; rw [World.length_set_slot]; exact hk
    rw [World.slot_set_slot, if_pos ⟨rfl, hl⟩]
    refine ⟨?_, ?_⟩
    · show ((cmd_set_repeat e.auto_repeat_n w).slot k).nrepeats = _
      unfold cmd_set_repeat
      simp only
      rw [hpv]
      show ((w.set_slot k { w.slot k with nrepeats := e.auto_repeat_n }).slot k).nrepeats = _
      rw [World.slot_set_slot, if_pos ⟨rfl, hk⟩]
    · show (cmd_set_repeat e.auto_repeat_n w).repeating = true
      unfold cmd_set_repeat
      simp only
      have : e.auto_repeat_n ≠ 0 := by omega
      simp [this]
  · rw [if_neg hc]
    rw [World.slot_set_slot, if_pos ⟨rfl, hk⟩]
    exact ⟨rfl, rfl⟩

/-- The block "Command repetition" for an entry without `repeat_allowed`. -/
theorem process_command_prepare_not_allowed (ctx : cmd_context) (e : command_info)
    (k : Nat) (w : World) (hra : e.repeat_allowed = false) (hk : k < w.cmd_queue.length) :
    ((process_command_prepare ctx e k w).slot k).nrepeats = 0 ∧
    (process_command_prepare ctx e k w).repeating = false ∧
    ((process_command_prepare ctx e k w).slot k).code = (w.slot k).code := by
  unfold process_command_prepare
  simp only
  rw [if_neg (by simp [hra])]
  have hl : k < (w.set_slot k { w.slot k with nrepeats := 0 }).cmd_queue.length := by
    rw [World.length_set_slot]; exact hk
  rw [World.slot_set_slot, if_pos ⟨rfl, hl⟩]
  refine ⟨?_, rfl, ?_⟩
  · show ((w.set_slot k { w.slot k with nrepeats := 0 }).slot k).nrepeats = 0
    rw [World.slot_set_slot, if_pos ⟨rfl, hk⟩]
  · show ((w.set_slot k { w.slot k with nrepeats := 0 }).slot k).code = _
    rw [World.slot_set_slot, if_pos ⟨rfl, hk⟩]

theorem World.slot_congr (w w' : World) (j : Nat) (h : w'.cmd_queue = w.cmd_queue) :
    w'.slot j = w.slot j := by
  unfold World.slot; rw [h]

/-- What a handler called by `cmdq_pop` finds in the record and in `repeating`:
what the block "Command repetition" of `process_command` left there. -/
theorem cmdq_pop_call_state (env : Env) (ctx : cmd_context) (w : World) (k : Nat)
    (c : cmd_code) (wh : World) (hatk : attack_keeps env)
    (hlen : w.cmd_queue.length = CMD_QUEUE_SIZE) (ht : w.cmd_tail < CMD_QUEUE_SIZE)
    (hcall : cmdq_pop_call env ctx w = some (k, c, wh)) :
    ∃ (e : command_info) (x : World), process_command_entry k w = some e ∧ e.fn = true ∧
      c = e.cmd ∧ x.cmd_queue = w.cmd_queue ∧ x.repeating = w.repeating ∧
      k < x.cmd_queue.length ∧ prev_cmd_idx x.cmd_tail = k ∧
      wh.cmd_queue = (process_command_prepare ctx e k x).cmd_queue ∧
      wh.repeating = (process_command_prepare ctx e k x).repeating := by
  unfold cmdq_pop_call at hcall
  cases hf : cmdq_pop_fetch w with
  | none => rw [hf] at hcall; exact absurd hcall (by simp)
  | some kw =>
    obtain ⟨k1, wf⟩ := kw
    rw [hf] at hcall
    simp only [Option.map_eq_some'] at hcall
    obtain ⟨⟨c1, wh1⟩, hc, he⟩ := hcall
    simp only [Prod.mk.injEq] at he
    obtain ⟨hk, hc1, hw1⟩ := he
    subst hk hc1 hw1
    obtain ⟨f1, f2, f3, _, f5, f6, _, _⟩ := cmdq_pop_fetch_slot w k1 wf ht hf
    obtain ⟨e, he, hfn, hce, hq, hr⟩ := process_command_call_state env ctx k1 wf c1 wh1 hatk hc
    rw [process_command_entry_congr k1 w wf f1 f2] at he
    exact ⟨e, { wf with player := { wf.player with command_wrk := 0 } }, he, hfn, hce, f1, f3,
      by show k1 < wf.cmd_queue.length; rw [f1, hlen]; exact f5, f6, hq, hr⟩

/-- C25: when `cmdq_pop` calls the handler for a record whose entry (the one
`process_command` uses) has `repeat_allowed`: if `auto_repeat_n > 0` and the
record's repeat count is 0, the handler finds the record with repeat count
`auto_repeat_n` and `repeating` true; otherwise (the count is not 0, or
`auto_repeat_n` is 0) it finds the count and `repeating` as they were.  The
queue has its 20 slots, the tail is inside it, and an attack that does not take
place leaves the queue alone. -/
theorem auto_repeat_at_call (env : Env) (ctx : cmd_context) (w : World) (k : Nat)
    (c : cmd_code) (wh : World) (e : command_info) (hatk : attack_keeps env)
    (hlen : w.cmd_queue.length = CMD_QUEUE_SIZE) (ht : w.cmd_tail < CMD_QUEUE_SIZE)
    (hcall : cmdq_pop_call env ctx w = some (k, c, wh))
    (he : process_command_entry k w = some e) (hra : e.repeat_allowed = true) :
    (e.auto_repeat_n > 0 ∧ (w.slot k).nrepeats = 0 →
      (wh.slot k).nrepeats = e.auto_repeat_n ∧ wh.repeating = true) ∧
    (¬ (e.auto_repeat_n > 0 ∧ (w.slot k).nrepeats = 0) →
      (wh.slot k).nrepeats = (w.slot k).nrepeats ∧ wh.repeating = w.repeating) := by
  obtain ⟨e1, x, he1, _, _, hq, hr, hk, hpv, hwq, hwr⟩ :=
    cmdq_pop_call_state env ctx w k c wh hatk hlen ht hcall
  rw [he] at he1
  simp only [Option.some.injEq] at he1
  subst he1
  obtain ⟨p1, p2⟩ := process_command_prepare_repeat_allowed ctx e k x hra hk hpv
  have hs : x.slot k = w.slot k := World.slot_congr w x k hq
  rw [World.slot_congr _ wh k hwq, hwr, ← hs, ← hr]
  exact ⟨p1, p2⟩

/-- Witness of C25: the open command (auto-repeat 99) pushed with count 0, and
the walk command (no auto-repeat) pushed with count 3, each dispatched from the
queue as first initialised. -/
theorem auto_repeat_at_call_witness :
    (∃ wh : World, cmdq_pop_call ex_env .CTX_INIT ex_open_queued
        = some (0, cmd_code.CMD_OPEN, wh) ∧
      (wh.slot 0).nrepeats = 99 ∧ wh.repeating = true) ∧
    (∃ wh : World, cmdq_pop_call ex_env .CTX_INIT ex_walk3_queued
        = some (0, cmd_code.CMD_WALK, wh) ∧
      (wh.slot 0).nrepeats = 3 ∧ wh.repeating = false) :=
  ⟨⟨((cmdq_pop_call ex_env .CTX_INIT ex_open_queued).map (fun r => r.2.2)).getD ex_fresh,
      by decide,
      (auto_repeat_at_call ex_env .CTX_INIT ex_open_queued 0 .CMD_OPEN
        (((cmdq_pop_call ex_env .CTX_INIT ex_open_queued).map (fun r => r.2.2)).getD ex_fresh)
        (command_info.mk cmd_code.CMD_OPEN "open" true true true 99)
        (fun x h => ⟨rfl, rfl, rfl, rfl⟩) (by decide) (by decide) (by decide) (by decide)
        (by decide)).1 (by decide)⟩,
    ⟨((cmdq_pop_call ex_env .CTX_INIT ex_walk3_queued).map (fun r => r.2.2)).getD ex_fresh,
      by decide,
      (auto_repeat_at_call ex_env .CTX_INIT ex_walk3_queued 0 .CMD_WALK
        (((cmdq_pop_call ex_env .CTX_INIT ex_walk3_queued).map (fun r => r.2.2)).getD ex_fresh)
        (command_info.mk cmd_code.CMD_WALK "walk" true true true 0)
        (fun x h => ⟨rfl, rfl, rfl, rfl⟩) (by decide) (by decide) (by decide) (by decide)
        (by decide)).2 (by decide)⟩⟩

/-- C26: when `cmdq_pop` calls the handler for a record whose entry (the one
`process_command` uses) does not have `repeat_allowed`, the handler finds the
record with repeat count 0 and `repeating` false, whatever the count and the
flag were; the code of the record is as it was.  The queue has its 20 slots,
the tail is inside it, and an attack that does not take place leaves the queue
alone. -/
theorem no_repeat_at_call (env : Env) (ctx : cmd_context) (w : World) (k : Nat)
    (c : cmd_code) (wh : World) (e : command_info) (hatk : attack_keeps env)
    (hlen : w.cmd_queue.length = CMD_QUEUE_SIZE) (ht : w.cmd_tail < CMD_QUEUE_SIZE)
    (hcall : cmdq_pop_call env ctx w = some (k, c, wh))
    (he : process_command_entry k w = some e) (hra : e.repeat_allowed = false) :
    (wh.slot k).nrepeats = 0 ∧ wh.repeating = false ∧ (wh.slot k).code = (w.slot k).code := by
  obtain ⟨e1, x, he1, _, _, hq, _, hk, _, hwq, hwr⟩ :=
    cmdq_pop_call_state env ctx w k c wh hatk hlen ht hcall
  rw [he] at he1
  simp only [Option.some.injEq] at he1
  subst he1
  have hs : x.slot k = w.slot k := World.slot_congr w x k hq
  rw [World.slot_congr _ wh k hwq, hwr, ← hs]
  exact process_command_prepare_not_allowed ctx e k x hra hk

/-- Witness of C26: `cmdq_push_repeat(CMD_GO_UP, 5)` on the queue as first
initialised.  The first `cmdq_pop` calls the handler with count 0 and leaves
`repeating` false; the second returns false, so that the command is dispatched
once. -/
theorem no_repeat_at_call_witness :
    (ex_go_up_queued.slot 0).nrepeats = 5 ∧
    (∃ wh : World, cmdq_pop_call ex_env .CTX_INIT ex_go_up_queued
        = some (0, cmd_code.CMD_GO_UP, wh) ∧
      (wh.slot 0).nrepeats = 0 ∧ wh.repeating = false ∧
      (wh.slot 0).code = (ex_go_up_queued.slot 0).code) ∧
    (cmdq_pop ex_env .CTX_INIT ex_go_up_queued).1 = true ∧
    (cmdq_pop ex_env .CTX_INIT (cmdq_pop ex_env .CTX_INIT ex_go_up_queued).2).1 = false :=
  ⟨by decide,
    ⟨((cmdq_pop_call ex_env .CTX_INIT ex_go_up_queued).map (fun r => r.2.2)).getD ex_fresh,
      by decide,
      no_repeat_at_call ex_env .CTX_INIT ex_go_up_queued 0 .CMD_GO_UP
        (((cmdq_pop_call ex_env .CTX_INIT ex_go_up_queued).map (fun r => r.2.2)).getD ex_fresh)
        (command_info.mk cmd_code.CMD_GO_UP "go up stairs" true false true 0)
        (fun x h => ⟨rfl, rfl, rfl, rfl⟩) (by decide) (by decide) (by decide) (by decide)
        (by decide)⟩,
    by decide, by decide⟩

/-- The entry of `game_cmds` that `process_command` uses while the timer
`TMD_COMMAND` is running. -/
theorem process_command_entry_commanded (k : Nat) (w : World)
    (hc : w.player.timed_COMMAND ≠ 0) :
    process_command_entry k w
      = some (command_info.mk cmd_code.CMD_COMMAND_MONSTER "make a monster act" true false
          true 0) := by
  unfold process_command_entry
  simp only
  rw [if_pos hc]
  decide

/-- C27: while the timer `TMD_COMMAND` of the player is not 0, `process_command`
uses the entry of `CMD_COMMAND_MONSTER` for the record in any slot of the
queue, whatever its code, registered or not.  If it calls a handler, that is
the handler of `CMD_COMMAND_MONSTER`, called with the record's repeat count 0,
`repeating` false and the record's code as it was; and when handlers and the
forced attack leave the queue alone, the code is as it was when
`process_command` returns. -/
theorem commanded_override (env : Env) (ctx : cmd_context) (k : Nat) (w : World)
    (hc : w.player.timed_COMMAND ≠ 0) (hk : k < w.cmd_queue.length) :
    process_command_entry k w
      = some (command_info.mk cmd_code.CMD_COMMAND_MONSTER "make a monster act" true false
          true 0) ∧
    (attack_keeps env → ∀ (c : cmd_code) (wh : World),
      process_command_call env ctx k w = some (c, wh) →
      c = cmd_code.CMD_COMMAND_MONSTER ∧ (wh.slot k).nrepeats = 0 ∧ wh.repeating = false ∧
      (wh.slot k).code = (w.slot k).code) ∧
    ((∀ (c : cmd_code) (j : Nat), keeps_queue (env.handler c j)) →
      keeps_queue (fun x => (env.player_attack_random_monster x).2) →
      ((process_command env ctx k w).slot k).code = (w.slot k).code) := by
  have he := process_command_entry_commanded k w hc
  refine ⟨he, ?_, ?_⟩
  · intro hatk c wh hcall
    obtain ⟨e1, he1, _, hce, hwq, hwr⟩ := process_command_call_state env ctx k w c wh hatk hcall
    rw [he] at he1
    simp only [Option.some.injEq] at he1
    subst he1
    obtain ⟨p1, p2, p3⟩ := process_command_prepare_not_allowed ctx
      (command_info.mk cmd_code.CMD_COMMAND_MONSTER "make a monster act" true false true 0) k
      { w with player := { w.player with command_wrk := 0 } } rfl hk
    rw [World.slot_congr _ wh k hwq, hwr]
    exact ⟨hce, p1, p2, p3⟩
  · intro hH hA
    exact ((process_command_frame env ctx k w hH hA).1.2.2.2.2 k).1

/-- Witness of C27: a record of code `CMD_NULL`, which has no entry, with repeat
count 5, processed in the middle of a repeat while the timer is running. -/
theorem commanded_override_witness :
    cmd_idx (ex_commanded.slot 0).code = -1 ∧ (ex_commanded.slot 0).nrepeats = 5 ∧
    ex_commanded.repeating = true ∧
    ∃ wh : World, process_command_call ex_env .CTX_INIT 0 ex_commanded
        = some (cmd_code.CMD_COMMAND_MONSTER, wh) ∧
      (wh.slot 0).nrepeats = 0 ∧ wh.repeating = false ∧
      (wh.slot 0).code = cmd_code.CMD_NULL :=
  ⟨by decide, by decide, by decide,
    ((process_command_call ex_env .CTX_INIT 0 ex_commanded).map Prod.snd).getD ex_fresh,
    by decide,
    ((commanded_override ex_env .CTX_INIT 0 ex_commanded (by decide) (by decide)).2.1
      (fun x h => ⟨rfl, rfl, rfl, rfl⟩) cmd_code.CMD_COMMAND_MONSTER
      (((process_command_call ex_env .CTX_INIT 0 ex_commanded).map Prod.snd).getD ex_fresh)
      (by decide)).2⟩

/-! ### Replaying in place -/

/-- A pop while repeating, when handlers and the forced attack leave the queue
alone: the record in the slot before the tail is handed to `process_command`,
and the cursors and the code, background flag and arguments of every slot are
as they were. -/
theorem cmdq_pop_repeating_frame (env : Env) (ctx : cmd_context) (w : World)
    (hr : w.repeating = true)
    (hH : ∀ (c : cmd_code) (j : Nat), keeps_queue (env.handler c j))
    (hA : keeps_queue (fun x => (env.player_attack_random_monster x).2)) :
    (cmdq_pop env ctx w).1 = true ∧
    (∃ wf : World, cmdq_pop_fetch w = some (prev_cmd_idx w.cmd_tail, wf) ∧
      wf.cmd_queue = w.cmd_queue) ∧
    (cmdq_pop env ctx w).2.cmd_head = w.cmd_head ∧
    (cmdq_pop env ctx w).2.cmd_tail = w.cmd_tail ∧
    ∀ j : Nat, ((cmdq_pop env ctx w).2.slot j).code = (w.slot j).code ∧
      ((cmdq_pop env ctx w).2.slot j).background_command = (w.slot j).background_command ∧
      ((cmdq_pop env ctx w).2.slot j).arg = (w.slot j).arg := by
  have hf : ∃ wf : World, cmdq_pop_fetch w = some (prev_cmd_idx w.cmd_tail, wf) ∧
      wf.cmd_queue = w.cmd_queue ∧ wf.cmd_head = w.cmd_head ∧ wf.cmd_tail = w.cmd_tail := by
    unfold cmdq_pop_fetch
    rw [if_pos hr]
    simp only
    split_ifs
    · exact ⟨_, rfl, rfl, rfl, rfl⟩
    · exact ⟨_, rfl, rfl, rfl, rfl⟩
  obtain ⟨wf, f1, fq, fh, ft⟩ := hf
  have hp : cmdq_pop env ctx w
      = (true, process_command env ctx (prev_cmd_idx w.cmd_tail) wf) := by
    unfold cmdq_pop; rw [f1]
  obtain ⟨⟨g1, g2, _, _, g5⟩, _⟩ :=
    process_command_frame env ctx (prev_cmd_idx w.cmd_tail) wf hH hA
  rw [hp]
  refine ⟨rfl, ⟨wf, f1, fq⟩, g1.trans fh, g2.trans ft, fun j => ?_⟩
  rw [← World.slot_congr w wf j fq]
  exact g5 j

/-- C28: while `repeating` is true, `cmdq_pop` returns true, also when
`cmd_head = cmd_tail`, hands the record in the slot before the tail to
`process_command`, and leaves `cmd_head` and `cmd_tail` as they were; and as
long as `repeating` stays true, every further `cmdq_pop` takes that same slot,
so that the cursors and the queued slots stay as they were.  Handlers and the
forced attack leave the queue alone. -/
theorem cmdq_pop_replays_in_place (env : Env) (ctx : cmd_context) (w : World)
    (hr : w.repeating = true)
    (hH : ∀ (c : cmd_code) (j : Nat), keeps_queue (env.handler c j))
    (hA : keeps_queue (fun x => (env.player_attack_random_monster x).2)) :
    (cmdq_pop env ctx w).1 = true ∧
    (∃ wf : World, cmdq_pop_fetch w = some (prev_cmd_idx w.cmd_tail, wf) ∧
      wf.cmd_queue = w.cmd_queue) ∧
    (cmdq_pop env ctx w).2.cmd_head = w.cmd_head ∧
    (cmdq_pop env ctx w).2.cmd_tail = w.cmd_tail ∧
    ∀ n : Nat, (∀ i : Nat, i < n → (cmdq_pops env ctx i w).repeating = true) →
      cmdq_pops_fetched env ctx n w = List.replicate n (prev_cmd_idx w.cmd_tail) ∧
      (cmdq_pops env ctx n w).cmd_head = w.cmd_head ∧
      (cmdq_pops env ctx n w).cmd_tail = w.cmd_tail ∧
      queued_slots (cmdq_pops env ctx n w) = queued_slots w ∧
      ∀ j : Nat, ((cmdq_pops env ctx n w).slot j).code = (w.slot j).code ∧
        ((cmdq_pops env ctx n w).slot j).arg = (w.slot j).arg := by
  obtain ⟨a1, a2, a3, a4, a5⟩ := cmdq_pop_repeating_frame env ctx w hr hH hA
  refine ⟨a1, a2, a3, a4, ?_⟩
  intro n
  clear a1 a2 a3 a4 a5 hr
  induction n generalizing w with
  | zero => intro _; exact ⟨rfl, rfl, rfl, rfl, fun j => ⟨rfl, rfl⟩⟩
  | succ m ih =>
    intro hall
    have hr : w.repeating = true := hall 0 (Nat.succ_pos m)
    obtain ⟨_, ⟨wf, f1, _⟩, b3, b4, b5⟩ := cmdq_pop_repeating_frame env ctx w hr hH hA
    obtain ⟨c1, c2, c3, c4, c5⟩ := ih (cmdq_pop env ctx w).2
      (fun i hi => hall (i + 1) (Nat.succ_lt_succ hi))
    refine ⟨?_, ?_, ?_, ?_, fun j => ?_⟩
    · show (match cmdq_pop_fetch w with
        | some kw => kw.1 :: cmdq_pops_fetched env ctx m (cmdq_pop env ctx w).2
        | none => cmdq_pops_fetched env ctx m (cmdq_pop env ctx w).2) = _
      rw [f1]
      simp only
      rw [c1, b4]
      rfl
    · exact c2.trans b3
    · exact c3.trans b4
    · exact c4.trans (by unfold queued_slots; rw [b3, b4])
    · exact ⟨(c5 j).1.trans (b5 j).1, (c5 j).2.trans (b5 j).2.2⟩

/-- Witness of C28: the open command was dispatched once and repeats; the walk
command is queued behind it.  Three more calls of `cmdq_pop` take slot 0 and
leave the walk command queued in slot 1. -/
theorem cmdq_pop_replays_in_place_witness :
    ex_open_then_walk.repeating = true ∧ queued_slots ex_open_then_walk = [1] ∧
    cmdq_pops_fetched ex_env .CTX_INIT 3 ex_open_then_walk = [0, 0, 0] ∧
    (cmdq_pops ex_env .CTX_INIT 3 ex_open_then_walk).cmd_tail = 1 ∧
    queued_slots (cmdq_pops ex_env .CTX_INIT 3 ex_open_then_walk) = [1] :=
  ⟨by decide, by decide,
    ((cmdq_pop_replays_in_place ex_env .CTX_INIT ex_open_then_walk (by decide)
      (fun _ _ w => ⟨queue_frame_refl w, rfl⟩) (fun w => ⟨queue_frame_refl w, rfl⟩)).2.2.2.2 3
      (by decide)).1,
    ((cmdq_pop_replays_in_place ex_env .CTX_INIT ex_open_then_walk (by decide)
      (fun _ _ w => ⟨queue_frame_refl w, rfl⟩) (fun w => ⟨queue_frame_refl w, rfl⟩)).2.2.2.2 3
      (by decide)).2.2.1,
    ((cmdq_pop_replays_in_place ex_env .CTX_INIT ex_open_then_walk (by decide)
      (fun _ _ w => ⟨queue_frame_refl w, rfl⟩) (fun w => ⟨queue_frame_refl w, rfl⟩)).2.2.2.2 3
      (by decide)).2.2.2.1⟩

/-! ### The slot that `cmd_set_arg` writes -/

/-- The search loop of `cmd_set_arg` for a name that no slot bears: it ends
without a match, with `first_empty` at the lowest slot whose name is empty, or
at `-1` when there is none. -/
theorem cmd_set_arg_scan_absent (name : String) :
    ∀ (l : List cmd_arg) (i : Nat), (∀ a ∈ l, a.name ≠ name) →
      ((∀ a ∈ l, a.name ≠ "") ∧ cmd_set_arg_scan name l i (-1) = (-1, -1)) ∨
      ∃ j : Nat, j < l.length ∧ (l.getD j cmd_arg.zero).name = "" ∧
        (∀ m : Nat, m < j → (l.getD m cmd_arg.zero).name ≠ "") ∧
        cmd_set_arg_scan name l i (-1) = (((i + j : Nat) : Int), -1) := by
  intro l
  induction l with
  | nil => intro i _; exact Or.inl ⟨by simp, rfl⟩
  | cons a rest ih =>
    intro i hall
    have ha : a.name ≠ name := hall a (List.mem_cons_self _ _)
    have hrest : ∀ b ∈ rest, b.name ≠ name := fun b hb => hall b (List.mem_cons_of_mem _ hb)
    by_cases he : a.name = ""
    · right
      refine ⟨0, by simp, by simpa using he, fun m hm => absurd hm (Nat.not_lt_zero m), ?_⟩
      have hn : name ≠ "" := fun e => ha (he.trans e.symm)
      rw [cmd_set_arg_scan_unused name a rest i he hn hrest]
      simp
    · have step : cmd_set_arg_scan name (a :: rest) i (-1)
          = cmd_set_arg_scan name rest (i + 1) (-1) := by
        simp [cmd_set_arg_scan, ha, he]
      rw [step]
      rcases ih (i + 1) hrest with ⟨h1, h2⟩ | ⟨j, hj, h1, h2, h3⟩
      · left
        refine ⟨fun b hb => ?_, h2⟩
        rcases List.mem_cons.mp hb with hb | hb
        · rw [hb]; exact he
        · exact h1 b hb
      · right
        refine ⟨j + 1, by simpa using hj, by simpa using h1, fun m hm => ?_, ?_⟩
        · cases m with
          | zero => simpa using he
          | succ m1 => simpa using h2 m1 (by omega)
        · rw [h3]
          have : i + 1 + j = i + (j + 1) := by omega
          rw [this]

/-- The slot that a call of `cmd_set_arg` writes: the first slot that bears the
name, or the lowest slot whose name is empty when none does. -/
theorem cmd_set_arg_slot (nsz : Nat) (h : Heap) (cmd : command) (name : String)
    (t : cmd_arg_type) (d : cmd_arg_data) (h1 : Heap) (cmd1 : command)
    (hset : cmd_set_arg nsz h cmd (some name) t d = some (h1, cmd1)) :
    name ≠ "" ∧ cmd1.code = cmd.code ∧ cmd1.nrepeats = cmd.nrepeats ∧
    cmd1.context = cmd.context ∧ cmd1.background_command = cmd.background_command ∧
    ∃ j : Nat, j < cmd.arg.length ∧
      cmd1.arg = cmd.arg.set j ⟨t, d, my_strcpy name nsz⟩ ∧
      cmd1.arg.getD j cmd_arg.zero = ⟨t, d, my_strcpy name nsz⟩ ∧
      (∀ i : Nat, i ≠ j → cmd1.arg.getD i cmd_arg.zero = cmd.arg.getD i cmd_arg.zero) ∧
      ((∃ a ∈ cmd.arg, a.name = name) →
        (cmd.arg.getD j cmd_arg.zero).name = name ∧
        ∀ m : Nat, m < j → (cmd.arg.getD m cmd_arg.zero).name ≠ name) ∧
      ((∀ a ∈ cmd.arg, a.name ≠ name) →
        (cmd.arg.getD j cmd_arg.zero).name = "" ∧
        ∀ m : Nat, m < j → (cmd.arg.getD m cmd_arg.zero).name ≠ "") := by
  have key : ∃ j : Nat, j < cmd.arg.length ∧
      cmd1 = { cmd with arg := cmd.arg.set j ⟨t, d, my_strcpy name nsz⟩ } ∧
      ((∃ a ∈ cmd.arg, a.name = name) →
        (cmd.arg.getD j cmd_arg.zero).name = name ∧
        ∀ m : Nat, m < j → (cmd.arg.getD m cmd_arg.zero).name ≠ name) ∧
      ((∀ a ∈ cmd.arg, a.name ≠ name) →
        (cmd.arg.getD j cmd_arg.zero).name = "" ∧
        ∀ m : Nat, m < j → (cmd.arg.getD m cmd_arg.zero).name ≠ "") := by
    unfold cmd_set_arg at hset
    simp only at hset
    by_cases hn : name = ""
    · rw [if_pos hn] at hset; exact absurd hset (by simp)
    rw [if_neg hn] at hset
    by_cases hboth : (cmd_set_arg_scan name cmd.arg 0 (-1)).1 = -1 ∧
        (cmd_set_arg_scan name cmd.arg 0 (-1)).2 = -1
    · rw [if_pos hboth] at hset; exact absurd hset (by simp)
    rw [if_neg hboth] at hset
    simp only [Option.some.injEq, Prod.mk.injEq] at hset
    obtain ⟨_, hc⟩ := hset
    by_cases hpres : ∃ a ∈ cmd.arg, a.name = name
    · rcases cmd_set_arg_scan_spec name cmd.arg 0 (-1) with
        ⟨j, hj, h2, h3, h4⟩ | ⟨_, hall, _⟩
      · have hne2 : ¬ (((0 + j : Nat) : Int) = -1) := by omega
        rw [h2] at hc
        simp only [hne2, if_false, Nat.zero_add, Int.toNat_ofNat] at hc
        refine ⟨j, hj, hc.symm, fun _ => ⟨h3, h4⟩, fun hno => ?_⟩
        obtain ⟨a, ha, hna⟩ := hpres
        exact absurd hna (hno a ha)
      · obtain ⟨a, ha, hna⟩ := hpres
        exact absurd hna (hall a ha)
    · have hno : ∀ a ∈ cmd.arg, a.name ≠ name := fun a ha hna => hpres ⟨a, ha, hna⟩
      rcases cmd_set_arg_scan_absent name cmd.arg 0 hno with ⟨_, h2⟩ | ⟨j, hj, h3, h4, h2⟩
      · rw [h2] at hboth
        exact absurd ⟨rfl, rfl⟩ hboth
      · rw [h2] at hc
        simp only [if_true, Nat.zero_add, Int.toNat_ofNat] at hc
        exact ⟨j, hj, hc.symm, fun hp => absurd hp hpres, fun _ => ⟨h3, h4⟩⟩
  obtain ⟨j, hj, hc, hp, ha⟩ := key
  subst hc
  refine ⟨(cmd_set_arg_eq nsz h cmd name t d h1 _ hset).1, rfl, rfl, rfl, rfl, j, hj, rfl,
    ?_, ?_, hp, ha⟩
  · show (cmd.arg.set j ⟨t, d, my_strcpy name nsz⟩).getD j cmd_arg.zero = _
    rw [List.getD_eq_getElem?_getD, List.getElem?_set_self hj]
    rfl
  · intro i hi
    show (cmd.arg.set j ⟨t, d, my_strcpy name nsz⟩).getD i cmd_arg.zero = _
    rw [List.getD_eq_getElem?_getD, List.getD_eq_getElem?_getD,
      List.getElem?_set_ne (fun e => hi e.symm)]

/-- C29: a call of `cmd_set_arg` that returns writes one slot `j` with the new
kind and value (and the name as `my_strcpy` stores it); every other slot and
the code, repeat count, context and background flag of the record are as they
were.  If a slot bears the name, `j` is the first slot that bears it, whatever
its kind was; if none does, `j` is the lowest slot whose name is empty. -/
theorem cmd_set_arg_in_place (nsz : Nat) (h : Heap) (cmd : command) (name : String)
    (t : cmd_arg_type) (d : cmd_arg_data) (h1 : Heap) (cmd1 : command)
    (hset : cmd_set_arg nsz h cmd (some name) t d = some (h1, cmd1)) :
    cmd1.code = cmd.code ∧ cmd1.nrepeats = cmd.nrepeats ∧ cmd1.context = cmd.context ∧
    cmd1.background_command = cmd.background_command ∧
    ∃ j : Nat, j < cmd.arg.length ∧
      cmd1.arg = cmd.arg.set j ⟨t, d, my_strcpy name nsz⟩ ∧
      cmd1.arg.getD j cmd_arg.zero = ⟨t, d, my_strcpy name nsz⟩ ∧
      (∀ i : Nat, i ≠ j → cmd1.arg.getD i cmd_arg.zero = cmd.arg.getD i cmd_arg.zero) ∧
      ((∃ a ∈ cmd.arg, a.name = name) →
        (cmd.arg.getD j cmd_arg.zero).name = name ∧
        ∀ m : Nat, m < j → (cmd.arg.getD m cmd_arg.zero).name ≠ name) ∧
      ((∀ a ∈ cmd.arg, a.name ≠ name) →
        (cmd.arg.getD j cmd_arg.zero).name = "" ∧
        ∀ m : Nat, m < j → (cmd.arg.getD m cmd_arg.zero).name ≠ "") :=
  (cmd_set_arg_slot nsz h cmd name t d h1 cmd1 hset).2

/-- Witness of C29: in the walk command, whose slot 0 holds a direction under
`"dir"`, a number is set under `"dir"` and then an item under `"item"`. -/
theorem cmd_set_arg_in_place_witness :
    (cmd_set_arg 20 [] ex_walk (some "dir") .arg_NUMBER (.number 7)).map
        (fun r => r.2.arg.map (fun a => (a.type, a.name)))
      = some [(.arg_NUMBER, "dir"), (.arg_NONE, ""), (.arg_NONE, ""), (.arg_NONE, "")] ∧
    (∃ j : Nat, j < ex_walk.arg.length ∧
      (((cmd_set_arg 20 [] ex_walk (some "dir") .arg_NUMBER (.number 7)).map
        Prod.snd).getD ex_walk).arg
        = ex_walk.arg.set j ⟨.arg_NUMBER, .number 7, my_strcpy "dir" 20⟩ ∧
      (ex_walk.arg.getD j cmd_arg.zero).name = "dir" ∧
      ∀ m : Nat, m < j → (ex_walk.arg.getD m cmd_arg.zero).name ≠ "dir") ∧
    (∃ j : Nat, j < ex_walk.arg.length ∧
      (((cmd_set_arg 20 [] ex_walk (some "item") .arg_ITEM (.obj 1)).map
        Prod.snd).getD ex_walk).arg
        = ex_walk.arg.set j ⟨.arg_ITEM, .obj 1, my_strcpy "item" 20⟩ ∧
      (ex_walk.arg.getD j cmd_arg.zero).name = "" ∧
      ∀ m : Nat, m < j → (ex_walk.arg.getD m cmd_arg.zero).name ≠ "") := by
  refine ⟨by decide, ?_, ?_⟩
  · obtain ⟨_, _, _, _, j, hj, h1, _, _, hp, _⟩ :=
      cmd_set_arg_in_place 20 [] ex_walk "dir" .arg_NUMBER (.number 7) []
        (((cmd_set_arg 20 [] ex_walk (some "dir") .arg_NUMBER (.number 7)).map
          Prod.snd).getD ex_walk) (by decide)
    exact ⟨j, hj, h1, hp (by decide)⟩
  · obtain ⟨_, _, _, _, j, hj, h1, _, _, _, ha⟩ :=
      cmd_set_arg_in_place 20 [] ex_walk "item" .arg_ITEM (.obj 1) []
        (((cmd_set_arg 20 [] ex_walk (some "item") .arg_ITEM (.obj 1)).map
          Prod.snd).getD ex_walk) (by decide)
    exact ⟨j, hj, h1, ha (by decide)⟩

/-! ### Names within a record -/

theorem names_unique_iff (l : List cmd_arg) :
    names_unique l ↔ ∀ i j : Nat, i ≠ j → (l.getD i cmd_arg.zero).name ≠ "" →
      (l.getD i cmd_arg.zero).name ≠ (l.getD j cmd_arg.zero).name := by
  constructor
  · intro hu i j hij hne
    by_cases hi : i < l.length
    · by_cases hj : j < l.length
      · exact hu i hi j hj hij hne
      · rw [List.getD_eq_default l cmd_arg.zero (Nat.le_of_not_lt hj)]
        exact hne
    · rw [List.getD_eq_default l cmd_arg.zero (Nat.le_of_not_lt hi)] at hne
      exact absurd rfl hne
  · intro hu i _ j _ hij hne
    exact hu i j hij hne

/-- Uniqueness of names survives a change that leaves each name as it was or
empties it. -/
theorem names_unique_of_pointwise (l l1 : List cmd_arg)
    (hp : ∀ i : Nat, (l1.getD i cmd_arg.zero).name = (l.getD i cmd_arg.zero).name ∨
      (l1.getD i cmd_arg.zero).name = "")
    (hu : names_unique l) : names_unique l1 := by
  rw [names_unique_iff] at hu ⊢
  intro i j hij hne
  rcases hp i with hi | hi
  · rcases hp j with hj | hj
    · rw [hi, hj]
      rw [hi] at hne
      exact hu i j hij hne
    · rw [hj]; exact hne
  · exact absurd hi hne

theorem cmd_copy_args_getD_name (l : List cmd_arg) :
    ∀ (h : Heap) (i : Nat),
      ((cmd_copy_args h l).2.getD i cmd_arg.zero).name = (l.getD i cmd_arg.zero).name := by
  induction l with
  | nil => intro h i; rfl
  | cons a rest ih =>
    intro h i
    by_cases hs : a.type = .arg_STRING
    · have e : (cmd_copy_args h (a :: rest)).2
          = { a with data := .string (string_make h (h.read a.data.get_string)).1 }
              :: (cmd_copy_args (string_make h (h.read a.data.get_string)).2 rest).2 := by
        simp [cmd_copy_args, hs]
      rw [e]
      cases i with
      | zero => rfl
      | succ i1 => simpa using ih _ i1
    · have e : (cmd_copy_args h (a :: rest)).2 = a :: (cmd_copy_args h rest).2 := by
        simp [cmd_copy_args, hs]
      rw [e]
      cases i with
      | zero => rfl
      | succ i1 => simpa using ih _ i1

/-- A successful `cmd_set_arg` under a name that fits the name field keeps the
names of the record unique. -/
theorem cmd_set_arg_names_unique (nsz : Nat) (h : Heap) (cmd : command) (name : String)
    (t : cmd_arg_type) (d : cmd_arg_data) (r : Heap × command)
    (hfit : name.length < nsz)
    (hset : cmd_set_arg nsz h cmd (some name) t d = some r)
    (hu : names_unique cmd.arg) : names_unique r.2.arg := by
  obtain ⟨hn, _, _, _, _, j, hj, _, hnew, hother, hpres, habs⟩ :=
    cmd_set_arg_slot nsz h cmd name t d r.1 r.2 hset
  rw [my_strcpy_of_lt name nsz hfit] at hnew
  by_cases hp : ∃ a ∈ cmd.arg, a.name = name
  · refine names_unique_of_pointwise cmd.arg r.2.arg (fun i => Or.inl ?_) hu
    by_cases hi : i = j
    · rw [hi, hnew, (hpres hp).1]
    · rw [hother i hi]
  · have hno : ∀ a ∈ cmd.arg, a.name ≠ name := fun a ha hna => hp ⟨a, ha, hna⟩
    have hall : ∀ i : Nat, (cmd.arg.getD i cmd_arg.zero).name ≠ name := by
      intro i
      by_cases hi : i < cmd.arg.length
      · rw [List.getD_eq_getElem _ _ hi]
        exact hno _ (List.getElem_mem _)
      · rw [List.getD_eq_default _ _ (Nat.le_of_not_lt hi)]
        exact fun e => hn e.symm
    rw [names_unique_iff] at hu ⊢
    intro i k hik hne
    by_cases hi : i = j
    · have hk : k ≠ j := fun e => hik (hi.trans e.symm)
      rw [hi, hnew, hother k hk]
      exact fun e => hall k e.symm
    · rw [hother i hi] at hne ⊢
      by_cases hk : k = j
      · rw [hk, hnew]
        exact hall i
      · rw [hother k hk]
        exact hu i k hik hne

/-- One step keeps the names of the record unique, when the name it sets fits
the name field. -/
theorem cmd_op_run_names_unique (nsz : Nat) (h : Heap) (cmd : command) (op : cmd_op)
    (r : Heap × command) (hfit : ∀ n : String, op.name = some n → n.length < nsz)
    (hrun : op.run nsz h cmd = some r) (hu : names_unique cmd.arg) :
    names_unique r.2.arg := by
  cases op with
  | set_choice a v => exact cmd_set_arg_names_unique nsz _ cmd a _ _ r (hfit a rfl) hrun hu
  | set_string a s => exact cmd_set_arg_names_unique nsz _ cmd a _ _ r (hfit a rfl) hrun hu
  | set_direction a v => exact cmd_set_arg_names_unique nsz _ cmd a _ _ r (hfit a rfl) hrun hu
  | set_target a v => exact cmd_set_arg_names_unique nsz _ cmd a _ _ r (hfit a rfl) hrun hu
  | set_point a g => exact cmd_set_arg_names_unique nsz _ cmd a _ _ r (hfit a rfl) hrun hu
  | set_item a o => exact cmd_set_arg_names_unique nsz _ cmd a _ _ r (hfit a rfl) hrun hu
  | set_number a v => exact cmd_set_arg_names_unique nsz _ cmd a _ _ r (hfit a rfl) hrun hu
  | release =>
    have e : r = cmd_release h cmd := by
      have hr : some (cmd_release h cmd) = some r := hrun
      simp only [Option.some.injEq] at hr
      exact hr.symm
    rw [e]
    refine names_unique_of_pointwise cmd.arg _ (fun i => ?_) hu
    by_cases hs : (cmd.arg.getD i cmd_arg.zero).type = .arg_STRING
    · exact Or.inr ((cmd_release_args_getD cmd.arg h i).1 hs).2
    · exact Or.inl (congrArg cmd_arg.name ((cmd_release_args_getD cmd.arg h i).2 hs))
  | copy =>
    have e : r = cmd_copy h cmd := by
      have hr : some (cmd_copy h cmd) = some r := hrun
      simp only [Option.some.injEq] at hr
      exact hr.symm
    rw [e]
    exact names_unique_of_pointwise cmd.arg _
      (fun i => Or.inl (cmd_copy_args_getD_name cmd.arg h i)) hu

theorem cmd_ops_run_names_unique (nsz : Nat) :
    ∀ (ops : List cmd_op) (h : Heap) (cmd : command) (r : Heap × command),
      (∀ op ∈ ops, ∀ n : String, op.name = some n → n.length < nsz) →
      cmd_ops_run nsz h cmd ops = some r → names_unique cmd.arg → names_unique r.2.arg := by
  intro ops
  induction ops with
  | nil =>
    intro h cmd r _ hrun hu
    have hr : some (h, cmd) = some r := hrun
    simp only [Option.some.injEq] at hr
    rw [← hr]; exact hu
  | cons op rest ih =>
    intro h cmd r hfit hrun hu
    cases hop : op.run nsz h cmd with
    | none =>
      have hr : (match op.run nsz h cmd with
        | none => none
        | some r1 => cmd_ops_run nsz r1.1 r1.2 rest) = some r := hrun
      rw [hop] at hr
      exact absurd hr (by simp)
    | some r1 =>
      have hr : (match op.run nsz h cmd with
        | none => none
        | some r1 => cmd_ops_run nsz r1.1 r1.2 rest) = some r := hrun
      rw [hop] at hr
      exact ih r1.1 r1.2 r (fun o ho => hfit o (List.mem_cons_of_mem _ ho)) hr
        (cmd_op_run_names_unique nsz h cmd op r1 (hfit op (List.mem_cons_self _ _)) hop hu)

/-- C30, as the code has it: starting from a record all of whose slots are
unused, after any sequence of typed setters, `cmd_release` and `cmd_copy` in
which every name set fits the name field, no two slots in use bear the same
name. -/
theorem names_unique_invariant (nsz : Nat) (ops : List cmd_op) (h : Heap) (cmd : command)
    (r : Heap × command) (h0 : ∀ a ∈ cmd.arg, a.name = "")
    (hfit : ∀ op ∈ ops, ∀ n : String, op.name = some n → n.length < nsz)
    (hrun : cmd_ops_run nsz h cmd ops = some r) :
    names_unique r.2.arg := by
  refine cmd_ops_run_names_unique nsz ops h cmd r hfit hrun ?_
  intro i hi j _ _ hne
  rw [List.getD_eq_getElem _ _ hi] at hne
  exact absurd (h0 _ (List.getElem_mem _)) hne

/-- Witness of C30: a string is set under `"a"` and a number under `"b"`, the
record is released, which leaves slot 0 unused before the slot that bears
`"b"`, `"b"` is set again, and the record is copied. -/
theorem names_unique_invariant_witness :
    (cmd_ops_run 20 [] command.zero ex_ops_release).map
        (fun r => r.2.arg.map (fun a => (a.name, a.data)))
      = some [("", .string 1), ("b", .number 2), ("", .string 0), ("", .string 0)] ∧
    names_unique (((cmd_ops_run 20 [] command.zero ex_ops_release).getD
      ([], command.zero)).2.arg) :=
  ⟨by decide,
    names_unique_invariant 20 ex_ops_release [] command.zero
      ((cmd_ops_run 20 [] command.zero ex_ops_release).getD ([], command.zero))
      (by decide) (by decide) (by decide)⟩

/-- Counterexample to C30: in a name field of 20 bytes, a number set twice
under a name of 22 characters, starting from an unused record, goes into two
slots, which then bear the same 19 characters. -/
theorem names_unique_long_name :
    (cmd_ops_run 20 [] command.zero ex_ops_long).map
        (fun r => r.2.arg.map (fun a => (a.name, a.data)))
      = some [("direction_of_next_s", .number 1), ("direction_of_next_s", .number 2),
          ("", .string 0), ("", .string 0)] ∧
    ¬ names_unique (((cmd_ops_run 20 [] command.zero ex_ops_long).getD
      ([], command.zero)).2.arg) := by
  decide

/-! ### Helpers whose prompt is cancelled -/

theorem cmd_cancel_repeat_args (x : World) (k : Nat) :
    ((cmd_cancel_repeat x).slot k).arg = (x.slot k).arg ∧
    (cmd_cancel_repeat x).heap = x.heap := by
  unfold cmd_cancel_repeat
  simp only
  split_ifs
  · refine ⟨?_, rfl⟩
    show ((x.set_slot (prev_cmd_idx x.cmd_tail)
      { x.slot (prev_cmd_idx x.cmd_tail) with nrepeats := 0 }).slot k).arg = _
    rw [World.slot_set_slot]
    split_ifs with h
    · rw [h.1]
    · rfl
  · exact ⟨rfl, rfl⟩

/-- C21: for each of `cmd_get_string`, `cmd_get_quantity`, `cmd_get_direction`,
`cmd_get_target`, `cmd_get_item`, `cmd_get_spell` and
`cmd_get_effect_from_list`: when the argument under the name is missing, of
another kind or fails the helper's validation, and the prompt is cancelled or
yields nothing usable, the helper returns `CMD_ARG_ABORTED` after prompting and
writes to no argument slot.  The state it returns is the state `x` that the
prompt returned (for `cmd_get_direction`, that state after
`cmd_cancel_repeat()`), so every argument slot of the record and the heap of
strings are those of `x`, and those before the call when the prompt changes
nothing. -/
theorem prompt_aborted (P : Prompts) (S : SpellPrompts) (env : Env) (nsz k : Nat)
    (name : String) :
    (∀ (str : Ptr) (initial : Option String) (title : String) (prompt : Option String)
      (v : String) (w x : World),
      (cmd_get_arg_string (w.slot k) name str).1 ≠ CMD_OK →
      P.get_string prompt (cmd_get_string_tmp initial) 80
        (P.event_signal_MESSAGE_FLUSH (P.msg title w)) = (false, v, x) →
      cmd_get_string P nsz k name str initial title prompt w
        = some ⟨CMD_ARG_ABORTED, (cmd_get_arg_string (w.slot k) name str).2, true, x⟩) ∧
    (∀ (amt max v : Int) (w x : World),
      (cmd_get_arg_number (w.slot k) name amt).1 ≠ CMD_OK →
      P.get_quantity none max w = (v, x) → v ≤ 0 →
      cmd_get_quantity P nsz k name amt max w = some ⟨CMD_ARG_ABORTED, v, true, x⟩) ∧
    (∀ (dir v : Int) (allow_5 : Bool) (w x : World),
      ¬ ((cmd_get_arg_direction (w.slot k) name dir).1 = CMD_OK ∧
        (cmd_get_arg_direction (w.slot k) name dir).2 ≠ env.DIR_NONE) →
      env.get_rep_dir (cmd_get_arg_direction (w.slot k) name dir).2 allow_5 w
        = (false, v, x) →
      cmd_get_direction env nsz k name dir allow_5 w
        = some ⟨CMD_ARG_ABORTED, v, true, cmd_cancel_repeat x⟩ ∧
      ((cmd_cancel_repeat x).slot k).arg = (x.slot k).arg ∧
      (cmd_cancel_repeat x).heap = x.heap) ∧
    (∀ (target v : Int) (w x : World),
      ¬ ((cmd_get_arg_target (w.slot k) name target).1 = CMD_OK ∧
        (cmd_get_arg_target (w.slot k) name target).2 ≠ P.DIR_UNKNOWN ∧
        ((cmd_get_arg_target (w.slot k) name target).2 ≠ P.DIR_TARGET ∨
          P.target_okay w = true)) →
      P.get_aim_dir (cmd_get_arg_target (w.slot k) name target).2 w = (false, v, x) →
      cmd_get_target P nsz k name target w = some ⟨CMD_ARG_ABORTED, v, true, x⟩) ∧
    (∀ (obj v : Ptr) (prompt reject : Option String) (filter : Option item_tester)
      (mode : Int) (w x : World),
      ¬ ((cmd_get_arg_item (w.slot k) name obj).1 = CMD_OK ∧
        item_tester_passes filter w (cmd_get_arg_item (w.slot k) name obj).2 = true) →
      P.get_item (cmd_get_arg_item (w.slot k) name obj).2 prompt reject (w.slot k).code
        filter
        (if P.player_is_shapechanged w then
          Int.land mode (Int.not (Int.lor (Int.lor P.USE_EQUIP P.USE_INVEN) P.USE_QUIVER))
        else mode) w = (false, v, x) →
      cmd_get_item P nsz k name obj prompt reject filter mode w
        = some ⟨CMD_ARG_ABORTED, v, true, x⟩) ∧
    (∀ (spell v : Int) (bk : Ptr) (verb : String) (book_filter : Option item_tester)
      (book_error : Option String) (spell_filter : Option spell_tester)
      (spell_error : Option String) (w x : World),
      ¬ ((cmd_get_arg_choice (w.slot k) name spell).1 = CMD_OK ∧
        spell_tester_passes spell_filter w (cmd_get_arg_choice (w.slot k) name spell).2
          = true) →
      cmd_get_spell_prompt S k verb book_filter book_error spell_filter spell_error w
        = (v, bk, x) → v < 0 →
      cmd_get_spell S nsz k name spell verb book_filter book_error spell_filter spell_error w
        = some ⟨CMD_ARG_ABORTED, v, true, x⟩) ∧
    (∀ (choice v : Int) (prompt : Option String) (effect : List effect) (count : Int)
      (allow_random : Bool) (w x : World),
      ((cmd_get_arg_choice (w.slot k) name 0).1 ≠ CMD_OK ∨
        (((cmd_get_arg_choice (w.slot k) name 0).2 ≠ -2 ∨ allow_random = false) ∧
          ((cmd_get_arg_choice (w.slot k) name 0).2 < 0 ∨
            (cmd_get_arg_choice (w.slot k) name 0).2
              ≥ (if count = -1 then (effect.length : Int) else count)))) →
      P.get_effect_from_list prompt effect
        (if count = -1 then (effect.length : Int) else count) allow_random w = (v, x) →
      ¬ ((v = -2 ∧ allow_random = true) ∨
        (v ≥ 0 ∧ v < (if count = -1 then (effect.length : Int) else count))) →
      cmd_get_effect_from_list P nsz k name choice prompt effect count allow_random w
        = some ⟨CMD_ARG_ABORTED, choice, true, x⟩) := by
  refine ⟨?_, ?_, ?_, ?_, ?_, ?_, ?_⟩
  · intro str initial title prompt v w x hmiss hprompt
    unfold cmd_get_string
    simp only [hprompt]
    rw [if_neg hmiss]
    simp
  · intro amt max v w x hmiss hprompt hv
    unfold cmd_get_quantity
    simp only [hprompt]
    rw [if_neg hmiss, if_neg (by omega)]
  · intro dir v allow_5 w x hmiss hprompt
    refine ⟨?_, cmd_cancel_repeat_args x k⟩
    unfold cmd_get_direction
    simp only [hprompt]
    rw [if_neg hmiss]
    simp
  · intro target v w x hmiss hprompt
    unfold cmd_get_target
    simp only [hprompt]
    rw [if_neg hmiss]
    simp
  · intro obj v prompt reject filter mode w x hmiss hprompt
    unfold cmd_get_item
    simp only [hprompt]
    rw [if_neg hmiss]
    simp
  · intro spell v bk verb book_filter book_error spell_filter spell_error w x hmiss hprompt hv
    unfold cmd_get_spell
    simp only [hprompt]
    rw [if_neg hmiss, if_neg (by omega)]
  · intro choice v prompt effect count allow_random w x hmiss hprompt hv
    unfold cmd_get_effect_from_list
    simp only
    rw [if_pos hmiss]
    simp only [hprompt]
    rw [if_neg hv]

/-- Witness of C21: the seven helpers on the queued walk command, which holds
nothing under `"target"`, with prompts that are all cancelled. -/
theorem prompt_aborted_witness :
    cmd_get_string ex_prompts_cancel 20 0 "target" 0 none "Inscribe" none ex_queued
      = some ⟨CMD_ARG_ABORTED, (cmd_get_arg_string (ex_queued.slot 0) "target" 0).2, true,
          ex_queued⟩ ∧
    cmd_get_quantity ex_prompts_cancel 20 0 "target" 7 9 ex_queued
      = some ⟨CMD_ARG_ABORTED, 0, true, ex_queued⟩ ∧
    (cmd_get_direction ex_env 20 0 "target" 7 false ex_queued
      = some ⟨CMD_ARG_ABORTED, 7, true, cmd_cancel_repeat ex_queued⟩ ∧
      ((cmd_cancel_repeat ex_queued).slot 0).arg = (ex_queued.slot 0).arg ∧
      (cmd_cancel_repeat ex_queued).heap = ex_queued.heap) ∧
    cmd_get_target ex_prompts_cancel 20 0 "target" 7 ex_queued
      = some ⟨CMD_ARG_ABORTED, 7, true, ex_queued⟩ ∧
    cmd_get_item ex_prompts_cancel 20 0 "target" 0 none none none 0 ex_queued
      = some ⟨CMD_ARG_ABORTED, 0, true, ex_queued⟩ ∧
    cmd_get_spell ex_spell_cancel 20 0 "target" 7 "cast" none none none none ex_queued
      = some ⟨CMD_ARG_ABORTED, -1, true, ex_queued⟩ ∧
    cmd_get_effect_from_list ex_prompts_cancel 20 0 "target" 7 none ex_effects (-1) false
      ex_queued = some ⟨CMD_ARG_ABORTED, 7, true, ex_queued⟩ :=
  ⟨(prompt_aborted ex_prompts_cancel ex_spell_cancel ex_env 20 0 "target").1
      0 none "Inscribe" none "" ex_queued ex_queued (by decide) rfl,
    (prompt_aborted ex_prompts_cancel ex_spell_cancel ex_env 20 0 "target").2.1
      7 9 0 ex_queued ex_queued (by decide) rfl (by decide),
    (prompt_aborted ex_prompts_cancel ex_spell_cancel ex_env 20 0 "target").2.2.1
      7 7 false ex_queued ex_queued (by decide) rfl,
    (prompt_aborted ex_prompts_cancel ex_spell_cancel ex_env 20 0 "target").2.2.2.1
      7 7 ex_queued ex_queued (by decide) rfl,
    (prompt_aborted ex_prompts_cancel ex_spell_cancel ex_env 20 0 "target").2.2.2.2.1
      0 0 none none none 0 ex_queued ex_queued (by decide) rfl,
    (prompt_aborted ex_prompts_cancel ex_spell_cancel ex_env 20 0 "target").2.2.2.2.2.1
      7 (-1) 0 "cast" none none none none ex_queued ex_queued (by decide) rfl (by decide),
    (prompt_aborted ex_prompts_cancel ex_spell_cancel ex_env 20 0 "target").2.2.2.2.2.2
      7 (-1) none ex_effects (-1) false ex_queued ex_queued (by decide) rfl (by decide)⟩

/-! ### Draining the queue -/

theorem counts_frame_refl (w : World) : counts_frame w w :=
  ⟨rfl, rfl, rfl, rfl, fun _ => ⟨rfl, rfl⟩⟩

theorem counts_frame_trans (a b c : World) (h1 : counts_frame a b) (h2 : counts_frame b c) :
    counts_frame a c := by
  obtain ⟨a1, a2, a3, a4, a5⟩ := h1
  obtain ⟨b1, b2, b3, b4, b5⟩ := h2
  exact ⟨b1.trans a1, b2.trans a2, b3.trans a3, b4.trans a4,
    fun j => ⟨(b5 j).1.trans (a5 j).1, (b5 j).2.trans (a5 j).2⟩⟩

/-- From the block "Command repetition" to the final count, `process_command`
changes no cursor, flag, code or repeat count, when handlers push no command
and change no count and the forced attack does not take place. -/
theorem process_command_middle (env : Env) (ctx : cmd_context) (k : Nat) (w : World)
    (e : command_info) (he : process_command_entry k w = some e)
    (hH : ∀ (c : cmd_code) (j : Nat), keeps_counts (env.handler c j))
    (hA : keeps_counts (fun x => (env.player_attack_random_monster x).2))
    (hno : ∀ x : World, (env.player_attack_random_monster x).1 = false) :
    ∃ y : World,
      counts_frame (process_command_prepare ctx e k
        { w with player := { w.player with command_wrk := 0 } }) y ∧
      process_command env ctx k w = process_command_count (w.slot k).nrepeats k y := by
  unfold process_command
  rw [he]
  simp only
  generalize process_command_prepare ctx e k
    { w with player := { w.player with command_wrk := 0 } } = x
  by_cases hfn : e.fn = true
  · rw [if_pos hfn]
    rcases process_command_coerce_cases env e k x with ⟨pl, r, hc⟩ | ⟨r, hc⟩
    · rw [hc]
      simp only [Bool.false_eq_true, if_false]
      refine ⟨env.handler e.cmd k { x with player := pl, rng := r }, ?_, rfl⟩
      exact counts_frame_trans x { x with player := pl, rng := r } _
        ⟨rfl, rfl, rfl, rfl, fun _ => ⟨rfl, rfl⟩⟩ (hH e.cmd k _)
    · rw [hc, if_neg (by rw [hno]; simp)]
      refine ⟨env.handler e.cmd k (env.player_attack_random_monster { x with rng := r }).2,
        ?_, rfl⟩
      exact counts_frame_trans x (env.player_attack_random_monster { x with rng := r }).2 _
        (counts_frame_trans x { x with rng := r } _
          ⟨rfl, rfl, rfl, rfl, fun _ => ⟨rfl, rfl⟩⟩ (hA _))
        (hH e.cmd k _)
  · rw [if_neg hfn]
    exact ⟨x, counts_frame_refl x, rfl⟩

/-- The final statement of `process_command` on the slot before the tail. -/
theorem process_command_count_counts (old : Int) (k : Nat) (y : World)
    (hk : k < y.cmd_queue.length) (hpv : prev_cmd_idx y.cmd_tail = k) :
    (process_command_count old k y).cmd_head = y.cmd_head ∧
    (process_command_count old k y).cmd_tail = y.cmd_tail ∧
    (process_command_count old k y).cmd_queue.length = y.cmd_queue.length ∧
    (∀ j : Nat, ((process_command_count old k y).slot j).code = (y.slot j).code) ∧
    ((y.slot k).nrepeats > 0 ∧ old = (y.slot k).nrepeats →
      ((process_command_count old k y).slot k).nrepeats = old - 1 ∧
      ((process_command_count old k y).repeating = true ↔ old - 1 ≠ 0)) ∧
    (¬ ((y.slot k).nrepeats > 0 ∧ old = (y.slot k).nrepeats) →
      process_command_count old k y = y) := by
  obtain ⟨f1, f2, _, f4, f5⟩ := process_command_count_frame old k y
  refine ⟨f1, f2, f4, fun j => (f5 j).1, ?_, ?_⟩
  · intro hc
    have hc2 : (y.slot k).nrepeats > 0 ∧ old = cmd_get_nrepeats y := by
      unfold cmd_get_nrepeats; rw [hpv]; exact hc
    unfold process_command_count
    rw [if_pos hc2]
    unfold cmd_set_repeat
    simp only
    rw [hpv]
    refine ⟨?_, ?_⟩
    · show ((y.set_slot k { y.slot k with nrepeats := old - 1 }).slot k).nrepeats = _
      rw [World.slot_set_slot, if_pos ⟨rfl, hk⟩]
    · by_cases h0 : old - 1 ≠ 0
      · simp [h0]
      · simp [h0]
  · intro hc
    have hc2 : ¬ ((y.slot k).nrepeats > 0 ∧ old = cmd_get_nrepeats y) := by
      unfold cmd_get_nrepeats; rw [hpv]; exact hc
    unfold process_command_count
    rw [if_neg hc2]

theorem process_command_entry_none (k : Nat) (w : World)
    (he : process_command_entry k w = none) : cmd_idx (w.slot k).code = -1 := by
  unfold process_command_entry at he
  simp only at he
  by_cases hc : w.player.timed_COMMAND ≠ 0
  · rw [if_pos hc] at he
    have hm : cmd_idx cmd_code.CMD_COMMAND_MONSTER ≠ -1 := by decide
    rw [if_neg hm] at he
    exact absurd he (by simp)
  · rw [if_neg hc] at he
    by_contra h1
    rw [if_neg h1] at he
    exact absurd he (by simp)

theorem process_command_entry_allowed (k : Nat) (w : World) (e : command_info)
    (he : process_command_entry k w = some e) (hra : e.repeat_allowed = true) :
    cmd_idx (w.slot k).code ≠ -1 := by
  by_cases hc : w.player.timed_COMMAND ≠ 0
  · rw [process_command_entry_commanded k w hc] at he
    simp only [Option.some.injEq] at he
    rw [← he] at hra
    exact absurd hra (by decide)
  · unfold process_command_entry at he
    simp only at he
    rw [if_neg hc] at he
    intro h1
    rw [if_pos h1] at he
    exact absurd he (by simp)

/-- One call of `process_command` on the slot before the tail, when handlers
push no command and change no count and the forced attack does not take place:
the cursors stay; if `repeating` is true afterwards, the record has a positive
count and a code with an entry; and if `repeating` was true before, with such a
record, it is false afterwards or the count is smaller. -/
theorem process_command_repeat_sound (env : Env) (ctx : cmd_context) (k : Nat) (w : World)
    (hk : k < w.cmd_queue.length) (hpv : prev_cmd_idx w.cmd_tail = k)
    (hpre : w.repeating = true → 0 < (w.slot k).nrepeats ∧ cmd_idx (w.slot k).code ≠ -1)
    (hH : ∀ (c : cmd_code) (j : Nat), keeps_counts (env.handler c j))
    (hA : keeps_counts (fun x => (env.player_attack_random_monster x).2))
    (hno : ∀ x : World, (env.player_attack_random_monster x).1 = false) :
    (process_command env ctx k w).cmd_head = w.cmd_head ∧
    (process_command env ctx k w).cmd_tail = w.cmd_tail ∧
    (process_command env ctx k w).cmd_queue.length = w.cmd_queue.length ∧
    ((process_command env ctx k w).repeating = true →
      0 < ((process_command env ctx k w).slot k).nrepeats ∧
      cmd_idx ((process_command env ctx k w).slot k).code ≠ -1) ∧
    (w.repeating = true → (process_command env ctx k w).repeating = false ∨
      ((process_command env ctx k w).slot k).nrepeats < (w.slot k).nrepeats) := by
  cases he : process_command_entry k w with
  | none =>
    have hr : process_command env ctx k w
        = { w with player := { w.player with command_wrk := 0 } } := by
      unfold process_command; rw [he]
    rw [hr]
    refine ⟨rfl, rfl, rfl, hpre, fun h => ?_⟩
    exact absurd (process_command_entry_none k w he) (hpre h).2
  | some e =>
    obtain ⟨y, ⟨y1, y2, y3, y4, y5⟩, hr⟩ := process_command_middle env ctx k w e he hH hA hno
    obtain ⟨x1, x2, _, x4, x5⟩ := process_command_prepare_frame ctx e k
      { w with player := { w.player with command_wrk := 0 } }
    have hky : k < y.cmd_queue.length := by rw [y4, x4]; exact hk
    have hpy : prev_cmd_idx y.cmd_tail = k := by rw [y2, x2]; exact hpv
    obtain ⟨c1, c2, c3, c4, c5, c6⟩ :=
      process_command_count_counts (w.slot k).nrepeats k y hky hpy
    have hcode : ∀ j : Nat, ((process_command env ctx k w).slot j).code = (w.slot j).code := by
      intro j
      rw [hr, c4 j, (y5 j).1, (x5 j).1]
      rfl
    have summary : (process_command env ctx k w).repeating = false ∨
        (cmd_idx (w.slot k).code ≠ -1 ∧
          ((process_command env ctx k w).repeating = true →
            0 < ((process_command env ctx k w).slot k).nrepeats) ∧
          (w.repeating = true →
            ((process_command env ctx k w).slot k).nrepeats < (w.slot k).nrepeats)) := by
      rw [hr]
      by_cases hra : e.repeat_allowed = true
      · have hreg := process_command_entry_allowed k w e he hra
        obtain ⟨p1, p2⟩ := process_command_prepare_repeat_allowed ctx e k
          { w with player := { w.player with command_wrk := 0 } } hra hk hpv
        by_cases hauto : e.auto_repeat_n > 0 ∧ (w.slot k).nrepeats = 0
        · obtain ⟨q1, q2⟩ := p1 hauto
          have hyn : (y.slot k).nrepeats = e.auto_repeat_n := (y5 k).2.trans q1
          have hcond : ¬ ((y.slot k).nrepeats > 0 ∧
              (w.slot k).nrepeats = (y.slot k).nrepeats) := by
            rw [hyn]; omega
          rw [c6 hcond]
          right
          refine ⟨hreg, fun _ => by rw [hyn]; exact hauto.1, fun h => ?_⟩
          have := (hpre h).1
          omega
        · obtain ⟨q1, q2⟩ := p2 hauto
          have hyn : (y.slot k).nrepeats = (w.slot k).nrepeats := (y5 k).2.trans q1
          have hyr : y.repeating = w.repeating := y3.trans q2
          by_cases hpos : (w.slot k).nrepeats > 0
          · have hcond : (y.slot k).nrepeats > 0 ∧
                (w.slot k).nrepeats = (y.slot k).nrepeats := by
              rw [hyn]; exact ⟨hpos, rfl⟩
            obtain ⟨d1, d2⟩ := c5 hcond
            right
            refine ⟨hreg, fun h => ?_, fun _ => ?_⟩
            · rw [d1]
              have := d2.mp h
              omega
            · rw [d1]; omega
          · have hcond : ¬ ((y.slot k).nrepeats > 0 ∧
                (w.slot k).nrepeats = (y.slot k).nrepeats) := by
              rw [hyn]; exact fun h => hpos h.1
            rw [c6 hcond, hyr]
            cases hw : w.repeating with
            | false => exact Or.inl rfl
            | true => exact absurd (hpre hw).1 hpos
      · have hra2 : e.repeat_allowed = false := by simpa using hra
        obtain ⟨q1, q2, _⟩ := process_command_prepare_not_allowed ctx e k
          { w with player := { w.player with command_wrk := 0 } } hra2 hk
        have hyn : (y.slot k).nrepeats = 0 := (y5 k).2.trans q1
        have hyr : y.repeating = false := y3.trans q2
        have hcond : ¬ ((y.slot k).nrepeats > 0 ∧
            (w.slot k).nrepeats = (y.slot k).nrepeats) := by
          rw [hyn]; omega
        rw [c6 hcond]
        exact Or.inl hyr
    refine ⟨?_, ?_, ?_, ?_, ?_⟩
    · rw [hr]; exact (c1.trans y1).trans x1
    · rw [hr]; exact (c2.trans y2).trans x2
    · rw [hr]; exact (c3.trans y4).trans x4
    · intro h
      rcases summary with s | ⟨s1, s2, _⟩
      · rw [s] at h; exact absurd h (by simp)
      · exact ⟨s2 h, by rw [hcode k]; exact s1⟩
    · intro h
      rcases summary with s | ⟨_, _, s3⟩
      · exact Or.inl s
      · exact Or.inr (s3 h)

/-- One call of `cmdq_pop` that fetches a record, in a sound state, when
handlers push no command and change no count and the forced attack does not
take place. -/
theorem cmdq_pop_step (env : Env) (ctx : cmd_context) (w : World) (k : Nat) (wf : World)
    (hs : repeat_sound w) (hf : cmdq_pop_fetch w = some (k, wf))
    (hH : ∀ (c : cmd_code) (j : Nat), keeps_counts (env.handler c j))
    (hA : keeps_counts (fun x => (env.player_attack_random_monster x).2))
    (hno : ∀ x : World, (env.player_attack_random_monster x).1 = false) :
    (cmdq_pop env ctx w).1 = true ∧ repeat_sound (cmdq_pop env ctx w).2 ∧
    (cmdq_pop env ctx w).2.cmd_head = w.cmd_head ∧
    (w.repeating = true → k = prev_cmd_idx w.cmd_tail ∧
      (cmdq_pop env ctx w).2.cmd_tail = w.cmd_tail ∧
      ((cmdq_pop env ctx w).2.repeating = false ∨
        ((cmdq_pop env ctx w).2.slot (prev_cmd_idx w.cmd_tail)).nrepeats
          < (w.slot (prev_cmd_idx w.cmd_tail)).nrepeats)) ∧
    (w.repeating = false → k = w.cmd_tail ∧ w.cmd_head ≠ w.cmd_tail ∧
      (cmdq_pop env ctx w).2.cmd_tail
        = (if w.cmd_tail + 1 = CMD_QUEUE_SIZE then 0 else w.cmd_tail + 1)) := by
  obtain ⟨s1, s2, s3, s4⟩ := hs
  obtain ⟨f1, _, f3, f4, f5, f6, f7, f8⟩ := cmdq_pop_fetch_slot w k wf s3 hf
  have hp : cmdq_pop env ctx w = (true, process_command env ctx k wf) := by
    unfold cmdq_pop; rw [hf]
  have hk : k < wf.cmd_queue.length := by rw [f1, s1]; exact f5
  have hsl : wf.slot k = w.slot k := World.slot_congr w wf k f1
  have hpre : wf.repeating = true →
      0 < (wf.slot k).nrepeats ∧ cmd_idx (wf.slot k).code ≠ -1 := by
    intro h
    rw [f3] at h
    rw [hsl, (f7 h).2]
    exact s4 h
  obtain ⟨p1, p2, p3, p4, p5⟩ :=
    process_command_repeat_sound env ctx k wf hk f6 hpre hH hA hno
  have htl : wf.cmd_tail = (if w.repeating = true then w.cmd_tail
      else (if w.cmd_tail + 1 = CMD_QUEUE_SIZE then 0 else w.cmd_tail + 1)) := by
    by_cases hr : w.repeating = true
    · rw [if_pos hr]; exact (f7 hr).1
    · rw [if_neg hr]
      have hr2 : w.repeating = false := by simpa using hr
      obtain ⟨w2, g1, _, _, _, g5, _⟩ := cmdq_pop_fetch_next w hr2 (f8 hr2).2
      rw [hf] at g1
      simp only [Option.some.injEq, Prod.mk.injEq] at g1
      rw [g1.2]; exact g5
  rw [hp]
  refine ⟨rfl, ⟨p3.trans (by rw [f1, s1]), by rw [p1, f4]; exact s2, ?_, ?_⟩,
    p1.trans f4, ?_, ?_⟩
  · show (process_command env ctx k wf).cmd_tail < CMD_QUEUE_SIZE
    rw [p2, htl]
    unfold CMD_QUEUE_SIZE at *
    split_ifs <;> omega
  · show (process_command env ctx k wf).repeating = true → _
    intro h
    have e : prev_cmd_idx (process_command env ctx k wf).cmd_tail = k := by rw [p2]; exact f6
    rw [e]
    exact p4 h
  · intro hr
    obtain ⟨t1, t2⟩ := f7 hr
    refine ⟨t2, p2.trans t1, ?_⟩
    rw [← t2, ← hsl]
    exact p5 (by rw [f3]; exact hr)
  · intro hr
    refine ⟨(f8 hr).1, (f8 hr).2, ?_⟩
    show (process_command env ctx k wf).cmd_tail = _
    rw [p2, htl, if_neg (by simp [hr])]

theorem cmdq_execute_step (env : Env) (ctx : cmd_context) (f : Nat) (w : World)
    (h : (cmdq_pop env ctx w).1 = true) :
    cmdq_execute env ctx (f + 1) w = cmdq_execute env ctx f (cmdq_pop env ctx w).2 := by
  show (if (cmdq_pop env ctx w).1 = true then cmdq_execute env ctx f (cmdq_pop env ctx w).2
    else some (cmdq_pop env ctx w).2) = _
  rw [if_pos h]

theorem cmdq_pops_fetched_step (env : Env) (ctx : cmd_context) (f : Nat) (w : World)
    (k : Nat) (wf : World) (h : cmdq_pop_fetch w = some (k, wf)) :
    cmdq_pops_fetched env ctx (f + 1) w
      = k :: cmdq_pops_fetched env ctx f (cmdq_pop env ctx w).2 := by
  show (match cmdq_pop_fetch w with
    | some kw => kw.1 :: cmdq_pops_fetched env ctx f (cmdq_pop env ctx w).2
    | none => cmdq_pops_fetched env ctx f (cmdq_pop env ctx w).2) = _
  rw [h]

/-- A repeat in progress comes to an end: after some calls of `cmdq_pop`, all on
the slot before the tail, `repeating` is false, with the cursors where they
were. -/
theorem cmdq_execute_repeat_ends (env : Env) (ctx : cmd_context)
    (hH : ∀ (c : cmd_code) (j : Nat), keeps_counts (env.handler c j))
    (hA : keeps_counts (fun x => (env.player_attack_random_monster x).2))
    (hno : ∀ x : World, (env.player_attack_random_monster x).1 = false) :
    ∀ (n : Nat) (w : World), repeat_sound w → w.repeating = true →
      (w.slot (prev_cmd_idx w.cmd_tail)).nrepeats.toNat ≤ n →
      ∃ (m : Nat) (w1 : World), repeat_sound w1 ∧ w1.repeating = false ∧
        w1.cmd_head = w.cmd_head ∧ w1.cmd_tail = w.cmd_tail ∧
        (∀ f : Nat, cmdq_execute env ctx (f + m) w = cmdq_execute env ctx f w1) ∧
        (∀ f : Nat, cmdq_pops_fetched env ctx (f + m) w
          = List.replicate m (prev_cmd_idx w.cmd_tail) ++ cmdq_pops_fetched env ctx f w1) := by
  intro n
  induction n with
  | zero =>
    intro w hs hr hn
    have := (hs.2.2.2 hr).1
    omega
  | succ n ih =>
    intro w hs hr hn
    have hfe : ∃ wf : World, cmdq_pop_fetch w = some (prev_cmd_idx w.cmd_tail, wf) := by
      obtain ⟨wf, h, _⟩ := cmdq_pop_fetch_repeating w hr
      exact ⟨wf, h⟩
    obtain ⟨wf, hf⟩ := hfe
    obtain ⟨a1, a2, a3, a4, _⟩ := cmdq_pop_step env ctx w _ wf hs hf hH hA hno
    obtain ⟨_, a5, a6⟩ := a4 hr
    cases hr1 : (cmdq_pop env ctx w).2.repeating with
    | false =>
      refine ⟨1, (cmdq_pop env ctx w).2, a2, hr1, a3, a5, fun f => ?_, fun f => ?_⟩
      · exact cmdq_execute_step env ctx f w a1
      · rw [cmdq_pops_fetched_step env ctx f w _ wf hf]
        rfl
    | true =>
      have hlt : ((cmdq_pop env ctx w).2.slot (prev_cmd_idx w.cmd_tail)).nrepeats
          < (w.slot (prev_cmd_idx w.cmd_tail)).nrepeats := by
        rcases a6 with h | h
        · rw [hr1] at h; exact absurd h (by simp)
        · exact h
      have hle : ((cmdq_pop env ctx w).2.slot
          (prev_cmd_idx (cmdq_pop env ctx w).2.cmd_tail)).nrepeats.toNat ≤ n := by
        rw [a5]
        have := (hs.2.2.2 hr).1
        omega
      obtain ⟨m, w1, b1, b2, b3, b4, b5, b6⟩ := ih (cmdq_pop env ctx w).2 a2 hr1 hle
      refine ⟨m + 1, w1, b1, b2, b3.trans a3, b4.trans a5, fun f => ?_, fun f => ?_⟩
      · show cmdq_execute env ctx ((f + m) + 1) w = _
        rw [cmdq_execute_step env ctx (f + m) w a1]
        exact b5 f
      · show cmdq_pops_fetched env ctx ((f + m) + 1) w = _
        rw [cmdq_pops_fetched_step env ctx (f + m) w _ wf hf, b6 f, a5]
        rw [List.replicate_succ]
        rfl

theorem mem_queued_slots (w : World) (j : Nat) :
    j ∈ queued_slots w ↔ ∃ i : Nat,
      i < (w.cmd_head + CMD_QUEUE_SIZE - w.cmd_tail) % CMD_QUEUE_SIZE ∧
      (w.cmd_tail + i) % CMD_QUEUE_SIZE = j := by
  unfold queued_slots
  simp [List.mem_map, List.mem_range]

/-- From a sound state, when handlers push no command and change no count and
the forced attack does not take place, `cmdq_execute` returns: some number of
calls of `cmdq_pop` suffices, the queue is then empty with no repeat in
progress, and every slot that was queued has been handed to
`process_command`. -/
theorem cmdq_execute_terminates (env : Env) (ctx : cmd_context)
    (hH : ∀ (c : cmd_code) (j : Nat), keeps_counts (env.handler c j))
    (hA : keeps_counts (fun x => (env.player_attack_random_monster x).2))
    (hno : ∀ x : World, (env.player_attack_random_monster x).1 = false) :
    ∀ (q : Nat) (w : World), repeat_sound w →
      (w.cmd_head + CMD_QUEUE_SIZE - w.cmd_tail) % CMD_QUEUE_SIZE = q →
      ∃ (fuel : Nat) (w1 : World), cmdq_execute env ctx fuel w = some w1 ∧
        w1.cmd_head = w1.cmd_tail ∧ w1.repeating = false ∧ w1.cmd_head = w.cmd_head ∧
        ∀ j ∈ queued_slots w, j ∈ cmdq_pops_fetched env ctx fuel w := by
  intro q
  induction q with
  | zero =>
    intro w hs hq
    have hstill : ∃ (m : Nat) (w1 : World), repeat_sound w1 ∧ w1.repeating = false ∧
        w1.cmd_head = w.cmd_head ∧ w1.cmd_tail = w.cmd_tail ∧
        (∀ f : Nat, cmdq_execute env ctx (f + m) w = cmdq_execute env ctx f w1) := by
      cases hr : w.repeating with
      | false => exact ⟨0, w, hs, hr, rfl, rfl, fun _ => rfl⟩
      | true =>
        obtain ⟨m, w1, b1, b2, b3, b4, b5, _⟩ :=
          cmdq_execute_repeat_ends env ctx hH hA hno _ w hs hr (Nat.le_refl _)
        exact ⟨m, w1, b1, b2, b3, b4, b5⟩
    obtain ⟨m, w1, b1, b2, b3, b4, b5⟩ := hstill
    have heq : w1.cmd_head = w1.cmd_tail := by
      rw [b3, b4]
      obtain ⟨_, s2, s3, _⟩ := hs
      unfold CMD_QUEUE_SIZE at *
      omega
    have hp : cmdq_pop env ctx w1 = (false, w1) := by
      unfold cmdq_pop
      rw [cmdq_pop_fetch_none w1 b2 heq]
    refine ⟨1 + m, w1, ?_, heq, b2, b3, ?_⟩
    · rw [b5 1]
      show (if (cmdq_pop env ctx w1).1 = true then cmdq_execute env ctx 0 (cmdq_pop env ctx w1).2
        else some (cmdq_pop env ctx w1).2) = _
      rw [hp]
      simp
    · intro j hj
      rw [mem_queued_slots] at hj
      obtain ⟨i, hi, _⟩ := hj
      rw [hq] at hi
      exact absurd hi (Nat.not_lt_zero i)
  | succ q ih =>
    intro w hs hq
    have hstill : ∃ (m : Nat) (w1 : World), repeat_sound w1 ∧ w1.repeating = false ∧
        w1.cmd_head = w.cmd_head ∧ w1.cmd_tail = w.cmd_tail ∧
        (∀ f : Nat, cmdq_execute env ctx (f + m) w = cmdq_execute env ctx f w1) ∧
        (∀ f : Nat, ∀ j ∈ cmdq_pops_fetched env ctx f w1,
          j ∈ cmdq_pops_fetched env ctx (f + m) w) := by
      cases hr : w.repeating with
      | false => exact ⟨0, w, hs, hr, rfl, rfl, fun _ => rfl, fun _ _ h => h⟩
      | true =>
        obtain ⟨m, w1, b1, b2, b3, b4, b5, b6⟩ :=
          cmdq_execute_repeat_ends env ctx hH hA hno _ w hs hr (Nat.le_refl _)
        refine ⟨m, w1, b1, b2, b3, b4, b5, fun f j hj => ?_⟩
        rw [b6 f]
        exact List.mem_append_right _ hj
    obtain ⟨m, w1, b1, b2, b3, b4, b5, b6⟩ := hstill
    have hne : w1.cmd_head ≠ w1.cmd_tail := by
      rw [b3, b4]
      intro e
      rw [e] at hq
      unfold CMD_QUEUE_SIZE at hq
      omega
    obtain ⟨wf, hf, _⟩ := cmdq_pop_fetch_next w1 b2 hne
    obtain ⟨a1, a2, a3, _, a5⟩ := cmdq_pop_step env ctx w1 _ wf b1 hf hH hA hno
    obtain ⟨_, _, a6⟩ := a5 b2
    have hq1 : ((cmdq_pop env ctx w1).2.cmd_head + CMD_QUEUE_SIZE
        - (cmdq_pop env ctx w1).2.cmd_tail) % CMD_QUEUE_SIZE = q := by
      rw [a3, a6, b3, b4]
      obtain ⟨_, s2, s3, _⟩ := hs
      unfold CMD_QUEUE_SIZE at *
      split_ifs <;> omega
    obtain ⟨fuel, w2, c1, c2, c3, c4, c5⟩ := ih (cmdq_pop env ctx w1).2 a2 hq1
    refine ⟨(fuel + 1) + m, w2, ?_, c2, c3, (c4.trans a3).trans b3, ?_⟩
    · rw [b5 (fuel + 1), cmdq_execute_step env ctx fuel w1 a1]
      exact c1
    · intro j hj
      apply b6 (fuel + 1)
      rw [cmdq_pops_fetched_step env ctx fuel w1 _ wf hf]
      rw [mem_queued_slots] at hj
      obtain ⟨i, hi, hji⟩ := hj
      cases i with
      | zero =>
        apply List.mem_cons.mpr
        left
        rw [← hji, b4]
        obtain ⟨_, _, s3, _⟩ := hs
        unfold CMD_QUEUE_SIZE at *
        omega
      | succ i1 =>
        apply List.mem_cons_of_mem
        apply c5
        rw [mem_queued_slots]
        refine ⟨i1, ?_, ?_⟩
        · rw [hq1]; rw [hq] at hi; omega
        · rw [a6, b4, ← hji]
          obtain ⟨_, _, s3, _⟩ := hs
          unfold CMD_QUEUE_SIZE at *
          split_ifs <;> omega

theorem repeat_sound_init (h : Heap) (p : Player) (objs : List object) (seed : Nat) :
    repeat_sound (World.init h p objs seed) := by
  refine ⟨by simp [World.init], by simp [World.init, CMD_QUEUE_SIZE],
    by simp [World.init, CMD_QUEUE_SIZE], fun hr => ?_⟩
  exact absurd hr (by simp [World.init])

/-- A state that differs from a sound state by a record written at the head of
a queue that is not full, and by the head advanced, is sound. -/
theorem repeat_sound_of_push (w w1 : World) (hs : repeat_sound w)
    (h1 : ¬ (w.cmd_head + 1 = w.cmd_tail))
    (h2 : ¬ (w.cmd_head + 1 = CMD_QUEUE_SIZE ∧ w.cmd_tail = 0))
    (hq : w1.cmd_queue = w.cmd_queue ∨ ∃ c : command, w1.cmd_queue = w.cmd_queue.set w.cmd_head c)
    (ht : w1.cmd_tail = w.cmd_tail) (hr : w1.repeating = w.repeating)
    (hh : w1.cmd_head = (if w.cmd_head + 1 = CMD_QUEUE_SIZE then 0 else w.cmd_head + 1)) :
    repeat_sound w1 := by
  obtain ⟨s1, s2, s3, s4⟩ := hs
  have hsl : w1.slot (prev_cmd_idx w.cmd_tail) = w.slot (prev_cmd_idx w.cmd_tail) := by
    rcases hq with hq | ⟨c, hq⟩
    · exact World.slot_congr w w1 _ hq
    · unfold World.slot
      rw [hq, List.getD_eq_getElem?_getD, List.getD_eq_getElem?_getD,
        List.getElem?_set_ne (by
          unfold prev_cmd_idx CMD_QUEUE_SIZE at *
          omega)]
  refine ⟨?_, ?_, by rw [ht]; exact s3, ?_⟩
  · rcases hq with hq | ⟨c, hq⟩
    · rw [hq]; exact s1
    · rw [hq, List.length_set]; exact s1
  · rw [hh]
    unfold CMD_QUEUE_SIZE at *
    split_ifs <;> omega
  · intro h
    rw [ht, hsl]
    exact s4 (by rw [← hr]; exact h)

/-- The calls `cmdq_push_copy` keep a sound state sound. -/
theorem repeat_sound_push_copy (cmd : command) (w : World) (r : Int × World)
    (hs : repeat_sound w) (hp : cmdq_push_copy cmd w = some r) : repeat_sound r.2 := by
  unfold cmdq_push_copy at hp
  split_ifs at hp with h1 h2 h3 h4 h5 h6 h7 h8
  all_goals first
    | (simp at hp; done)
    | (simp only [Option.some.injEq] at hp; subst hp)
  · exact hs
  · exact hs
  · refine repeat_sound_of_push w _ hs h1 h2 (Or.inr ⟨cmd, ?_⟩) ?_ ?_ ?_
    · show (cmdq_push_store cmd (cmdq_push_save_last w)).cmd_queue = _
      rw [(cmdq_push_store_queue _ _).1, (cmdq_push_save_last_queue w).1,
        (cmdq_push_save_last_queue w).2.1]
    · show (cmdq_push_store cmd (cmdq_push_save_last w)).cmd_tail = _
      rw [(cmdq_push_store_queue _ _).2.2.1, (cmdq_push_save_last_queue w).2.2.1]
    · show (cmdq_push_store cmd (cmdq_push_save_last w)).repeating = _
      rw [(cmdq_push_store_queue _ _).2.2.2, (cmdq_push_save_last_queue w).2.2.2]
    · show (if (cmdq_push_store cmd (cmdq_push_save_last w)).cmd_head + 1 = CMD_QUEUE_SIZE
        then 0 else (cmdq_push_store cmd (cmdq_push_save_last w)).cmd_head + 1) = _
      rw [(cmdq_push_store_queue _ _).2.1, (cmdq_push_save_last_queue w).2.1]
  · exact hs
  · exact repeat_sound_of_push w _ hs h1 h2 (Or.inr ⟨_, rfl⟩) rfl rfl rfl
  · exact repeat_sound_of_push w _ hs h1 h2 (Or.inl rfl) rfl rfl rfl
  · exact repeat_sound_of_push w _ hs h1 h2 (Or.inr ⟨_, rfl⟩) rfl rfl rfl
  · exact hs

/-- When `cmdq_execute` returns.  In a state where
the queue has its 20 slots and cursors and a repeat in progress has a positive
count on a command with an entry in the slot before the tail, when handlers
push no command and change no repeat count and the forced attack does not take
place, `cmdq_execute` returns after finitely many calls of `cmdq_pop`, with
`cmd_head = cmd_tail`, `repeating` false and `cmd_head` where it was, every
queued slot having been handed to `process_command`.  That condition on the
state holds when the queue is first initialised and is kept by
`cmdq_push_copy`, `cmdq_push_repeat` and `cmdq_pop`. -/
theorem cmdq_execute_drains (env : Env) (ctx : cmd_context) (w : World)
    (hs : repeat_sound w)
    (hH : ∀ (c : cmd_code) (j : Nat), keeps_counts (env.handler c j))
    (hA : keeps_counts (fun x => (env.player_attack_random_monster x).2))
    (hno : ∀ x : World, (env.player_attack_random_monster x).1 = false) :
    (∃ (fuel : Nat) (w1 : World), cmdq_execute env ctx fuel w = some w1 ∧
      w1.cmd_head = w1.cmd_tail ∧ w1.repeating = false ∧ w1.cmd_head = w.cmd_head ∧
      ∀ j ∈ queued_slots w, j ∈ cmdq_pops_fetched env ctx fuel w) ∧
    (∀ (h : Heap) (p : Player) (objs : List object) (seed : Nat),
      repeat_sound (World.init h p objs seed)) ∧
    (∀ (cmd : command) (r : Int × World), cmdq_push_copy cmd w = some r → repeat_sound r.2) ∧
    (∀ (c : cmd_code) (n : Int) (r : Int × World),
      cmdq_push_repeat c n w = some r → repeat_sound r.2) ∧
    repeat_sound (cmdq_pop env ctx w).2 := by
  refine ⟨cmdq_execute_terminates env ctx hH hA hno _ w hs rfl, repeat_sound_init,
    fun cmd r hp => repeat_sound_push_copy cmd w r hs hp, ?_, ?_⟩
  · intro c n r hp
    unfold cmdq_push_repeat at hp
    simp only at hp
    split_ifs at hp
    · simp only [Option.some.injEq] at hp
      rw [← hp]; exact hs
    · exact repeat_sound_push_copy _ w r hs hp
  · cases hf : cmdq_pop_fetch w with
    | none =>
      have hp : cmdq_pop env ctx w = (false, w) := by unfold cmdq_pop; rw [hf]
      rw [hp]; exact hs
    | some kw => exact (cmdq_pop_step env ctx w kw.1 kw.2 hs hf hH hA hno).2.1

/-- The theorem `cmdq_execute_drains` at a state in which the open command
repeats with count 99 and the walk command is queued behind it. -/
theorem cmdq_execute_drains_witness :
    repeat_sound ex_open_then_walk ∧ queued_slots ex_open_then_walk = [1] ∧
    ∃ (fuel : Nat) (w1 : World),
      cmdq_execute ex_env .CTX_INIT fuel ex_open_then_walk = some w1 ∧
      w1.cmd_head = w1.cmd_tail ∧ w1.repeating = false ∧
      w1.cmd_head = ex_open_then_walk.cmd_head ∧
      ∀ j ∈ queued_slots ex_open_then_walk,
        j ∈ cmdq_pops_fetched ex_env .CTX_INIT fuel ex_open_then_walk :=
  ⟨by decide, by decide,
    (cmdq_execute_drains ex_env .CTX_INIT ex_open_then_walk (by decide)
      (fun _ _ w => counts_frame_refl w) (fun w => counts_frame_refl w) (fun _ => rfl)).1⟩

set_option maxRecDepth 100000 in
/-- C24 on the code: `cmdq_push(CMD_OPEN)`, `cmdq_pop`, which starts the
repeat of the open command, `cmdq_push_copy` of the walk command, and
`cmdq_flush` lead to a state in which `repeating` is true and the slot before
the tail holds the walk command with repeat count 0.  With handlers that do
nothing, every `cmdq_pop` then returns true and leaves `repeating` true, so
`cmdq_execute` does not return, whatever the number of calls allowed. -/
theorem cmdq_execute_after_flush_loops :
    (cmdq_flush ex_open_then_walk).repeating = true ∧
    ((cmdq_flush ex_open_then_walk).slot
      (prev_cmd_idx (cmdq_flush ex_open_then_walk).cmd_tail)).code = cmd_code.CMD_WALK ∧
    ((cmdq_flush ex_open_then_walk).slot
      (prev_cmd_idx (cmdq_flush ex_open_then_walk).cmd_tail)).nrepeats = 0 ∧
    ∀ fuel : Nat, cmdq_execute ex_env .CTX_INIT fuel (cmdq_flush ex_open_then_walk) = none := by
  refine ⟨by decide, by decide, by decide, ?_⟩
  have h1 : (cmdq_pop ex_env .CTX_INIT (cmdq_flush ex_open_then_walk)).1 = true := by decide
  have h2 : (cmdq_pop ex_env .CTX_INIT
      (cmdq_pop ex_env .CTX_INIT (cmdq_flush ex_open_then_walk)).2)
      = (true, (cmdq_pop ex_env .CTX_INIT (cmdq_flush ex_open_then_walk)).2) := rfl
  have hfix : ∀ fuel : Nat, cmdq_execute ex_env .CTX_INIT fuel
      (cmdq_pop ex_env .CTX_INIT (cmdq_flush ex_open_then_walk)).2 = none := by
    intro fuel
    induction fuel with
    | zero => rfl
    | succ n ih =>
      rw [cmdq_execute_step ex_env .CTX_INIT n _ (by rw [h2]), h2]
      exact ih
  intro fuel
  cases fuel with
  | zero => rfl
  | succ n =>
    rw [cmdq_execute_step ex_env .CTX_INIT n _ h1]
    exact hfix n

/-! ### `cmd_get_quantity` -/

/-- C39: `cmd_get_quantity` returns a stored Number `v` with `CMD_OK` and
without prompting, whatever `v` and `max` are.  When there is none, the prompt
is called: a result `v <= 0` gives `CMD_ARG_ABORTED` and nothing is written; a
result `v > 0` is handed to `cmd_set_arg_number`, and when that returns, the
helper returns `CMD_OK` with `v` and one slot of the record holds the Number
`v` under the name as `my_strcpy` stores it.  So the helper returns `CMD_OK`
after a prompt only for a result `> 0`. -/
theorem cmd_get_quantity_spec (P : Prompts) (nsz k : Nat) (name : String) :
    (∀ (amt max v : Int) (w : World),
      cmd_get_arg_number (w.slot k) name amt = (CMD_OK, v) →
      cmd_get_quantity P nsz k name amt max w = some ⟨CMD_OK, v, false, w⟩) ∧
    (∀ (amt max v : Int) (w x : World),
      (cmd_get_arg_number (w.slot k) name amt).1 ≠ CMD_OK →
      P.get_quantity none max w = (v, x) →
      (v ≤ 0 → cmd_get_quantity P nsz k name amt max w
        = some ⟨CMD_ARG_ABORTED, v, true, x⟩) ∧
      (0 < v →
        (cmd_set_arg_number nsz x.heap (x.slot k) (some name) v = none ∧
          cmd_get_quantity P nsz k name amt max w = none) ∨
        ∃ s : Heap × command,
          cmd_set_arg_number nsz x.heap (x.slot k) (some name) v = some s ∧
          cmd_get_quantity P nsz k name amt max w
            = some ⟨CMD_OK, v, true, { x with heap := s.1 }.set_slot k s.2⟩ ∧
          ∃ j : Nat, j < (x.slot k).arg.length ∧
            s.2.arg.getD j cmd_arg.zero = ⟨.arg_NUMBER, .number v, my_strcpy name nsz⟩) ∧
      (∀ r : Resolved Int, cmd_get_quantity P nsz k name amt max w = some r →
        (r.ret = CMD_OK ↔ 0 < v) ∧ (r.ret = CMD_ARG_ABORTED ↔ v ≤ 0) ∧ r.out = v ∧
        r.prompted = true)) := by
  refine ⟨?_, ?_⟩
  · intro amt max v w hg
    unfold cmd_get_quantity
    simp only [hg]
    rfl
  · intro amt max v w x hmiss hprompt
    have hle : v ≤ 0 → cmd_get_quantity P nsz k name amt max w
        = some ⟨CMD_ARG_ABORTED, v, true, x⟩ := by
      intro hv
      unfold cmd_get_quantity
      simp only [hprompt]
      rw [if_neg hmiss, if_neg (by omega)]
    have hposN : 0 < v → cmd_set_arg_number nsz x.heap (x.slot k) (some name) v = none →
        cmd_get_quantity P nsz k name amt max w = none := by
      intro hv hs
      unfold cmd_get_quantity
      simp only [hprompt]
      rw [if_neg hmiss, if_pos hv, hs]
    have hposS : 0 < v → ∀ s : Heap × command,
        cmd_set_arg_number nsz x.heap (x.slot k) (some name) v = some s →
        cmd_get_quantity P nsz k name amt max w
          = some ⟨CMD_OK, v, true, { x with heap := s.1 }.set_slot k s.2⟩ := by
      intro hv s hs
      unfold cmd_get_quantity
      simp only [hprompt]
      rw [if_neg hmiss, if_pos hv, hs]
    have hne : (CMD_OK : Int) ≠ CMD_ARG_ABORTED := by decide
    refine ⟨hle, ?_, ?_⟩
    · intro hv
      cases hs : cmd_set_arg_number nsz x.heap (x.slot k) (some name) v with
      | none => exact Or.inl ⟨rfl, hposN hv hs⟩
      | some s =>
        right
        refine ⟨s, rfl, hposS hv s hs, ?_⟩
        obtain ⟨_, _, _, _, _, j, hj, _, hnew, _⟩ :=
          cmd_set_arg_slot nsz x.heap (x.slot k) name .arg_NUMBER (.number v) s.1 s.2 hs
        exact ⟨j, hj, hnew⟩
    · intro r hr
      by_cases hv : 0 < v
      · cases hs : cmd_set_arg_number nsz x.heap (x.slot k) (some name) v with
        | none => rw [hposN hv hs] at hr; exact absurd hr (by simp)
        | some s =>
          rw [hposS hv s hs] at hr
          simp only [Option.some.injEq] at hr
          rw [← hr]
          exact ⟨⟨fun _ => hv, fun _ => rfl⟩, ⟨fun h => absurd h hne, fun h => by omega⟩,
            rfl, rfl⟩
      · rw [hle (by omega)] at hr
        simp only [Option.some.injEq] at hr
        rw [← hr]
        exact ⟨⟨fun h => absurd h.symm hne, fun h => absurd h hv⟩,
          ⟨fun _ => by omega, fun _ => rfl⟩, rfl, rfl⟩

/-- Witness of C39: the stored quantity `-4` is returned for `max = 3`; on a
record that holds nothing under `"quantity"`, a prompt that answers `3` gives
`CMD_OK` and a prompt that answers `0` gives `CMD_ARG_ABORTED`. -/
theorem cmd_get_quantity_spec_witness :
    cmd_get_quantity ex_prompts 20 0 "quantity" 7 3 ex_drop_minus_queued
      = some ⟨CMD_OK, -4, false, ex_drop_minus_queued⟩ ∧
    cmd_get_quantity ex_prompts_cancel 20 0 "quantity" 7 3 ex_queued
      = some ⟨CMD_ARG_ABORTED, 0, true, ex_queued⟩ ∧
    (∀ r : Resolved Int, cmd_get_quantity ex_prompts 20 0 "quantity" 7 3 ex_queued = some r →
      (r.ret = CMD_OK ↔ (0 : Int) < 3) ∧ (r.ret = CMD_ARG_ABORTED ↔ (3 : Int) ≤ 0) ∧
      r.out = 3 ∧ r.prompted = true) :=
  ⟨(cmd_get_quantity_spec ex_prompts 20 0 "quantity").1 7 3 (-4) ex_drop_minus_queued
      (by decide),
    ((cmd_get_quantity_spec ex_prompts_cancel 20 0 "quantity").2 7 3 0 ex_queued ex_queued
      (by decide) rfl).1 (by decide),
    ((cmd_get_quantity_spec ex_prompts 20 0 "quantity").2 7 3 3 ex_queued ex_queued
      (by decide) rfl).2.2⟩

/-! ### Kinds and names within a record -/

theorem kinds_match_iff (l : List cmd_arg) :
    kinds_match l ↔ ∀ i : Nat, ((l.getD i cmd_arg.zero).type = .arg_NONE ↔
      (l.getD i cmd_arg.zero).name = "") := by
  constructor
  · intro hk i
    by_cases hi : i < l.length
    · rw [List.getD_eq_getElem _ _ hi]
      exact hk _ (List.getElem_mem _)
    · rw [List.getD_eq_default _ _ (Nat.le_of_not_lt hi)]
      exact ⟨fun _ => rfl, fun _ => rfl⟩
  · intro hk a ha
    obtain ⟨i, hi, e⟩ := List.getElem_of_mem ha
    have := hk i
    rw [List.getD_eq_getElem _ _ hi, e] at this
    exact this

theorem my_strcpy_ne_empty (name : String) (nsz : Nat) (hn : name ≠ "") (h2 : 2 ≤ nsz) :
    my_strcpy name nsz ≠ "" := by
  unfold my_strcpy
  intro e
  have hd : name.data.take (nsz - 1) = [] := by
    have := congrArg String.data e
    simpa using this
  cases hdata : name.data with
  | nil =>
    apply hn
    have : name = ⟨name.data⟩ := rfl
    rw [this, hdata]
  | cons c rest =>
    rw [hdata] at hd
    have h1 : nsz - 1 = (nsz - 2) + 1 := by omega
    rw [h1] at hd
    simp at hd

theorem cmd_copy_args_getD_type (l : List cmd_arg) :
    ∀ (h : Heap) (i : Nat),
      ((cmd_copy_args h l).2.getD i cmd_arg.zero).type = (l.getD i cmd_arg.zero).type := by
  induction l with
  | nil => intro h i; rfl
  | cons a rest ih =>
    intro h i
    by_cases hs : a.type = .arg_STRING
    · have e : (cmd_copy_args h (a :: rest)).2
          = { a with data := .string (string_make h (h.read a.data.get_string)).1 }
              :: (cmd_copy_args (string_make h (h.read a.data.get_string)).2 rest).2 := by
        simp [cmd_copy_args, hs]
      rw [e]
      cases i with
      | zero => rfl
      | succ i1 => simpa using ih _ i1
    · have e : (cmd_copy_args h (a :: rest)).2 = a :: (cmd_copy_args h rest).2 := by
        simp [cmd_copy_args, hs]
      rw [e]
      cases i with
      | zero => rfl
      | succ i1 => simpa using ih _ i1

/-- A successful `cmd_set_arg` with a kind other than `arg_NONE`, in a name
field of at least two bytes, keeps kinds and names in step. -/
theorem cmd_set_arg_kinds_match (nsz : Nat) (h : Heap) (cmd : command) (name : String)
    (t : cmd_arg_type) (d : cmd_arg_data) (r : Heap × command) (h2 : 2 ≤ nsz)
    (ht : t ≠ .arg_NONE) (hset : cmd_set_arg nsz h cmd (some name) t d = some r)
    (hk : kinds_match cmd.arg) : kinds_match r.2.arg := by
  obtain ⟨hn, _, _, _, _, j, _, _, hnew, hother, _, _⟩ :=
    cmd_set_arg_slot nsz h cmd name t d r.1 r.2 hset
  rw [kinds_match_iff] at hk ⊢
  intro i
  by_cases hi : i = j
  · rw [hi, hnew]
    exact ⟨fun e => absurd e ht, fun e => absurd e (my_strcpy_ne_empty name nsz hn h2)⟩
  · rw [hother i hi]
    exact hk i

theorem cmd_op_run_kinds_match (nsz : Nat) (h : Heap) (cmd : command) (op : cmd_op)
    (r : Heap × command) (h2 : 2 ≤ nsz) (hrun : op.run nsz h cmd = some r)
    (hk : kinds_match cmd.arg) : kinds_match r.2.arg := by
  cases op with
  | set_choice a v =>
    exact cmd_set_arg_kinds_match nsz _ cmd a _ _ r h2 (by decide) hrun hk
  | set_string a s =>
    exact cmd_set_arg_kinds_match nsz _ cmd a _ _ r h2 (by decide) hrun hk
  | set_direction a v =>
    exact cmd_set_arg_kinds_match nsz _ cmd a _ _ r h2 (by decide) hrun hk
  | set_target a v =>
    exact cmd_set_arg_kinds_match nsz _ cmd a _ _ r h2 (by decide) hrun hk
  | set_point a g =>
    exact cmd_set_arg_kinds_match nsz _ cmd a _ _ r h2 (by decide) hrun hk
  | set_item a o =>
    exact cmd_set_arg_kinds_match nsz _ cmd a _ _ r h2 (by decide) hrun hk
  | set_number a v =>
    exact cmd_set_arg_kinds_match nsz _ cmd a _ _ r h2 (by decide) hrun hk
  | release =>
    have e : r = cmd_release h cmd := by
      have hr : some (cmd_release h cmd) = some r := hrun
      simp only [Option.some.injEq] at hr
      exact hr.symm
    rw [e]
    rw [kinds_match_iff] at hk ⊢
    intro i
    by_cases hs : (cmd.arg.getD i cmd_arg.zero).type = .arg_STRING
    · obtain ⟨e1, e2⟩ := (cmd_release_args_getD cmd.arg h i).1 hs
      exact ⟨fun _ => e2, fun _ => e1⟩
    · have e3 := (cmd_release_args_getD cmd.arg h i).2 hs
      show ((cmd_release_args h cmd.arg).2.getD i cmd_arg.zero).type = .arg_NONE ↔
        ((cmd_release_args h cmd.arg).2.getD i cmd_arg.zero).name = ""
      rw [e3]
      exact hk i
  | copy =>
    have e : r = cmd_copy h cmd := by
      have hr : some (cmd_copy h cmd) = some r := hrun
      simp only [Option.some.injEq] at hr
      exact hr.symm
    rw [e]
    rw [kinds_match_iff] at hk ⊢
    intro i
    show ((cmd_copy_args h cmd.arg).2.getD i cmd_arg.zero).type = .arg_NONE ↔
      ((cmd_copy_args h cmd.arg).2.getD i cmd_arg.zero).name = ""
    rw [cmd_copy_args_getD_type, cmd_copy_args_getD_name]
    exact hk i

theorem cmd_ops_run_kinds_match (nsz : Nat) (h2 : 2 ≤ nsz) :
    ∀ (ops : List cmd_op) (h : Heap) (cmd : command) (r : Heap × command),
      cmd_ops_run nsz h cmd ops = some r → kinds_match cmd.arg → kinds_match r.2.arg := by
  intro ops
  induction ops with
  | nil =>
    intro h cmd r hrun hk
    have hr : some (h, cmd) = some r := hrun
    simp only [Option.some.injEq] at hr
    rw [← hr]; exact hk
  | cons op rest ih =>
    intro h cmd r hrun hk
    have hr : (match op.run nsz h cmd with
      | none => none
      | some r1 => cmd_ops_run nsz r1.1 r1.2 rest) = some r := hrun
    cases hop : op.run nsz h cmd with
    | none =>
      rw [hop] at hr
      exact absurd hr (by simp)
    | some r1 =>
      rw [hop] at hr
      exact ih r1.1 r1.2 r hr (cmd_op_run_kinds_match nsz h cmd op r1 h2 hop hk)

/-- C31: starting from a record all of whose slots are unused (empty name, kind
`arg_NONE`), after any sequence of typed setters, `cmd_release` and `cmd_copy`,
a slot has kind `arg_NONE` if and only if its name is empty.  The name field
has at least two bytes, so that it can hold a name. -/
theorem kind_none_iff_unused (nsz : Nat) (ops : List cmd_op) (h : Heap) (cmd : command)
    (r : Heap × command) (h2 : 2 ≤ nsz)
    (h0 : ∀ a ∈ cmd.arg, a.name = "" ∧ a.type = .arg_NONE)
    (hrun : cmd_ops_run nsz h cmd ops = some r) :
    ∀ a ∈ r.2.arg, (a.type = .arg_NONE ↔ a.name = "") :=
  cmd_ops_run_kinds_match nsz h2 ops h cmd r hrun
    (fun a ha => ⟨fun _ => (h0 a ha).1, fun _ => (h0 a ha).2⟩)

/-- Witness of C31: a string is set under `"a"` and a number under `"b"`, the
record is released, `"b"` is set again, and the record is copied. -/
theorem kind_none_iff_unused_witness :
    (cmd_ops_run 20 [] command.zero ex_ops_release).map
        (fun r => r.2.arg.map (fun a => (a.type, a.name)))
      = some [(.arg_NONE, ""), (.arg_NUMBER, "b"), (.arg_NONE, ""), (.arg_NONE, "")] ∧
    ∀ a ∈ ((cmd_ops_run 20 [] command.zero ex_ops_release).getD ([], command.zero)).2.arg,
      (a.type = .arg_NONE ↔ a.name = "") :=
  ⟨by decide,
    kind_none_iff_unused 20 ex_ops_release [] command.zero
      ((cmd_ops_run 20 [] command.zero ex_ops_release).getD ([], command.zero))
      (by decide) (by decide) (by decide)⟩

/-! ### Properties that every call of `process_command` keeps -/

/-- A property of the state holds after `process_command` when each of its
steps keeps it: the reset of `command_wrk`, the block "Command repetition",
the bloodlust block, the forced attack, the handler and the final count. -/
theorem process_command_invariant (P : World → Prop) (env : Env) (ctx : cmd_context)
    (k : Nat) (w : World)
    (h0 : P { w with player := { w.player with command_wrk := 0 } })
    (hprep : ∀ (e : command_info) (x : World), process_command_entry k w = some e → P x →
      P (process_command_prepare ctx e k x))
    (hpl : ∀ (x : World) (pl : Player) (r : Nat), P x → P { x with player := pl, rng := r })
    (hatk : ∀ x : World, P x → P (env.player_attack_random_monster x).2)
    (hH : ∀ (c : cmd_code) (x : World), P x → P (env.handler c k x))
    (hcount : ∀ x : World, P x → P (process_command_count (w.slot k).nrepeats k x)) :
    P (process_command env ctx k w) := by
  unfold process_command
  simp only
  cases he : process_command_entry k w with
  | none => exact h0
  | some e =>
    simp only
    have hx := hprep e _ he h0
    generalize process_command_prepare ctx e k
      { w with player := { w.player with command_wrk := 0 } } = x at hx
    by_cases hfn : e.fn = true
    · rw [if_pos hfn]
      rcases process_command_coerce_cases env e k x with ⟨pl, r, hc⟩ | ⟨r, hc⟩
      · rw [hc]
        simp only [Bool.false_eq_true, if_false]
        exact hcount _ (hH _ _ (hpl x pl r hx))
      · have hy : P (env.player_attack_random_monster { x with rng := r }).2 :=
          hatk _ (hpl x x.player r hx)
        rw [hc]
        split_ifs
        · exact hy
        · exact hcount _ (hH _ _ hy)
    · rw [if_neg hfn]
      exact hcount _ hx

/-- What `cmdq_pop` returns: false with the state untouched, or true with the
state that `process_command` returns for the record fetched. -/
theorem cmdq_pop_cases (env : Env) (ctx : cmd_context) (w : World) :
    (cmdq_pop_fetch w = none ∧ cmdq_pop env ctx w = (false, w)) ∨
    ∃ (k : Nat) (wf : World), cmdq_pop_fetch w = some (k, wf) ∧
      cmdq_pop env ctx w = (true, process_command env ctx k wf) := by
  cases hf : cmdq_pop_fetch w with
  | none => left; exact ⟨rfl, by unfold cmdq_pop; rw [hf]⟩
  | some kw => right; exact ⟨kw.1, kw.2, rfl, by unfold cmdq_pop; rw [hf]⟩

/-- `process_command` leaves the cursors where they were, when handlers and the
forced attack do. -/
theorem process_command_cursors (env : Env) (ctx : cmd_context) (k : Nat) (w : World)
    (hH : ∀ (c : cmd_code) (j : Nat), keeps_cursors (env.handler c j))
    (hA : keeps_cursors (fun x => (env.player_attack_random_monster x).2)) :
    (process_command env ctx k w).cmd_head = w.cmd_head ∧
    (process_command env ctx k w).cmd_tail = w.cmd_tail := by
  refine process_command_invariant
    (fun x => x.cmd_head = w.cmd_head ∧ x.cmd_tail = w.cmd_tail) env ctx k w ⟨rfl, rfl⟩
    ?_ ?_ ?_ ?_ ?_
  · intro e x _ hx
    obtain ⟨f1, f2, _⟩ := process_command_prepare_frame ctx e k x
    exact ⟨f1.trans hx.1, f2.trans hx.2⟩
  · intro x pl r hx; exact hx
  · intro x hx
    exact ⟨(hA x).1.trans hx.1, (hA x).2.trans hx.2⟩
  · intro c x hx
    exact ⟨(hH c k x).1.trans hx.1, (hH c k x).2.trans hx.2⟩
  · intro x hx
    obtain ⟨f1, f2, _⟩ := process_command_count_frame (w.slot k).nrepeats k x
    exact ⟨f1.trans hx.1, f2.trans hx.2⟩

/-! ### The cursors of the queue -/

/-- What `cmdq_push_copy` does to the cursors: it returns 1 and changes
nothing, or it returns 0 on a queue that is not full and advances the head,
wrapping around. -/
theorem cmdq_push_copy_cursors (cmd : command) (w : World) (r : Int × World)
    (hp : cmdq_push_copy cmd w = some r) :
    (r.1 = 1 ∧ r.2 = w) ∨
    (r.1 = 0 ∧ r.2.cmd_tail = w.cmd_tail ∧
      r.2.cmd_head = (if w.cmd_head + 1 = CMD_QUEUE_SIZE then 0 else w.cmd_head + 1) ∧
      ¬ (w.cmd_head + 1 = w.cmd_tail) ∧
      ¬ (w.cmd_head + 1 = CMD_QUEUE_SIZE ∧ w.cmd_tail = 0)) := by
  unfold cmdq_push_copy at hp
  split_ifs at hp with h1 h2 h3 h4 h5 h6 h7 h8
  all_goals first
    | (simp at hp; done)
    | (simp only [Option.some.injEq] at hp; subst hp)
  · exact Or.inl ⟨rfl, rfl⟩
  · exact Or.inl ⟨rfl, rfl⟩
  · right
    refine ⟨rfl, ?_, ?_, h1, h2⟩
    · show (cmdq_push_store cmd (cmdq_push_save_last w)).cmd_tail = _
      rw [(cmdq_push_store_queue _ _).2.2.1, (cmdq_push_save_last_queue w).2.2.1]
    · show (if (cmdq_push_store cmd (cmdq_push_save_last w)).cmd_head + 1 = CMD_QUEUE_SIZE
        then 0 else (cmdq_push_store cmd (cmdq_push_save_last w)).cmd_head + 1) = _
      rw [(cmdq_push_store_queue _ _).2.1, (cmdq_push_save_last_queue w).2.1]
  · exact Or.inl ⟨rfl, rfl⟩
  · exact Or.inr ⟨rfl, rfl, rfl, h1, h2⟩
  · exact Or.inr ⟨rfl, rfl, rfl, h1, h2⟩
  · exact Or.inr ⟨rfl, rfl, rfl, h1, h2⟩
  · exact Or.inl ⟨rfl, rfl⟩

theorem cmdq_push_repeat_cursors (c : cmd_code) (n : Int) (w : World) (r : Int × World)
    (hp : cmdq_push_repeat c n w = some r) :
    (r.1 = 1 ∧ r.2 = w) ∨
    (r.1 = 0 ∧ r.2.cmd_tail = w.cmd_tail ∧
      r.2.cmd_head = (if w.cmd_head + 1 = CMD_QUEUE_SIZE then 0 else w.cmd_head + 1) ∧
      ¬ (w.cmd_head + 1 = w.cmd_tail) ∧
      ¬ (w.cmd_head + 1 = CMD_QUEUE_SIZE ∧ w.cmd_tail = 0)) := by
  unfold cmdq_push_repeat at hp
  simp only at hp
  split_ifs at hp
  · simp only [Option.some.injEq] at hp
    subst hp
    exact Or.inl ⟨rfl, rfl⟩
  · exact cmdq_push_copy_cursors _ w r hp

/-- What `cmdq_pop` does to the cursors, when handlers and the forced attack
leave them alone: the head stays, and the tail stays or, when a record is
taken from a queue that is not repeating, advances, wrapping around. -/
theorem cmdq_pop_cursors (env : Env) (ctx : cmd_context) (w : World)
    (hH : ∀ (c : cmd_code) (j : Nat), keeps_cursors (env.handler c j))
    (hA : keeps_cursors (fun x => (env.player_attack_random_monster x).2)) :
    (cmdq_pop env ctx w).2.cmd_head = w.cmd_head ∧
    ((cmdq_pop env ctx w).1 = true ∧ w.repeating = false →
      w.cmd_head ≠ w.cmd_tail ∧
      (cmdq_pop env ctx w).2.cmd_tail
        = (if w.cmd_tail + 1 = CMD_QUEUE_SIZE then 0 else w.cmd_tail + 1)) ∧
    (¬ ((cmdq_pop env ctx w).1 = true ∧ w.repeating = false) →
      (cmdq_pop env ctx w).2.cmd_tail = w.cmd_tail) := by
  rcases cmdq_pop_cases env ctx w with ⟨_, hp⟩ | ⟨k, wf, hf, hp⟩
  · rw [hp]
    exact ⟨rfl, fun h => absurd h.1 (by simp), fun _ => rfl⟩
  · rw [hp]
    obtain ⟨p1, p2⟩ := process_command_cursors env ctx k wf hH hA
    cases hr : w.repeating with
    | true =>
      have hfe : ∃ wf2 : World, cmdq_pop_fetch w = some (prev_cmd_idx w.cmd_tail, wf2) ∧
          wf2.cmd_head = w.cmd_head ∧ wf2.cmd_tail = w.cmd_tail := by
        unfold cmdq_pop_fetch
        rw [if_pos hr]
        simp only
        split_ifs
        · exact ⟨_, rfl, rfl, rfl⟩
        · exact ⟨_, rfl, rfl, rfl⟩
      obtain ⟨wf2, g1, g2, g3⟩ := hfe
      rw [hf] at g1
      simp only [Option.some.injEq, Prod.mk.injEq] at g1
      rw [← g1.2] at g2 g3
      exact ⟨p1.trans g2, fun h => absurd h.2 (by simp), fun _ => p2.trans g3⟩
    | false =>
      have hne : w.cmd_head ≠ w.cmd_tail := by
        intro e
        rw [cmdq_pop_fetch_none w hr e] at hf
        exact absurd hf (by simp)
      obtain ⟨wf2, g1, _, _, g4, g5, _⟩ := cmdq_pop_fetch_next w hr hne
      rw [hf] at g1
      simp only [Option.some.injEq, Prod.mk.injEq] at g1
      rw [← g1.2] at g4 g5
      exact ⟨p1.trans g4, fun _ => ⟨hne, p2.trans g5⟩, fun h => absurd ⟨rfl, rfl⟩ h⟩

/-- One call on the queue keeps the cursors inside the queue. -/
theorem queue_op_run_cursors (env : Env) (op : queue_op) (w w1 : World)
    (hH : ∀ (c : cmd_code) (j : Nat), keeps_cursors (env.handler c j))
    (hA : keeps_cursors (fun x => (env.player_attack_random_monster x).2))
    (hrun : op.run env w = some w1)
    (hc : w.cmd_head < CMD_QUEUE_SIZE ∧ w.cmd_tail < CMD_QUEUE_SIZE) :
    w1.cmd_head < CMD_QUEUE_SIZE ∧ w1.cmd_tail < CMD_QUEUE_SIZE := by
  have hpush : ∀ r : Int × World, ((r.1 = 1 ∧ r.2 = w) ∨
      (r.1 = 0 ∧ r.2.cmd_tail = w.cmd_tail ∧
        r.2.cmd_head = (if w.cmd_head + 1 = CMD_QUEUE_SIZE then 0 else w.cmd_head + 1) ∧
        ¬ (w.cmd_head + 1 = w.cmd_tail) ∧
        ¬ (w.cmd_head + 1 = CMD_QUEUE_SIZE ∧ w.cmd_tail = 0))) →
      r.2.cmd_head < CMD_QUEUE_SIZE ∧ r.2.cmd_tail < CMD_QUEUE_SIZE := by
    intro r hr
    rcases hr with ⟨_, e⟩ | ⟨_, e1, e2, _, _⟩
    · rw [e]; exact hc
    · rw [e1, e2]
      refine ⟨?_, hc.2⟩
      unfold CMD_QUEUE_SIZE at *
      split_ifs <;> omega
  cases op with
  | push_copy cmd =>
    have hr : (cmdq_push_copy cmd w).map Prod.snd = some w1 := hrun
    simp only [Option.map_eq_some'] at hr
    obtain ⟨r, hp, e⟩ := hr
    rw [← e]
    exact hpush r (cmdq_push_copy_cursors cmd w r hp)
  | push_repeat c n =>
    have hr : (cmdq_push_repeat c n w).map Prod.snd = some w1 := hrun
    simp only [Option.map_eq_some'] at hr
    obtain ⟨r, hp, e⟩ := hr
    rw [← e]
    exact hpush r (cmdq_push_repeat_cursors c n w r hp)
  | pop ctx =>
    have hr : some (cmdq_pop env ctx w).2 = some w1 := hrun
    simp only [Option.some.injEq] at hr
    rw [← hr]
    obtain ⟨p1, p2, p3⟩ := cmdq_pop_cursors env ctx w hH hA
    refine ⟨by rw [p1]; exact hc.1, ?_⟩
    by_cases hcase : (cmdq_pop env ctx w).1 = true ∧ w.repeating = false
    · rw [(p2 hcase).2]
      unfold CMD_QUEUE_SIZE at *
      split_ifs <;> omega
    · rw [p3 hcase]; exact hc.2
  | flush =>
    have hr : some (cmdq_flush w) = some w1 := hrun
    simp only [Option.some.injEq] at hr
    rw [← hr]
    exact ⟨hc.1, hc.1⟩
  | release =>
    have hr : some (cmdq_release w) = some w1 := hrun
    simp only [Option.some.injEq] at hr
    rw [← hr]
    exact ⟨hc.1, hc.1⟩

theorem queue_ops_run_cursors (env : Env)
    (hH : ∀ (c : cmd_code) (j : Nat), keeps_cursors (env.handler c j))
    (hA : keeps_cursors (fun x => (env.player_attack_random_monster x).2)) :
    ∀ (ops : List queue_op) (w w1 : World), queue_ops_run env ops w = some w1 →
      w.cmd_head < CMD_QUEUE_SIZE ∧ w.cmd_tail < CMD_QUEUE_SIZE →
      w1.cmd_head < CMD_QUEUE_SIZE ∧ w1.cmd_tail < CMD_QUEUE_SIZE := by
  intro ops
  induction ops with
  | nil =>
    intro w w1 hrun hc
    have hr : some w = some w1 := hrun
    simp only [Option.some.injEq] at hr
    rw [← hr]; exact hc
  | cons op rest ih =>
    intro w w1 hrun hc
    have hr : (match op.run env w with
      | none => none
      | some w2 => queue_ops_run env rest w2) = some w1 := hrun
    cases hop : op.run env w with
    | none => rw [hop] at hr; exact absurd hr (by simp)
    | some w2 =>
      rw [hop] at hr
      exact ih w2 w1 hr (queue_op_run_cursors env op w w2 hH hA hop hc)

/-- C35: starting from the queue as first initialised (`cmd_head = cmd_tail =
0`), every sequence of calls of `cmdq_push_copy`, `cmdq_push_repeat`,
`cmdq_pop`, `cmdq_flush` and `cmdq_release` keeps `cmd_head < 20` and
`cmd_tail < 20`, so that the number of queued records, `(cmd_head - cmd_tail)
mod 20`, is at most 19.  With the cursors inside the queue, a push that returns
0 raises that number by one and leaves the tail, a push that returns 1 changes
nothing, and a pop that returns true while `repeating` is false lowers it by
one and leaves the head.  Handlers and the forced attack leave the cursors
alone. -/
theorem cursor_invariant (env : Env)
    (hH : ∀ (c : cmd_code) (j : Nat), keeps_cursors (env.handler c j))
    (hA : keeps_cursors (fun x => (env.player_attack_random_monster x).2)) :
    (∀ (ops : List queue_op) (h : Heap) (p : Player) (objs : List object) (seed : Nat)
      (w : World), queue_ops_run env ops (World.init h p objs seed) = some w →
      w.cmd_head < CMD_QUEUE_SIZE ∧ w.cmd_tail < CMD_QUEUE_SIZE ∧ queued_count w ≤ 19) ∧
    (∀ (w : World), w.cmd_head < CMD_QUEUE_SIZE → w.cmd_tail < CMD_QUEUE_SIZE →
      (∀ (cmd : command) (r : Int × World), cmdq_push_copy cmd w = some r →
        (r.1 = 0 ∧ queued_count r.2 = queued_count w + 1 ∧ r.2.cmd_tail = w.cmd_tail) ∨
        (r.1 = 1 ∧ r.2 = w)) ∧
      (∀ (c : cmd_code) (n : Int) (r : Int × World), cmdq_push_repeat c n w = some r →
        (r.1 = 0 ∧ queued_count r.2 = queued_count w + 1 ∧ r.2.cmd_tail = w.cmd_tail) ∨
        (r.1 = 1 ∧ r.2 = w)) ∧
      (∀ ctx : cmd_context, (cmdq_pop env ctx w).1 = true → w.repeating = false →
        queued_count (cmdq_pop env ctx w).2 + 1 = queued_count w ∧
        (cmdq_pop env ctx w).2.cmd_head = w.cmd_head)) := by
  refine ⟨?_, ?_⟩
  · intro ops h p objs seed w hrun
    obtain ⟨c1, c2⟩ := queue_ops_run_cursors env hH hA ops _ w hrun
      ⟨by simp [World.init, CMD_QUEUE_SIZE], by simp [World.init, CMD_QUEUE_SIZE]⟩
    refine ⟨c1, c2, ?_⟩
    unfold queued_count CMD_QUEUE_SIZE
    omega
  · intro w hh ht
    have hpush : ∀ r : Int × World, ((r.1 = 1 ∧ r.2 = w) ∨
        (r.1 = 0 ∧ r.2.cmd_tail = w.cmd_tail ∧
          r.2.cmd_head = (if w.cmd_head + 1 = CMD_QUEUE_SIZE then 0 else w.cmd_head + 1) ∧
          ¬ (w.cmd_head + 1 = w.cmd_tail) ∧
          ¬ (w.cmd_head + 1 = CMD_QUEUE_SIZE ∧ w.cmd_tail = 0))) →
        (r.1 = 0 ∧ queued_count r.2 = queued_count w + 1 ∧ r.2.cmd_tail = w.cmd_tail) ∨
        (r.1 = 1 ∧ r.2 = w) := by
      intro r hr
      rcases hr with h | ⟨e0, e1, e2, n1, n2⟩
      · exact Or.inr h
      · left
        refine ⟨e0, ?_, e1⟩
        unfold queued_count
        rw [e1, e2]
        unfold CMD_QUEUE_SIZE at *
        split_ifs <;> omega
    refine ⟨fun cmd r hp => hpush r (cmdq_push_copy_cursors cmd w r hp),
      fun c n r hp => hpush r (cmdq_push_repeat_cursors c n w r hp), ?_⟩
    intro ctx h1 hr
    obtain ⟨p1, p2, _⟩ := cmdq_pop_cursors env ctx w hH hA
    obtain ⟨hne, e⟩ := p2 ⟨h1, hr⟩
    refine ⟨?_, p1⟩
    unfold queued_count
    rw [p1, e]
    unfold CMD_QUEUE_SIZE at *
    split_ifs <;> omega

set_option maxRecDepth 100000 in
/-- Witness of C35: nineteen walk commands are pushed and popped, which takes
the cursors to slot 19, two more commands are pushed across the wrap, one is
popped, the queue is flushed, one more command is pushed and the queue is
released. -/
theorem cursor_invariant_witness :
    (∃ w : World, queue_ops_run ex_env ex_queue_ops (World.init [some "hello"] ex_player [] 0)
      = some w ∧
      w.cmd_head < CMD_QUEUE_SIZE ∧ w.cmd_tail < CMD_QUEUE_SIZE ∧ queued_count w ≤ 19) ∧
    ((cmdq_pop ex_env .CTX_INIT ex_queued).1 = true ∧ ex_queued.repeating = false ∧
      queued_count (cmdq_pop ex_env .CTX_INIT ex_queued).2 + 1 = queued_count ex_queued ∧
      (cmdq_pop ex_env .CTX_INIT ex_queued).2.cmd_head = ex_queued.cmd_head) :=
  ⟨⟨(queue_ops_run ex_env ex_queue_ops (World.init [some "hello"] ex_player [] 0)).getD
      ex_fresh, by decide,
    (cursor_invariant ex_env (fun _ _ _ => ⟨rfl, rfl⟩) (fun _ => ⟨rfl, rfl⟩)).1 ex_queue_ops
      [some "hello"] ex_player [] 0 _ (by decide)⟩,
    by decide, by decide,
    ((cursor_invariant ex_env (fun _ _ _ => ⟨rfl, rfl⟩) (fun _ => ⟨rfl, rfl⟩)).2 ex_queued
      (by decide) (by decide)).2.2 .CTX_INIT (by decide) (by decide)⟩

/-! ### Repeat counts that are not negative -/

theorem counts_nonneg_congr (w w1 : World) (h1 : w1.cmd_queue = w.cmd_queue)
    (h2 : w1.last_command = w.last_command) (h : counts_nonneg w) : counts_nonneg w1 := by
  unfold counts_nonneg at *
  rw [h1, h2]; exact h

theorem counts_nonneg_slot (w : World) (j : Nat) (h : counts_nonneg w) :
    0 ≤ (w.slot j).nrepeats := by
  unfold World.slot
  by_cases hj : j < w.cmd_queue.length
  · rw [List.getD_eq_getElem _ _ hj]
    exact h.1 _ (List.getElem_mem _)
  · rw [List.getD_eq_default _ _ (by omega)]
    decide

theorem counts_nonneg_set_slot (w : World) (k : Nat) (c : command)
    (h : counts_nonneg w) (hc : 0 ≤ c.nrepeats) : counts_nonneg (w.set_slot k c) := by
  refine ⟨?_, h.2⟩
  intro a ha
  have ha2 : a ∈ w.cmd_queue.set k c := ha
  rcases List.mem_or_eq_of_mem_set ha2 with h1 | h1
  · exact h.1 a h1
  · rw [h1]; exact hc

theorem cmd_set_repeat_nonneg (n : Int) (w : World) (hn : 0 ≤ n) (h : counts_nonneg w) :
    counts_nonneg (cmd_set_repeat n w) := by
  unfold cmd_set_repeat
  simp only
  exact counts_nonneg_congr _ _ rfl rfl (counts_nonneg_set_slot w _ _ h hn)

theorem cmd_cancel_repeat_nonneg (w : World) (h : counts_nonneg w) :
    counts_nonneg (cmd_cancel_repeat w) := by
  unfold cmd_cancel_repeat
  simp only
  split_ifs
  · exact counts_nonneg_congr _ _ rfl rfl (counts_nonneg_set_slot w _ _ h (le_refl 0))
  · exact h

theorem cmdq_push_save_last_nonneg (w : World) (h : counts_nonneg w) :
    counts_nonneg (cmdq_push_save_last w) := by
  unfold cmdq_push_save_last
  split_ifs
  · exact ⟨h.1, counts_nonneg_slot w w.cmd_head h⟩
  · exact h

theorem cmdq_push_store_nonneg (cmd : command) (w : World) (h : counts_nonneg w)
    (hc : 0 ≤ cmd.nrepeats) : counts_nonneg (cmdq_push_store cmd w) := by
  unfold cmdq_push_store
  simp only
  exact counts_nonneg_set_slot _ _ _ (counts_nonneg_congr w _ rfl rfl h) hc

theorem cmdq_push_duplicate_nonneg (src : command) (w : World) (h : counts_nonneg w)
    (hc : 0 ≤ src.nrepeats) : counts_nonneg (cmdq_push_duplicate src w) := by
  unfold cmdq_push_duplicate
  simp only
  exact counts_nonneg_set_slot _ _ _ (counts_nonneg_congr w _ rfl rfl h) hc

theorem cmdq_push_copy_nonneg (cmd : command) (w : World) (r : Int × World)
    (h : counts_nonneg w) (hc : 0 ≤ cmd.nrepeats) (hp : cmdq_push_copy cmd w = some r) :
    counts_nonneg r.2 := by
  unfold cmdq_push_copy at hp
  split_ifs at hp
  all_goals first
    | (simp at hp; done)
    | (simp only [Option.some.injEq] at hp; subst hp)
  · exact h
  · exact h
  · exact counts_nonneg_congr _ _ rfl rfl
      (cmdq_push_store_nonneg cmd _ (cmdq_push_save_last_nonneg w h) hc)
  · exact h
  · exact counts_nonneg_congr _ _ rfl rfl
      (cmdq_push_duplicate_nonneg _ w h (counts_nonneg_slot w _ h))
  · exact h
  · exact counts_nonneg_congr _ _ rfl rfl (cmdq_push_duplicate_nonneg _ w h h.2)
  · exact h

theorem cmdq_push_repeat_nonneg (c : cmd_code) (n : Int) (w : World) (r : Int × World)
    (h : counts_nonneg w) (hn : 0 ≤ n) (hp : cmdq_push_repeat c n w = some r) :
    counts_nonneg r.2 := by
  unfold cmdq_push_repeat at hp
  simp only at hp
  split_ifs at hp
  · simp only [Option.some.injEq] at hp
    subst hp
    exact h
  · exact cmdq_push_copy_nonneg _ w r h hn hp

theorem process_command_prepare_nonneg (ctx : cmd_context) (e : command_info) (k : Nat)
    (w : World) (h : counts_nonneg w) :
    counts_nonneg (process_command_prepare ctx e k w) ∧
    (process_command_prepare ctx e k w).cmd_tail = w.cmd_tail := by
  refine ⟨?_, (process_command_prepare_frame ctx e k w).2.1⟩
  unfold process_command_prepare
  simp only
  apply counts_nonneg_set_slot
  · apply counts_nonneg_congr _ _ rfl rfl
    split_ifs with h1 h2
    · exact cmd_set_repeat_nonneg _ w (le_of_lt h2.1) h
    · exact h
    · exact counts_nonneg_congr _ _ rfl rfl (counts_nonneg_set_slot w _ _ h (le_refl 0))
  · show 0 ≤ (World.slot _ k).nrepeats
    apply counts_nonneg_slot
    apply counts_nonneg_congr _ _ rfl rfl
    split_ifs with h1 h2
    · exact cmd_set_repeat_nonneg _ w (le_of_lt h2.1) h
    · exact h
    · exact counts_nonneg_congr _ _ rfl rfl (counts_nonneg_set_slot w _ _ h (le_refl 0))

/-- The final count of `process_command` on the record in the slot before the
tail: the count it stores is the count it found, less one, and it found a
positive one. -/
theorem process_command_count_nonneg (old : Int) (k : Nat) (w : World)
    (hk : prev_cmd_idx w.cmd_tail = k) (h : counts_nonneg w) :
    counts_nonneg (process_command_count old k w) ∧
    (process_command_count old k w).cmd_tail = w.cmd_tail := by
  refine ⟨?_, (process_command_count_frame old k w).2.1⟩
  unfold process_command_count
  split_ifs with h1
  · apply cmd_set_repeat_nonneg _ _ _ h
    have e : old = (w.slot k).nrepeats := by
      rw [h1.2]; unfold cmd_get_nrepeats; rw [hk]
    have := h1.1
    omega
  · exact h

theorem process_command_nonneg (env : Env) (ctx : cmd_context) (k : Nat) (w : World)
    (hH : ∀ (c : cmd_code) (j : Nat), keeps_nonneg (env.handler c j))
    (hA : keeps_nonneg (fun x => (env.player_attack_random_monster x).2))
    (hk : prev_cmd_idx w.cmd_tail = k) (h : counts_nonneg w) :
    counts_nonneg (process_command env ctx k w) := by
  refine (process_command_invariant
    (fun x => counts_nonneg x ∧ x.cmd_tail = w.cmd_tail) env ctx k w
    ⟨counts_nonneg_congr w _ rfl rfl h, rfl⟩ ?_ ?_ ?_ ?_ ?_).1
  · intro e x _ hx
    obtain ⟨a, b⟩ := process_command_prepare_nonneg ctx e k x hx.1
    exact ⟨a, b.trans hx.2⟩
  · intro x pl r hx
    exact ⟨counts_nonneg_congr x _ rfl rfl hx.1, hx.2⟩
  · intro x hx
    obtain ⟨a, b⟩ := hA x hx.1
    exact ⟨a, b.trans hx.2⟩
  · intro c x hx
    obtain ⟨a, b⟩ := hH c k x hx.1
    exact ⟨a, b.trans hx.2⟩
  · intro x hx
    obtain ⟨a, b⟩ := process_command_count_nonneg (w.slot k).nrepeats k x
      (by rw [hx.2]; exact hk) hx.1
    exact ⟨a, b.trans hx.2⟩

theorem cmdq_pop_fetch_last_command (w : World) (k : Nat) (wf : World)
    (h : cmdq_pop_fetch w = some (k, wf)) : wf.last_command = w.last_command := by
  unfold cmdq_pop_fetch at h
  simp only at h
  split_ifs at h
  all_goals first
    | (simp at h; done)
    | (simp only [Option.some.injEq, Prod.mk.injEq] at h; rw [← h.2])

theorem cmdq_pop_nonneg (env : Env) (ctx : cmd_context) (w : World)
    (hH : ∀ (c : cmd_code) (j : Nat), keeps_nonneg (env.handler c j))
    (hA : keeps_nonneg (fun x => (env.player_attack_random_monster x).2))
    (ht : w.cmd_tail < CMD_QUEUE_SIZE) (h : counts_nonneg w) :
    counts_nonneg (cmdq_pop env ctx w).2 := by
  rcases cmdq_pop_cases env ctx w with ⟨_, hp⟩ | ⟨k, wf, hf, hp⟩
  · rw [hp]; exact h
  · rw [hp]
    obtain ⟨q, _, _, _, _, hk, _⟩ := cmdq_pop_fetch_slot w k wf ht hf
    exact process_command_nonneg env ctx k wf hH hA hk
      (counts_nonneg_congr w wf q (cmdq_pop_fetch_last_command w k wf hf) h)

/-- C34, as the code has it: no record of the queue, nor the saved record
`last_command`, has a negative repeat count, provided no caller passes one.
The property holds for the queue as first initialised and is preserved by
`cmdq_push_copy` of a record whose count is not negative, by
`cmdq_push_repeat(c, n)` and `cmd_set_repeat(n)` with `n >= 0`, by
`cmd_cancel_repeat`, and by `cmdq_pop` with its tail inside the queue,
including the count after the handler, when handlers and the forced attack
keep the property and leave `cmd_tail` alone. -/
theorem repeat_count_nonneg (env : Env)
    (hH : ∀ (c : cmd_code) (j : Nat), keeps_nonneg (env.handler c j))
    (hA : keeps_nonneg (fun x => (env.player_attack_random_monster x).2)) :
    (∀ (h : Heap) (p : Player) (objs : List object) (seed : Nat),
      counts_nonneg (World.init h p objs seed)) ∧
    (∀ w : World, counts_nonneg w →
      (∀ (cmd : command) (r : Int × World), 0 ≤ cmd.nrepeats →
        cmdq_push_copy cmd w = some r → counts_nonneg r.2) ∧
      (∀ (c : cmd_code) (n : Int) (r : Int × World), 0 ≤ n →
        cmdq_push_repeat c n w = some r → counts_nonneg r.2) ∧
      (∀ ctx : cmd_context, w.cmd_tail < CMD_QUEUE_SIZE →
        counts_nonneg (cmdq_pop env ctx w).2) ∧
      (∀ n : Int, 0 ≤ n → counts_nonneg (cmd_set_repeat n w)) ∧
      counts_nonneg (cmd_cancel_repeat w)) := by
  refine ⟨?_, ?_⟩
  · intro h p objs seed
    refine ⟨?_, le_refl (0 : Int)⟩
    intro c hc
    have hc2 : c ∈ List.replicate CMD_QUEUE_SIZE command.zero := hc
    rw [(List.mem_replicate.mp hc2).2]
    decide
  · intro w h
    exact ⟨fun cmd r hc hp => cmdq_push_copy_nonneg cmd w r h hc hp,
      fun c n r hn hp => cmdq_push_repeat_nonneg c n w r h hn hp,
      fun ctx ht => cmdq_pop_nonneg env ctx w hH hA ht h,
      fun n hn => cmd_set_repeat_nonneg n w hn h,
      cmd_cancel_repeat_nonneg w h⟩

set_option maxRecDepth 100000 in
/-- Witness of C34: the walk command pushed with a count of 3 is popped, which
leaves a count of 2, and a count of 4 is then set. -/
theorem repeat_count_nonneg_witness :
    counts_nonneg ex_walk3_queued ∧
    counts_nonneg (cmdq_pop ex_env .CTX_INIT ex_walk3_queued).2 ∧
    ((cmdq_pop ex_env .CTX_INIT ex_walk3_queued).2.slot 0).nrepeats = 2 ∧
    counts_nonneg (cmd_set_repeat 4 (cmdq_pop ex_env .CTX_INIT ex_walk3_queued).2) :=
  ⟨by decide,
    ((repeat_count_nonneg ex_env (fun _ _ _ hx => ⟨hx, rfl⟩) (fun _ hx => ⟨hx, rfl⟩)).2
      ex_walk3_queued (by decide)).2.2.1 .CTX_INIT (by decide),
    by decide,
    ((repeat_count_nonneg ex_env (fun _ _ _ hx => ⟨hx, rfl⟩) (fun _ hx => ⟨hx, rfl⟩)).2
      (cmdq_pop ex_env .CTX_INIT ex_walk3_queued).2 (by decide)).2.2.2.1 4 (by decide)⟩

set_option maxRecDepth 100000 in
/-- Counterexample to C34: on the queue as first initialised, where every count
is 0, `cmdq_push_repeat(CMD_WALK, -1)` returns 0 and leaves a record with count
`-1` in slot 0, and `cmd_set_repeat(-1)` stores `-1` in slot 19. -/
theorem repeat_count_negative :
    counts_nonneg ex_fresh ∧
    (∃ w : World, cmdq_push_repeat .CMD_WALK (-1) ex_fresh = some (0, w) ∧
      (w.slot 0).nrepeats = -1 ∧ ¬ counts_nonneg w) ∧
    ((cmd_set_repeat (-1) ex_fresh).slot 19).nrepeats = -1 ∧
    ¬ counts_nonneg (cmd_set_repeat (-1) ex_fresh) := by
  refine ⟨by decide, ⟨((cmdq_push_repeat .CMD_WALK (-1) ex_fresh).map Prod.snd).getD ex_fresh,
    by rfl, by decide, by decide⟩, by decide, by decide⟩

/-! ### The source of a repeat after a background command -/

/-- A queue that was not empty is not full once its tail has advanced. -/
theorem cursors_after_pop (h t : Nat) (hh : h < CMD_QUEUE_SIZE) (ht : t < CMD_QUEUE_SIZE)
    (hne : h ≠ t) :
    ¬ (h + 1 = (if t + 1 = CMD_QUEUE_SIZE then 0 else t + 1)) ∧
    ¬ (h + 1 = CMD_QUEUE_SIZE ∧ (if t + 1 = CMD_QUEUE_SIZE then 0 else t + 1) = 0) := by
  unfold CMD_QUEUE_SIZE at *
  by_cases c : t + 1 = 20
  · rw [if_pos c]
    exact ⟨by omega, by omega⟩
  · rw [if_neg c]
    exact ⟨by omega, by omega⟩

/-- The record fetched by `cmdq_pop` is the record of `last_command_idx` only
when it is not a background command. -/
theorem cmdq_pop_fetch_background (w : World) (k : Nat) (wf : World)
    (h : cmdq_pop_fetch w = some (k, wf)) (hb : (w.slot k).background_command ≠ 0) :
    wf.last_command_idx = w.last_command_idx ∧
    wf.repeat_prev_allowed = w.repeat_prev_allowed := by
  unfold cmdq_pop_fetch at h
  simp only at h
  split_ifs at h with h1 h2 h3 h4
  all_goals first
    | (simp at h; done)
    | (simp only [Option.some.injEq, Prod.mk.injEq] at h
       obtain ⟨hk, hw⟩ := h
       subst hk hw
       first
        | exact ⟨rfl, rfl⟩
        | exact absurd ‹_› hb)

/-- After `process_command` on a record with an entry, `repeat_prev_allowed` is
true and `last_command_idx` is what it was, when the handler called and the
forced attack leave both alone. -/
theorem process_command_repeat_source (env : Env) (ctx : cmd_context) (k : Nat) (w : World)
    (e : command_info) (he : process_command_entry k w = some e)
    (hH : keeps_repeat_source (env.handler e.cmd k))
    (hA : keeps_repeat_source (fun x => (env.player_attack_random_monster x).2)) :
    (process_command env ctx k w).repeat_prev_allowed = true ∧
    (process_command env ctx k w).last_command_idx = w.last_command_idx := by
  unfold process_command
  simp only
  rw [he]
  simp only
  have hx1 := process_command_prepare_allowed ctx e k
    { w with player := { w.player with command_wrk := 0 } }
  have hx2 : (process_command_prepare ctx e k
      { w with player := { w.player with command_wrk := 0 } }).last_command_idx
      = w.last_command_idx := (process_command_prepare_frame ctx e k _).2.2.1
  generalize process_command_prepare ctx e k
    { w with player := { w.player with command_wrk := 0 } } = x at hx1 hx2
  have hcount : ∀ y : World, y.repeat_prev_allowed = true →
      y.last_command_idx = w.last_command_idx →
      (process_command_count (w.slot k).nrepeats k y).repeat_prev_allowed = true ∧
      (process_command_count (w.slot k).nrepeats k y).last_command_idx
        = w.last_command_idx := by
    intro y y1 y2
    exact ⟨by rw [process_command_count_repeat_prev_allowed, y1],
      ((process_command_count_frame _ k y).2.2.1).trans y2⟩
  by_cases hfn : e.fn = true
  · rw [if_pos hfn]
    rcases process_command_coerce_cases env e k x with ⟨pl, r, hc⟩ | ⟨r, hc⟩
    · rw [hc]
      simp only [Bool.false_eq_true, if_false]
      obtain ⟨a1, a2⟩ := hH { x with player := pl, rng := r }
      exact hcount _ (a1.trans hx1) (a2.trans hx2)
    · obtain ⟨a1, a2⟩ := hA { x with rng := r }
      have b1 : (env.player_attack_random_monster { x with rng := r }).2.repeat_prev_allowed
          = true := a1.trans hx1
      have b2 : (env.player_attack_random_monster { x with rng := r }).2.last_command_idx
          = w.last_command_idx := a2.trans hx2
      rw [hc]
      split_ifs
      · exact ⟨b1, b2⟩
      · obtain ⟨c1, c2⟩ := hH (env.player_attack_random_monster { x with rng := r }).2
        exact hcount _ (c1.trans b1) (c2.trans b2)
  · rw [if_neg hfn]
    exact hcount x hx1 hx2

/-- The frame of `process_command` on a record with entry `e`, when the handler
of `e` and the forced attack leave the queue alone. -/
theorem process_command_frame_entry (env : Env) (ctx : cmd_context) (k : Nat) (w : World)
    (e : command_info) (he : process_command_entry k w = some e)
    (hH : keeps_queue (env.handler e.cmd k))
    (hA : keeps_queue (fun x => (env.player_attack_random_monster x).2)) :
    queue_frame w (process_command env ctx k w) := by
  have hc : process_command env ctx k w
      = process_command { env with handler := fun _ _ => env.handler e.cmd k } ctx k w := by
    unfold process_command
    simp only
    rw [he]
    rfl
  rw [hc]
  exact (process_command_frame { env with handler := fun _ _ => env.handler e.cmd k } ctx k w
    (fun _ _ => hH) hA).1

/-- C38: when `cmdq_pop` dispatches a record that has an entry in `game_cmds`,
background or not, and neither the handler called nor the forced attack calls
`cmd_disable_repeat`, `repeat_prev_allowed` is true afterwards, whatever it
was; and the dispatch of a background record leaves `last_command_idx` as it
was.  So in a queue that is not empty, with `repeat_prev_allowed` false,
`last_command_idx` the slot `a` of a command A, and a background record B at
the tail, a push of `CMD_REPEAT` returns 1 and changes nothing, while after the
pop that dispatches B the same push returns 0 and puts at the head a record
with the code, the background flag and the arguments of A (a copy made by
`cmd_copy`); the handler of B and the forced attack leave the queue alone. -/
theorem background_dispatch_allows_repeat (env : Env) (ctx : cmd_context) (w : World)
    (k : Nat) (wf : World) (e : command_info)
    (hf : cmdq_pop_fetch w = some (k, wf)) (he : process_command_entry k wf = some e)
    (hH : keeps_repeat_source (env.handler e.cmd k))
    (hA : keeps_repeat_source (fun x => (env.player_attack_random_monster x).2)) :
    (cmdq_pop env ctx w).1 = true ∧
    (cmdq_pop env ctx w).2.repeat_prev_allowed = true ∧
    ((w.slot k).background_command ≠ 0 →
      (cmdq_pop env ctx w).2.last_command_idx = w.last_command_idx) ∧
    (∀ (a : Nat) (q : command),
      w.cmd_queue.length = CMD_QUEUE_SIZE → w.cmd_head < CMD_QUEUE_SIZE →
      w.cmd_tail < CMD_QUEUE_SIZE → w.repeating = false →
      w.repeat_prev_allowed = false →
      w.last_command_idx = (a : Int) → a < CMD_QUEUE_SIZE → a ≠ w.cmd_head →
      (w.slot k).background_command ≠ 0 → q.code = .CMD_REPEAT →
      keeps_queue (env.handler e.cmd k) →
      keeps_queue (fun x => (env.player_attack_random_monster x).2) →
      cmdq_push_copy q w = some (1, w) ∧
      ∃ w3 : World, cmdq_push_copy q (cmdq_pop env ctx w).2 = some (0, w3) ∧
        w3.slot w.cmd_head
          = (cmd_copy (cmd_release (cmdq_pop env ctx w).2.heap
              ((cmdq_pop env ctx w).2.slot w.cmd_head)).1
              ((cmdq_pop env ctx w).2.slot a)).2 ∧
        (w3.slot w.cmd_head).code = (w.slot a).code ∧
        (w3.slot w.cmd_head).background_command = (w.slot a).background_command ∧
        (w3.slot w.cmd_head).arg.map cmd_arg.shape = (w.slot a).arg.map cmd_arg.shape) := by
  have hp : cmdq_pop env ctx w = (true, process_command env ctx k wf) := by
    unfold cmdq_pop; rw [hf]
  obtain ⟨s1, s2⟩ := process_command_repeat_source env ctx k wf e he hH hA
  rw [hp]
  refine ⟨rfl, s1, ?_, ?_⟩
  · intro hb
    exact s2.trans (cmdq_pop_fetch_background w k wf hf hb).1
  · intro a q hlen hh ht hrep hoff hi ha hah hb hq hHq hAq
    obtain ⟨fq, _, _, fh, _, _, _, fnr⟩ := cmdq_pop_fetch_slot w k wf ht hf
    obtain ⟨hk, hne⟩ := fnr hrep
    obtain ⟨wn, n1, _, _, _, n5, _, _, _, _⟩ := cmdq_pop_fetch_next w hrep hne
    rw [hf] at n1
    simp only [Option.some.injEq, Prod.mk.injEq] at n1
    rw [← n1.2] at n5
    obtain ⟨g1, g2, g3, g4, g5⟩ := process_command_frame_entry env ctx k wf e he hHq hAq
    obtain ⟨w2, hw2⟩ : ∃ w2 : World, w2 = process_command env ctx k wf := ⟨_, rfl⟩
    rw [← hw2] at g1 g2 g3 g4 g5 s1 s2 ⊢
    have i2 : w2.last_command_idx = (a : Int) :=
      (s2.trans (cmdq_pop_fetch_background w k wf hf hb).1).trans hi
    have h2 : w2.cmd_head = w.cmd_head := g1.trans fh
    have t2 : w2.cmd_tail = (if w.cmd_tail + 1 = CMD_QUEUE_SIZE then 0 else w.cmd_tail + 1) :=
      g2.trans n5
    have hnq : ¬ (q.code ≠ .CMD_REPEAT) := fun hc => hc hq
    refine ⟨?_, ?_⟩
    · unfold cmdq_push_copy
      have c4 : (!w.repeat_prev_allowed) = true := by rw [hoff]; rfl
      by_cases c1 : w.cmd_head + 1 = w.cmd_tail
      · rw [if_pos c1]
      · rw [if_neg c1]
        by_cases c2 : w.cmd_head + 1 = CMD_QUEUE_SIZE ∧ w.cmd_tail = 0
        · rw [if_pos c2]
        · rw [if_neg c2, if_neg hnq, if_pos c4]
    · obtain ⟨c1, c2⟩ : ¬ (w2.cmd_head + 1 = w2.cmd_tail) ∧
          ¬ (w2.cmd_head + 1 = CMD_QUEUE_SIZE ∧ w2.cmd_tail = 0) := by
        rw [h2, t2]
        exact cursors_after_pop w.cmd_head w.cmd_tail hh ht hne
      have c4 : ¬ ((!w2.repeat_prev_allowed) = true) := by rw [s1]; decide
      have c5 : w2.last_command_idx ≥ 0 := by rw [i2]; omega
      have c6 : ¬ ¬ (w2.last_command_idx < (CMD_QUEUE_SIZE : Int)) := by
        rw [i2]; unfold CMD_QUEUE_SIZE at *; omega
      have c7 : w2.last_command_idx ≠ (w2.cmd_head : Int) := by
        rw [i2, h2]; omega
      have p3 : cmdq_push_copy q w2 = some (0, cmdq_push_advance
          (cmdq_push_duplicate (w2.slot w2.last_command_idx.toNat) w2)) := by
        unfold cmdq_push_copy
        rw [if_neg c1, if_neg c2, if_neg hnq, if_neg c4, if_pos c5, if_neg c6, if_pos c7]
      have hl2 : w2.cmd_head < w2.cmd_queue.length := by
        rw [g4, fq, hlen, h2]; exact hh
      have hs3 := cmdq_push_copy_repeat_of_slot q w2 _ a hq i2 (by rw [h2]; exact hah) hl2 p3
      rw [h2] at hs3
      obtain ⟨x1, x2, x3⟩ := g5 a
      rw [World.slot_congr w wf a fq] at x1 x2 x3
      refine ⟨_, p3, hs3, ?_, ?_, ?_⟩
      · rw [hs3]; exact x1
      · rw [hs3]; exact x2
      · rw [hs3]
        show (cmd_copy_args _ (w2.slot a).arg).2.map cmd_arg.shape = _
        rw [cmd_copy_args_shape, x3]

set_option maxRecDepth 100000 in
/-- Witness of C38: the walk command is dispatched by a handler that calls
`cmd_disable_repeat`, the background autopickup is pushed, and `CMD_REPEAT` is
pushed before and after the dispatch of the autopickup. -/
theorem background_dispatch_allows_repeat_witness :
    ex_background_queued.repeat_prev_allowed = false ∧
    (ex_background_queued.slot 0).code = .CMD_WALK ∧
    (ex_background_queued.slot 1).code = .CMD_AUTOPICKUP ∧
    (cmdq_pop ex_env_walk_disable .CTX_INIT ex_background_queued).2.repeat_prev_allowed
      = true ∧
    (cmdq_pop ex_env_walk_disable .CTX_INIT ex_background_queued).2.last_command_idx
      = ex_background_queued.last_command_idx ∧
    (cmdq_push_copy ex_repeat ex_background_queued = some (1, ex_background_queued) ∧
      ∃ w3 : World,
        cmdq_push_copy ex_repeat
          (cmdq_pop ex_env_walk_disable .CTX_INIT ex_background_queued).2 = some (0, w3) ∧
        w3.slot ex_background_queued.cmd_head
          = (cmd_copy (cmd_release
              (cmdq_pop ex_env_walk_disable .CTX_INIT ex_background_queued).2.heap
              ((cmdq_pop ex_env_walk_disable .CTX_INIT ex_background_queued).2.slot
                ex_background_queued.cmd_head)).1
              ((cmdq_pop ex_env_walk_disable .CTX_INIT ex_background_queued).2.slot 0)).2 ∧
        (w3.slot ex_background_queued.cmd_head).code = (ex_background_queued.slot 0).code ∧
        (w3.slot ex_background_queued.cmd_head).background_command
          = (ex_background_queued.slot 0).background_command ∧
        (w3.slot ex_background_queued.cmd_head).arg.map cmd_arg.shape
          = (ex_background_queued.slot 0).arg.map cmd_arg.shape) :=
  ⟨by decide, by decide, by decide,
    (background_dispatch_allows_repeat ex_env_walk_disable .CTX_INIT ex_background_queued 1
      (((cmdq_pop_fetch ex_background_queued).map Prod.snd).getD ex_fresh)
      ((process_command_entry 1 ex_background_queued).getD default) (by rfl) (by rfl)
      (fun _ => ⟨rfl, rfl⟩) (fun _ => ⟨rfl, rfl⟩)).2.1,
    (background_dispatch_allows_repeat ex_env_walk_disable .CTX_INIT ex_background_queued 1
      (((cmdq_pop_fetch ex_background_queued).map Prod.snd).getD ex_fresh)
      ((process_command_entry 1 ex_background_queued).getD default) (by rfl) (by rfl)
      (fun _ => ⟨rfl, rfl⟩) (fun _ => ⟨rfl, rfl⟩)).2.2.1 (by decide),
    (background_dispatch_allows_repeat ex_env_walk_disable .CTX_INIT ex_background_queued 1
      (((cmdq_pop_fetch ex_background_queued).map Prod.snd).getD ex_fresh)
      ((process_command_entry 1 ex_background_queued).getD default) (by rfl) (by rfl)
      (fun _ => ⟨rfl, rfl⟩) (fun _ => ⟨rfl, rfl⟩)).2.2.2 0 ex_repeat (by decide) (by decide)
      (by decide) (by decide) (by decide) (by decide) (by decide) (by decide) (by decide)
      (by decide) (fun x => ⟨queue_frame_refl x, rfl⟩) (fun x => ⟨queue_frame_refl x, rfl⟩)⟩

/-! ### The selection of an effect -/

theorem selection_usable_iff (c v n : Int) (ar : Bool) :
    (c ≠ CMD_OK ∨ ((v ≠ -2 ∨ ar = false) ∧ (v < 0 ∨ v ≥ n))) ↔
      ¬ (c = CMD_OK ∧ selection_usable v n ar) := by
  unfold selection_usable
  by_cases hc : c = CMD_OK
  · cases ar
    · simp only [hc, ne_eq, not_true_eq_false, false_or, or_true, true_and,
        Bool.false_eq_true, and_false, not_and, not_lt]
      constructor
      · intro h; omega
      · intro h; omega
    · simp only [hc, ne_eq, not_true_eq_false, false_or, Bool.true_eq_false, or_false,
        and_true, true_and, not_or, not_and, not_lt]
      constructor
      · intro h; omega
      · intro h; omega
  · simp [hc]

/-- A stored selection that is usable is written back and returned; the prompt
is not called. -/
theorem cmd_get_effect_from_list_stored (P : Prompts) (nsz k : Nat) (name : String)
    (choice : Int) (prompt : Option String) (effect : List effect) (count : Int)
    (allow_random : Bool) (w : World) (c v : Int)
    (hg : cmd_get_arg_choice (w.slot k) name 0 = (c, v))
    (hst : c = CMD_OK ∧ selection_usable v (effect_count effect count) allow_random) :
    (cmd_set_arg_choice nsz w.heap (w.slot k) (some name) v = none →
      cmd_get_effect_from_list P nsz k name choice prompt effect count allow_random w
        = none) ∧
    (∀ t : Heap × command,
      cmd_set_arg_choice nsz w.heap (w.slot k) (some name) v = some t →
      cmd_get_effect_from_list P nsz k name choice prompt effect count allow_random w
        = some ⟨CMD_OK, v, false, { w with heap := t.1 }.set_slot k t.2⟩) := by
  have hno : ¬ (c ≠ CMD_OK ∨ ((v ≠ -2 ∨ allow_random = false) ∧
      (v < 0 ∨ v ≥ (if count = -1 then (effect.length : Int) else count)))) := by
    intro h
    exact (selection_usable_iff c v (effect_count effect count) allow_random).mp h hst
  have hu : (v = -2 ∧ allow_random = true) ∨
      (v ≥ 0 ∧ v < (if count = -1 then (effect.length : Int) else count)) := hst.2
  refine ⟨?_, ?_⟩
  · intro hs
    unfold cmd_get_effect_from_list
    simp only [hg]
    rw [if_neg hno]
    simp only
    rw [if_pos hu, hs]
  · intro t hs
    unfold cmd_get_effect_from_list
    simp only [hg]
    rw [if_neg hno]
    simp only
    rw [if_pos hu, hs]

/-- A stored selection that is missing or not usable makes the helper prompt;
the answer is written back and returned when it is usable, and the helper
returns `CMD_ARG_ABORTED` when it is not. -/
theorem cmd_get_effect_from_list_prompted (P : Prompts) (nsz k : Nat) (name : String)
    (choice : Int) (prompt : Option String) (effect : List effect) (count : Int)
    (allow_random : Bool) (w x : World) (c v s : Int)
    (hg : cmd_get_arg_choice (w.slot k) name 0 = (c, v))
    (hp : P.get_effect_from_list prompt effect (effect_count effect count) allow_random w
      = (s, x))
    (hst : ¬ (c = CMD_OK ∧ selection_usable v (effect_count effect count) allow_random)) :
    (selection_usable s (effect_count effect count) allow_random →
      (cmd_set_arg_choice nsz x.heap (x.slot k) (some name) s = none →
        cmd_get_effect_from_list P nsz k name choice prompt effect count allow_random w
          = none) ∧
      (∀ t : Heap × command,
        cmd_set_arg_choice nsz x.heap (x.slot k) (some name) s = some t →
        cmd_get_effect_from_list P nsz k name choice prompt effect count allow_random w
          = some ⟨CMD_OK, s, true, { x with heap := t.1 }.set_slot k t.2⟩)) ∧
    (¬ selection_usable s (effect_count effect count) allow_random →
      cmd_get_effect_from_list P nsz k name choice prompt effect count allow_random w
        = some ⟨CMD_ARG_ABORTED, choice, true, x⟩) := by
  have hyes : c ≠ CMD_OK ∨ ((v ≠ -2 ∨ allow_random = false) ∧
      (v < 0 ∨ v ≥ (if count = -1 then (effect.length : Int) else count))) :=
    (selection_usable_iff c v (effect_count effect count) allow_random).mpr hst
  have hp2 : P.get_effect_from_list prompt effect
      (if count = -1 then (effect.length : Int) else count) allow_random w = (s, x) := hp
  refine ⟨?_, ?_⟩
  · intro hu
    have hu2 : (s = -2 ∧ allow_random = true) ∨
        (s ≥ 0 ∧ s < (if count = -1 then (effect.length : Int) else count)) := hu
    refine ⟨?_, ?_⟩
    · intro hs
      unfold cmd_get_effect_from_list
      simp only [hg]
      rw [if_pos hyes]
      simp only [hp2]
      rw [if_pos hu2, hs]
    · intro t hs
      unfold cmd_get_effect_from_list
      simp only [hg]
      rw [if_pos hyes]
      simp only [hp2]
      rw [if_pos hu2, hs]
  · intro hu
    have hu2 : ¬ ((s = -2 ∧ allow_random = true) ∨
        (s ≥ 0 ∧ s < (if count = -1 then (effect.length : Int) else count))) := hu
    unfold cmd_get_effect_from_list
    simp only [hg]
    rw [if_pos hyes]
    simp only [hp2]
    rw [if_neg hu2]

theorem cmd_get_arg_choice_ok_mem (c : command) (name : String) (c0 : Int)
    (hg : (cmd_get_arg_choice c name c0).1 = CMD_OK) : ∃ a ∈ c.arg, a.name = name := by
  by_contra hno
  push_neg at hno
  have hnp := cmd_get_arg_loop_absent name .arg_CHOICE c.arg hno
  unfold cmd_get_arg_choice cmd_get_arg at hg
  rw [hnp] at hg
  have hne2 : (CMD_ARG_NOT_PRESENT : Int) ≠ CMD_OK := by decide
  exact hne2 hg

/-- C32, as the code has it.  With `(c, v)` what `cmd_get_arg_choice` gives for
the name and `(s, x)` what the prompt would give: the prompt is called exactly
when `c` is not `CMD_OK` or `v` is not usable, where a selection is usable when
it is `-2` with `allow_random`, or at least 0 and below `count` (`count = -1`
standing for the length of the chain); so a stored `-2` without `allow_random`
and a stored value out of range make the helper prompt.  The helper returns
`CMD_OK` exactly when the selection it ends with, `s` after a prompt and `v`
otherwise, is usable, and `*choice` is then that selection; otherwise it
returns `CMD_ARG_ABORTED` and leaves `*choice` alone.  When it returns
`CMD_OK` for a name that fits the name field, the Choice argument of that name
in the record is `*choice`.  The helper returns whenever the name is not empty
and the record, when the prompt returns, bears the name or has an unused
slot. -/
theorem effect_selection_spec (P : Prompts) (nsz k : Nat) (name : String) (choice : Int)
    (prompt : Option String) (effect : List effect) (count : Int) (allow_random : Bool)
    (w x : World) (c v s : Int)
    (hg : cmd_get_arg_choice (w.slot k) name 0 = (c, v))
    (hp : P.get_effect_from_list prompt effect (effect_count effect count) allow_random w
      = (s, x)) :
    (∀ r : Resolved Int,
      cmd_get_effect_from_list P nsz k name choice prompt effect count allow_random w
        = some r →
      (r.prompted = false ↔
        c = CMD_OK ∧ selection_usable v (effect_count effect count) allow_random) ∧
      (r.ret = CMD_OK ∨ r.ret = CMD_ARG_ABORTED) ∧
      (r.ret = CMD_OK ↔ selection_usable (if r.prompted then s else v)
        (effect_count effect count) allow_random) ∧
      (r.ret = CMD_OK →
        r.out = (if r.prompted then s else v) ∧
        selection_usable r.out (effect_count effect count) allow_random ∧
        (name.length < nsz → k < r.world.cmd_queue.length →
          cmd_get_arg (r.world.slot k) name .arg_CHOICE = (CMD_OK, some (.choice r.out)))) ∧
      (r.ret = CMD_ARG_ABORTED → r.out = choice ∧ r.prompted = true ∧ r.world = x)) ∧
    (name ≠ "" →
      ((∃ a ∈ (x.slot k).arg, a.name = name) ∨ (∃ a ∈ (x.slot k).arg, a.name = "")) →
      ∃ r : Resolved Int,
        cmd_get_effect_from_list P nsz k name choice prompt effect count allow_random w
          = some r) := by
  have hne : (CMD_OK : Int) ≠ CMD_ARG_ABORTED := by decide
  have named : ∀ (y : World) (u : Int) (t : Heap × command),
      cmd_set_arg_choice nsz y.heap (y.slot k) (some name) u = some t →
      name.length < nsz → k < (({ y with heap := t.1 } : World).set_slot k t.2).cmd_queue.length →
      cmd_get_arg ((({ y with heap := t.1 } : World).set_slot k t.2).slot k) name .arg_CHOICE
        = (CMD_OK, some (.choice u)) := by
    intro y u t ht hfit hk
    rw [World.length_set_slot] at hk
    rw [World.slot_set_slot, if_pos ⟨rfl, hk⟩,
      cmd_get_arg_after_set nsz y.heap (y.slot k) name .arg_CHOICE .arg_CHOICE (.choice u)
        t.1 t.2 hfit ht]
    simp
  by_cases hst : c = CMD_OK ∧ selection_usable v (effect_count effect count) allow_random
  · obtain ⟨hN, hS⟩ := cmd_get_effect_from_list_stored P nsz k name choice prompt effect
      count allow_random w c v hg hst
    refine ⟨?_, ?_⟩
    · intro r hr
      cases ht : cmd_set_arg_choice nsz w.heap (w.slot k) (some name) v with
      | none => rw [hN ht] at hr; exact absurd hr (by simp)
      | some t =>
        rw [hS t ht] at hr
        simp only [Option.some.injEq] at hr
        rw [← hr]
        refine ⟨⟨fun _ => hst, fun _ => rfl⟩, Or.inl rfl, ⟨fun _ => hst.2, fun _ => rfl⟩,
          fun _ => ⟨rfl, hst.2, fun hfit hk => named w v t ht hfit hk⟩,
          fun h => absurd h hne⟩
    · intro hname _
      have hmem : ∃ a ∈ (w.slot k).arg, a.name = name :=
        cmd_get_arg_choice_ok_mem (w.slot k) name 0 (by rw [hg]; exact hst.1)
      obtain ⟨t, ht⟩ := cmd_set_arg_some nsz w.heap (w.slot k) name .arg_CHOICE (.choice v)
        hname (Or.inl hmem)
      exact ⟨_, hS t ht⟩
  · obtain ⟨hU, hA⟩ := cmd_get_effect_from_list_prompted P nsz k name choice prompt effect
      count allow_random w x c v s hg hp hst
    by_cases hu : selection_usable s (effect_count effect count) allow_random
    · obtain ⟨hN, hS⟩ := hU hu
      refine ⟨?_, ?_⟩
      · intro r hr
        cases ht : cmd_set_arg_choice nsz x.heap (x.slot k) (some name) s with
        | none => rw [hN ht] at hr; exact absurd hr (by simp)
        | some t =>
          rw [hS t ht] at hr
          simp only [Option.some.injEq] at hr
          rw [← hr]
          refine ⟨⟨fun h => absurd h (by simp), fun h => absurd h hst⟩, Or.inl rfl,
            ⟨fun _ => hu, fun _ => rfl⟩,
            fun _ => ⟨rfl, hu, fun hfit hk => named x s t ht hfit hk⟩,
            fun h => absurd h hne⟩
      · intro hname hroom
        obtain ⟨t, ht⟩ := cmd_set_arg_some nsz x.heap (x.slot k) name .arg_CHOICE (.choice s)
          hname hroom
        exact ⟨_, hS t ht⟩
    · refine ⟨?_, fun _ _ => ⟨_, hA hu⟩⟩
      intro r hr
      rw [hA hu] at hr
      simp only [Option.some.injEq] at hr
      rw [← hr]
      exact ⟨⟨fun h => absurd h (by simp), fun h => absurd h hst⟩, Or.inr rfl,
        ⟨fun h => absurd h.symm hne, fun h => absurd h hu⟩,
        fun h => absurd h.symm hne, fun _ => ⟨rfl, rfl, rfl⟩⟩

set_option maxRecDepth 100000 in
/-- Witness of C32: in the walk command the choice `-2` is stored under
`"choice"`.  With `allow_random` false the helper prompts; the answer 0 is
among the three effects and is returned and stored. -/
theorem effect_selection_spec_witness :
    cmd_get_arg_choice (ex_choice_random.slot 0) "choice" 0 = (CMD_OK, -2) ∧
    (∃ r : Resolved Int,
      cmd_get_effect_from_list ex_prompts 20 0 "choice" 7 none ex_effects (-1) false
        ex_choice_random = some r ∧
      r.prompted = true ∧ r.ret = CMD_OK ∧ r.out = 0 ∧
      cmd_get_arg (r.world.slot 0) "choice" .arg_CHOICE = (CMD_OK, some (.choice 0))) := by
  have T := effect_selection_spec ex_prompts 20 0 "choice" 7 none ex_effects (-1) false
    ex_choice_random ex_choice_random CMD_OK (-2) 0 (by decide) rfl
  refine ⟨by decide, ?_⟩
  obtain ⟨r, hr⟩ := T.2 (by decide) (by decide)
  obtain ⟨t1, _, t3, t4, _⟩ := T.1 r hr
  have hprm : r.prompted = true := by
    cases hb : r.prompted with
    | true => rfl
    | false => exact absurd (t1.mp hb) (by decide)
  have hok : r.ret = CMD_OK := t3.mpr (by rw [hprm]; decide)
  obtain ⟨u1, _, u3⟩ := t4 hok
  rw [hprm] at u1
  have hlen : r.world.cmd_queue.length = 20 := by
    have hrun : cmd_get_effect_from_list ex_prompts 20 0 "choice" 7 none ex_effects (-1) false
        ex_choice_random = some ⟨CMD_OK, 0, true,
          ((cmd_get_effect_from_list ex_prompts 20 0 "choice" 7 none ex_effects (-1) false
            ex_choice_random).map (fun q => q.world)).getD ex_fresh⟩ := by rfl
    rw [hrun] at hr
    simp only [Option.some.injEq] at hr
    rw [← hr]
    decide
  have hget := u3 (by decide) (by rw [hlen]; decide)
  rw [u1] at hget
  exact ⟨r, hr, hprm, hok, u1, hget⟩

set_option maxRecDepth 100000 in
/-- Counterexample to C32: with a name field of 20 bytes and the 22-byte name
`"direction_of_next_step"`, on the queued walk command, which holds nothing of
that name, the prompt answers 0 of three effects; the helper returns `CMD_OK`
with `*choice = 0`, but the record it leaves has no argument of that name. -/
theorem effect_selection_long_name :
    (cmd_get_effect_from_list ex_prompts 20 0 "direction_of_next_step" 7 none ex_effects
      (-1) false ex_queued).map (fun r => (r.ret, r.out, r.prompted))
      = some (CMD_OK, 0, true) ∧
    (cmd_get_effect_from_list ex_prompts 20 0 "direction_of_next_step" 7 none ex_effects
      (-1) false ex_queued).map
        (fun r => cmd_get_arg (r.world.slot 0) "direction_of_next_step" .arg_CHOICE)
      = some (CMD_ARG_NOT_PRESENT, none) := by
  decide

/-! ### Spells and books -/

/-- Writing a slot that does not bear the name, with a slot that does not bear
it either, changes nothing for `cmd_get_arg` under that name. -/
theorem cmd_get_arg_loop_set_other (name : String) (t : cmd_arg_type) (a : cmd_arg)
    (ha : a.name ≠ name) :
    ∀ (l : List cmd_arg) (j : Nat), (l.getD j cmd_arg.zero).name ≠ name → j < l.length →
      cmd_get_arg_loop name t (l.set j a) = cmd_get_arg_loop name t l := by
  intro l
  induction l with
  | nil => intro j _ hj; exact absurd hj (Nat.not_lt_zero j)
  | cons b rest ih =>
    intro j hb hj
    cases j with
    | zero =>
      have hb0 : b.name ≠ name := by simpa using hb
      simp [cmd_get_arg_loop, ha, hb0]
    | succ j1 =>
      have e : cmd_get_arg_loop name t ((b :: rest).set (j1 + 1) a)
          = if b.name = name then
              (if b.type ≠ t then (CMD_ARG_WRONG_TYPE, none) else (CMD_OK, some b.data))
            else cmd_get_arg_loop name t (rest.set j1 a) := by
        simp [cmd_get_arg_loop]
      have e2 : cmd_get_arg_loop name t (b :: rest)
          = if b.name = name then
              (if b.type ≠ t then (CMD_ARG_WRONG_TYPE, none) else (CMD_OK, some b.data))
            else cmd_get_arg_loop name t rest := by
        simp [cmd_get_arg_loop]
      rw [e, e2, ih j1 (by simpa using hb) (by simpa using hj)]

theorem getD_mem_of_lt (l : List cmd_arg) (i : Nat) (hi : i < l.length) :
    l.getD i cmd_arg.zero ∈ l := by
  rw [List.getD_eq_getElem _ _ hi]
  exact List.getElem_mem _

/-- The choice of the prompt in `cmd_get_spell`. -/
theorem cmd_get_spell_prompt_cases (S : SpellPrompts) (k : Nat) (verb : String)
    (book_filter : Option item_tester) (book_error : Option String)
    (spell_filter : Option spell_tester) (spell_error : Option String) (w : World) :
    (∀ b : Ptr, cmd_get_arg (w.slot k) "book" .arg_ITEM = (CMD_OK, some (.obj b)) →
      cmd_get_spell_prompt S k verb book_filter book_error spell_filter spell_error w
        = ((S.get_spell_from_book verb b spell_error spell_filter w).1, b,
            (S.get_spell_from_book verb b spell_error spell_filter w).2)) ∧
    ((cmd_get_arg (w.slot k) "book" .arg_ITEM).1 ≠ CMD_OK →
      cmd_get_spell_prompt S k verb book_filter book_error spell_filter spell_error w
        = S.get_spell verb book_filter (w.slot k).code book_error spell_filter
            spell_error w) := by
  refine ⟨?_, ?_⟩
  · intro b hb
    have hi : cmd_get_arg_item (w.slot k) "book" 0 = (CMD_OK, b) := by
      unfold cmd_get_arg_item; rw [hb]; rfl
    unfold cmd_get_spell_prompt
    simp only [hi]
    rfl
  · intro hb
    have hi : ¬ ((cmd_get_arg_item (w.slot k) "book" 0).1 = CMD_OK) := by
      unfold cmd_get_arg_item
      cases hq : cmd_get_arg (w.slot k) "book" .arg_ITEM with
      | mk err od =>
        rw [hq] at hb
        cases od with
        | none => exact hb
        | some d => exact hb
    unfold cmd_get_spell_prompt
    simp only
    rw [if_neg hi]

/-- The two calls of `cmd_set_arg` at the end of `cmd_get_spell` succeed when
two different slots of the record are there for them: one that bears `"book"`
or is unused, and one that bears the name of the spell or is unused. -/
theorem cmd_get_spell_room (nsz : Nat) (h : Heap) (R : command) (arg : String)
    (bk : Ptr) (s : Int) (hne : arg ≠ "") (hnb : arg ≠ "book")
    (hroom : ∃ i j : Nat, i ≠ j ∧ i < R.arg.length ∧ j < R.arg.length ∧
      ((R.arg.getD i cmd_arg.zero).name = "book" ∨ (R.arg.getD i cmd_arg.zero).name = "") ∧
      ((R.arg.getD j cmd_arg.zero).name = arg ∨ (R.arg.getD j cmd_arg.zero).name = "")) :
    ∃ s1 : Heap × command, cmd_set_arg_item nsz h R (some "book") bk = some s1 ∧
      ∃ s2 : Heap × command, cmd_set_arg_choice nsz s1.1 s1.2 (some arg) s = some s2 := by
  obtain ⟨i, j, hij, hi, hj, hbi, haj⟩ := hroom
  have hmi := getD_mem_of_lt R.arg i hi
  have hmj := getD_mem_of_lt R.arg j hj
  have hr1 : (∃ a ∈ R.arg, a.name = "book") ∨ (∃ a ∈ R.arg, a.name = "") := by
    rcases hbi with e | e
    · exact Or.inl ⟨_, hmi, e⟩
    · exact Or.inr ⟨_, hmi, e⟩
  obtain ⟨s1, hs1⟩ := cmd_set_arg_some nsz h R "book" .arg_ITEM (.obj bk) (by decide) hr1
  refine ⟨s1, hs1, ?_⟩
  obtain ⟨_, _, _, _, _, j1, hj1, _, _, hoth, hpres, habs⟩ :=
    cmd_set_arg_slot nsz h R "book" .arg_ITEM (.obj bk) s1.1 s1.2 hs1
  have hlen : s1.2.arg.length = R.arg.length := by
    obtain ⟨_, _, _, _, _, j0, _, hset, _⟩ :=
      cmd_set_arg_slot nsz h R "book" .arg_ITEM (.obj bk) s1.1 s1.2 hs1
    rw [hset, List.length_set]
  have keep : ∀ m : Nat, m ≠ j1 → m < R.arg.length →
      ((R.arg.getD m cmd_arg.zero).name = arg ∨ (R.arg.getD m cmd_arg.zero).name = "") →
      (∃ a ∈ s1.2.arg, a.name = arg) ∨ (∃ a ∈ s1.2.arg, a.name = "") := by
    intro m hm hml hn
    have hmem := getD_mem_of_lt s1.2.arg m (by rw [hlen]; exact hml)
    rcases hn with e | e
    · exact Or.inl ⟨_, hmem, by rw [hoth m hm]; exact e⟩
    · exact Or.inr ⟨_, hmem, by rw [hoth m hm]; exact e⟩
  have hr2 : (∃ a ∈ s1.2.arg, a.name = arg) ∨ (∃ a ∈ s1.2.arg, a.name = "") := by
    by_cases hjj : j = j1
    · -- the slot meant for the spell is the one that took the book
      have hbabs : ∀ a ∈ R.arg, a.name ≠ "book" := by
        intro a ha hab
        have hp := (hpres ⟨a, ha, hab⟩).1
        rw [← hjj] at hp
        rcases haj with e | e
        · exact hnb (e.symm.trans hp)
        · rw [e] at hp; exact absurd hp (by decide)
      have hiu : (R.arg.getD i cmd_arg.zero).name = "" := by
        rcases hbi with e | e
        · exact absurd e (hbabs _ hmi)
        · exact e
      exact keep i (by rw [← hjj]; exact hij) hi (Or.inr hiu)
    · exact keep j hjj hj haj
  exact cmd_set_arg_some nsz s1.1 s1.2 arg .arg_CHOICE (.choice s) hne hr2

/-- After the two calls of `cmd_set_arg` at the end of `cmd_get_spell`, for a
name other than `"book"` that fits a name field of more than four bytes, the
record holds the book under `"book"` and the spell under the name. -/
theorem cmd_get_spell_stored (nsz : Nat) (h : Heap) (R : command) (arg : String)
    (bk : Ptr) (s : Int) (s1 s2 : Heap × command) (hnb : arg ≠ "book")
    (hfit : arg.length < nsz) (h4 : 4 < nsz)
    (hs1 : cmd_set_arg_item nsz h R (some "book") bk = some s1)
    (hs2 : cmd_set_arg_choice nsz s1.1 s1.2 (some arg) s = some s2) :
    cmd_get_arg s2.2 "book" .arg_ITEM = (CMD_OK, some (.obj bk)) ∧
    cmd_get_arg s2.2 arg .arg_CHOICE = (CMD_OK, some (.choice s)) := by
  have g1 : cmd_get_arg s1.2 "book" .arg_ITEM = (CMD_OK, some (.obj bk)) := by
    rw [cmd_get_arg_after_set nsz h R "book" .arg_ITEM .arg_ITEM (.obj bk) s1.1 s1.2
      (by show 4 < nsz; exact h4) hs1]
    simp
  have g2 : cmd_get_arg s2.2 arg .arg_CHOICE = (CMD_OK, some (.choice s)) := by
    rw [cmd_get_arg_after_set nsz s1.1 s1.2 arg .arg_CHOICE .arg_CHOICE (.choice s) s2.1 s2.2
      hfit hs2]
    simp
  refine ⟨?_, g2⟩
  obtain ⟨hne, _, _, _, _, j2, hj2, hset, _, _, hpres, habs⟩ :=
    cmd_set_arg_slot nsz s1.1 s1.2 arg .arg_CHOICE (.choice s) s2.1 s2.2 hs2
  have hold : (s1.2.arg.getD j2 cmd_arg.zero).name ≠ "book" := by
    by_cases hp : ∃ a ∈ s1.2.arg, a.name = arg
    · rw [(hpres hp).1]; exact hnb
    · push_neg at hp
      rw [(habs hp).1]; decide
  unfold cmd_get_arg
  rw [hset, cmd_get_arg_loop_set_other "book" .arg_ITEM _ (by
    show my_strcpy arg nsz ≠ "book"
    rw [my_strcpy_of_lt arg nsz hfit]; exact hnb) s1.2.arg j2 hold hj2]
  exact g1

/-- C33, as the code has it.  With `(c, v)` what `cmd_get_arg_choice` gives for
the name of the spell and `(s, bk, x)` the spell, the book and the state that
the prompt gives: the prompt is `get_spell_from_book` with the stored book when
the record has an Item argument `"book"`, and `get_spell`, which chooses the
book, otherwise.  A stored spell that passes the filter, and any stored spell
when the filter is null, is returned with `CMD_OK` and without a prompt.
Otherwise `s < 0` gives `CMD_ARG_ABORTED`, and with `s >= 0` the helper, when it
returns, returns `CMD_OK` with `*spell = s`; it returns when the name is
neither empty nor `"book"` and two different slots of the record are there for
the two arguments, one that bears `"book"` or is unused and one that bears the
name or is unused; and for a name other than `"book"` that fits a name field
of more than four bytes, the record then holds the book as the Item `"book"`
and `s` as the Choice of that name. -/
theorem cmd_get_spell_spec (S : SpellPrompts) (nsz k : Nat) (arg : String) (spell : Int)
    (verb : String) (book_filter : Option item_tester) (book_error : Option String)
    (spell_filter : Option spell_tester) (spell_error : Option String) (w x : World)
    (c v s : Int) (bk : Ptr)
    (hg : cmd_get_arg_choice (w.slot k) arg spell = (c, v))
    (hp : cmd_get_spell_prompt S k verb book_filter book_error spell_filter spell_error w
      = (s, bk, x)) :
    ((∀ b : Ptr, cmd_get_arg (w.slot k) "book" .arg_ITEM = (CMD_OK, some (.obj b)) →
        cmd_get_spell_prompt S k verb book_filter book_error spell_filter spell_error w
          = ((S.get_spell_from_book verb b spell_error spell_filter w).1, b,
              (S.get_spell_from_book verb b spell_error spell_filter w).2)) ∧
      ((cmd_get_arg (w.slot k) "book" .arg_ITEM).1 ≠ CMD_OK →
        cmd_get_spell_prompt S k verb book_filter book_error spell_filter spell_error w
          = S.get_spell verb book_filter (w.slot k).code book_error spell_filter
              spell_error w)) ∧
    (c = CMD_OK ∧ spell_tester_passes spell_filter w v = true →
      cmd_get_spell S nsz k arg spell verb book_filter book_error spell_filter spell_error w
        = some ⟨CMD_OK, v, false, w⟩) ∧
    (c = CMD_OK →
      cmd_get_spell S nsz k arg spell verb book_filter book_error none spell_error w
        = some ⟨CMD_OK, v, false, w⟩) ∧
    (¬ (c = CMD_OK ∧ spell_tester_passes spell_filter w v = true) →
      (s < 0 →
        cmd_get_spell S nsz k arg spell verb book_filter book_error spell_filter spell_error
          w = some ⟨CMD_ARG_ABORTED, s, true, x⟩) ∧
      (0 ≤ s →
        (∀ r : Resolved Int,
          cmd_get_spell S nsz k arg spell verb book_filter book_error spell_filter
            spell_error w = some r →
          r.ret = CMD_OK ∧ r.out = s ∧ r.prompted = true ∧
          (arg ≠ "book" → arg.length < nsz → 4 < nsz → k < r.world.cmd_queue.length →
            cmd_get_arg (r.world.slot k) "book" .arg_ITEM = (CMD_OK, some (.obj bk)) ∧
            cmd_get_arg (r.world.slot k) arg .arg_CHOICE = (CMD_OK, some (.choice s)))) ∧
        (arg ≠ "" → arg ≠ "book" → k < x.cmd_queue.length →
          (∃ i j : Nat, i ≠ j ∧ i < (x.slot k).arg.length ∧ j < (x.slot k).arg.length ∧
            (((x.slot k).arg.getD i cmd_arg.zero).name = "book" ∨
              ((x.slot k).arg.getD i cmd_arg.zero).name = "") ∧
            (((x.slot k).arg.getD j cmd_arg.zero).name = arg ∨
              ((x.slot k).arg.getD j cmd_arg.zero).name = "")) →
          ∃ r : Resolved Int,
            cmd_get_spell S nsz k arg spell verb book_filter book_error spell_filter
              spell_error w = some r))) := by
  refine ⟨cmd_get_spell_prompt_cases S k verb book_filter book_error spell_filter
    spell_error w, ?_, ?_, ?_⟩
  · intro hst
    unfold cmd_get_spell
    simp only [hg]
    rw [if_pos hst]
  · intro hc
    unfold cmd_get_spell
    simp only [hg]
    rw [if_pos ⟨hc, rfl⟩]
  · intro hst
    have hneg : s < 0 →
        cmd_get_spell S nsz k arg spell verb book_filter book_error spell_filter spell_error
          w = some ⟨CMD_ARG_ABORTED, s, true, x⟩ := by
      intro hs
      unfold cmd_get_spell
      simp only [hg, hp]
      rw [if_neg hst, if_neg (by omega)]
    have hN1 : 0 ≤ s → cmd_set_arg_item nsz x.heap (x.slot k) (some "book") bk = none →
        cmd_get_spell S nsz k arg spell verb book_filter book_error spell_filter spell_error
          w = none := by
      intro hs h1
      unfold cmd_get_spell
      simp only [hg, hp]
      rw [if_neg hst, if_pos (by omega), h1]
    have hN2 : 0 ≤ s → ∀ s1 : Heap × command,
        cmd_set_arg_item nsz x.heap (x.slot k) (some "book") bk = some s1 →
        cmd_set_arg_choice nsz (({ x with heap := s1.1 } : World).set_slot k s1.2).heap
          ((({ x with heap := s1.1 } : World).set_slot k s1.2).slot k) (some arg) s = none →
        cmd_get_spell S nsz k arg spell verb book_filter book_error spell_filter spell_error
          w = none := by
      intro hs s1 h1 h2
      unfold cmd_get_spell
      simp only [hg, hp]
      rw [if_neg hst, if_pos (by omega), h1]
      simp only
      rw [h2]
    have hS : 0 ≤ s → ∀ s1 s2 : Heap × command,
        cmd_set_arg_item nsz x.heap (x.slot k) (some "book") bk = some s1 →
        cmd_set_arg_choice nsz (({ x with heap := s1.1 } : World).set_slot k s1.2).heap
          ((({ x with heap := s1.1 } : World).set_slot k s1.2).slot k) (some arg) s
            = some s2 →
        cmd_get_spell S nsz k arg spell verb book_filter book_error spell_filter spell_error
          w = some ⟨CMD_OK, s, true,
            ({ ({ x with heap := s1.1 } : World).set_slot k s1.2 with
              heap := s2.1 } : World).set_slot k s2.2⟩ := by
      intro hs s1 s2 h1 h2
      unfold cmd_get_spell
      simp only [hg, hp]
      rw [if_neg hst, if_pos (by omega), h1]
      simp only
      rw [h2]
    refine ⟨hneg, fun hs => ⟨?_, ?_⟩⟩
    · intro r hr
      cases h1 : cmd_set_arg_item nsz x.heap (x.slot k) (some "book") bk with
      | none => rw [hN1 hs h1] at hr; exact absurd hr (by simp)
      | some s1 =>
        cases h2 : cmd_set_arg_choice nsz
            (({ x with heap := s1.1 } : World).set_slot k s1.2).heap
            ((({ x with heap := s1.1 } : World).set_slot k s1.2).slot k) (some arg) s with
        | none => rw [hN2 hs s1 h1 h2] at hr; exact absurd hr (by simp)
        | some s2 =>
          rw [hS hs s1 s2 h1 h2] at hr
          simp only [Option.some.injEq] at hr
          rw [← hr]
          refine ⟨rfl, rfl, rfl, ?_⟩
          intro hnb hfit h4 hk
          have hk1 : k < x.cmd_queue.length := by
            have := hk
            rw [World.length_set_slot] at this
            have e : (({ ({ x with heap := s1.1 } : World).set_slot k s1.2 with
                heap := s2.1 } : World)).cmd_queue.length = x.cmd_queue.length :=
              World.length_set_slot _ k s1.2
            rw [e] at this
            exact this
          have hk2 : k < (({ x with heap := s1.1 } : World)).cmd_queue.length := hk1
          have hk3 : k < (({ ({ x with heap := s1.1 } : World).set_slot k s1.2 with
              heap := s2.1 } : World)).cmd_queue.length := by
            have e : (({ ({ x with heap := s1.1 } : World).set_slot k s1.2 with
                heap := s2.1 } : World)).cmd_queue.length = x.cmd_queue.length :=
              World.length_set_slot _ k s1.2
            rw [e]; exact hk1
          have e1 : (({ x with heap := s1.1 } : World).set_slot k s1.2).slot k = s1.2 := by
            rw [World.slot_set_slot, if_pos ⟨rfl, hk2⟩]
          rw [e1] at h2
          show cmd_get_arg ((World.set_slot _ k s2.2).slot k) "book" .arg_ITEM = _ ∧
            cmd_get_arg ((World.set_slot _ k s2.2).slot k) arg .arg_CHOICE = _
          rw [World.slot_set_slot, if_pos ⟨rfl, hk3⟩]
          exact cmd_get_spell_stored nsz x.heap (x.slot k) arg bk s s1 s2 hnb hfit h4 h1 h2
    · intro hne hnb hk hroom
      obtain ⟨s1, h1, s2, h2⟩ := cmd_get_spell_room nsz x.heap (x.slot k) arg bk s hne hnb hroom
      have hk2 : k < (({ x with heap := s1.1 } : World)).cmd_queue.length := hk
      have e1 : (({ x with heap := s1.1 } : World).set_slot k s1.2).slot k = s1.2 := by
        rw [World.slot_set_slot, if_pos ⟨rfl, hk2⟩]
      have h2b : cmd_set_arg_choice nsz (({ x with heap := s1.1 } : World).set_slot k s1.2).heap
          ((({ x with heap := s1.1 } : World).set_slot k s1.2).slot k) (some arg) s
            = some s2 := by
        rw [e1]; exact h2
      exact ⟨_, hS hs s1 s2 h1 h2b⟩

set_option maxRecDepth 100000 in
/-- Witness of C33: on the cast command, which holds no argument, the prompt
that chooses the book answers spell 2 of book 1; the helper returns `CMD_OK`
with 2 and the record holds `"book"` and `"spell"`. -/
theorem cmd_get_spell_spec_witness :
    cmd_get_arg_choice (ex_cast_queued.slot 0) "spell" 0 = (CMD_ARG_NOT_PRESENT, 0) ∧
    cmd_get_spell_prompt ex_spell_prompts 0 "cast" none none none none ex_cast_queued
      = (2, 1, ex_cast_queued) ∧
    (∃ r : Resolved Int,
      cmd_get_spell ex_spell_prompts 20 0 "spell" 0 "cast" none none none none
        ex_cast_queued = some r ∧
      r.ret = CMD_OK ∧ r.out = 2 ∧ r.prompted = true ∧
      cmd_get_arg (r.world.slot 0) "book" .arg_ITEM = (CMD_OK, some (.obj 1)) ∧
      cmd_get_arg (r.world.slot 0) "spell" .arg_CHOICE = (CMD_OK, some (.choice 2))) := by
  have T := cmd_get_spell_spec ex_spell_prompts 20 0 "spell" 0 "cast" none none none none
    ex_cast_queued ex_cast_queued CMD_ARG_NOT_PRESENT 0 2 1 (by decide) (by rfl)
  refine ⟨by decide, by rfl, ?_⟩
  obtain ⟨hall, hex⟩ := (T.2.2.2 (by decide)).2 (by decide)
  obtain ⟨r, hr⟩ := hex (by decide) (by decide) (by decide)
    ⟨0, 1, by decide, by decide, by decide, by decide, by decide⟩
  obtain ⟨r1, r2, r3, r4⟩ := hall r hr
  have hlen : r.world.cmd_queue.length = 20 := by
    have hrun : cmd_get_spell ex_spell_prompts 20 0 "spell" 0 "cast" none none none none
        ex_cast_queued = some ⟨CMD_OK, 2, true,
          ((cmd_get_spell ex_spell_prompts 20 0 "spell" 0 "cast" none none none none
            ex_cast_queued).map (fun q => q.world)).getD ex_fresh⟩ := by rfl
    rw [hrun] at hr
    simp only [Option.some.injEq] at hr
    rw [← hr]
    decide
  obtain ⟨g1, g2⟩ := r4 (by decide) (by decide) (by decide) (by rw [hlen]; decide)
  exact ⟨r, hr, r1, r2, r3, g1, g2⟩

set_option maxRecDepth 100000 in
/-- Counterexample to C33: with a name field of 20 bytes and the 22-byte name
`"direction_of_next_step"` for the spell, on the cast command, the prompt
answers spell 2 of book 1; the helper returns `CMD_OK` with `*spell = 2`, and
the record holds the book, but it has no argument of the name of the spell. -/
theorem cmd_get_spell_long_name :
    (cmd_get_spell ex_spell_prompts 20 0 "direction_of_next_step" 0 "cast" none none none
      none ex_cast_queued).map (fun r => (r.ret, r.out, r.prompted))
      = some (CMD_OK, 2, true) ∧
    (cmd_get_spell ex_spell_prompts 20 0 "direction_of_next_step" 0 "cast" none none none
      none ex_cast_queued).map
        (fun r => cmd_get_arg (r.world.slot 0) "book" .arg_ITEM)
      = some (CMD_OK, some (.obj 1)) ∧
    (cmd_get_spell ex_spell_prompts 20 0 "direction_of_next_step" 0 "cast" none none none
      none ex_cast_queued).map
        (fun r => cmd_get_arg (r.world.slot 0) "direction_of_next_step" .arg_CHOICE)
      = some (CMD_ARG_NOT_PRESENT, none) := by
  decide

/-! ### First in, first out -/

theorem counts_frame_of_eq (w w1 : World) (hq : w1.cmd_queue = w.cmd_queue)
    (hh : w1.cmd_head = w.cmd_head) (ht : w1.cmd_tail = w.cmd_tail)
    (hr : w1.repeating = w.repeating) : counts_frame w w1 := by
  refine ⟨hh, ht, hr, by rw [hq], fun j => ?_⟩
  rw [World.slot_congr w w1 j hq]
  exact ⟨rfl, rfl⟩

theorem counts_frame_set_slot (w : World) (k : Nat) (c : command)
    (h1 : c.code = (w.slot k).code) (h2 : c.nrepeats = (w.slot k).nrepeats) :
    counts_frame w (w.set_slot k c) := by
  refine ⟨rfl, rfl, rfl, World.length_set_slot w k c, fun j => ?_⟩
  rw [World.slot_set_slot]
  split_ifs with h
  · obtain ⟨hk, _⟩ := h
    subst hk
    exact ⟨h1, h2⟩
  · exact ⟨rfl, rfl⟩

/-- The entry that `process_command` uses for a record whose code does not
repeat by itself has no auto-repeat. -/
theorem process_command_entry_no_auto (k : Nat) (w : World) (e : command_info)
    (he : process_command_entry k w = some e) (hauto : auto_repeats (w.slot k).code = false) :
    ¬ (e.repeat_allowed = true ∧ e.auto_repeat_n > 0) := by
  by_cases hc : w.player.timed_COMMAND ≠ 0
  · rw [process_command_entry_commanded k w hc] at he
    simp only [Option.some.injEq] at he
    rw [← he]
    rintro ⟨h1, _⟩
    exact absurd h1 (by decide)
  · unfold process_command_entry at he
    simp only at he
    rw [if_neg hc] at he
    by_cases h1 : cmd_idx (w.slot k).code = -1
    · rw [if_pos h1] at he
      exact absurd he (by simp)
    · rw [if_neg h1] at he
      simp only [Option.some.injEq] at he
      rw [← he]
      rintro ⟨a1, a2⟩
      have ht : auto_repeats (w.slot k).code = true := by
        unfold auto_repeats
        simp only [Bool.and_eq_true, decide_eq_true_eq]
        exact ⟨h1, a1, a2⟩
      rw [ht] at hauto
      exact absurd hauto (by decide)

/-- The block "Command repetition" on a record with count 0 that does not
repeat by itself, when no repeat is in progress: no count and no flag
changes. -/
theorem process_command_prepare_idle (ctx : cmd_context) (e : command_info) (k : Nat)
    (x : World) (h0 : (x.slot k).nrepeats = 0) (hr : x.repeating = false)
    (hauto : ¬ (e.repeat_allowed = true ∧ e.auto_repeat_n > 0)) :
    counts_frame x (process_command_prepare ctx e k x) := by
  unfold process_command_prepare
  simp only
  by_cases hra : e.repeat_allowed = true
  · have hn : ¬ (e.auto_repeat_n > 0 ∧ (x.slot k).nrepeats = 0) := fun h => hauto ⟨hra, h.1⟩
    rw [if_pos hra, if_neg hn]
    exact counts_frame_trans _ _ _
      (counts_frame_of_eq x { x with repeat_prev_allowed := true } rfl rfl rfl rfl)
      (counts_frame_set_slot _ k _ rfl rfl)
  · rw [if_neg hra]
    have s1 : counts_frame x (x.set_slot k { x.slot k with nrepeats := 0 }) :=
      counts_frame_set_slot x k _ rfl h0.symm
    refine counts_frame_trans _ _ _ (counts_frame_trans _ _ _ s1 ?_)
      (counts_frame_set_slot _ k _ rfl rfl)
    exact ⟨rfl, rfl, hr.symm, rfl, fun _ => ⟨rfl, rfl⟩⟩

/-- `process_command` on a record with count 0 that does not repeat by itself,
when no repeat is in progress and handlers and the forced attack leave the
records alone: the cursors, the flags and every record stay as they were. -/
theorem process_command_idle (env : Env) (ctx : cmd_context) (k : Nat) (w : World)
    (h0 : (w.slot k).nrepeats = 0) (hr : w.repeating = false)
    (hauto : auto_repeats (w.slot k).code = false)
    (hH : ∀ (c : cmd_code) (j : Nat), keeps_records (env.handler c j))
    (hA : keeps_records (fun x => (env.player_attack_random_monster x).2)) :
    queue_frame w (process_command env ctx k w) ∧
    counts_frame w (process_command env ctx k w) := by
  refine process_command_invariant (fun x => queue_frame w x ∧ counts_frame w x) env ctx k w
    ⟨queue_frame_of_eq _ _ rfl rfl rfl rfl, counts_frame_of_eq _ _ rfl rfl rfl rfl⟩
    ?_ ?_ ?_ ?_ ?_
  · intro e x he hx
    obtain ⟨_, _, c3, _, c5⟩ := hx.2
    refine ⟨queue_frame_trans _ _ _ hx.1 (process_command_prepare_frame ctx e k x),
      counts_frame_trans _ _ _ hx.2 (process_command_prepare_idle ctx e k x
        ((c5 k).2.trans h0) (c3.trans hr) (process_command_entry_no_auto k w e he hauto))⟩
  · intro x pl r hx
    exact ⟨queue_frame_trans _ _ _ hx.1 (queue_frame_of_eq _ _ rfl rfl rfl rfl),
      counts_frame_trans _ _ _ hx.2 (counts_frame_of_eq _ _ rfl rfl rfl rfl)⟩
  · intro x hx
    exact ⟨queue_frame_trans _ _ _ hx.1 (hA x).1, counts_frame_trans _ _ _ hx.2 (hA x).2⟩
  · intro c x hx
    exact ⟨queue_frame_trans _ _ _ hx.1 (hH c k x).1,
      counts_frame_trans _ _ _ hx.2 (hH c k x).2⟩
  · intro x hx
    obtain ⟨_, _, _, _, c5⟩ := hx.2
    have hn : ¬ ((x.slot k).nrepeats > 0 ∧ (w.slot k).nrepeats = cmd_get_nrepeats x) := by
      rw [(c5 k).2, h0]
      intro h
      exact absurd h.1 (by decide)
    have e : process_command_count (w.slot k).nrepeats k x = x := by
      unfold process_command_count
      rw [if_neg hn]
    rw [e]
    exact hx

/-- One call of `cmdq_pop` on a queue that is not empty, when no repeat is in
progress and the record at the tail has count 0 and does not repeat by itself:
that record is fetched, the tail advances, and the cursors, the flags and the
records are otherwise as they were. -/
theorem cmdq_pop_idle (env : Env) (ctx : cmd_context) (w : World)
    (hne : w.cmd_head ≠ w.cmd_tail) (hr : w.repeating = false)
    (h0 : (w.slot w.cmd_tail).nrepeats = 0)
    (hauto : auto_repeats (w.slot w.cmd_tail).code = false)
    (hH : ∀ (c : cmd_code) (j : Nat), keeps_records (env.handler c j))
    (hA : keeps_records (fun x => (env.player_attack_random_monster x).2)) :
    (∃ wf : World, cmdq_pop_fetch w = some (w.cmd_tail, wf) ∧
      wf.slot w.cmd_tail = w.slot w.cmd_tail) ∧
    (cmdq_pop env ctx w).1 = true ∧
    (cmdq_pop env ctx w).2.cmd_head = w.cmd_head ∧
    (cmdq_pop env ctx w).2.cmd_tail
      = (if w.cmd_tail + 1 = CMD_QUEUE_SIZE then 0 else w.cmd_tail + 1) ∧
    (cmdq_pop env ctx w).2.repeating = false ∧
    (cmdq_pop env ctx w).2.cmd_queue.length = w.cmd_queue.length ∧
    ∀ j : Nat, ((cmdq_pop env ctx w).2.slot j).body = (w.slot j).body := by
  obtain ⟨wf, f1, fq, _, fh, ft, _, fr, _, _⟩ := cmdq_pop_fetch_next w hr hne
  have hp : cmdq_pop env ctx w = (true, process_command env ctx w.cmd_tail wf) := by
    unfold cmdq_pop; rw [f1]
  have hs : ∀ j : Nat, wf.slot j = w.slot j := fun j => World.slot_congr w wf j fq
  obtain ⟨⟨q1, q2, _, q4, q5⟩, ⟨_, _, c3, _, c5⟩⟩ :=
    process_command_idle env ctx w.cmd_tail wf (by rw [hs]; exact h0) (fr.trans hr)
      (by rw [hs]; exact hauto) hH hA
  rw [hp]
  refine ⟨⟨wf, f1, hs _⟩, rfl, q1.trans fh, q2.trans ft, c3.trans (fr.trans hr),
    by rw [q4, fq], fun j => ?_⟩
  obtain ⟨x1, x2, x3⟩ := q5 j
  obtain ⟨_, y2⟩ := c5 j
  rw [hs] at x1 x2 x3 y2
  unfold command.body
  rw [x1, x2, x3, y2]

/-- An accepted push of a command other than `CMD_REPEAT`: the record goes into
the slot at the head, the head advances, and the tail, the flag `repeating` and
the other slots stay. -/
theorem cmdq_push_copy_accept (cmd : command) (w : World) (hc : cmd.code ≠ .CMD_REPEAT)
    (h1 : ¬ (w.cmd_head + 1 = w.cmd_tail))
    (h2 : ¬ (w.cmd_head + 1 = CMD_QUEUE_SIZE ∧ w.cmd_tail = 0)) :
    ∃ w1 : World, cmdq_push_copy cmd w = some (0, w1) ∧
      w1.cmd_queue = w.cmd_queue.set w.cmd_head cmd ∧
      w1.cmd_head = (if w.cmd_head + 1 = CMD_QUEUE_SIZE then 0 else w.cmd_head + 1) ∧
      w1.cmd_tail = w.cmd_tail ∧ w1.repeating = w.repeating := by
  refine ⟨cmdq_push_advance (cmdq_push_store cmd (cmdq_push_save_last w)), ?_, ?_, ?_, ?_, ?_⟩
  · unfold cmdq_push_copy
    rw [if_neg h1, if_neg h2, if_pos hc]
  · show (cmdq_push_store cmd (cmdq_push_save_last w)).cmd_queue = _
    rw [(cmdq_push_store_queue _ _).1, (cmdq_push_save_last_queue w).1,
      (cmdq_push_save_last_queue w).2.1]
  · show (if (cmdq_push_store cmd (cmdq_push_save_last w)).cmd_head + 1 = CMD_QUEUE_SIZE
      then 0 else (cmdq_push_store cmd (cmdq_push_save_last w)).cmd_head + 1) = _
    rw [(cmdq_push_store_queue _ _).2.1, (cmdq_push_save_last_queue w).2.1]
  · show (cmdq_push_store cmd (cmdq_push_save_last w)).cmd_tail = _
    rw [(cmdq_push_store_queue _ _).2.2.1, (cmdq_push_save_last_queue w).2.2.1]
  · show (cmdq_push_store cmd (cmdq_push_save_last w)).repeating = _
    rw [(cmdq_push_store_queue _ _).2.2.2, (cmdq_push_save_last_queue w).2.2.2]

/-- The arithmetic of one accepted push. -/
theorem cursors_after_push (h t n : Nat) (hh : h < 20) (ht : t < 20)
    (hq : (h + 20 - t) % 20 + (n + 1) ≤ 19) :
    ¬ (h + 1 = t) ∧ ¬ (h + 1 = 20 ∧ t = 0) ∧
    (if h + 1 = 20 then 0 else h + 1) < 20 ∧
    ((if h + 1 = 20 then 0 else h + 1) + 20 - t) % 20 + n ≤ 19 ∧
    (∀ i : Nat, ((if h + 1 = 20 then 0 else h + 1) + i) % 20 = (h + (i + 1)) % 20) ∧
    (h + (n + 1)) % 20 = ((if h + 1 = 20 then 0 else h + 1) + n) % 20 ∧
    (∀ i : Nat, i < n → h ≠ ((if h + 1 = 20 then 0 else h + 1) + i) % 20) := by
  by_cases c : h + 1 = 20
  · rw [if_pos c]
    refine ⟨by omega, by omega, by omega, by omega, fun i => by omega, by omega,
      fun i hi => by omega⟩
  · rw [if_neg c]
    refine ⟨by omega, by omega, by omega, by omega, fun i => by omega, by omega,
      fun i hi => by omega⟩

/-- Pushing a list of commands other than `CMD_REPEAT` into a queue that has
room for them: every push returns 0, the records are in the slots from the old
head on, wrapping around, and the tail, the flag `repeating` and the other slots
stay. -/
theorem cmdq_push_list_spec : ∀ (cmds : List command) (w : World),
    w.cmd_queue.length = CMD_QUEUE_SIZE → w.cmd_head < CMD_QUEUE_SIZE →
    w.cmd_tail < CMD_QUEUE_SIZE → queued_count w + cmds.length ≤ 19 →
    (∀ c ∈ cmds, c.code ≠ .CMD_REPEAT) →
    ∃ w1 : World, cmdq_push_list cmds w = some (List.replicate cmds.length 0, w1) ∧
      w1.cmd_tail = w.cmd_tail ∧
      w1.cmd_head = (w.cmd_head + cmds.length) % CMD_QUEUE_SIZE ∧
      w1.repeating = w.repeating ∧ w1.cmd_queue.length = CMD_QUEUE_SIZE ∧
      (∀ i : Nat, i < cmds.length →
        w1.slot ((w.cmd_head + i) % CMD_QUEUE_SIZE) = cmds.getD i command.zero) ∧
      (∀ j : Nat, (∀ i : Nat, i < cmds.length → j ≠ (w.cmd_head + i) % CMD_QUEUE_SIZE) →
        w1.slot j = w.slot j) := by
  intro cmds
  induction cmds with
  | nil =>
    intro w hlen hh ht _ _
    refine ⟨w, rfl, rfl, ?_, rfl, hlen, fun i hi => absurd hi (Nat.not_lt_zero i),
      fun _ _ => rfl⟩
    show w.cmd_head = (w.cmd_head + 0) % CMD_QUEUE_SIZE
    rw [Nat.add_zero, Nat.mod_eq_of_lt hh]
  | cons c rest ih =>
    intro w hlen hh ht hq hc
    have hq2 : (w.cmd_head + 20 - w.cmd_tail) % 20 + (rest.length + 1) ≤ 19 := hq
    have hh2 : w.cmd_head < 20 := hh
    have ht2 : w.cmd_tail < 20 := ht
    obtain ⟨n1, n2, n3, n4, n5, n6, n7⟩ :=
      cursors_after_push w.cmd_head w.cmd_tail rest.length hh2 ht2 hq2
    obtain ⟨w0, p1, p2, p3, p4, p5⟩ :=
      cmdq_push_copy_accept c w (hc c (List.mem_cons_self c rest)) n1 n2
    have hlen0 : w0.cmd_queue.length = CMD_QUEUE_SIZE := by rw [p2, List.length_set]; exact hlen
    obtain ⟨w1, r1, r2, r3, r4, r5, r6, r7⟩ := ih w0 hlen0 (by rw [p3]; exact n3)
      (by rw [p4]; exact ht) (by show (w0.cmd_head + 20 - w0.cmd_tail) % 20 + _ ≤ 19
                                 rw [p3, p4]; exact n4)
      (fun a ha => hc a (List.mem_cons_of_mem c ha))
    have hs0 : ∀ j : Nat, w0.slot j = if w.cmd_head = j then c else w.slot j := by
      intro j
      have e : w0.slot j = (w.set_slot w.cmd_head c).slot j :=
        World.slot_congr (w.set_slot w.cmd_head c) w0 j p2
      rw [e, World.slot_set_slot]
      by_cases hj : w.cmd_head = j
      · rw [if_pos ⟨hj, by rw [hlen]; exact hh⟩, if_pos hj]
      · rw [if_neg (fun h => hj h.1), if_neg hj]
    refine ⟨w1, ?_, r2.trans p4, ?_, r4.trans p5, r5, ?_, ?_⟩
    · show (match cmdq_push_copy c w with
        | none => none
        | some r => (cmdq_push_list rest r.2).map
            (fun (t : List Int × World) => (r.1 :: t.1, t.2))) = _
      rw [p1]
      simp only
      rw [r1]
      rfl
    · rw [r3, p3]
      show _ = (w.cmd_head + (rest.length + 1)) % 20
      rw [n6]
      rfl
    · intro i hi
      cases i with
      | zero =>
        have e : (w.cmd_head + 0) % CMD_QUEUE_SIZE = w.cmd_head := by
          rw [Nat.add_zero, Nat.mod_eq_of_lt hh]
        rw [e, r7 w.cmd_head (fun i hi => by rw [p3]; exact n7 i hi), hs0, if_pos rfl]
        rfl
      | succ i1 =>
        have hi1 : i1 < rest.length := Nat.lt_of_succ_lt_succ hi
        have e := r6 i1 hi1
        rw [p3] at e
        have e2 : ((if w.cmd_head + 1 = CMD_QUEUE_SIZE then 0 else w.cmd_head + 1) + i1)
            % CMD_QUEUE_SIZE = (w.cmd_head + (i1 + 1)) % CMD_QUEUE_SIZE := n5 i1
        rw [e2] at e
        rw [e]
        rfl
    · intro j hj
      have hj0 : w.cmd_head ≠ j := by
        have := hj 0 (Nat.succ_pos _)
        rw [Nat.add_zero, Nat.mod_eq_of_lt hh] at this
        exact fun h => this h.symm
      rw [r7 j (fun i hi => by
        rw [p3]
        have e2 : ((if w.cmd_head + 1 = CMD_QUEUE_SIZE then 0 else w.cmd_head + 1) + i)
            % CMD_QUEUE_SIZE = (w.cmd_head + (i + 1)) % CMD_QUEUE_SIZE := n5 i
        rw [e2]
        exact hj (i + 1) (Nat.succ_lt_succ hi)), hs0, if_neg hj0]

/-- The arithmetic of one pop. -/
theorem cursors_fifo (t n : Nat) (ht : t < 20) (hn : n + 1 ≤ 19) :
    (t + (n + 1)) % 20 ≠ t ∧ (if t + 1 = 20 then 0 else t + 1) < 20 ∧
    (t + (n + 1)) % 20 = ((if t + 1 = 20 then 0 else t + 1) + n) % 20 ∧
    (∀ i : Nat, ((if t + 1 = 20 then 0 else t + 1) + i) % 20 = (t + (i + 1)) % 20) := by
  by_cases c : t + 1 = 20
  · rw [if_pos c]
    exact ⟨by omega, by omega, by omega, fun i => by omega⟩
  · rw [if_neg c]
    exact ⟨by omega, by omega, by omega, fun i => by omega⟩

theorem cmdq_pops_records_step (env : Env) (ctx : cmd_context) (f : Nat) (w : World)
    (k : Nat) (wf : World) (h : cmdq_pop_fetch w = some (k, wf)) :
    cmdq_pops_records env ctx (f + 1) w
      = wf.slot k :: cmdq_pops_records env ctx f (cmdq_pop env ctx w).2 := by
  show (match cmdq_pop_fetch w with
    | some kw => kw.2.slot kw.1 :: cmdq_pops_records env ctx f (cmdq_pop env ctx w).2
    | none => cmdq_pops_records env ctx f (cmdq_pop env ctx w).2) = _
  rw [h]

theorem range_map_shift (t u n : Nat) (h0 : t % 20 = t)
    (hs : ∀ i : Nat, (u + i) % 20 = (t + (i + 1)) % 20) :
    (List.range (n + 1)).map (fun i => (t + i) % 20)
      = t :: (List.range n).map (fun i => (u + i) % 20) := by
  rw [List.range_succ_eq_map, List.map_cons, List.map_map]
  congr 1
  apply List.map_congr_left
  intro i _
  show (t + (i + 1)) % 20 = (u + i) % 20
  exact (hs i).symm

/-- The pops of a queue that holds the records of a list, each with count 0
and a code that does not repeat by itself, when no repeat is in progress and
handlers and the forced attack leave the records alone: the records are
fetched from the tail on, in the order of the list, and the queue is empty
afterwards. -/
theorem cmdq_pops_fifo (env : Env) (ctx : cmd_context)
    (hH : ∀ (c : cmd_code) (j : Nat), keeps_records (env.handler c j))
    (hA : keeps_records (fun x => (env.player_attack_random_monster x).2)) :
    ∀ (cmds : List command) (x : World),
    x.cmd_tail < CMD_QUEUE_SIZE → x.cmd_head = (x.cmd_tail + cmds.length) % CMD_QUEUE_SIZE →
    cmds.length ≤ 19 → x.repeating = false →
    (∀ i : Nat, i < cmds.length →
      (x.slot ((x.cmd_tail + i) % CMD_QUEUE_SIZE)).body = (cmds.getD i command.zero).body) →
    (∀ c ∈ cmds, c.nrepeats = 0 ∧ auto_repeats c.code = false) →
    cmdq_pops_fetched env ctx cmds.length x
      = (List.range cmds.length).map (fun i => (x.cmd_tail + i) % CMD_QUEUE_SIZE) ∧
    (cmdq_pops_records env ctx cmds.length x).map command.body = cmds.map command.body ∧
    (∀ i : Nat, i < cmds.length → (cmdq_pop env ctx (cmdq_pops env ctx i x)).1 = true) ∧
    (cmdq_pops env ctx cmds.length x).repeating = false ∧
    (cmdq_pops env ctx cmds.length x).cmd_head = x.cmd_head ∧
    (cmdq_pops env ctx cmds.length x).cmd_tail = x.cmd_head := by
  intro cmds
  induction cmds with
  | nil =>
    intro x ht hh _ hr _ _
    have e : x.cmd_head = x.cmd_tail := by
      rw [hh]
      show (x.cmd_tail + 0) % CMD_QUEUE_SIZE = _
      rw [Nat.add_zero, Nat.mod_eq_of_lt ht]
    exact ⟨rfl, rfl, fun i hi => absurd hi (Nat.not_lt_zero i), hr, rfl, e.symm⟩
  | cons c rest ih =>
    intro x ht hh hlen hr hslots hcmds
    have ht2 : x.cmd_tail < 20 := ht
    obtain ⟨n1, n2, n3, n4⟩ := cursors_fifo x.cmd_tail rest.length ht2 hlen
    have hmod : x.cmd_tail % 20 = x.cmd_tail := Nat.mod_eq_of_lt ht2
    have hne : x.cmd_head ≠ x.cmd_tail := by rw [hh]; exact n1
    have hb0 : (x.slot x.cmd_tail).body = c.body := by
      have := hslots 0 (Nat.succ_pos _)
      rw [Nat.add_zero] at this
      have e : x.cmd_tail % CMD_QUEUE_SIZE = x.cmd_tail := hmod
      rw [e] at this
      exact this
    obtain ⟨hc0, hca⟩ := hcmds c (List.mem_cons_self c rest)
    have h0 : (x.slot x.cmd_tail).nrepeats = 0 := by
      have : (x.slot x.cmd_tail).body.2.1 = c.body.2.1 := by rw [hb0]
      exact this.trans hc0
    have hauto : auto_repeats (x.slot x.cmd_tail).code = false := by
      have : (x.slot x.cmd_tail).body.1 = c.body.1 := by rw [hb0]
      have e : (x.slot x.cmd_tail).code = c.code := this
      rw [e]; exact hca
    obtain ⟨⟨wf, f1, f2⟩, p1, p2, p3, p4, _, p6⟩ :=
      cmdq_pop_idle env ctx x hne hr h0 hauto hH hA
    obtain ⟨r1, r2, r3, r4, r5, r6⟩ := ih (cmdq_pop env ctx x).2 (by rw [p3]; exact n2)
      (by rw [p2, p3, hh]; exact n3) (Nat.le_of_succ_le hlen) p4
      (fun i hi => by
        rw [p6, p3]
        have e : ((if x.cmd_tail + 1 = CMD_QUEUE_SIZE then 0 else x.cmd_tail + 1) + i)
            % CMD_QUEUE_SIZE = (x.cmd_tail + (i + 1)) % CMD_QUEUE_SIZE := n4 i
        rw [e]
        exact hslots (i + 1) (Nat.succ_lt_succ hi))
      (fun a ha => hcmds a (List.mem_cons_of_mem c ha))
    refine ⟨?_, ?_, ?_, r4, r5.trans p2, r6.trans p2⟩
    · show cmdq_pops_fetched env ctx (rest.length + 1) x = _
      rw [cmdq_pops_fetched_step env ctx rest.length x x.cmd_tail wf f1, r1, p3]
      exact (range_map_shift x.cmd_tail _ rest.length hmod n4).symm
    · show (cmdq_pops_records env ctx (rest.length + 1) x).map command.body = _
      rw [cmdq_pops_records_step env ctx rest.length x x.cmd_tail wf f1, List.map_cons, r2,
        f2, hb0]
      rfl
    · intro i hi
      cases i with
      | zero => exact p1
      | succ i1 => exact r3 i1 (Nat.lt_of_succ_lt_succ hi)

/-- C36: into a queue of 20 slots that is empty (`cmd_tail = cmd_head`, at any
slot) and not repeating, at most 19 commands other than `CMD_REPEAT` are
pushed, each with repeat count 0 and a code whose entry does not repeat by
itself.  Every push returns 0; the pops that follow, as many as there are
commands, each return true and hand to `process_command` the records in the
order in which they were pushed, from the slots `cmd_head`, `cmd_head + 1`, ...
modulo 20, each with the code, the count, the background flag and the
arguments it was pushed with; and the pop after them returns false.  Handlers
and the forced attack leave the records of the queue alone. -/
theorem fifo_order (env : Env) (ctx : cmd_context) (w : World) (cmds : List command)
    (hlen : w.cmd_queue.length = CMD_QUEUE_SIZE) (hh : w.cmd_head < CMD_QUEUE_SIZE)
    (hempty : w.cmd_tail = w.cmd_head) (hrep : w.repeating = false)
    (hk : cmds.length ≤ 19)
    (hcmds : ∀ c ∈ cmds, c.code ≠ .CMD_REPEAT ∧ c.nrepeats = 0 ∧ auto_repeats c.code = false)
    (hH : ∀ (c : cmd_code) (j : Nat), keeps_records (env.handler c j))
    (hA : keeps_records (fun x => (env.player_attack_random_monster x).2)) :
    ∃ w1 : World, cmdq_push_list cmds w = some (List.replicate cmds.length 0, w1) ∧
      cmdq_pops_fetched env ctx cmds.length w1
        = (List.range cmds.length).map (fun i => (w.cmd_head + i) % CMD_QUEUE_SIZE) ∧
      (cmdq_pops_records env ctx cmds.length w1).map command.body = cmds.map command.body ∧
      (∀ i : Nat, i < cmds.length → (cmdq_pop env ctx (cmdq_pops env ctx i w1)).1 = true) ∧
      (cmdq_pop env ctx (cmdq_pops env ctx cmds.length w1)).1 = false := by
  have hq : queued_count w + cmds.length ≤ 19 := by
    have e : queued_count w = 0 := by
      unfold queued_count
      rw [hempty]
      unfold CMD_QUEUE_SIZE at *
      omega
    rw [e]; omega
  obtain ⟨w1, a1, a2, a3, a4, _, a6, _⟩ := cmdq_push_list_spec cmds w hlen hh
    (by rw [hempty]; exact hh) hq (fun c hc => (hcmds c hc).1)
  have t1 : w1.cmd_tail = w.cmd_head := a2.trans hempty
  obtain ⟨b1, b2, b3, b4, b5, b6⟩ := cmdq_pops_fifo env ctx hH hA cmds w1
    (by rw [t1]; exact hh) (by rw [a3, t1]) hk (a4.trans hrep)
    (fun i hi => by rw [t1, a6 i hi]) (fun c hc => (hcmds c hc).2)
  refine ⟨w1, a1, by rw [b1, t1], b2, b3, ?_⟩
  have hn := cmdq_pop_fetch_none (cmdq_pops env ctx cmds.length w1) b4 (b5.trans b6.symm)
  unfold cmdq_pop
  rw [hn]

set_option maxRecDepth 100000 in
/-- Witness of C36: three commands pushed into an empty queue whose cursors are
at slot 18 go into slots 18, 19 and 0; three pops hand them over in that
order, and the fourth returns false. -/
theorem fifo_order_witness :
    ∃ w1 : World, cmdq_push_list ex_three ex_at_18 = some ([0, 0, 0], w1) ∧
      cmdq_pops_fetched ex_env .CTX_INIT 3 w1 = [18, 19, 0] ∧
      (cmdq_pops_records ex_env .CTX_INIT 3 w1).map command.body
        = ex_three.map command.body ∧
      (cmdq_pop ex_env .CTX_INIT (cmdq_pops ex_env .CTX_INIT 3 w1)).1 = false := by
  obtain ⟨w1, a, b, c, _, e⟩ := fifo_order ex_env .CTX_INIT ex_at_18 ex_three (by decide)
    (by decide) (by decide) (by decide) (by decide) (by decide)
    (fun _ _ x => ⟨queue_frame_refl x, counts_frame_refl x⟩)
    (fun x => ⟨queue_frame_refl x, counts_frame_refl x⟩)
  exact ⟨w1, a, b, c, e⟩

/-! ### Counting a repeat down -/

theorem process_command_prepare_timer (ctx : cmd_context) (e : command_info) (k : Nat)
    (w : World) :
    (process_command_prepare ctx e k w).player.timed_COMMAND = w.player.timed_COMMAND := by
  unfold process_command_prepare
  simp only
  split_ifs <;> rfl

theorem process_command_count_timer (n : Int) (k : Nat) (w : World) :
    (process_command_count n k w).player.timed_COMMAND = w.player.timed_COMMAND := by
  unfold process_command_count
  split_ifs <;> rfl

theorem process_command_coerce_timer (env : Env) (e : command_info) (k : Nat) (w : World)
    (hA : keeps_timer (fun x => (env.player_attack_random_monster x).2)) :
    (process_command_coerce env e k w).2.player.timed_COMMAND = w.player.timed_COMMAND := by
  unfold process_command_coerce
  simp only
  split_ifs
  all_goals first
    | rfl
    | exact hA _

/-- `process_command` leaves the timer `TMD_COMMAND` alone when handlers and
the forced attack do. -/
theorem process_command_timer (env : Env) (ctx : cmd_context) (k : Nat) (w : World)
    (hH : ∀ (c : cmd_code) (j : Nat), keeps_timer (env.handler c j))
    (hA : keeps_timer (fun x => (env.player_attack_random_monster x).2)) :
    (process_command env ctx k w).player.timed_COMMAND = w.player.timed_COMMAND := by
  unfold process_command
  simp only
  cases he : process_command_entry k w with
  | none => rfl
  | some e =>
    simp only
    have hx := process_command_prepare_timer ctx e k
      { w with player := { w.player with command_wrk := 0 } }
    have hx2 : (process_command_prepare ctx e k
        { w with player := { w.player with command_wrk := 0 } }).player.timed_COMMAND
        = w.player.timed_COMMAND := hx
    generalize process_command_prepare ctx e k
      { w with player := { w.player with command_wrk := 0 } } = x at hx2
    split_ifs
    · exact (process_command_coerce_timer env e k x hA).trans hx2
    · rw [process_command_count_timer, hH]
      exact (process_command_coerce_timer env e k x hA).trans hx2
    · rw [process_command_count_timer]
      exact hx2

/-- The call of the handler in `process_command`, for an entry with a handler,
when handlers push no command and change no count and the forced attack does
not take place: the handler is called in a state with the counts that the
block "Command repetition" left, and the final count follows. -/
theorem process_command_middle_call (env : Env) (ctx : cmd_context) (k : Nat) (w : World)
    (e : command_info) (he : process_command_entry k w = some e) (hfn : e.fn = true)
    (hA : keeps_counts (fun x => (env.player_attack_random_monster x).2))
    (hno : ∀ x : World, (env.player_attack_random_monster x).1 = false) :
    ∃ wh : World, process_command_call env ctx k w = some (e.cmd, wh) ∧
      counts_frame (process_command_prepare ctx e k
        { w with player := { w.player with command_wrk := 0 } }) wh ∧
      process_command env ctx k w
        = process_command_count (w.slot k).nrepeats k (env.handler e.cmd k wh) := by
  unfold process_command process_command_call
  rw [he]
  simp only
  generalize process_command_prepare ctx e k
    { w with player := { w.player with command_wrk := 0 } } = x
  rw [if_pos hfn, if_pos hfn]
  rcases process_command_coerce_cases env e k x with ⟨pl, r, hc⟩ | ⟨r, hc⟩
  · rw [hc]
    simp only [Bool.false_eq_true, if_false]
    exact ⟨_, rfl, ⟨rfl, rfl, rfl, rfl, fun _ => ⟨rfl, rfl⟩⟩, rfl⟩
  · rw [hc, if_neg (by rw [hno]; simp), if_neg (by rw [hno]; simp)]
    exact ⟨_, rfl, counts_frame_trans x { x with rng := r } _
      ⟨rfl, rfl, rfl, rfl, fun _ => ⟨rfl, rfl⟩⟩ (hA _), rfl⟩

/-- One execution of a record with a positive count, in the slot before the
tail, by an entry with `repeat_allowed` and a handler: the handler finds the
count, and the count is one less afterwards; `repeating` is true afterwards
exactly when the count is not 0. -/
theorem process_command_counted (env : Env) (ctx : cmd_context) (k : Nat) (w : World)
    (e : command_info) (hk : k < w.cmd_queue.length) (hpv : prev_cmd_idx w.cmd_tail = k)
    (he : process_command_entry k w = some e) (hra : e.repeat_allowed = true)
    (hfn : e.fn = true) (hm : 0 < (w.slot k).nrepeats)
    (hH : ∀ (c : cmd_code) (j : Nat), keeps_counts (env.handler c j))
    (hA : keeps_counts (fun x => (env.player_attack_random_monster x).2))
    (hno : ∀ x : World, (env.player_attack_random_monster x).1 = false) :
    (∃ wh : World, process_command_call env ctx k w = some (e.cmd, wh) ∧
      (wh.slot k).nrepeats = (w.slot k).nrepeats) ∧
    (process_command env ctx k w).cmd_head = w.cmd_head ∧
    (process_command env ctx k w).cmd_tail = w.cmd_tail ∧
    (process_command env ctx k w).cmd_queue.length = w.cmd_queue.length ∧
    (∀ j : Nat, ((process_command env ctx k w).slot j).code = (w.slot j).code) ∧
    ((process_command env ctx k w).slot k).nrepeats = (w.slot k).nrepeats - 1 ∧
    ((process_command env ctx k w).repeating = true ↔ (w.slot k).nrepeats - 1 ≠ 0) := by
  obtain ⟨wh, hcall, ⟨y1, y2, _, y4, y5⟩, hr⟩ :=
    process_command_middle_call env ctx k w e he hfn hA hno
  obtain ⟨x1, x2, _, x4, x5⟩ := process_command_prepare_frame ctx e k
    { w with player := { w.player with command_wrk := 0 } }
  have hn : ¬ (e.auto_repeat_n > 0 ∧ (w.slot k).nrepeats = 0) := by
    intro h; omega
  obtain ⟨q1, _⟩ := (process_command_prepare_repeat_allowed ctx e k
    { w with player := { w.player with command_wrk := 0 } } hra hk hpv).2 hn
  have hwh : (wh.slot k).nrepeats = (w.slot k).nrepeats := (y5 k).2.trans q1
  obtain ⟨z1, z2, _, z4, z5⟩ := hH e.cmd k wh
  have hky : k < (env.handler e.cmd k wh).cmd_queue.length := by
    rw [z4, y4, x4]; exact hk
  have hpy : prev_cmd_idx (env.handler e.cmd k wh).cmd_tail = k := by
    rw [z2, y2, x2]; exact hpv
  have hyn : ((env.handler e.cmd k wh).slot k).nrepeats = (w.slot k).nrepeats :=
    (z5 k).2.trans hwh
  obtain ⟨c1, c2, c3, c4, c5, _⟩ :=
    process_command_count_counts (w.slot k).nrepeats k (env.handler e.cmd k wh) hky hpy
  obtain ⟨d1, d2⟩ := c5 ⟨by rw [hyn]; exact hm, hyn.symm⟩
  rw [hr]
  refine ⟨⟨wh, hcall, hwh⟩, ((c1.trans z1).trans y1).trans x1,
    ((c2.trans z2).trans y2).trans x2, ((c3.trans z4).trans y4).trans x4, fun j => ?_, d1, d2⟩
  rw [c4 j, (z5 j).1, (y5 j).1, (x5 j).1]
  rfl

theorem process_command_entry_of_code (k : Nat) (w w1 : World)
    (hc : (w1.slot k).code = (w.slot k).code)
    (hp : w1.player.timed_COMMAND = w.player.timed_COMMAND) :
    process_command_entry k w1 = process_command_entry k w := by
  unfold process_command_entry
  rw [hc, hp]

theorem cmdq_pop_fetch_tail_lt (w : World) (k : Nat) (wf : World)
    (ht : w.cmd_tail < CMD_QUEUE_SIZE) (h : cmdq_pop_fetch w = some (k, wf)) :
    wf.cmd_tail < CMD_QUEUE_SIZE := by
  obtain ⟨_, _, _, _, _, _, f7, f8⟩ := cmdq_pop_fetch_slot w k wf ht h
  cases hr : w.repeating with
  | true => rw [(f7 hr).1]; exact ht
  | false =>
    obtain ⟨w2, g1, _, _, _, g5, _⟩ := cmdq_pop_fetch_next w hr (f8 hr).2
    rw [h] at g1
    simp only [Option.some.injEq, Prod.mk.injEq] at g1
    rw [g1.2, g5]
    unfold CMD_QUEUE_SIZE at *
    by_cases c : w.cmd_tail + 1 = 20
    · rw [if_pos c]; omega
    · rw [if_neg c]; omega

theorem cmdq_pops_counts_step (env : Env) (ctx : cmd_context) (f : Nat) (w : World)
    (k : Nat) (c : cmd_code) (wh : World) (h : cmdq_pop_call env ctx w = some (k, c, wh)) :
    cmdq_pops_counts env ctx (f + 1) w
      = (wh.slot k).nrepeats :: cmdq_pops_counts env ctx f (cmdq_pop env ctx w).2 := by
  show (match cmdq_pop_call env ctx w with
    | some r => (r.2.2.slot r.1).nrepeats :: cmdq_pops_counts env ctx f (cmdq_pop env ctx w).2
    | none => cmdq_pops_counts env ctx f (cmdq_pop env ctx w).2) = _
  rw [h]

theorem range_map_countdown (m : Nat) :
    (List.range (m + 2)).map (fun (i : Nat) => (((m + 2 : Nat) : Int)) - (i : Int))
      = ((m + 2 : Nat) : Int) ::
        (List.range (m + 1)).map (fun (i : Nat) => (((m + 1 : Nat) : Int)) - (i : Int)) := by
  rw [List.range_succ_eq_map, List.map_cons, List.map_map]
  refine List.cons_eq_cons.mpr ⟨by simp, ?_⟩
  apply List.map_congr_left
  intro i _
  show ((m + 2 : Nat) : Int) - ((i + 1 : Nat) : Int) = ((m + 1 : Nat) : Int) - (i : Int)
  push_cast
  ring

/-- One call of `cmdq_pop` that fetches a record with a positive count and an
entry with `repeat_allowed` and a handler, when handlers push no command and
change no count and the forced attack does not take place. -/
theorem cmdq_pop_counted (env : Env) (ctx : cmd_context) (x : World) (t : Nat) (xf : World)
    (e : command_info) (hlen : x.cmd_queue.length = CMD_QUEUE_SIZE)
    (ht : x.cmd_tail < CMD_QUEUE_SIZE) (hf : cmdq_pop_fetch x = some (t, xf))
    (he : process_command_entry t x = some e) (hra : e.repeat_allowed = true)
    (hfn : e.fn = true) (hm : 0 < (x.slot t).nrepeats)
    (hH : ∀ (c : cmd_code) (j : Nat), keeps_counts (env.handler c j))
    (hHt : ∀ (c : cmd_code) (j : Nat), keeps_timer (env.handler c j))
    (hA : keeps_counts (fun y => (env.player_attack_random_monster y).2))
    (hAt : keeps_timer (fun y => (env.player_attack_random_monster y).2))
    (hno : ∀ y : World, (env.player_attack_random_monster y).1 = false) :
    (cmdq_pop env ctx x).1 = true ∧
    (∃ wh : World, cmdq_pop_call env ctx x = some (t, e.cmd, wh) ∧
      (wh.slot t).nrepeats = (x.slot t).nrepeats) ∧
    (cmdq_pop env ctx x).2.cmd_head = x.cmd_head ∧
    (cmdq_pop env ctx x).2.cmd_tail = xf.cmd_tail ∧
    xf.cmd_tail < CMD_QUEUE_SIZE ∧ prev_cmd_idx xf.cmd_tail = t ∧
    (cmdq_pop env ctx x).2.cmd_queue.length = CMD_QUEUE_SIZE ∧
    ((cmdq_pop env ctx x).2.slot t).code = (x.slot t).code ∧
    ((cmdq_pop env ctx x).2.slot t).nrepeats = (x.slot t).nrepeats - 1 ∧
    ((cmdq_pop env ctx x).2.repeating = true ↔ (x.slot t).nrepeats - 1 ≠ 0) ∧
    (cmdq_pop env ctx x).2.player.timed_COMMAND = x.player.timed_COMMAND := by
  obtain ⟨fq, fp, _, fh, ft, fpv, _, _⟩ := cmdq_pop_fetch_slot x t xf ht hf
  have hp : cmdq_pop env ctx x = (true, process_command env ctx t xf) := by
    unfold cmdq_pop; rw [hf]
  have hs : ∀ j : Nat, xf.slot j = x.slot j := fun j => World.slot_congr x xf j fq
  have hk : t < xf.cmd_queue.length := by rw [fq, hlen]; exact ft
  have he2 : process_command_entry t xf = some e := by
    rw [process_command_entry_congr t x xf fq fp]; exact he
  obtain ⟨⟨wh, hcall, hwh⟩, p1, p2, p3, p4, p5, p6⟩ :=
    process_command_counted env ctx t xf e hk fpv he2 hra hfn (by rw [hs]; exact hm) hH hA hno
  rw [hs] at hwh p5 p6
  rw [hp]
  refine ⟨rfl, ⟨wh, ?_, hwh⟩, p1.trans fh, p2, cmdq_pop_fetch_tail_lt x t xf ht hf, fpv,
    by show (process_command env ctx t xf).cmd_queue.length = _; rw [p3, fq, hlen],
    by show ((process_command env ctx t xf).slot t).code = _; rw [p4 t, hs], p5, p6, ?_⟩
  · unfold cmdq_pop_call
    rw [hf]
    simp only
    rw [hcall]
    rfl
  · show (process_command env ctx t xf).player.timed_COMMAND = _
    rw [process_command_timer env ctx t xf hHt hAt, fp]

/-- The pops of a record with count `m + 1`, from the pop that fetches it on:
`m + 1` pops fetch it, the handler finds the counts `m + 1`, ..., 1, and the
count is 0 and `repeating` false afterwards. -/
theorem cmdq_pops_counted (env : Env) (ctx : cmd_context) (t : Nat) (e : command_info)
    (hra : e.repeat_allowed = true) (hfn : e.fn = true)
    (hH : ∀ (c : cmd_code) (j : Nat), keeps_counts (env.handler c j))
    (hHt : ∀ (c : cmd_code) (j : Nat), keeps_timer (env.handler c j))
    (hA : keeps_counts (fun y => (env.player_attack_random_monster y).2))
    (hAt : keeps_timer (fun y => (env.player_attack_random_monster y).2))
    (hno : ∀ y : World, (env.player_attack_random_monster y).1 = false) :
    ∀ (m : Nat) (x xf : World), x.cmd_queue.length = CMD_QUEUE_SIZE →
      x.cmd_tail < CMD_QUEUE_SIZE → cmdq_pop_fetch x = some (t, xf) →
      process_command_entry t x = some e → (x.slot t).nrepeats = ((m + 1 : Nat) : Int) →
      cmdq_pops_fetched env ctx (m + 1) x = List.replicate (m + 1) t ∧
      cmdq_pops_counts env ctx (m + 1) x
        = (List.range (m + 1)).map (fun (i : Nat) => (((m + 1 : Nat) : Int)) - (i : Int)) ∧
      (∀ i : Nat, i < m + 1 → (cmdq_pop env ctx (cmdq_pops env ctx i x)).1 = true) ∧
      ((cmdq_pops env ctx (m + 1) x).slot t).nrepeats = 0 ∧
      (cmdq_pops env ctx (m + 1) x).repeating = false ∧
      (cmdq_pops env ctx (m + 1) x).cmd_head = x.cmd_head ∧
      (cmdq_pops env ctx (m + 1) x).cmd_tail = xf.cmd_tail ∧
      (cmdq_pops env ctx (m + 1) x).cmd_queue.length = CMD_QUEUE_SIZE := by
  intro m
  induction m with
  | zero =>
    intro x xf hlen ht hf he hn
    have hn1 : (x.slot t).nrepeats = 1 := hn
    obtain ⟨p1, ⟨wh, hcall, hwh⟩, p3, p4, _, _, p7, _, p9, p10, _⟩ :=
      cmdq_pop_counted env ctx x t xf e hlen ht hf he hra hfn (by rw [hn1]; decide)
        hH hHt hA hAt hno
    rw [hn1] at p9 p10 hwh
    refine ⟨?_, ?_, ?_, p9, ?_, p3, p4, p7⟩
    · rw [cmdq_pops_fetched_step env ctx 0 x t xf hf]
      rfl
    · rw [cmdq_pops_counts_step env ctx 0 x t e.cmd wh hcall, hwh]
      rfl
    · intro i hi
      have : i = 0 := by omega
      rw [this]
      exact p1
    · show (cmdq_pop env ctx x).2.repeating = false
      cases hb : (cmdq_pop env ctx x).2.repeating with
      | false => rfl
      | true => exact absurd (p10.mp hb) (by decide)
  | succ m ih =>
    intro x xf hlen ht hf he hn
    obtain ⟨p1, ⟨wh, hcall, hwh⟩, p3, p4, p5, p6, p7, p8, p9, p10, p11⟩ :=
      cmdq_pop_counted env ctx x t xf e hlen ht hf he hra hfn (by rw [hn]; omega)
        hH hHt hA hAt hno
    have hn2 : ((cmdq_pop env ctx x).2.slot t).nrepeats = ((m + 1 : Nat) : Int) := by
      rw [p9, hn]; push_cast; ring
    have hrep : (cmdq_pop env ctx x).2.repeating = true := by
      apply p10.mpr
      rw [hn]; push_cast; omega
    have ht2 : (cmdq_pop env ctx x).2.cmd_tail < CMD_QUEUE_SIZE := by rw [p4]; exact p5
    obtain ⟨xf2, g1, _⟩ := cmdq_pop_fetch_repeating (cmdq_pop env ctx x).2 hrep
    have hpv : prev_cmd_idx (cmdq_pop env ctx x).2.cmd_tail = t := by rw [p4]; exact p6
    rw [hpv] at g1
    obtain ⟨_, _, _, _, _, _, f7, _⟩ :=
      cmdq_pop_fetch_slot (cmdq_pop env ctx x).2 t xf2 ht2 g1
    have he2 : process_command_entry t (cmdq_pop env ctx x).2 = some e := by
      rw [process_command_entry_of_code t x _ p8 p11]; exact he
    obtain ⟨r1, r2, r3, r4, r5, r6, r7, r8⟩ :=
      ih (cmdq_pop env ctx x).2 xf2 p7 ht2 g1 he2 hn2
    refine ⟨?_, ?_, ?_, r4, r5, r6.trans p3, (r7.trans (f7 hrep).1).trans p4, r8⟩
    · rw [cmdq_pops_fetched_step env ctx (m + 1) x t xf hf, r1]
      rfl
    · rw [cmdq_pops_counts_step env ctx (m + 1) x t e.cmd wh hcall, hwh, hn, r2]
      exact (range_map_countdown m).symm
    · intro i hi
      cases i with
      | zero => exact p1
      | succ i1 => exact r3 i1 (by omega)

/-- C37, as the code has it: in a queue of 20 slots that is not repeating, the
record at the tail has repeat count `n > 0`, and the entry that
`process_command` uses for it has `repeat_allowed` and a handler.  When the
forced attack of bloodlust does not take place, `n` calls of `cmdq_pop` in a
row each return true and hand that same record to the handler, which finds the
counts `n`, `n - 1`, ..., 1; afterwards the count is 0, `repeating` is false
and the tail is one slot further, so that the next `cmdq_pop` returns false
when the queue holds nothing else and fetches the record in the next slot when
it does.  Handlers push no command, change no count and leave the timer
`TMD_COMMAND` alone, and so does the function that makes the forced attack. -/
theorem explicit_repeat_count (env : Env) (ctx : cmd_context) (w : World)
    (e : command_info) (n : Nat)
    (hlen : w.cmd_queue.length = CMD_QUEUE_SIZE) (ht : w.cmd_tail < CMD_QUEUE_SIZE)
    (hne : w.cmd_head ≠ w.cmd_tail) (hrep : w.repeating = false)
    (he : process_command_entry w.cmd_tail w = some e) (hra : e.repeat_allowed = true)
    (hfn : e.fn = true) (hn : (w.slot w.cmd_tail).nrepeats = (n : Int)) (hpos : 0 < n)
    (hH : ∀ (c : cmd_code) (j : Nat), keeps_counts (env.handler c j))
    (hHt : ∀ (c : cmd_code) (j : Nat), keeps_timer (env.handler c j))
    (hA : keeps_counts (fun y => (env.player_attack_random_monster y).2))
    (hAt : keeps_timer (fun y => (env.player_attack_random_monster y).2))
    (hno : ∀ y : World, (env.player_attack_random_monster y).1 = false) :
    cmdq_pops_fetched env ctx n w = List.replicate n w.cmd_tail ∧
    cmdq_pops_counts env ctx n w = (List.range n).map (fun (i : Nat) => (n : Int) - (i : Int)) ∧
    (∀ i : Nat, i < n → (cmdq_pop env ctx (cmdq_pops env ctx i w)).1 = true) ∧
    ((cmdq_pops env ctx n w).slot w.cmd_tail).nrepeats = 0 ∧
    (cmdq_pops env ctx n w).repeating = false ∧
    (cmdq_pops env ctx n w).cmd_head = w.cmd_head ∧
    (cmdq_pops env ctx n w).cmd_tail
      = (if w.cmd_tail + 1 = CMD_QUEUE_SIZE then 0 else w.cmd_tail + 1) ∧
    ((if w.cmd_tail + 1 = CMD_QUEUE_SIZE then 0 else w.cmd_tail + 1) = w.cmd_head →
      cmdq_pop env ctx (cmdq_pops env ctx n w) = (false, cmdq_pops env ctx n w)) ∧
    ((if w.cmd_tail + 1 = CMD_QUEUE_SIZE then 0 else w.cmd_tail + 1) ≠ w.cmd_head →
      ∃ wf : World, cmdq_pop_fetch (cmdq_pops env ctx n w)
        = some ((if w.cmd_tail + 1 = CMD_QUEUE_SIZE then 0 else w.cmd_tail + 1), wf)) := by
  obtain ⟨m, hm⟩ : ∃ m : Nat, n = m + 1 := ⟨n - 1, by omega⟩
  subst hm
  obtain ⟨wf, f1, _, _, _, f5, _⟩ := cmdq_pop_fetch_next w hrep hne
  obtain ⟨r1, r2, r3, r4, r5, r6, r7, _⟩ :=
    cmdq_pops_counted env ctx w.cmd_tail e hra hfn hH hHt hA hAt hno m w wf hlen ht f1 he hn
  have t1 := r7.trans f5
  refine ⟨r1, r2, r3, r4, r5, r6, t1, ?_, ?_⟩
  · intro h
    have hn2 := cmdq_pop_fetch_none (cmdq_pops env ctx (m + 1) w) r5 (by rw [r6, t1, h])
    unfold cmdq_pop
    rw [hn2]
  · intro h
    obtain ⟨wf2, g1, _⟩ := cmdq_pop_fetch_next (cmdq_pops env ctx (m + 1) w) r5
      (by rw [r6, t1]; exact fun c => h c.symm)
    rw [t1] at g1
    exact ⟨wf2, g1⟩

set_option maxRecDepth 100000 in
/-- Witness of C37: `cmdq_push_repeat(CMD_WALK, 3)` on the queue as first
initialised, with the inscription queued behind it.  Three pops hand slot 0 to
the handler, which finds the counts 3, 2 and 1; the fourth pop fetches
slot 1. -/
theorem explicit_repeat_count_witness :
    (ex_walk3_then_note.slot 0).nrepeats = 3 ∧
    cmdq_pops_fetched ex_env .CTX_INIT 3 ex_walk3_then_note = [0, 0, 0] ∧
    cmdq_pops_counts ex_env .CTX_INIT 3 ex_walk3_then_note = [3, 2, 1] ∧
    ((cmdq_pops ex_env .CTX_INIT 3 ex_walk3_then_note).slot 0).nrepeats = 0 ∧
    (cmdq_pops ex_env .CTX_INIT 3 ex_walk3_then_note).repeating = false ∧
    (∃ wf : World, cmdq_pop_fetch (cmdq_pops ex_env .CTX_INIT 3 ex_walk3_then_note)
      = some (1, wf)) := by
  obtain ⟨a, b, _, d, e, _, _, _, i⟩ := explicit_repeat_count ex_env .CTX_INIT
    ex_walk3_then_note (command_info.mk cmd_code.CMD_WALK "walk" true true true 0) 3
    (by decide) (by decide) (by decide) (by decide) (by decide) (by decide) (by decide)
    (by decide) (by decide)
    (fun _ _ x => counts_frame_refl x) (fun _ _ _ => rfl)
    (fun x => counts_frame_refl x) (fun _ => rfl) (fun _ => rfl)
  exact ⟨by decide, a, b, d, e, i (by decide)⟩

/-! ### Names that were never set -/

/-- A call of `cmd_set_arg` keeps a name absent from the record when what the
name field keeps of the name set is another name. -/
theorem cmd_set_arg_absent (nsz : Nat) (h : Heap) (cmd : command) (name : String)
    (t : cmd_arg_type) (d : cmd_arg_data) (r : Heap × command) (n : String)
    (hset : cmd_set_arg nsz h cmd (some name) t d = some r)
    (hne : my_strcpy name nsz ≠ n)
    (habs : ∀ i : Nat, (cmd.arg.getD i cmd_arg.zero).name ≠ n) :
    ∀ i : Nat, (r.2.arg.getD i cmd_arg.zero).name ≠ n := by
  obtain ⟨_, _, _, _, _, j, _, _, hnew, hother, _, _⟩ :=
    cmd_set_arg_slot nsz h cmd name t d r.1 r.2 hset
  intro i
  by_cases hi : i = j
  · rw [hi, hnew]; exact hne
  · rw [hother i hi]; exact habs i

/-- One step in the life of a record keeps a non-empty name absent when the
step does not set a name of which the name field keeps that name. -/
theorem cmd_op_run_absent (nsz : Nat) (h : Heap) (cmd : command) (op : cmd_op)
    (r : Heap × command) (n : String) (hn : n ≠ "")
    (hop : ∀ m : String, op.name = some m → my_strcpy m nsz ≠ n)
    (hrun : op.run nsz h cmd = some r)
    (habs : ∀ i : Nat, (cmd.arg.getD i cmd_arg.zero).name ≠ n) :
    ∀ i : Nat, (r.2.arg.getD i cmd_arg.zero).name ≠ n := by
  cases op with
  | set_choice a v => exact cmd_set_arg_absent nsz _ cmd a _ _ r n hrun (hop a rfl) habs
  | set_string a s => exact cmd_set_arg_absent nsz _ cmd a _ _ r n hrun (hop a rfl) habs
  | set_direction a v => exact cmd_set_arg_absent nsz _ cmd a _ _ r n hrun (hop a rfl) habs
  | set_target a v => exact cmd_set_arg_absent nsz _ cmd a _ _ r n hrun (hop a rfl) habs
  | set_point a g => exact cmd_set_arg_absent nsz _ cmd a _ _ r n hrun (hop a rfl) habs
  | set_item a o => exact cmd_set_arg_absent nsz _ cmd a _ _ r n hrun (hop a rfl) habs
  | set_number a v => exact cmd_set_arg_absent nsz _ cmd a _ _ r n hrun (hop a rfl) habs
  | release =>
    have hr : some (cmd_release h cmd) = some r := hrun
    simp only [Option.some.injEq] at hr
    rw [← hr]
    intro i
    show ((cmd_release_args h cmd.arg).2.getD i cmd_arg.zero).name ≠ n
    obtain ⟨g1, g2⟩ := cmd_release_args_getD cmd.arg h i
    by_cases hs : (cmd.arg.getD i cmd_arg.zero).type = .arg_STRING
    · rw [(g1 hs).2]; exact fun e => hn e.symm
    · rw [g2 hs]; exact habs i
  | copy =>
    have hr : some (cmd_copy h cmd) = some r := hrun
    simp only [Option.some.injEq] at hr
    rw [← hr]
    intro i
    show ((cmd_copy_args h cmd.arg).2.getD i cmd_arg.zero).name ≠ n
    rw [cmd_copy_args_getD_name]
    exact habs i

theorem cmd_ops_run_absent (nsz : Nat) (n : String) (hn : n ≠ "") :
    ∀ (ops : List cmd_op) (h : Heap) (cmd : command) (r : Heap × command),
      (∀ op ∈ ops, ∀ m : String, op.name = some m → my_strcpy m nsz ≠ n) →
      cmd_ops_run nsz h cmd ops = some r →
      (∀ i : Nat, (cmd.arg.getD i cmd_arg.zero).name ≠ n) →
      ∀ i : Nat, (r.2.arg.getD i cmd_arg.zero).name ≠ n := by
  intro ops
  induction ops with
  | nil =>
    intro h cmd r _ hrun habs
    have hr : some (h, cmd) = some r := hrun
    simp only [Option.some.injEq] at hr
    rw [← hr]; exact habs
  | cons op rest ih =>
    intro h cmd r hops hrun habs
    have hr : (match op.run nsz h cmd with
      | none => none
      | some r1 => cmd_ops_run nsz r1.1 r1.2 rest) = some r := hrun
    cases hop : op.run nsz h cmd with
    | none => rw [hop] at hr; exact absurd hr (by simp)
    | some r1 =>
      rw [hop] at hr
      exact ih r1.1 r1.2 r (fun o ho => hops o (List.mem_cons_of_mem _ ho)) hr
        (cmd_op_run_absent nsz h cmd op r1 n hn (hops op (List.mem_cons_self _ _)) hop habs)

/-- In a record of which no slot bears a name, every getter returns
`CMD_ARG_NOT_PRESENT` for that name and writes nothing. -/
theorem cmd_get_arg_absent (c : command) (n : String) (hall : ∀ a ∈ c.arg, a.name ≠ n) :
    (∀ t : cmd_arg_type, cmd_get_arg c n t = (CMD_ARG_NOT_PRESENT, none)) ∧
    (∀ out : Int, cmd_get_arg_choice c n out = (CMD_ARG_NOT_PRESENT, out)) ∧
    (∀ out : Ptr, cmd_get_arg_string c n out = (CMD_ARG_NOT_PRESENT, out)) ∧
    (∀ out : Int, cmd_get_arg_direction c n out = (CMD_ARG_NOT_PRESENT, out)) ∧
    (∀ out : Int, cmd_get_arg_target c n out = (CMD_ARG_NOT_PRESENT, out)) ∧
    (∀ out : loc, cmd_get_arg_point c n out = (CMD_ARG_NOT_PRESENT, out)) ∧
    (∀ out : Ptr, cmd_get_arg_item c n out = (CMD_ARG_NOT_PRESENT, out)) ∧
    (∀ out : Int, cmd_get_arg_number c n out = (CMD_ARG_NOT_PRESENT, out)) := by
  have hnp : ∀ t : cmd_arg_type, cmd_get_arg c n t = (CMD_ARG_NOT_PRESENT, none) :=
    fun t => cmd_get_arg_loop_absent n t c.arg hall
  refine ⟨hnp, ?_, ?_, ?_, ?_, ?_, ?_, ?_⟩
  · intro out; unfold cmd_get_arg_choice; rw [hnp]
  · intro out; unfold cmd_get_arg_string; rw [hnp]
  · intro out; unfold cmd_get_arg_direction; rw [hnp]
  · intro out; unfold cmd_get_arg_target; rw [hnp]
  · intro out; unfold cmd_get_arg_point; rw [hnp]
  · intro out; unfold cmd_get_arg_item; rw [hnp]
  · intro out; unfold cmd_get_arg_number; rw [hnp]

/-- C10, as the code has it: for a record that bears the name or has an unused
slot, a non-empty name that fits the name field, and each kind (choice, string,
direction, target, point, item, number), the typed setter succeeds and the
matching typed getter then returns `CMD_OK` with the value set (for a string,
an address whose text is the text set, the addresses already in the record
having been handed out by `string_make`).  And in a record made from one whose
slots are all unused by any sequence of typed setters, `cmd_release` and
`cmd_copy`, every getter returns `CMD_ARG_NOT_PRESENT` and writes nothing for
a name that is not empty and is not what the name field keeps (`my_strcpy`) of
any name set; for names that fit the name field that is a name never set. -/
theorem cmd_set_get_round_trip (nsz : Nat) (h : Heap) (cmd : command) (name : String)
    (hname : name ≠ "") (hfit : name.length < nsz)
    (hroom : (∃ a ∈ cmd.arg, a.name = name) ∨ (∃ a ∈ cmd.arg, a.name = "")) :
    (∀ v out : Int, ∃ r : Heap × command,
      cmd_set_arg_choice nsz h cmd (some name) v = some r ∧
      cmd_get_arg_choice r.2 name out = (CMD_OK, v)) ∧
    (∀ (str : Option String) (out : Ptr), (∀ p ∈ cmd.strings, p ≤ h.length) →
      ∃ r : Heap × command,
      cmd_set_arg_string nsz h cmd (some name) str = some r ∧
      (cmd_get_arg_string r.2 name out).1 = CMD_OK ∧
      r.1.read (cmd_get_arg_string r.2 name out).2 = str) ∧
    (∀ v out : Int, ∃ r : Heap × command,
      cmd_set_arg_direction nsz h cmd (some name) v = some r ∧
      cmd_get_arg_direction r.2 name out = (CMD_OK, v)) ∧
    (∀ v out : Int, ∃ r : Heap × command,
      cmd_set_arg_target nsz h cmd (some name) v = some r ∧
      cmd_get_arg_target r.2 name out = (CMD_OK, v)) ∧
    (∀ v out : loc, ∃ r : Heap × command,
      cmd_set_arg_point nsz h cmd (some name) v = some r ∧
      cmd_get_arg_point r.2 name out = (CMD_OK, v)) ∧
    (∀ v out : Ptr, ∃ r : Heap × command,
      cmd_set_arg_item nsz h cmd (some name) v = some r ∧
      cmd_get_arg_item r.2 name out = (CMD_OK, v)) ∧
    (∀ v out : Int, ∃ r : Heap × command,
      cmd_set_arg_number nsz h cmd (some name) v = some r ∧
      cmd_get_arg_number r.2 name out = (CMD_OK, v)) ∧
    (∀ (ops : List cmd_op) (h0 : Heap) (c0 : command) (r : Heap × command) (n : String),
      (∀ a ∈ c0.arg, a.name = "") → cmd_ops_run nsz h0 c0 ops = some r → n ≠ "" →
      (∀ op ∈ ops, ∀ m : String, op.name = some m → my_strcpy m nsz ≠ n) →
      (∀ a ∈ r.2.arg, a.name ≠ n) ∧
      (∀ t : cmd_arg_type, cmd_get_arg r.2 n t = (CMD_ARG_NOT_PRESENT, none)) ∧
      (∀ out : Int, cmd_get_arg_choice r.2 n out = (CMD_ARG_NOT_PRESENT, out)) ∧
      (∀ out : Ptr, cmd_get_arg_string r.2 n out = (CMD_ARG_NOT_PRESENT, out)) ∧
      (∀ out : Int, cmd_get_arg_direction r.2 n out = (CMD_ARG_NOT_PRESENT, out)) ∧
      (∀ out : Int, cmd_get_arg_target r.2 n out = (CMD_ARG_NOT_PRESENT, out)) ∧
      (∀ out : loc, cmd_get_arg_point r.2 n out = (CMD_ARG_NOT_PRESENT, out)) ∧
      (∀ out : Ptr, cmd_get_arg_item r.2 n out = (CMD_ARG_NOT_PRESENT, out)) ∧
      (∀ out : Int, cmd_get_arg_number r.2 n out = (CMD_ARG_NOT_PRESENT, out))) := by
  have key : ∀ (hp : Heap) (t : cmd_arg_type) (d : cmd_arg_data), ∃ r : Heap × command,
      cmd_set_arg nsz hp cmd (some name) t d = some r ∧
      cmd_get_arg r.2 name t = (CMD_OK, some d) := by
    intro hp t d
    obtain ⟨r, hr⟩ := cmd_set_arg_some nsz hp cmd name t d hname hroom
    refine ⟨r, hr, ?_⟩
    rw [cmd_get_arg_after_set nsz hp cmd name t t d r.1 r.2 hfit hr]
    simp
  refine ⟨?_, ?_, ?_, ?_, ?_, ?_, ?_, ?_⟩
  · intro v out
    obtain ⟨r, hr, hg⟩ := key h .arg_CHOICE (.choice v)
    exact ⟨r, hr, by unfold cmd_get_arg_choice; rw [hg]; rfl⟩
  · intro str out halloc
    obtain ⟨r, hr, hg⟩ := key (string_make h str).2 .arg_STRING (.string (string_make h str).1)
    have hgs : cmd_get_arg_string r.2 name out = (CMD_OK, (string_make h str).1) := by
      unfold cmd_get_arg_string; rw [hg]; rfl
    refine ⟨r, hr, by rw [hgs], ?_⟩
    rw [hgs]
    obtain ⟨_, j, hj, _, _, hheap⟩ := cmd_set_arg_eq nsz _ cmd name _ _ r.1 r.2 hr
    rcases hheap with hh | ⟨hty, hh⟩
    · rw [hh]; exact string_make_read_new h str
    · rw [hh]
      have hq := halloc _ (strings_of_mem cmd.arg j hj hty)
      cases str with
      | none => exact Heap.read_zero _
      | some s =>
        have hne : (string_make h (some s)).1
            ≠ (cmd.arg.getD j cmd_arg.zero).data.get_string := by
          intro e
          rw [← e] at hq
          exact Nat.not_succ_le_self _ hq
        rw [string_free_read_ne _ _ _ hne]
        exact string_make_read_new h (some s)
  · intro v out
    obtain ⟨r, hr, hg⟩ := key h .arg_DIRECTION (.direction v)
    exact ⟨r, hr, by unfold cmd_get_arg_direction; rw [hg]; rfl⟩
  · intro v out
    obtain ⟨r, hr, hg⟩ := key h .arg_TARGET (.direction v)
    exact ⟨r, hr, by unfold cmd_get_arg_target; rw [hg]; rfl⟩
  · intro v out
    obtain ⟨r, hr, hg⟩ := key h .arg_POINT (.point v)
    exact ⟨r, hr, by unfold cmd_get_arg_point; rw [hg]; rfl⟩
  · intro v out
    obtain ⟨r, hr, hg⟩ := key h .arg_ITEM (.obj v)
    exact ⟨r, hr, by unfold cmd_get_arg_item; rw [hg]; rfl⟩
  · intro v out
    obtain ⟨r, hr, hg⟩ := key h .arg_NUMBER (.number v)
    exact ⟨r, hr, by unfold cmd_get_arg_number; rw [hg]; rfl⟩
  · intro ops h0 c0 r n hun hrun hn hops
    have h0abs : ∀ i : Nat, (c0.arg.getD i cmd_arg.zero).name ≠ n := by
      intro i
      by_cases hi : i < c0.arg.length
      · rw [List.getD_eq_getElem _ _ hi, hun _ (List.getElem_mem _)]
        exact fun e => hn e.symm
      · rw [List.getD_eq_default _ _ (Nat.le_of_not_lt hi)]
        exact fun e => hn e.symm
    have habs := cmd_ops_run_absent nsz n hn ops h0 c0 r hops hrun h0abs
    have hall : ∀ a ∈ r.2.arg, a.name ≠ n := by
      intro a ha
      obtain ⟨i, hi, e⟩ := List.getElem_of_mem ha
      have := habs i
      rw [List.getD_eq_getElem _ _ hi, e] at this
      exact this
    exact ⟨hall, cmd_get_arg_absent r.2 n hall⟩

set_option maxRecDepth 100000 in
/-- Witness of C10: the name `"note"` in the walk command, one slot of which is
in use, with the string "hello" at address 1 of the heap; and the name `"c"`
in a record in which a string was set under `"a"` and a number under `"b"`,
which was then released, given `"b"` again and copied. -/
theorem cmd_set_get_round_trip_witness :
    (∃ r : Heap × command,
      cmd_set_arg_string 20 [some "hello"] ex_walk (some "note") (some "again") = some r ∧
      (cmd_get_arg_string r.2 "note" 0).1 = CMD_OK ∧
      r.1.read (cmd_get_arg_string r.2 "note" 0).2 = some "again") ∧
    cmd_get_arg_number ((cmd_ops_run 20 [] command.zero ex_ops_release).getD
      ([], command.zero)).2 "c" 7 = (CMD_ARG_NOT_PRESENT, 7) ∧
    cmd_get_arg_number ((cmd_ops_run 20 [] command.zero ex_ops_release).getD
      ([], command.zero)).2 "b" 7 = (CMD_OK, 2) :=
  ⟨(cmd_set_get_round_trip 20 [some "hello"] ex_walk "note" (by decide) (by decide)
      (by decide)).2.1 (some "again") 0 (by decide),
    ((cmd_set_get_round_trip 20 [some "hello"] ex_walk "note" (by decide) (by decide)
      (by decide)).2.2.2.2.2.2.2 ex_ops_release [] command.zero
      ((cmd_ops_run 20 [] command.zero ex_ops_release).getD ([], command.zero)) "c"
      (by decide) (by decide) (by decide) (by decide)).2.2.2.2.2.2.2.2 7,
    by decide⟩

/-- Counterexample to C10: in a name field of 20 bytes, a number is set under a
name of 22 characters in a record whose slots are all unused.  The first 19
characters of that name are a name that was never set, yet `cmd_get_arg_number`
returns `CMD_OK` with the number for it.  And for the empty name, which no
setter accepts, the getter returns `CMD_ARG_WRONG_TYPE` in a record whose slots
are all unused. -/
theorem cmd_get_arg_never_set :
    (cmd_ops_run 20 [] command.zero [.set_number "direction_of_next_step" 5]).map
        (fun r => cmd_get_arg_number r.2 "direction_of_next_s" 0) = some (CMD_OK, 5) ∧
    "direction_of_next_s" ≠ "direction_of_next_step" ∧
    cmd_get_arg_number command.zero "" 7 = (CMD_ARG_WRONG_TYPE, 7) := by
  decide

set_option maxRecDepth 100000 in
/-- Counterexample to C37: the walk command is queued with a repeat count of 3
for a player under bloodlust, and the forced attack takes place.  The first
`cmdq_pop` returns true and takes the record from the queue, but
`process_command` returns after the attack: no handler is called and the count
stays 3.  `repeating` stays false, so the second `cmdq_pop` finds the queue
empty and returns false: the command is not handed to its handler at all. -/
theorem explicit_repeat_forced_attack :
    (ex_walk3_bloodlust.slot 0).code = cmd_code.CMD_WALK ∧
    (ex_walk3_bloodlust.slot 0).nrepeats = 3 ∧
    ex_walk3_bloodlust.repeating = false ∧
    (cmdq_pop ex_env_attack .CTX_INIT ex_walk3_bloodlust).1 = true ∧
    cmdq_pop_call ex_env_attack .CTX_INIT ex_walk3_bloodlust = none ∧
    ((cmdq_pop ex_env_attack .CTX_INIT ex_walk3_bloodlust).2.slot 0).nrepeats = 3 ∧
    (cmdq_pop ex_env_attack .CTX_INIT ex_walk3_bloodlust).2.repeating = false ∧
    (cmdq_pop ex_env_attack .CTX_INIT
      (cmdq_pop ex_env_attack .CTX_INIT ex_walk3_bloodlust).2).1 = false ∧
    cmdq_pops_fetched ex_env_attack .CTX_INIT 3 ex_walk3_bloodlust = [0] ∧
    cmdq_pops_counts ex_env_attack .CTX_INIT 3 ex_walk3_bloodlust = [] := by
  decide

end CmdCore
